import Mathlib

/-!
# ircd-blight: registries of users, channels and server links

A shallow embedding of the state registries of the IRC daemon
(`src/ircd/server.go`, `src/ircd/user.go`, `src/ircd/channel.go`) and
theorems about them.

Go maps with string keys are association lists without repeated keys; the
order of the entries stands for one possible iteration order of the map.
Strings are sequences of characters; the identifiers of the protocol are
ASCII, so characters and bytes coincide on them.
-/

namespace Ircd

/-! ## Go maps -/

/-- First value stored under `k` in a list of entries. -/
def rawGet {V : Type} (k : String) : List (String × V) → Option V
  | [] => none
  | (k', v) :: t => if k' = k then some v else rawGet k t

/-- Store `v` under `k`: in place when the key is present, at the end otherwise. -/
def rawSet {V : Type} (k : String) (v : V) : List (String × V) → List (String × V)
  | [] => [(k, v)]
  | (k', v') :: t => if k' = k then (k, v) :: t else (k', v') :: rawSet k v t

/-- Remove every entry stored under `k`. -/
def rawDel {V : Type} (k : String) : List (String × V) → List (String × V)
  | [] => []
  | (k', v') :: t => if k' = k then rawDel k t else (k', v') :: rawDel k t

theorem rawGet_eq_none {V : Type} (k : String) (l : List (String × V)) :
    rawGet k l = none ↔ k ∉ l.map Prod.fst := by
  induction l with
  | nil => simp [rawGet]
  | cons hd t ih =>
    obtain ⟨k', v⟩ := hd
    by_cases h : k' = k
    · simp [rawGet, h]
    · simp [rawGet, h, ih, Ne.symm h]

theorem rawGet_rawSet {V : Type} (k : String) (v : V) (k' : String) (l : List (String × V)) :
    rawGet k' (rawSet k v l) = if k' = k then some v else rawGet k' l := by
  induction l with
  | nil =>
    by_cases h : k = k'
    · simp [rawSet, rawGet, h]
    · simp [rawSet, rawGet, h, Ne.symm h]
  | cons hd t ih =>
    obtain ⟨a, b⟩ := hd
    by_cases h : a = k
    · subst h
      by_cases h' : a = k'
      · simp [rawSet, rawGet, h']
      · simp [rawSet, rawGet, h', Ne.symm h']
    · by_cases h' : a = k'
      · subst h'
        simp [rawSet, rawGet, h]
      · simp [rawSet, rawGet, h, h', ih]

theorem rawGet_rawDel {V : Type} (k k' : String) (l : List (String × V)) :
    rawGet k' (rawDel k l) = if k' = k then none else rawGet k' l := by
  induction l with
  | nil => simp [rawDel, rawGet]
  | cons hd t ih =>
    obtain ⟨a, b⟩ := hd
    by_cases h : a = k
    · subst h
      by_cases h' : a = k'
      · subst h'
        simp [rawDel, rawGet, ih]
      · simp [rawDel, rawGet, h', ih]
    · by_cases h' : a = k'
      · subst h'
        simp [rawDel, rawGet, h]
      · simp [rawDel, rawGet, h, h', ih]

theorem map_fst_rawSet {V : Type} (k : String) (v : V) (l : List (String × V)) :
    (rawSet k v l).map Prod.fst =
      if k ∈ l.map Prod.fst then l.map Prod.fst else l.map Prod.fst ++ [k] := by
  induction l with
  | nil => simp [rawSet]
  | cons hd t ih =>
    obtain ⟨a, b⟩ := hd
    by_cases h : a = k
    · subst h
      simp [rawSet]
    · have h' : ¬ k = a := Ne.symm h
      by_cases hm : k ∈ t.map Prod.fst
      · simp only [rawSet, h, if_false, List.map_cons, ih, hm, if_true, List.mem_cons, or_true]
      · simp only [rawSet, h, if_false, List.map_cons, ih, hm, List.mem_cons, h', or_self,
          List.cons_append]

theorem map_fst_rawDel {V : Type} (k : String) (l : List (String × V)) :
    (rawDel k l).map Prod.fst = (l.map Prod.fst).filter (fun a => decide (a ≠ k)) := by
  induction l with
  | nil => simp [rawDel]
  | cons hd t ih =>
    obtain ⟨a, b⟩ := hd
    by_cases h : a = k
    · simp [rawDel, h, ih]
    · simp [rawDel, h, ih]

theorem rawSet_nodup {V : Type} (k : String) (v : V) (l : List (String × V))
    (h : (l.map Prod.fst).Nodup) : ((rawSet k v l).map Prod.fst).Nodup := by
  rw [map_fst_rawSet]
  by_cases hm : k ∈ l.map Prod.fst
  · simpa [hm] using h
  · simp only [hm, if_false]
    exact List.Nodup.append h (List.nodup_singleton k) (by simpa using hm)

theorem rawDel_nodup {V : Type} (k : String) (l : List (String × V))
    (h : (l.map Prod.fst).Nodup) : ((rawDel k l).map Prod.fst).Nodup := by
  rw [map_fst_rawDel]
  exact h.filter _

/-- A Go `map[string]V`: entries with pairwise distinct keys. -/
structure GoMap (V : Type) where
  entries : List (String × V)
  nodup : (entries.map Prod.fst).Nodup

namespace GoMap

variable {V : Type}

/-- The result of `make(map[string]V)`. -/
def empty : GoMap V := ⟨[], List.nodup_nil⟩

/-- The keys, in iteration order. -/
def keys (m : GoMap V) : List String := m.entries.map Prod.fst

/-- The lookup `v, ok := m[k]`; `none` stands for `ok = false`. -/
def get? (m : GoMap V) (k : String) : Option V := rawGet k m.entries

/-- The test `_, ok := m[k]`. -/
def has (m : GoMap V) (k : String) : Bool := (m.get? k).isSome

/-- The assignment `m[k] = v`. -/
def set (m : GoMap V) (k : String) (v : V) : GoMap V :=
  ⟨rawSet k v m.entries, rawSet_nodup k v m.entries m.nodup⟩

/-- The statement `delete(m, k)`. -/
def del (m : GoMap V) (k : String) : GoMap V :=
  ⟨rawDel k m.entries, rawDel_nodup k m.entries m.nodup⟩

/-- The number of entries, `len(m)`. -/
def size (m : GoMap V) : Nat := m.entries.length

end GoMap

instance {V : Type} [DecidableEq V] : DecidableEq (GoMap V) := fun a b =>
  match a, b with
  | ⟨ea, _⟩, ⟨eb, _⟩ =>
    if h : ea = eb then isTrue (by subst h; rfl)
    else isFalse (fun h' => h (congrArg GoMap.entries h'))

/-! ## Collaborators that are not among the sources -/

/-- Modelled from the spec: the validators `ValidNick` and `ValidChannel` and the
case-fold `ToLower` belong to the line lexer, which is not among the sources
("validates shape; folds case"); they are taken as they come. The Go library
functions `strings.ToLower`, `strconv.Atoi` and `strconv.ParseInt` (with the
error result dropped, as the callers do) are taken the same way. -/
structure Env where
  ValidNick : String → Bool
  ValidChannel : String → Bool
  ToLower : String → String
  stringsToLower : String → String
  Atoi : String → Int
  ParseInt : String → Int

/-- Modelled from the spec: the names of the numeric replies the registries
return; the catalog of numerics is not among the sources. -/
inductive NumericCode where
  | ERR_NOSUCHCHANNEL
  | ERR_NOSUCHNICK
  | ERR_NICKNAMEINUSE
  | ERR_ERRONEUSNICKNAME
  | ERR_ALREADYREGISTRED
  | ERR_NEEDMOREPARAMS
  | ERR_NOTONCHANNEL
  | ERR_USERONCHANNEL
  deriving DecidableEq, Repr

/-- Modelled from the spec: a numeric reply "carries numeric code and
parameters"; this is the value `NewNumeric(code, args...)` builds. -/
structure Numeric where
  code : NumericCode
  args : List String
  deriving DecidableEq, Repr

/-- The call `NewNumeric(code, args...)`. -/
def NewNumeric (code : NumericCode) (args : List String) : Numeric := ⟨code, args⟩

/-- A Go `error` value: a numeric reply or the text of `errors.New`. -/
inductive GoError where
  | numeric (n : Numeric)
  | text (msg : String)
  deriving DecidableEq, Repr

/-- How a call ends: it returns, it stops with a runtime panic, or the
bounded model has used up its steps (the Go loop or recursion is still running). -/
inductive Outcome (α : Type) where
  | ret (a : α)
  | crash
  | outOfFuel
  deriving DecidableEq, Repr

/-- A `time.Time`, in nanoseconds since the Unix epoch. -/
abbrev Time := Int

/-- The zero `time.Time` (January 1, year 1, 00:00:00 UTC). -/
def zeroTime : Time := -62135596800000000000

/-- The Go library method `Time.Second()`: the second within the minute, a
number from 0 to 59, read in the zone of the process, which is `zone` seconds
east of UTC. -/
def Second (zone : Int) (t : Time) : Int := (t / 1000000000 + zone) % 60

/-- The Go library function `strconv.FormatInt(i, 10)`. -/
def FormatInt (i : Int) : String :=
  if i < 0 then "-" ++ Nat.repr i.natAbs else Nat.repr i.natAbs

/-! ## `src/ircd/server.go`: the server topology -/

/-- The type `servType`. -/
inductive servType where
  | UnregisteredServer
  | RegisteredAsServer
  deriving DecidableEq, Repr

/-- The struct `Server` (without its mutex). -/
structure Server where
  id : String
  ts : Time
  styp : servType
  pass : String
  desc : String
  sver : Int
  server : String
  link : String
  capab : List String
  hops : Int
  deriving DecidableEq, Repr

/-- The three maps `servMap`, `upstream` and `downstream` of `server.go`. -/
structure Topology where
  servMap : GoMap Server
  upstream : GoMap String
  downstream : GoMap (GoMap Bool)
  deriving DecidableEq

namespace Topology

/-- The maps as the package initialises them. -/
def empty : Topology := ⟨GoMap.empty, GoMap.empty, GoMap.empty⟩

end Topology

/-- The record `&Server{id: id}` of `GetServer`. -/
def newServer (id : String) : Server :=
  { id := id, ts := zeroTime, styp := servType.UnregisteredServer, pass := "", desc := "",
    sver := 0, server := "", link := "", capab := [], hops := 0 }

/-- The function `GetServer(id, create)`: the state afterwards and the record
returned (`none` for `nil`). -/
def GetServer (st : Topology) (id : String) (create : Bool) : Topology × Option Server :=
  match st.servMap.get? id with
  | some s => (st, some s)
  | none =>
    if !create then (st, none)
    else
      let s := newServer id
      ({ st with servMap := st.servMap.set id s,
                 downstream := st.downstream.set id GoMap.empty }, some s)

/-- The loop of `LinkServer` that counts the chain through `upstream` until the
empty string; `none` when the steps are used up. -/
def hopChain (upstream : GoMap String) : Nat → String → Nat → Option Nat
  | 0, _, _ => none
  | n + 1, up, chain =>
    if up.length > 0 then hopChain upstream n ((upstream.get? up).getD "") (chain + 1)
    else some chain

/-- The function `LinkServer(link, sid, name, hops, desc)`. Writing
`downstream[link][sid]` when `downstream` has no map for `link` is an
assignment to an entry of a nil map, a runtime panic. The counted chain only
feeds the log. -/
def LinkServer (E : Env) (fuel : Nat) (st : Topology) (link sid name hops desc : String) :
    Outcome (Topology × Option GoError) :=
  if st.servMap.has sid then
    Outcome.ret (st, some (GoError.text ("Server already linked: " ++ sid)))
  else
    let ihops := E.Atoi hops
    let s : Server :=
      { id := sid, ts := zeroTime, styp := servType.UnregisteredServer, pass := "",
        desc := desc, sver := 0, server := name, link := link, capab := [], hops := ihops }
    let servMap := st.servMap.set sid s
    let upstream := st.upstream.set sid link
    match st.downstream.get? link with
    | none => Outcome.crash
    | some kids =>
      let downstream := (st.downstream.set link (kids.set sid true)).set sid GoMap.empty
      match hopChain upstream fuel link 1 with
      | none => Outcome.outOfFuel
      | some _ => Outcome.ret (⟨servMap, upstream, downstream⟩, none)

/-- The function `IsLocal(sid)`. -/
def IsLocal (st : Topology) (sid : String) : Bool :=
  if st.upstream.has sid then false
  else if !st.downstream.has sid then false
  else true

/-- The keys of `downstream[link]`, none when there is no such map. -/
def kidsOf (st : Topology) (link : String) : List String :=
  match st.downstream.get? link with
  | some kids => kids.keys
  | none => []

/-- The recursive function `linkedTo(link)`; `none` when the recursion is
deeper than the bound. -/
def linkedTo (st : Topology) : Nat → String → Option (List String)
  | 0, _ => none
  | n + 1, link =>
    if !st.servMap.has link then some []
    else
      (kidsOf st link).foldl
        (fun acc d =>
          match acc with
          | none => none
          | some sids =>
            match linkedTo st n d with
            | none => none
            | some more => some (sids ++ more))
        (some [link])

/-- The function `LinkedTo(link)`. -/
def LinkedTo (st : Topology) (fuel : Nat) (link : String) : Option (List String) :=
  linkedTo st fuel link

/-- One round of the loop of `Unlink`, for one split SID. -/
def unlinkOne (st : Topology) (sid : String) : Topology :=
  let servMap := st.servMap.del sid
  let downstream :=
    match st.upstream.get? sid with
    | some up =>
      match st.downstream.get? up with
      | some kids => st.downstream.set up (kids.del sid)
      | none => st.downstream
    | none => st.downstream
  { servMap := servMap, upstream := st.upstream, downstream := downstream.del sid }

/-- The function `Unlink(split)`: the state afterwards and the SIDs returned. -/
def Unlink (st : Topology) (fuel : Nat) (split : String) : Option (Topology × List String) :=
  match linkedTo st fuel split with
  | none => none
  | some sids => some (sids.foldl unlinkOne st, sids)

/-- The slice `id[:3]`; `none` when the ID is shorter (a runtime panic). -/
def sidOf (id : String) : Option String :=
  if id.length < 3 then none else some ⟨id.data.take 3⟩

/-- The first loop of `IterFor`: follow `upstream` from `skipLink` to the first
SID without an entry. -/
def walkUp (upstream : GoMap String) : Nat → String → Option String
  | 0, _ => none
  | n + 1, s =>
    match upstream.get? s with
    | some actual => walkUp upstream n actual
    | none => some s

/-- The inner loop of `IterFor` for one ID: the cache afterwards and the SID
at which the loop breaks, or no SID when it leaves by `continue nextId`. -/
def walkCached (upstream : GoMap String) :
    Nat → GoMap Bool → String → Option (GoMap Bool × Option String)
  | 0, _, _ => none
  | n + 1, cache, sid =>
    if (cache.get? sid).getD false then some (cache, none)
    else
      let cache := cache.set sid true
      match upstream.get? sid with
      | some actual => walkCached upstream n cache actual
      | none => some (cache, some sid)

/-- The loop `nextId` of `IterFor` over the IDs. -/
def iterLoop (upstream : GoMap String) (fuel : Nat) (skipLink : String) :
    List String → GoMap Bool → List String → Outcome (List String)
  | [], _, links => Outcome.ret links
  | id :: rest, cache, links =>
    match sidOf id with
    | none => Outcome.crash
    | some sid =>
      match walkCached upstream fuel cache sid with
      | none => Outcome.outOfFuel
      | some (cache, none) => iterLoop upstream fuel skipLink rest cache links
      | some (cache, some r) =>
        if r = skipLink then iterLoop upstream fuel skipLink rest cache links
        else iterLoop upstream fuel skipLink rest cache (links ++ [r])

/-- The function `IterFor(ids, skipLink)`: the SIDs sent on the returned
channel, in order. -/
def IterFor (st : Topology) (fuel : Nat) (ids : List String) (skipLink : String) :
    Outcome (List String) :=
  match walkUp st.upstream fuel skipLink with
  | none => Outcome.outOfFuel
  | some skip => iterLoop st.upstream fuel skip ids GoMap.empty []

/-- The states reached from the empty topology by calls of `GetServer(sid, true)`,
`LinkServer` and `Unlink` that return. -/
inductive Topology.Reachable (E : Env) : Topology → Prop where
  | init : Topology.Reachable E Topology.empty
  | getServer (st : Topology) (sid : String) :
      Topology.Reachable E st → Topology.Reachable E (GetServer st sid true).1
  | linkServer (st st' : Topology) (fuel : Nat) (link sid name hops desc : String)
      (err : Option GoError) :
      Topology.Reachable E st →
      LinkServer E fuel st link sid name hops desc = Outcome.ret (st', err) →
      Topology.Reachable E st'
  | unlink (st st' : Topology) (fuel : Nat) (split : String) (sids : List String) :
      Topology.Reachable E st →
      Unlink st fuel split = some (st', sids) →
      Topology.Reachable E st'

/-- The state after a call of `LinkServer` that returns; the state itself when
the call does not return. -/
def linkStep (E : Env) (fuel : Nat) (st : Topology) (link sid name hops desc : String) :
    Topology :=
  match LinkServer E fuel st link sid name hops desc with
  | Outcome.ret (st', _) => st'
  | Outcome.crash => st
  | Outcome.outOfFuel => st

/-- The state after a call of `Unlink` that returns; the state itself when the
call does not return. -/
def unlinkStep (st : Topology) (fuel : Nat) (split : String) : Topology :=
  match Unlink st fuel split with
  | some (st', _) => st'
  | none => st

/-- The function `ServerIter()`: the keys of `servMap` without an `upstream`
entry, in the order of the map. -/
def ServerIter (st : Topology) : List String :=
  st.servMap.keys.filter (fun link => !st.upstream.has link)

/-! ## `src/ircd/user.go`: the user registry -/

/-- The type `userType`. -/
inductive userType where
  | UnregisteredUser
  | RegisteredAsUser
  deriving DecidableEq, Repr

/-- The struct `User` (without its mutex). -/
structure User where
  ts : Time
  id : String
  user : String
  pass : String
  nick : String
  name : String
  utyp : userType
  deriving DecidableEq, Repr

/-- The maps `userMap` and `userNicks` of `user.go`. A record is stored under
one key only, so the map holds the records themselves. -/
structure UserReg where
  userMap : GoMap User
  userNicks : GoMap String
  deriving DecidableEq

namespace UserReg

/-- The maps as the package initialises them. -/
def empty : UserReg := ⟨GoMap.empty, GoMap.empty⟩

end UserReg

/-- The function `GetUser(id)`: the state afterwards and the record returned. -/
def GetUser (st : UserReg) (id : String) : UserReg × User :=
  match st.userMap.get? id with
  | some u => (st, u)
  | none =>
    let u : User :=
      { ts := zeroTime, id := id, user := "", pass := "", nick := "*", name := "",
        utyp := userType.UnregisteredUser }
    ({ st with userMap := st.userMap.set id u }, u)

/-- The method `(u *User) SetNick(nick)` on the record `u` and the index
`userNicks`: the record and the index afterwards, and the error returned. -/
def User.SetNick (E : Env) (u : User) (userNicks : GoMap String) (nick : String) (now : Time) :
    User × GoMap String × Option Numeric :=
  if !E.ValidNick nick then
    (u, userNicks, some (NewNumeric NumericCode.ERR_ERRONEUSNICKNAME [nick]))
  else
    let lownick := E.ToLower nick
    match userNicks.get? lownick with
    | some id =>
      if id = u.id then (u, userNicks, none)
      else (u, userNicks, some (NewNumeric NumericCode.ERR_NICKNAMEINUSE [nick]))
    | none =>
      let userNicks := userNicks.set lownick u.id
      let lownick := E.ToLower u.nick
      let userNicks := userNicks.del lownick
      ({ u with nick := nick, ts := now }, userNicks, none)

/-- The call `u.SetNick(nick)` on the record stored under `uid`; `none` when
no record is stored there. -/
def SetNick (E : Env) (st : UserReg) (uid nick : String) (now : Time) :
    Option (UserReg × Option Numeric) :=
  match st.userMap.get? uid with
  | none => none
  | some u =>
    match User.SetNick E u st.userNicks nick now with
    | (u', nicks, err) => some (⟨st.userMap.set uid u', nicks⟩, err)

/-- The function `Delete(id)`. -/
def Delete (E : Env) (st : UserReg) (id : String) : UserReg :=
  match st.userMap.get? id with
  | some u =>
    let nick := E.stringsToLower u.nick
    ⟨st.userMap.del id, st.userNicks.del nick⟩
  | none => st

/-- The function `Import(uid, nick, user, host, ip, hops, ts, name)`. -/
def Import (E : Env) (st : UserReg) (uid nick user host ip hops ts name : String) :
    UserReg × Option GoError :=
  if st.userMap.has uid then (st, some (GoError.text "UID collision"))
  else
    let lownick := E.ToLower nick
    if st.userNicks.has lownick then (st, some (GoError.text "NICK collision"))
    else
      let its := E.ParseInt ts
      let u : User :=
        { ts := its, id := uid, user := user, pass := "", nick := nick, name := name,
          utyp := userType.RegisteredAsUser }
      (⟨st.userMap.set uid u, st.userNicks.set lownick uid⟩, none)

/-- The function `GetID(nick)`: the ID returned (the empty string with an
error) and the error. -/
def GetID (E : Env) (st : UserReg) (nick : String) : String × Option Numeric :=
  let lownick := E.ToLower nick
  if st.userMap.has nick then (nick, none)
  else
    match st.userNicks.get? lownick with
    | some id => (id, none)
    | none => ("", some (NewNumeric NumericCode.ERR_NOSUCHNICK [nick]))

/-- The states reached from the empty user registry by `GetUser`, `SetNick` on
a record of `userMap`, `Import` and `Delete`. -/
inductive UserReg.Reachable (E : Env) : UserReg → Prop where
  | init : UserReg.Reachable E UserReg.empty
  | getUser (st : UserReg) (id : String) :
      UserReg.Reachable E st → UserReg.Reachable E (GetUser st id).1
  | setNick (st st' : UserReg) (uid nick : String) (now : Time) (err : Option Numeric) :
      UserReg.Reachable E st → SetNick E st uid nick now = some (st', err) →
      UserReg.Reachable E st'
  | importUser (st : UserReg) (uid nick user host ip hops ts name : String) :
      UserReg.Reachable E st →
      UserReg.Reachable E (Import E st uid nick user host ip hops ts name).1
  | delete (st : UserReg) (id : String) :
      UserReg.Reachable E st → UserReg.Reachable E (Delete E st id)

/-- The statement `chars[i]++` on one byte. -/
def incByte (c : Char) : Char := Char.ofNat ((c.toNat + 1) % 256)

/-- The inner loop of `genUserIDs`, which walks from the last byte to the first;
the argument lists the bytes in the order of the walk, the last one first. -/
def carry : List Char → List Char
  | [] => []
  | c :: rest =>
    if c = '9' then 'A' :: carry rest
    else if c = 'Z' then '0' :: rest
    else incByte c :: rest

/-- One turn of the outer loop of `genUserIDs`, after the send. -/
def advance (chars : List Char) : List Char := (carry chars.reverse).reverse

/-- The bytes that `genUserIDs` sends on `userIDs` at its turn number `k`,
counted from zero. -/
def genUserIDs : Nat → List Char
  | 0 => ['A', 'A', 'A', 'A', 'A', 'A']
  | k + 1 => advance (genUserIDs k)

/-- The result of the call number `k` of `NextUserID`, counted from zero: the
calls receive what `genUserIDs` sends, in the order of the sends. -/
def NextUserID (UserIDPrefix : String) (k : Nat) : String :=
  UserIDPrefix ++ String.mk (genUserIDs k)

/-- The loop of `UserSplit` over `userMap`; `u.id[:3]` is a runtime panic on an
ID shorter than three characters. -/
def userSplitLoop (gone : GoMap Bool) : List (String × User) → List String → Option (List String)
  | [], splitIDs => some splitIDs
  | (_, u) :: rest, splitIDs =>
    match sidOf u.id with
    | none => none
    | some sid =>
      if (gone.get? sid).getD false then userSplitLoop gone rest (splitIDs ++ [u.id])
      else userSplitLoop gone rest splitIDs

/-- The function `UserSplit(sids)`; `none` for a runtime panic. -/
def UserSplit (st : UserReg) (sids : List String) : Option (List String) :=
  let gone : GoMap Bool := sids.foldl (fun g sid => g.set sid true) GoMap.empty
  userSplitLoop gone st.userMap.entries []

/-- The method `(*User).TS()`. -/
def User.TS (zone : Int) (u : User) : String := FormatInt (Second zone u.ts)

/-- The state after a call of `SetNick` on a record of `userMap`; the state
itself when no record is stored under the UID. -/
def setNickStep (E : Env) (st : UserReg) (uid nick : String) (now : Time) : UserReg :=
  match SetNick E st uid nick now with
  | some (st', _) => st'
  | none => st

/-! ## `src/ircd/channel.go`: the channel registry -/

/-- The struct `Channel` (without its mutex); `users[uid]` is the hostmask. -/
structure Channel where
  name : String
  ts : Time
  users : GoMap String
  deriving DecidableEq

/-- The channel registry: `chanMap` holds pointers, and one channel can be
stored under several keys, so the channels live in a store and `chanMap` maps
a key to the position of the channel in the store. -/
structure ChanReg where
  store : List Channel
  chanMap : GoMap Nat
  deriving DecidableEq

namespace ChanReg

/-- The registry as the package initialises it. -/
def empty : ChanReg := ⟨[], GoMap.empty⟩

end ChanReg

/-- The function `GetChannel(name, create)`: the state afterwards, the pointer
returned (`none` for `nil`) and the error. -/
def GetChannel (E : Env) (st : ChanReg) (name : String) (create : Bool) :
    ChanReg × Option Nat × Option Numeric :=
  if !E.ValidChannel name then
    (st, none, some (NewNumeric NumericCode.ERR_NOSUCHCHANNEL [name]))
  else
    let lowname := E.ToLower name
    match st.chanMap.get? lowname with
    | some c => (st, some c, none)
    | none =>
      if !create then (st, none, some (NewNumeric NumericCode.ERR_NOSUCHCHANNEL [name]))
      else
        let c : Channel := { name := name, ts := zeroTime, users := GoMap.empty }
        (⟨st.store ++ [c], st.chanMap.set lowname st.store.length⟩, some st.store.length, none)

/-- The first loop of `Join`: insert the UIDs in order, stop at the first one
that is already on the channel. -/
def joinLoop (now : Time) : List String → Channel → Channel × Option Numeric
  | [], c => (c, none)
  | uid :: rest, c =>
    if c.users.has uid then (c, some (NewNumeric NumericCode.ERR_USERONCHANNEL [uid, c.name]))
    else joinLoop now rest { c with users := c.users.set uid "host@mask", ts := now }

/-- The method `(c *Channel) Join(uids...)`, for the channel `c` at position
`self` of the store: the channel and `chanMap` afterwards, the notify list
(`none` for `nil`) and the error. -/
def Channel.Join (self : Nat) (c : Channel) (chanMap : GoMap Nat) (uids : List String)
    (now : Time) : Channel × GoMap Nat × Option (List String) × Option Numeric :=
  match joinLoop now uids c with
  | (c', some err) => (c', chanMap, none, some err)
  | (c', none) =>
    let notify := c'.users.keys
    if !chanMap.has c'.name then (c', chanMap.set c'.name self, some notify, none)
    else (c', chanMap, some notify, none)

/-- The method `(c *Channel) Part(uid)`: the channel and `chanMap` afterwards,
the notify list (`none` for `nil`) and the error. -/
def Channel.Part (c : Channel) (chanMap : GoMap Nat) (uid : String) (now : Time) :
    Channel × GoMap Nat × Option (List String) × Option Numeric :=
  if !c.users.has uid then
    (c, chanMap, none, some (NewNumeric NumericCode.ERR_NOTONCHANNEL [c.name]))
  else
    let notify := c.users.keys
    let c' : Channel := { c with users := c.users.del uid, ts := now }
    if c'.users.size = 0 then (c', chanMap.del c'.name, some notify, none)
    else (c', chanMap, some notify, none)

/-- The call `c.Join(uids...)` through the pointer `p`; `none` when `p` points
to no channel. -/
def JoinAt (st : ChanReg) (p : Nat) (uids : List String) (now : Time) :
    Option (ChanReg × Option (List String) × Option Numeric) :=
  match st.store.get? p with
  | none => none
  | some c =>
    match Channel.Join p c st.chanMap uids now with
    | (c', chanMap, notify, err) => some (⟨st.store.set p c', chanMap⟩, notify, err)

/-- The call `c.Part(uid)` through the pointer `p`; `none` when `p` points to
no channel. -/
def PartAt (st : ChanReg) (p : Nat) (uid : String) (now : Time) :
    Option (ChanReg × Option (List String) × Option Numeric) :=
  match st.store.get? p with
  | none => none
  | some c =>
    match Channel.Part c st.chanMap uid now with
    | (c', chanMap, notify, err) => some (⟨st.store.set p c', chanMap⟩, notify, err)

/-- The calls `c, _ := GetChannel(name, true)` and then `c.Join(uids...)`, as
the test of the package makes them. -/
def GetAndJoin (E : Env) (st : ChanReg) (name : String) (uids : List String) (now : Time) :
    Option (ChanReg × Option (List String) × Option Numeric) :=
  match GetChannel E st name true with
  | (st', some p, _) => JoinAt st' p uids now
  | (_, none, _) => none

/-- The invariant of the channel registry: every channel stored in `chanMap` has
a member, and every channel of the store with a member is stored in `chanMap`. -/
def ChanReg.StoredIffMembers (st : ChanReg) : Prop :=
  (∀ k p, st.chanMap.get? k = some p → ∃ c, st.store.get? p = some c ∧ c.users.keys ≠ []) ∧
  (∀ p c, st.store.get? p = some c → c.users.keys ≠ [] → ∃ k, st.chanMap.get? k = some p)

/-- The calls `c, _ := GetChannel(name, true)`, `c.Join(u)` and `c.Part(u)` on
the channel returned: the registry afterwards. -/
def createJoinPart (E : Env) (st : ChanReg) (name u : String) (now : Time) : Option ChanReg :=
  match GetChannel E st name true with
  | (st1, some p, _) =>
    match JoinAt st1 p [u] now with
    | some (st2, _) =>
      match PartAt st2 p u now with
      | some (st3, _) => some st3
      | none => none
    | none => none
  | (_, none, _) => none

/-- The statement `notify[k] = append(notify[k], id)`. -/
def appendAt (notify : GoMap (List String)) (k id : String) : GoMap (List String) :=
  notify.set k ((notify.get? k).getD [] ++ [id])

/-- The closure `part` of `PartAll`, for the channel at position `p` of the store. -/
def partOne (uid : String) (now : Time) (st : ChanReg) (notify : GoMap (List String))
    (p : Nat) : ChanReg × GoMap (List String) :=
  match st.store.get? p with
  | none => (st, notify)
  | some c =>
    if !c.users.has uid then (st, notify)
    else
      let notify := c.users.keys.foldl (fun n id => appendAt n c.name id) notify
      let c' : Channel := { c with users := c.users.del uid, ts := now }
      if c'.users.size = 0 then (⟨st.store.set p c', st.chanMap.del c'.name⟩, notify)
      else (⟨st.store.set p c', st.chanMap⟩, notify)

/-- The function `PartAll(uid)`: the registry afterwards and the map returned.
The loop ranges over `chanMap` while `part` deletes from it; an entry deleted
before the loop reaches it is not visited. -/
def PartAll (st : ChanReg) (uid : String) (now : Time) : ChanReg × GoMap (List String) :=
  st.chanMap.entries.foldl
    (fun acc kp => if acc.1.chanMap.has kp.1 then partOne uid now acc.1 acc.2 kp.2 else acc)
    (st, GoMap.empty)

/-- The statements `leaving2notify[leavingUID][peerUID] = true` for the leaving
UIDs in order; writing into a missing inner map is a runtime panic. -/
def setPeer (peer : String) : List String → GoMap (GoMap Bool) → Outcome (GoMap (GoMap Bool))
  | [], l2n => Outcome.ret l2n
  | l :: rest, l2n =>
    match l2n.get? l with
    | none => Outcome.crash
    | some peers => setPeer peer rest (l2n.set l (peers.set peer true))

/-- The loop of `split` over the members left on the channel: a member whose
first three characters are `sid` is marked for every leaving UID. -/
def markPeers (sid : String) (leavingChanUIDs : List String) :
    List String → GoMap (GoMap Bool) → Outcome (GoMap (GoMap Bool))
  | [], l2n => Outcome.ret l2n
  | peerUID :: rest, l2n =>
    match sidOf peerUID with
    | none => Outcome.crash
    | some psid =>
      if sid ≠ psid then markPeers sid leavingChanUIDs rest l2n
      else
        match setPeer peerUID leavingChanUIDs l2n with
        | Outcome.ret l2n' => markPeers sid leavingChanUIDs rest l2n'
        | Outcome.crash => Outcome.crash
        | Outcome.outOfFuel => Outcome.outOfFuel

/-- The closure `split` of `ChanSplit`, for the channel at position `p` of the
store. Every key of `leaving2notify` goes into `leavingChanUIDs`. -/
def splitOne (sid : String) (st : ChanReg) (l2n : GoMap (GoMap Bool)) (p : Nat) :
    Outcome (ChanReg × GoMap (GoMap Bool)) :=
  match st.store.get? p with
  | none => Outcome.ret (st, l2n)
  | some c =>
    let leavingChanUIDs := l2n.keys
    let users := leavingChanUIDs.foldl (fun u leavingUID => u.del leavingUID) c.users
    let c' : Channel := { c with users := users }
    if leavingChanUIDs.length = 0 then Outcome.ret (⟨st.store.set p c', st.chanMap⟩, l2n)
    else
      match markPeers sid leavingChanUIDs users.keys l2n with
      | Outcome.ret l2n' =>
        if users.size = 0 then Outcome.ret (⟨st.store.set p c', st.chanMap.del c'.name⟩, l2n')
        else Outcome.ret (⟨st.store.set p c', st.chanMap⟩, l2n')
      | Outcome.crash => Outcome.crash
      | Outcome.outOfFuel => Outcome.outOfFuel

/-- The loop of `ChanSplit` over `chanMap`; an entry deleted before the loop
reaches it is not visited. -/
def splitLoop (sid : String) :
    List (String × Nat) → ChanReg → GoMap (GoMap Bool) → Outcome (ChanReg × GoMap (GoMap Bool))
  | [], st, l2n => Outcome.ret (st, l2n)
  | kp :: rest, st, l2n =>
    if st.chanMap.has kp.1 then
      match splitOne sid st l2n kp.2 with
      | Outcome.ret (st', l2n') => splitLoop sid rest st' l2n'
      | Outcome.crash => Outcome.crash
      | Outcome.outOfFuel => Outcome.outOfFuel
    else splitLoop sid rest st l2n

/-- The function `ChanSplit(sid, uids)`: the registry afterwards and the map
returned. -/
def ChanSplit (st : ChanReg) (sid : String) (uids : List String) :
    Outcome (ChanReg × GoMap (List String)) :=
  let leaving2notify : GoMap (GoMap Bool) :=
    uids.foldl (fun m uid => m.set uid GoMap.empty) GoMap.empty
  match splitLoop sid st.chanMap.entries st leaving2notify with
  | Outcome.ret (st', l2n) =>
    let notify : GoMap (List String) :=
      l2n.entries.foldl
        (fun n gp => gp.2.keys.foldl (fun n' peer => appendAt n' gp.1 peer) n) GoMap.empty
    Outcome.ret (st', notify)
  | Outcome.crash => Outcome.crash
  | Outcome.outOfFuel => Outcome.outOfFuel

/-- The method `(*Channel).TS()`. -/
def Channel.TS (zone : Int) (c : Channel) : String := FormatInt (Second zone c.ts)

/-! ## `src/ircd/config.go`: the port lists -/

/-- The Go library function `strings.Split(s, sep)` for a separator of one
character. -/
def splitOn (sep : Char) : List Char → List (List Char)
  | [] => [[]]
  | c :: cs =>
    if c = sep then [] :: splitOn sep cs
    else
      match splitOn sep cs with
      | [] => [[c]]
      | h :: t => (c :: h) :: t

/-- The Go library function `unicode.IsSpace`: the characters with the Unicode
property White_Space. -/
def isSpace (c : Char) : Bool :=
  let n := c.toNat
  (9 ≤ n ∧ n ≤ 13) ∨ n = 32 ∨ n = 133 ∨ n = 160 ∨ n = 5760 ∨ (8192 ≤ n ∧ n ≤ 8202) ∨
    n = 8232 ∨ n = 8233 ∨ n = 8239 ∨ n = 8287 ∨ n = 12288

/-- The Go library function `strings.TrimSpace`. -/
def TrimSpace (s : List Char) : List Char :=
  (((s.dropWhile isSpace).reverse).dropWhile isSpace).reverse

/-- The error values of `strconv.Atoi`: a `*strconv.NumError` about the input,
with `ErrSyntax` or with `ErrRange`. -/
inductive NumError where
  | ErrSyntax (num : String)
  | ErrRange (num : String)
  deriving DecidableEq, Repr

/-- A decimal digit. -/
def isDigit (c : Char) : Bool := 48 ≤ c.toNat ∧ c.toNat ≤ 57

/-- The value of a string of decimal digits. -/
def decVal (ds : List Char) : Nat := ds.foldl (fun n c => n * 10 + (c.toNat - 48)) 0

/-- The Go library function `strconv.Atoi` where `int` has 64 bits: an optional
sign, then decimal digits, at least one, and the value has to fit. -/
def strconvAtoi (s : List Char) : Except NumError Int :=
  let ds := if s.head? = some '-' ∨ s.head? = some '+' then s.tail else s
  if ds = [] ∨ ds.all isDigit = false then Except.error (NumError.ErrSyntax (String.mk s))
  else
    let v : Int := if s.head? = some '-' then - (decVal ds : Int) else (decVal ds : Int)
    if v < - 2 ^ 63 ∨ 2 ^ 63 ≤ v then Except.error (NumError.ErrRange (String.mk s))
    else Except.ok v

/-- The error values of `GetPortList`: the text of `errors.New`, or the error
of `strconv.Atoi`. -/
inductive PortsError where
  | text (msg : String)
  | num (e : NumError)
  deriving DecidableEq, Repr

/-- The statement `port++` on an `int` of 64 bits. -/
def wrap64 (n : Int) : Int := (n + 2 ^ 63) % 2 ^ 64 - 2 ^ 63

/-- The loop `for port := low; port <= high; port++` of `GetPortList`. -/
def portLoop : Nat → Int → Int → List Int → Outcome (List Int)
  | 0, _, _, _ => Outcome.outOfFuel
  | fuel + 1, port, high, ports =>
    if port ≤ high then portLoop fuel (wrap64 (port + 1)) high (ports ++ [port])
    else Outcome.ret ports

/-- The loop over `ranges` of `GetPortList`. -/
def rangeLoop (fuel : Nat) : List (List Char) → List Int → Outcome (List Int × Option PortsError)
  | [], ports => Outcome.ret (ports, none)
  | rng :: rest, ports =>
    let extremes := splitOn '-' (TrimSpace rng)
    if extremes.length > 2 then
      Outcome.ret ([], some (PortsError.text ("Invalid port range: " ++ String.mk rng)))
    else
      match extremes with
      | [] => Outcome.crash
      | e0 :: more =>
        match strconvAtoi e0 with
        | Except.error e => Outcome.ret ([], some (PortsError.num e))
        | Except.ok low =>
          match more with
          | [] => rangeLoop fuel rest (ports ++ [low])
          | e1 :: _ =>
            match strconvAtoi e1 with
            | Except.error e => Outcome.ret ([], some (PortsError.num e))
            | Except.ok high =>
              if low > high then
                Outcome.ret ([], some (PortsError.text ("Inverted range: " ++ String.mk rng)))
              else
                match portLoop fuel low high ports with
                | Outcome.ret ports' => rangeLoop fuel rest ports'
                | Outcome.crash => Outcome.crash
                | Outcome.outOfFuel => Outcome.outOfFuel

/-- The method `Ports.GetPortList`, as a function of `PortString`. -/
def GetPortList (fuel : Nat) (PortString : String) : Outcome (List Int × Option PortsError) :=
  rangeLoop fuel (splitOn ',' PortString.data) []

/-- The struct `Configuration`: the fields the handlers read. -/
structure Configuration where
  Name : String
  SID : String
  deriving DecidableEq, Repr

/-! ## Messages -/

/-- Modelled from the spec: a `Message` has the fields "optional `prefix`",
"`command`", "ordered sequence of `args`", "`senderID`" and "`destIDs`"; the type
belongs to the line lexer, which is not among the sources. An absent prefix is
the empty string, as the sources test it with `len(msg.Prefix) == 0`. -/
structure Message where
  Prefix : String
  Command : String
  Args : List String
  SenderID : String
  DestIDs : List String
  deriving DecidableEq, Repr

/-- Modelled from the spec: the command tokens, the internal command
`INT_DELUSER`, the rendering of a numeric as a message ("a `Numeric` value type
that renders as a `Message`") and its text as an error belong to the lexer and
its catalog, which are not among the sources; they are taken as they come. -/
structure Protocol where
  CMD_PING : String
  CMD_PONG : String
  CMD_PASS : String
  CMD_USER : String
  CMD_NICK : String
  CMD_CAPAB : String
  CMD_SERVER : String
  CMD_ERROR : String
  CMD_QUIT : String
  CMD_SQUIT : String
  CMD_UID : String
  CMD_SID : String
  CMD_PRIVMSG : String
  CMD_NOTICE : String
  INT_DELUSER : String
  NumericMessage : Numeric → List String → Message
  NumericError : Numeric → String

/-- The method `Error()` of an `error` value. -/
def GoError.Error (L : Protocol) : GoError → String
  | GoError.numeric n => L.NumericError n
  | GoError.text msg => msg

/-- A send of a handler on one of the two queues of the core, `ircd.ToClient`
and `ircd.ToServer`. -/
inductive Sent where
  | ToClient (msg : Message)
  | ToServer (msg : Message)
  deriving DecidableEq, Repr

/-- The messages sent on `ToClient`, in order. -/
def Sent.toClients : List Sent → List Message
  | [] => []
  | Sent.ToClient m :: rest => m :: Sent.toClients rest
  | Sent.ToServer _ :: rest => Sent.toClients rest

/-- The messages sent on `ToServer`, in order. -/
def Sent.toServers : List Sent → List Message
  | [] => []
  | Sent.ToClient _ :: rest => Sent.toServers rest
  | Sent.ToServer m :: rest => m :: Sent.toServers rest

/-- The three registries the handlers work on. -/
structure Core where
  servers : Topology
  users : UserReg
  chans : ChanReg
  deriving DecidableEq

/-! ## `src/ircd/hooks.go`: the hooks and the dispatchers -/

/-- The constant `EMASK_REGISTRATION`. -/
def EMASK_REGISTRATION : Nat := 1

/-- The constant `EMASK_USER`. -/
def EMASK_USER : Nat := 2

/-- The constant `EMASK_SERVER`. -/
def EMASK_SERVER : Nat := 4

/-- The constant `EMASK_ANY`. -/
def EMASK_ANY : Nat := EMASK_REGISTRATION ||| EMASK_USER ||| EMASK_SERVER

/-- The struct `CallConstraints`. -/
structure CallConstraints where
  MinArgs : Int
  MaxArgs : Int
  deriving DecidableEq, Repr

/-- The function `NArgs(count)`. -/
def NArgs (count : Int) : CallConstraints := { MinArgs := count, MaxArgs := count }

/-- The function `MinArgs(min)`. -/
def MinArgs (min : Int) : CallConstraints := { MinArgs := min, MaxArgs := -1 }

/-- The function `OptArgs(required, optional)`. -/
def OptArgs (required optional : Int) : CallConstraints :=
  { MinArgs := required, MaxArgs := required + optional }

/-- The variable `AnyArgs`. -/
def AnyArgs : CallConstraints := { MinArgs := 0, MaxArgs := -1 }

/-- The functions a hook can name in its field `Func`: the handlers of the
sources, and any other function by its name. -/
inductive HookFunc where
  | Ping
  | SPing
  | Privmsg
  | Uid
  | Sid
  | Quit
  | SQuit
  | other (name : String)
  deriving DecidableEq, Repr

/-- The struct `Hook`. The counter `Calls` is an `int` that counts the
dispatches; it is taken without the wrap at 2^63. -/
structure Hook where
  When : Nat
  Constraints : CallConstraints
  Calls : Int
  Func : HookFunc
  deriving DecidableEq, Repr

/-- A statement `go hook.Func(hookName, message, ircd)`. -/
structure Call where
  Func : HookFunc
  hookName : String
  message : Message
  deriving DecidableEq, Repr

/-- The function `Register(hook, when, args, fn)` on the map `registeredHooks`:
the map afterwards and the hook returned. -/
def Register (registeredHooks : GoMap (List Hook)) (hook : String) (when_ : Nat)
    (args : CallConstraints) (fn : HookFunc) : GoMap (List Hook) × Hook :=
  let hooks1 := if registeredHooks.has hook then registeredHooks else registeredHooks.set hook []
  let h : Hook := { When := when_, Constraints := args, Calls := 0, Func := fn }
  (hooks1.set hook ((hooks1.get? hook).getD [] ++ [h]), h)

/-- The loop of the two dispatchers over `registeredHooks[hookName]`: the hooks
afterwards and the calls made, in order. -/
def dispatchLoop (mask : Nat) (hookName : String) (message : Message) :
    List Hook → List Hook × List Call
  | [] => ([], [])
  | hook :: rest =>
    let r := dispatchLoop mask hookName message rest
    if hook.When &&& mask = mask then
      ({ hook with Calls := hook.Calls + 1 } :: r.1, ⟨hook.Func, hookName, message⟩ :: r.2)
    else (hook :: r.1, r.2)

/-- The loop of the two dispatchers on the map `registeredHooks`; a command
without hooks gives the nil slice, and nothing is done. -/
def dispatchHooks (mask : Nat) (registeredHooks : GoMap (List Hook)) (message : Message) :
    GoMap (List Hook) × List Call :=
  match registeredHooks.get? message.Command with
  | none => (registeredHooks, [])
  | some hs =>
    let r := dispatchLoop mask message.Command message hs
    (registeredHooks.set message.Command r.1, r.2)

/-- The function `DispatchClient(message, ircd)`: a runtime panic for a sender
that `GetUserInfo` does not know. -/
def DispatchClient (users : UserReg) (registeredHooks : GoMap (List Hook))
    (message : Message) : Outcome (GoMap (List Hook) × List Call) :=
  match users.userMap.get? message.SenderID with
  | none => Outcome.crash
  | some u =>
    let mask : Nat :=
      match u.utyp with
      | userType.UnregisteredUser => 0 ||| EMASK_REGISTRATION
      | userType.RegisteredAsUser => 0 ||| EMASK_USER
    Outcome.ret (dispatchHooks mask registeredHooks message)

/-- The function `DispatchServer(message, ircd)`: it returns at once for a
sender that `GetServerInfo` does not know. -/
def DispatchServer (servers : Topology) (registeredHooks : GoMap (List Hook))
    (message : Message) : Outcome (GoMap (List Hook) × List Call) :=
  match servers.servMap.get? message.SenderID with
  | none => Outcome.ret (registeredHooks, [])
  | some s =>
    let mask : Nat :=
      match s.styp with
      | servType.UnregisteredServer => 0 ||| EMASK_REGISTRATION
      | servType.RegisteredAsServer => 0 ||| EMASK_SERVER
    Outcome.ret (dispatchHooks mask registeredHooks message)

/-! ## `src/ircd/general.go`: `Ping` -/

/-- The variable `pinghooks`: the three registrations, from the empty map. -/
def pinghooks (L : Protocol) : GoMap (List Hook) :=
  let r1 := (Register GoMap.empty L.CMD_PING EMASK_USER (NArgs 1) HookFunc.Ping).1
  let r2 := (Register r1 L.CMD_PING EMASK_SERVER (OptArgs 1 1) HookFunc.SPing).1
  (Register r2 L.CMD_PONG EMASK_SERVER (OptArgs 1 1) HookFunc.SPing).1

/-- The handler `Ping`: the messages it sends; `msg.Args[0]` is a runtime panic
when the message has no argument. -/
def Ping (L : Protocol) (Config : Configuration) (msg : Message) : Outcome (List Sent) :=
  match msg.Args with
  | [] => Outcome.crash
  | pongmsg :: _ =>
    Outcome.ret [Sent.ToClient
      { Prefix := "", Command := L.CMD_PONG, Args := [Config.Name, pongmsg],
        SenderID := "", DestIDs := [msg.SenderID] }]

/-! ## `src/ircd/messaging.go`: `Privmsg` -/

/-- The loop of `Privmsg` over the members of a channel: the members other than
the sender, those with the SID of this server and the others; `uid[:3]` is a
runtime panic on a UID shorter than three characters. -/
def chanSides (Config : Configuration) (sender : String) :
    List String → List String → List String → Option (List String × List String)
  | [], locals, remotes => some (locals, remotes)
  | uid :: rest, locals, remotes =>
    if uid ≠ sender then
      match sidOf uid with
      | none => none
      | some sid =>
        if sid = Config.SID then chanSides Config sender rest (locals ++ [uid]) remotes
        else chanSides Config sender rest locals (remotes ++ [uid])
    else chanSides Config sender rest locals remotes

/-- The loop of `Privmsg` over the recipients: the local and the remote user
recipients and the sends so far. -/
def privmsgLoop (E : Env) (L : Protocol) (Config : Configuration) (fuel : Nat) (core : Core)
    (hook : String) (msg : Message) (sender text : String) (quiet : Bool) :
    List String → List String → List String → List Sent →
      Outcome (List String × List String × List Sent)
  | [], locals, remotes, sent => Outcome.ret (locals, remotes, sent)
  | name :: rest, locals, remotes, sent =>
    if E.ValidChannel name then
      match GetChannel E core.chans name false with
      | (_, _, some num) =>
        privmsgLoop E L Config fuel core hook msg sender text quiet rest locals remotes
          (if !quiet then sent ++ [Sent.ToClient (L.NumericMessage num [msg.SenderID])] else sent)
      | (_, none, none) => Outcome.crash
      | (_, some p, none) =>
        match core.chans.store.get? p with
        | none => Outcome.crash
        | some channel =>
          match chanSides Config sender channel.users.keys [] [] with
          | none => Outcome.crash
          | some (clocals, cremotes) =>
            match (if cremotes.length > 0 then IterFor core.servers fuel cremotes msg.SenderID
                   else Outcome.ret []) with
            | Outcome.crash => Outcome.crash
            | Outcome.outOfFuel => Outcome.outOfFuel
            | Outcome.ret sids =>
              let sent1 := sent ++ sids.map (fun sid => Sent.ToServer
                { Prefix := sender, Command := hook, Args := [channel.name, text],
                  SenderID := "", DestIDs := [sid] })
              let sent2 :=
                if clocals.length > 0 then
                  sent1 ++ [Sent.ToClient
                    { Prefix := sender, Command := hook, Args := [channel.name, text],
                      SenderID := "", DestIDs := clocals }]
                else sent1
              privmsgLoop E L Config fuel core hook msg sender text quiet rest locals remotes
                sent2
    else
      match GetID E core.users name with
      | (_, some num) =>
        privmsgLoop E L Config fuel core hook msg sender text quiet rest locals remotes
          (if !quiet then sent ++ [Sent.ToClient (L.NumericMessage num [msg.SenderID])] else sent)
      | (id, none) =>
        match sidOf id with
        | none => Outcome.crash
        | some sid =>
          if sid = Config.SID then
            privmsgLoop E L Config fuel core hook msg sender text quiet rest (locals ++ [id])
              remotes sent
          else
            privmsgLoop E L Config fuel core hook msg sender text quiet rest locals
              (remotes ++ [id]) sent

/-- The loop of `Privmsg` over the remote user recipients. -/
def privmsgForward (fuel : Nat) (core : Core) (hook sender text : String) :
    List String → List Sent → Outcome (List Sent)
  | [], sent => Outcome.ret sent
  | remoteid :: rest, sent =>
    match IterFor core.servers fuel [remoteid] "" with
    | Outcome.crash => Outcome.crash
    | Outcome.outOfFuel => Outcome.outOfFuel
    | Outcome.ret sids =>
      privmsgForward fuel core hook sender text rest
        (sent ++ sids.map (fun sid => Sent.ToServer
          { Prefix := sender, Command := hook, Args := [remoteid, text],
            SenderID := "", DestIDs := [sid] }))

/-- The handler `Privmsg`, registered for `PRIVMSG` and `NOTICE`: the messages it
sends, in order. `msg.Args[0]` and `msg.Args[1]` are runtime panics on a message
with fewer than two arguments. -/
def Privmsg (E : Env) (L : Protocol) (Config : Configuration) (fuel : Nat) (core : Core)
    (hook : String) (msg : Message) : Outcome (List Sent) :=
  match msg.Args with
  | a0 :: text :: _ =>
    let quiet := decide (hook = L.CMD_NOTICE)
    let recipients := (splitOn ',' a0.data).map String.mk
    let sender := if msg.Prefix.length = 9 then msg.Prefix else msg.SenderID
    match privmsgLoop E L Config fuel core hook msg sender text quiet recipients [] [] [] with
    | Outcome.crash => Outcome.crash
    | Outcome.outOfFuel => Outcome.outOfFuel
    | Outcome.ret (locals, remotes, sent) =>
      match privmsgForward fuel core hook sender text remotes sent with
      | Outcome.crash => Outcome.crash
      | Outcome.outOfFuel => Outcome.outOfFuel
      | Outcome.ret sent1 =>
        if locals.length > 0 then
          Outcome.ret (sent1 ++ [Sent.ToClient
            { Prefix := sender, Command := hook, Args := ["*", text],
              SenderID := "", DestIDs := locals }])
        else Outcome.ret sent1
  | _ => Outcome.crash

/-! ## `src/ircd/ircd.go`: the handshake of a new connection -/

/-- The local variables of the closure `manage` of `manageIncoming`. -/
structure Handshake where
  user : Bool
  nick : Bool
  pass : Bool
  server : Bool
  capab : Bool
  sid : String
  queued : List Message
  deriving DecidableEq, Repr

/-- The local variables of `manage` before its loop. -/
def Handshake.start : Handshake :=
  { user := false, nick := false, pass := false, server := false, capab := false,
    sid := "", queued := [] }

/-- The case `msg := <-inc` of the loop of `manage`. -/
def Handshake.receive (L : Protocol) (h : Handshake) (msg : Message) : Handshake :=
  let h1 : Handshake := { h with queued := h.queued ++ [msg] }
  if msg.Command = L.CMD_PASS then
    if msg.Args.length = 4 then { h1 with pass := true, sid := msg.Args.getD 3 "" } else h1
  else if msg.Command = L.CMD_USER then { h1 with user := true }
  else if msg.Command = L.CMD_NICK then { h1 with nick := true }
  else if msg.Command = L.CMD_CAPAB then { h1 with capab := true }
  else if msg.Command = L.CMD_SERVER then { h1 with server := true }
  else h1

/-- What the connection delivers to `manage`: on `inc` a message that
`readthread` has parsed, or on `stop` the news that the stream has died. -/
inductive ConnEvent where
  | message (msg : Message)
  | stop
  deriving DecidableEq, Repr

/-- How `manage` goes on: it still waits in its loop, it has returned on `stop`,
or it has handed the connection, with its identity, to `newClient` or to
`newServer` and sent the queued messages on `fromClient` or on `fromServer`. -/
inductive Handover where
  | waiting (h : Handshake)
  | stopped
  | client (connID : String) (fromClient : List Message)
  | server (connID : String) (fromServer : List Message)
  deriving DecidableEq, Repr

/-- The statement `message.SenderID = c.id` of `readthread`. -/
def stamp (id : String) (msg : Message) : Message := { msg with SenderID := id }

/-- The closure `manage` of `manageIncoming` on a connection with the identity
`connID`, over the events the connection delivers; `quit` stays false while
`manageIncoming` runs. `conn.SetServer(sid)` is a runtime panic when the identity
of the connection has not nine characters. -/
def manage (L : Protocol) (connID : String) : Handshake → List ConnEvent → Outcome Handover
  | h, [] => Outcome.ret (Handover.waiting h)
  | _, ConnEvent.stop :: _ => Outcome.ret Handover.stopped
  | h, ConnEvent.message msg :: rest =>
    let h1 := h.receive L (stamp connID msg)
    if h1.nick && h1.user then Outcome.ret (Handover.client connID h1.queued)
    else if h1.pass && h1.server && h1.capab then
      if connID.length ≠ 9 then Outcome.crash
      else Outcome.ret (Handover.server h1.sid (h1.queued.map (stamp h1.sid)))
    else manage L connID h1 rest

/-! ## `src/src/pkg/registration.go`: `Uid`, `Sid`, `Quit` and `SQuit` -/

/-- The values of the local variable `fmsg` in the last loop of `Uid` and of
`Sid`: a copy of the message for each link of `ServerIter()` other than the
sender, with that link as the only destination. No statement sends them. -/
def forwardCopies (servers : Topology) (msg : Message) : List Message :=
  ((ServerIter servers).filter (fun fwd => decide (fwd ≠ msg.SenderID))).map
    (fun fwd => { msg with DestIDs := [fwd] })

/-- The handler `Uid`: the registries afterwards and the messages sent. The
nine `msg.Args[i]` are runtime panics on a message with fewer arguments; the
last loop assigns `fmsg` and sends nothing. -/
def Uid (E : Env) (L : Protocol) (Config : Configuration) (core : Core) (msg : Message) :
    Outcome (Core × List Sent) :=
  match msg.Args with
  | nickname :: hopcount :: nickTS :: _ :: username :: hostname :: ip :: uid :: name :: _ =>
    let r := Import E core.users uid nickname username hostname ip hopcount nickTS name
    let sent : List Sent :=
      match r.2 with
      | some err =>
        [Sent.ToServer
          { Prefix := Config.SID, Command := L.CMD_SQUIT, Args := [uid, err.Error L],
            SenderID := "", DestIDs := [msg.SenderID] }]
      | none => []
    Outcome.ret ({ core with users := r.1 }, sent)
  | _ => Outcome.crash

/-- The handler `Sid`: the registries afterwards and the messages sent. The last
loop assigns `fmsg` and sends nothing. -/
def Sid (E : Env) (L : Protocol) (Config : Configuration) (fuel : Nat) (core : Core)
    (msg : Message) : Outcome (Core × List Sent) :=
  match msg.Args with
  | servname :: hopcount :: sid :: desc :: _ =>
    match LinkServer E fuel core.servers msg.Prefix sid servname hopcount desc with
    | Outcome.crash => Outcome.crash
    | Outcome.outOfFuel => Outcome.outOfFuel
    | Outcome.ret (servers, err) =>
      let sent : List Sent :=
        match err with
        | some e =>
          [Sent.ToServer
            { Prefix := Config.SID, Command := L.CMD_SQUIT, Args := [sid, e.Error L],
              SenderID := "", DestIDs := [msg.SenderID] }]
        | none => []
      Outcome.ret ({ core with servers := servers }, sent)
  | _ => Outcome.crash

/-- The two loops of `Quit` over `members` and over each of its lists, one list
after the other: the set `peers`. The test reads `uid[:3]` first, a runtime
panic on a UID shorter than three characters. -/
def quitPeers (Config : Configuration) (quitter : String) :
    List String → GoMap Bool → Option (GoMap Bool)
  | [], peers => some peers
  | uid :: rest, peers =>
    match sidOf uid with
    | none => none
    | some sid =>
      if sid = Config.SID ∧ uid ≠ quitter then
        quitPeers Config quitter rest (peers.set uid true)
      else quitPeers Config quitter rest peers

/-- The handler `Quit` at the time `now`: the registries afterwards and the
messages sent, in order. -/
def Quit (L : Protocol) (Config : Configuration) (core : Core) (msg : Message) (now : Time) :
    Outcome (Core × List Sent) :=
  let reason := match msg.Args with
    | [] => "Client Quit"
    | r :: _ => r
  let quitter := if msg.SenderID.length = 3 then msg.Prefix else msg.SenderID
  let forwards : List Sent :=
    ((ServerIter core.servers).filter (fun sid => decide (sid ≠ msg.SenderID))).map
      (fun sid => Sent.ToServer
        { Prefix := quitter, Command := L.CMD_QUIT, Args := [reason],
          SenderID := "", DestIDs := [sid] })
  let r := PartAll core.chans quitter now
  match quitPeers Config quitter (r.2.entries.map Prod.snd).flatten GoMap.empty with
  | none => Outcome.crash
  | some peers =>
    let notice : List Sent :=
      if peers.size > 0 then
        [Sent.ToClient
          { Prefix := quitter, Command := L.CMD_QUIT, Args := ["Quit: " ++ reason],
            SenderID := "", DestIDs := peers.keys }]
      else []
    let error : Message :=
      { Prefix := "", Command := L.CMD_ERROR, Args := ["Closing Link (" ++ reason ++ ")"],
        SenderID := "", DestIDs := [quitter] }
    Outcome.ret ({ core with chans := r.1 }, forwards ++ notice ++ [Sent.ToClient error])

/-- The handler `SQuit`: the registries afterwards and the messages sent, in
order. `msg.Args[0]` and `msg.Args[1]` are runtime panics on a message with fewer
than two arguments. -/
def SQuit (L : Protocol) (Config : Configuration) (fuel : Nat) (core : Core) (msg : Message) :
    Outcome (Core × List Sent) :=
  match msg.Args with
  | split0 :: reason :: _ =>
    let split := if split0 = Config.SID then msg.SenderID else split0
    let forwards : List Sent :=
      ((ServerIter core.servers).filter (fun sid => decide (sid ≠ msg.SenderID))).map
        (fun sid => Sent.ToServer { msg with DestIDs := [sid] })
    let error : List Sent :=
      if IsLocal core.servers split then
        [Sent.ToServer
          { Prefix := "", Command := L.CMD_ERROR, Args := ["SQUIT: " ++ reason],
            SenderID := "", DestIDs := [] }]
      else []
    match Unlink core.servers fuel split with
    | none => Outcome.outOfFuel
    | some (servers, sids) =>
      match UserSplit core.users sids with
      | none => Outcome.crash
      | some peers =>
        match ChanSplit core.chans Config.SID peers with
        | Outcome.crash => Outcome.crash
        | Outcome.outOfFuel => Outcome.outOfFuel
        | Outcome.ret (chans, notify) =>
          let quits : List Sent :=
            (notify.entries.filter (fun e => decide (e.2.length > 0))).map
              (fun e => Sent.ToClient
                { Prefix := e.1, Command := L.CMD_QUIT, Args := ["*.net *.split"],
                  SenderID := "", DestIDs := e.2 })
          let delusers : List Sent :=
            if peers.length > 0 then
              [Sent.ToClient
                { Prefix := "", Command := L.INT_DELUSER, Args := [],
                  SenderID := "", DestIDs := peers }]
            else []
          Outcome.ret ({ servers := servers, users := core.users, chans := chans },
            forwards ++ error ++ quits ++ delusers)
  | _ => Outcome.crash

/-! ## `src/ircd/ircd.go`: the client manager and its queue `ToClient` -/

/-- The state of `manageClients`: the user registry and the map `uid2conn`,
whose values are `nil` or a connection, named by its identity. -/
structure ClientManager where
  users : UserReg
  uid2conn : GoMap (Option String)
  deriving DecidableEq

/-- The function `isuid(id)`. -/
def isuid (id : String) : Bool :=
  decide (id.length = 9) &&
    match id.data.head? with
    | some c => isDigit c
    | none => false

/-- The loop of the case `ToClient` that sorts `msg.DestIDs` into `local` and
`remote`; `id[:3]` is a runtime panic on an ID shorter than three characters. -/
def destSides (Config : Configuration) :
    List String → List String → List String → Option (List String × List String)
  | [], locals, remotes => some (locals, remotes)
  | id :: rest, locals, remotes =>
    match sidOf id with
    | none => none
    | some sid =>
      if sid ≠ Config.SID then destSides Config rest locals (remotes ++ [id])
      else destSides Config rest (locals ++ [id]) remotes

/-- The last loop of the case `ToClient`, over `msg.DestIDs`: the state
afterwards and the calls of `WriteMessage`, each with the identity of the
connection and the message as it stands at the call. A call on a `nil`
connection is a runtime panic. -/
def sendLoop (E : Env) (setnick setprefix closeafter : Bool) :
    List String → Message → ClientManager → List (String × Message) →
      Outcome (ClientManager × List (String × Message))
  | [], _, st, written => Outcome.ret (st, written)
  | id :: rest, msg, st, written =>
    match st.uid2conn.get? id with
    | none => sendLoop E setnick setprefix closeafter rest msg st written
    | some conn =>
      let nick := match st.users.userMap.get? id with
        | some u => u.nick
        | none => ""
      let msg1 : Message := if setnick then { msg with Args := msg.Args.set 0 nick } else msg
      let msg2 : Message := if setprefix then { msg1 with Prefix := nick } else msg1
      match conn with
      | none => Outcome.crash
      | some c =>
        if closeafter then
          sendLoop E setnick setprefix closeafter rest msg2
            { users := Delete E st.users id, uid2conn := st.uid2conn.set id none }
            (written ++ [(c, msg2)])
        else sendLoop E setnick setprefix closeafter rest msg2 st (written ++ [(c, msg2)])

/-- The case `msg, open = <-s.ToClient` of the loop of `manageClients`: the
state afterwards and the calls of `WriteMessage`. -/
def handleToClient (E : Env) (L : Protocol) (Config : Configuration) (st : ClientManager)
    (msg : Message) : Outcome (ClientManager × List (String × Message)) :=
  if msg.Command = L.INT_DELUSER then
    Outcome.ret ({ st with users := msg.DestIDs.foldl (Delete E) st.users }, [])
  else
    let setnick := decide (msg.Args.length > 0) && decide (msg.Args.head? = some "*")
    let setprefix := decide (msg.Prefix = "*")
    let closeafter := decide (msg.Command = L.CMD_ERROR)
    let msg1 : Message :=
      if closeafter then { msg with Prefix := "" }
      else if msg.Prefix.length = 0 then { msg with Prefix := Config.Name }
      else msg
    match destSides Config msg.DestIDs [] [] with
    | none => Outcome.crash
    | some (locals, remotes) =>
      let users1 :=
        if remotes.length > 0 ∧ closeafter = true then remotes.foldl (Delete E) st.users
        else st.users
      if remotes.length > 0 ∧ locals.length = 0 then
        Outcome.ret ({ st with users := users1 }, [])
      else
        let msg2 : Message :=
          if isuid msg1.Prefix then
            match users1.userMap.get? msg1.Prefix with
            | none => msg1
            | some u => { msg1 with Prefix := u.nick ++ "!" ++ u.user ++ "@host" }
          else msg1
        let msg3 : Message :=
          { msg2 with Args := msg2.Args.map (fun a =>
              if isuid a then
                match users1.userMap.get? a with
                | none => a
                | some u => u.nick
              else a) }
        sendLoop E setnick setprefix closeafter msg.DestIDs msg3 { st with users := users1 } []

/-- The case `msg = <-s.fromClient` of the loop of `manageClients`: the state
afterwards and the message handed to `DispatchClient`, if any. The map
`uid2conn` is a local variable of `manageClients`, out of the reach of the
hooks. -/
def handleFromClient (E : Env) (L : Protocol) (st : ClientManager) (msg : Message) :
    ClientManager × Option Message :=
  let got := GetUser st.users msg.SenderID
  let uid := got.2.id
  if msg.Command = L.CMD_ERROR then
    let users2 := Delete E got.1 uid
    match st.uid2conn.get? uid with
    | some (some _) =>
      ({ users := Delete E users2 uid, uid2conn := st.uid2conn.set uid none }, none)
    | _ => ({ users := users2, uid2conn := st.uid2conn }, none)
  else ({ users := got.1, uid2conn := st.uid2conn }, some msg)

/-- The case `conn := <-s.newClient` of the loop of `manageClients`; the
connection is named by its identity `conn.ID()`. -/
def handleNewClient (st : ClientManager) (conn : String) : ClientManager :=
  { users := (GetUser st.users conn).1, uid2conn := st.uid2conn.set conn (some conn) }

/-- The case `closeid := <-s.clientClosing` of the loop of `manageClients`. -/
def handleClientClosing (E : Env) (st : ClientManager) (closeid : String) : ClientManager :=
  { users := Delete E st.users closeid, uid2conn := st.uid2conn.set closeid none }

/-! ## `src/ircd/ircd.go`: the server manager and its queue `ToServer` -/

/-- The state of `manageServers`: the topology and the map `sid2conn`, whose
values are `nil` or a connection, named by its identity. -/
structure ServerManager where
  servers : Topology
  sid2conn : GoMap (Option String)
  deriving DecidableEq

/-- The case `msg = <-s.fromServer` of the loop of `manageServers`: the state
afterwards and the message handed to `DispatchServer`, if any. The map
`sid2conn` is a local variable of `manageServers`, out of the reach of the
hooks. -/
def handleFromServer (L : Protocol) (st : ServerManager) (msg : Message) :
    ServerManager × Option Message :=
  match st.sid2conn.get? msg.SenderID with
  | none => (st, none)
  | some conn =>
    if msg.Command = L.CMD_ERROR then
      match conn with
      | some _ =>
        ({ st with sid2conn := st.sid2conn.set msg.SenderID none },
          if IsLocal st.servers msg.SenderID then
            some { Prefix := "", Command := L.CMD_SQUIT,
                   Args := [msg.SenderID, "Unexpected ERROR on connection"],
                   SenderID := msg.SenderID, DestIDs := [] }
          else none)
      | none => (st, none)
    else (st, some msg)

/-- The loop of the case `ToServer` over `msg.DestIDs`: the calls of
`WriteMessage`, each with the identity of the connection and the message. A call
on a `nil` connection is a runtime panic. -/
def writeLoop (sid2conn : GoMap (Option String)) (msg : Message) :
    List String → List (String × Message) → Outcome (List (String × Message))
  | [], written => Outcome.ret written
  | dest :: rest, written =>
    match sid2conn.get? dest with
    | some (some c) => writeLoop sid2conn msg rest (written ++ [(c, msg)])
    | some none => Outcome.crash
    | none => writeLoop sid2conn msg rest written

/-- The case `msg, open = <-s.ToServer` of the loop of `manageServers`: the
calls of `WriteMessage`. -/
def handleToServer (st : ServerManager) (msg : Message) : Outcome (List (String × Message)) :=
  writeLoop st.sid2conn msg msg.DestIDs []

/-- The case `conn := <-s.newServer` of the loop of `manageServers`; the
connection is named by its identity `conn.ID()`. -/
def handleNewServer (st : ServerManager) (conn : String) : ServerManager :=
  { servers := (GetServer st.servers conn true).1,
    sid2conn := st.sid2conn.set conn (some conn) }

/-- The case `closeid := <-s.serverClosing` of the loop of `manageServers`: the
state afterwards and the message handed to `DispatchServer`, if any. -/
def handleServerClosing (L : Protocol) (st : ServerManager) (closeid : String) :
    ServerManager × Option Message :=
  ({ st with sid2conn := st.sid2conn.set closeid none },
    if IsLocal st.servers closeid then
      some { Prefix := "", Command := L.CMD_SQUIT, Args := [closeid, "Connection close"],
             SenderID := closeid, DestIDs := [] }
    else none)

/-- Modelled from the spec: a case-fold ("folds case") of the ASCII letters, for
the examples. -/
def asciiLower (s : String) : String := ⟨s.data.map Char.toLower⟩

/-- Modelled from the spec: collaborators for the examples. A nick is a non-empty
string of ASCII letters and digits, a channel name starts with `#`, both folds
lower the ASCII letters, and the two number readers are not looked at. -/
def sampleEnv : Env :=
  { ValidNick := fun s => !s.data.isEmpty && s.data.all Char.isAlphanum
    ValidChannel := fun s => s.data.head? = some '#'
    ToLower := asciiLower
    stringsToLower := asciiLower
    Atoi := fun _ => 0
    ParseInt := fun _ => 0 }

/-- A case-fold for the examples that lowers the ASCII letters and folds `[` and
`]` to `{` and `}`, as the case mapping of IRC does. -/
def bracketLower (s : String) : String :=
  ⟨s.data.map (fun c => if c = '[' then '{' else if c = ']' then '}' else c.toLower)⟩

/-- Collaborators for the examples in which `ToLower` folds the brackets and
`strings.ToLower` lowers the letters only. -/
def bracketEnv : Env :=
  { ValidNick := fun s => !s.data.isEmpty && s.data.all (fun c => c.isAlphanum || c = '[' || c = ']')
    ValidChannel := fun s => s.data.head? = some '#'
    ToLower := bracketLower
    stringsToLower := asciiLower
    Atoi := fun _ => 0
    ParseInt := fun _ => 0 }

/-- Modelled from the spec: a catalog for the examples, with the command tokens
of IRC; a numeric is rendered with its parameters as arguments. -/
def ircProtocol : Protocol :=
  { CMD_PING := "PING", CMD_PONG := "PONG", CMD_PASS := "PASS", CMD_USER := "USER",
    CMD_NICK := "NICK", CMD_CAPAB := "CAPAB", CMD_SERVER := "SERVER", CMD_ERROR := "ERROR",
    CMD_QUIT := "QUIT", CMD_SQUIT := "SQUIT", CMD_UID := "UID", CMD_SID := "SID",
    CMD_PRIVMSG := "PRIVMSG", CMD_NOTICE := "NOTICE", INT_DELUSER := "INT_DELUSER",
    NumericMessage := fun n dest =>
      { Prefix := "", Command := "numeric", Args := n.args, SenderID := "", DestIDs := dest },
    NumericError := fun _ => "numeric" }

/-- The configuration of the examples: this server has the SID `1AA`. -/
def sampleConfig : Configuration := { Name := "irc.example", SID := "1AA" }

/-- The Go library function `strconv.ParseInt(s, 10, 64)` as `Import` uses it,
the error dropped: the value read, the nearest bound for a number out of range,
and 0 for a text that is no number. -/
def parseInt64 (s : String) : Int :=
  match strconvAtoi s.data with
  | Except.ok v => v
  | Except.error (NumError.ErrRange _) =>
    if s.data.head? = some '-' then - 2 ^ 63 else 2 ^ 63 - 1
  | Except.error (NumError.ErrSyntax _) => 0

/-- The collaborators of the examples, with `strconv.ParseInt` reading the
decimal numbers. -/
def clockEnv : Env := { sampleEnv with ParseInt := parseInt64 }

/-- The Kelvin sign U+212A, a capital letter outside of ASCII whose lower case
in Unicode is the letter `k`. -/
def kelvin : String := ⟨[Char.ofNat 8490]⟩

/-- The Go library function `strings.ToLower` on the ASCII letters and the
Kelvin sign: the Unicode lower case. -/
def kelvinLower (s : String) : String :=
  ⟨s.data.map (fun c => if c = Char.ofNat 8490 then 'k' else c.toLower)⟩

/-- Collaborators for the examples in which `ToLower` lowers the ASCII letters
only and `strings.ToLower` lowers the Kelvin sign as well. -/
def kelvinEnv : Env := { sampleEnv with stringsToLower := kelvinLower }

/-! ## Properties of the states -/

/-- The keys of `downstream` are the keys of `servMap`. -/
def Topology.SameKeys (st : Topology) : Prop :=
  ∀ k, st.servMap.has k = st.downstream.has k

/-- The case-fold puts `*`, the nick of a user who has none, in a class of its own. -/
def Env.StarAlone (E : Env) : Prop :=
  ∀ m, E.ToLower m = E.ToLower "*" → m = "*"

/-- The fold `strings.ToLower` that `Delete` uses never yields the `ToLower` key
of a nick from another fold class; it holds when the two folds agree. -/
def Env.DeleteFoldsAlike (E : Env) : Prop :=
  ∀ a b, E.ToLower b = E.stringsToLower a → E.ToLower a = E.ToLower b

/-- Every record is stored under its own UID, and the index gives the case-fold
of the nick of every user with a nick to that user. -/
def UserReg.Indexed (E : Env) (st : UserReg) : Prop :=
  (∀ uid u, st.userMap.get? uid = some u → u.id = uid) ∧
  (∀ uid u, st.userMap.get? uid = some u → u.nick ≠ "*" →
    st.userNicks.get? (E.ToLower u.nick) = some uid)

/-- The walk through `upstream` that starts at `s` ends at `r`: `r` is the first
SID on the way that has no `upstream` entry. -/
def EndsAt (upstream : GoMap String) (s r : String) : Prop :=
  ∃ n, walkUp upstream n s = some r

/-- The SID `x` is marked in the cache of `IterFor`. -/
def Cached (cache : GoMap Bool) (x : String) : Prop :=
  (cache.get? x).getD false = true

/-- What the loop `nextId` of `IterFor` keeps true of the cache and the links,
after the IDs `done`: the cache is closed under `upstream`, every cached SID
without an `upstream` entry is the skipped one or a link, the links are
pairwise distinct, and each link is cached, is not the skipped SID and ends the
walk of one of the IDs. -/
def IterInv (up : GoMap String) (skip : String) (done : List String)
    (cache : GoMap Bool) (links : List String) : Prop :=
  (∀ x a, Cached cache x → up.get? x = some a → Cached cache a) ∧
  (∀ x, Cached cache x → up.get? x = none → x = skip ∨ x ∈ links) ∧
  links.Nodup ∧
  (∀ r ∈ links, Cached cache r ∧ r ≠ skip ∧
    ∃ id ∈ done, ∃ sid, sidOf id = some sid ∧ EndsAt up sid r) ∧
  (∀ id ∈ done, ∃ sid, sidOf id = some sid ∧ Cached cache sid)

/-- The index gives a key to a user only when the record of that user has a
nick other than `*` whose case-fold is the key. -/
def UserReg.IndexOwned (E : Env) (st : UserReg) : Prop :=
  ∀ k i, st.userNicks.get? k = some i →
    ∃ u, st.userMap.get? i = some u ∧ u.nick ≠ "*" ∧ E.ToLower u.nick = k

/-- The states reached from the empty user registry by `GetUser`, `SetNick` on
a record of `userMap`, `Import` with a nick other than `*`, and `Delete` of a
user whose nick `strings.ToLower` and `ToLower` fold to the same key. -/
inductive UserReg.ReachableTame (E : Env) : UserReg → Prop where
  | init : UserReg.ReachableTame E UserReg.empty
  | getUser (st : UserReg) (id : String) :
      UserReg.ReachableTame E st → UserReg.ReachableTame E (GetUser st id).1
  | setNick (st st' : UserReg) (uid nick : String) (now : Time) (err : Option Numeric) :
      UserReg.ReachableTame E st → SetNick E st uid nick now = some (st', err) →
      UserReg.ReachableTame E st'
  | importUser (st : UserReg) (uid nick user host ip hops ts name : String) :
      UserReg.ReachableTame E st → nick ≠ "*" →
      UserReg.ReachableTame E (Import E st uid nick user host ip hops ts name).1
  | delete (st : UserReg) (id : String) :
      UserReg.ReachableTame E st →
      (∀ u, st.userMap.get? id = some u → E.stringsToLower u.nick = E.ToLower u.nick) →
      UserReg.ReachableTame E (Delete E st id)

/-- The SID `c` is a member of `downstream[p]`. -/
def Topology.Edge (st : Topology) (p c : String) : Prop :=
  ∃ kids, st.downstream.get? p = some kids ∧ c ∈ kids.keys

/-- The SID `b` is `a` or is reached from `a` through `downstream` edges. -/
def Topology.Below (st : Topology) (a b : String) : Prop :=
  Relation.ReflTransGen st.Edge a b

/-- Every member of a `downstream` set is a key of `servMap` and has the owner
of the set as its `upstream` entry. -/
def Topology.KidsKnown (st : Topology) : Prop :=
  ∀ p c, st.Edge p c → st.upstream.get? c = some p ∧ st.servMap.has c = true

/-- The `downstream` edges go up in some numbering of the SIDs that is bounded
on `servMap`: there is no circle of edges. -/
def Topology.Ranked (st : Topology) : Prop :=
  ∃ (rank : String → Nat) (N : Nat),
    (∀ p c, st.Edge p c → rank p < rank c) ∧ ∀ x, st.servMap.has x = true → rank x ≤ N

/-- One round of the loop of `linkedTo` over the `downstream` set. -/
def linkedStep (st : Topology) (n : Nat) (acc : Option (List String)) (d : String) :
    Option (List String) :=
  match acc with
  | none => none
  | some sids =>
    match linkedTo st n d with
    | none => none
    | some more => some (sids ++ more)

/-- The digit of value `d` in the order A..Z, 0..9. -/
def digit36 (d : Nat) : Char :=
  if d < 26 then Char.ofNat (65 + d) else Char.ofNat (48 + (d - 26))

/-- The base-36 numeral of `n` with `len` digits, the least significant first. -/
def numeralRev : Nat → Nat → List Char
  | 0, _ => []
  | len + 1, n => digit36 (n % 36) :: numeralRev len (n / 36)

/-- The base-36 numeral of `n` with `len` digits, the most significant first. -/
def numeral36 (len n : Nat) : List Char := (numeralRev len n).reverse

/-- One item of a port string: white space, a number, possibly `-` and a second
number, white space. -/
structure PortItem where
  lead : List Char
  lo : List Char
  hi : Option (List Char)
  trail : List Char

/-- The number and the range of an item, without the white space around. -/
def PortItem.core (i : PortItem) : List Char :=
  match i.hi with
  | none => i.lo
  | some h => i.lo ++ '-' :: h

/-- The text of an item. -/
def PortItem.text (i : PortItem) : List Char := i.lead ++ i.core ++ i.trail

/-- A string of decimal digits, at least one. -/
def isNumber (ds : List Char) : Bool := !ds.isEmpty && ds.all isDigit

/-- An item of the expected shape: white space around, `N` or `lo-hi` with
`lo ≤ hi`, the numbers within the range of `int` and `hi` below its last value. -/
def PortItem.ok (i : PortItem) : Bool :=
  i.lead.all isSpace && i.trail.all isSpace && isNumber i.lo &&
    decide (decVal i.lo < 2 ^ 63) &&
    match i.hi with
    | none => true
    | some h => isNumber h && decide (decVal i.lo ≤ decVal h) &&
        decide (decVal h < 2 ^ 63 - 1)

/-- The number of ports of an item. -/
def PortItem.span (i : PortItem) : Nat :=
  match i.hi with
  | none => 1
  | some h => decVal h + 1 - decVal i.lo

/-- The ports an item stands for: `[N]`, or `lo, lo+1, …, hi`. -/
def PortItem.ports (i : PortItem) : List Int :=
  match i.hi with
  | none => [(decVal i.lo : Int)]
  | some _ => (List.range i.span).map (fun (k : Nat) => (decVal i.lo : Int) + (k : Int))

/-- The endpoints of an item of a port string: the pieces between the `-` of
the item without the white space around it. -/
def endpoints (rng : List Char) : List (List Char) := splitOn '-' (TrimSpace rng)

/-- An endpoint that is no decimal integer for `strconv.Atoi`: anything but an
optional sign and decimal digits with a value that fits an `int` of 64 bits. -/
def noInteger (e : List Char) : Bool :=
  match strconvAtoi e with
  | Except.ok _ => false
  | Except.error _ => true

/-- The `lo` and `hi` of an item with two endpoints that are decimal integers. -/
def rangeOf (rng : List Char) : Option (Int × Int) :=
  match endpoints rng with
  | [e0, e1] =>
    match strconvAtoi e0, strconvAtoi e1 with
    | Except.ok lo, Except.ok hi => some (lo, hi)
    | _, _ => none
  | _ => none

/-- An item that has more than two endpoints, or an endpoint that is no decimal
integer, or `lo > hi`. -/
def badItem (rng : List Char) : Bool :=
  decide ((endpoints rng).length > 2) || (endpoints rng).any noInteger ||
    match rangeOf rng with
    | some (lo, hi) => decide (lo > hi)
    | none => false

/-- An item whose range, if it is one, ends below the last `int` and has fewer
ports than the steps the loop is given. -/
def tameItem (fuel : Nat) (rng : List Char) : Bool :=
  match rangeOf rng with
  | some (lo, hi) => decide (hi < 2 ^ 63 - 1) && decide (hi + 1 - lo < (fuel : Int))
  | none => true

/-- The pieces with a comma between each two. -/
def commaJoin : List (List Char) → List Char
  | [] => []
  | [p] => p
  | p :: q :: r => p ++ ',' :: commaJoin (q :: r)

/-- The three roles of a sender. -/
inductive Role where
  | Registration
  | User
  | Server
  deriving DecidableEq, Repr

/-- The position of the bit of a role in an execution mask. -/
def Role.index : Role → Nat
  | Role.Registration => 0
  | Role.User => 1
  | Role.Server => 2

/-- The role of a user of a registration stage. -/
def Role.ofUser : userType → Role
  | userType.UnregisteredUser => Role.Registration
  | userType.RegisteredAsUser => Role.User

/-- The role of a server of a registration stage. -/
def Role.ofServer : servType → Role
  | servType.UnregisteredServer => Role.Registration
  | servType.RegisteredAsServer => Role.Server

/-- The hooks of a command after a dispatch for a role: one more call for each
hook whose mask contains the bit of the role. -/
def hooksAfter (role : Role) (hs : List Hook) : List Hook :=
  hs.map (fun h => if h.When.testBit role.index then { h with Calls := h.Calls + 1 } else h)

/-- The calls for a role: one for each hook whose mask contains the bit of the
role, in the order of the registrations. -/
def callsFor (role : Role) (message : Message) (hs : List Hook) : List Call :=
  (hs.filter (fun h => h.When.testBit role.index)).map
    (fun h => ⟨h.Func, message.Command, message⟩)

/-- Some message of the list has the command `c`. -/
def hasCommand (c : String) (msgs : List Message) : Bool :=
  msgs.any (fun m => decide (m.Command = c))

/-- Some message of the list is a `PASS` with exactly four arguments. -/
def hasPass (L : Protocol) (msgs : List Message) : Bool :=
  msgs.any (fun m => decide (m.Command = L.CMD_PASS) && decide (m.Args.length = 4))

/-- The fourth argument of the last `PASS` with exactly four arguments. -/
def passSID (L : Protocol) (msgs : List Message) : String :=
  msgs.foldl
    (fun sid m => if m.Command = L.CMD_PASS ∧ m.Args.length = 4 then m.Args.getD 3 "" else sid)
    ""

/-- The messages contain both `NICK` and `USER`. -/
def clientReady (L : Protocol) (msgs : List Message) : Bool :=
  hasCommand L.CMD_NICK msgs && hasCommand L.CMD_USER msgs

/-- The messages contain `PASS` with exactly four arguments, `SERVER` and
`CAPAB`. -/
def serverReady (L : Protocol) (msgs : List Message) : Bool :=
  hasPass L msgs && hasCommand L.CMD_SERVER msgs && hasCommand L.CMD_CAPAB msgs

/-- The five command tokens of the handshake differ from each other. -/
def Protocol.HandshakeTokens (L : Protocol) : Prop :=
  [L.CMD_PASS, L.CMD_USER, L.CMD_NICK, L.CMD_CAPAB, L.CMD_SERVER].Nodup

/-- The sender `Privmsg` works with: the prefix of the message when it has nine
characters, the identity of the connection otherwise. -/
def senderOf (msg : Message) : String :=
  if msg.Prefix.length = 9 then msg.Prefix else msg.SenderID

/-- The members of a channel other than the sender whose first three characters
are the SID of this server. -/
def localMembers (Config : Configuration) (sender : String) (channel : Channel) :
    List String :=
  channel.users.keys.filter
    (fun uid => decide (uid ≠ sender) && decide (sidOf uid = some Config.SID))

/-- The members of a channel other than the sender whose first three characters
are not the SID of this server. -/
def remoteMembers (Config : Configuration) (sender : String) (channel : Channel) :
    List String :=
  channel.users.keys.filter
    (fun uid => decide (uid ≠ sender) && !decide (sidOf uid = some Config.SID))

/-- The messages a handler has sent when it returns. -/
def sentOf (o : Outcome (Core × List Sent)) : Option (List Sent) :=
  match o with
  | Outcome.ret r => some r.2
  | _ => none

/-- The name of every channel that `chanMap` leads to is, when it is a key of
`chanMap`, a key of that same channel. -/
def ChanReg.OwnName (st : ChanReg) : Prop :=
  ∀ k p c p', st.chanMap.get? k = some p → st.store.get? p = some c →
    st.chanMap.get? c.name = some p' → p' = p

/-- What the loop of `PartAll(q)` keeps true, between the registry `st0` before
the call and the registry `st` and the map `notify` so far: a channel is as
before or has lost `q`; `chanMap` has lost keys only, and a key it has lost led
to a channel that is now without `q`; and `notify` lists, under a name, the
members before the call of the channels of that name that have lost `q`. -/
def PartInv (st0 : ChanReg) (q : String) (st : ChanReg) (notify : GoMap (List String)) :
    Prop :=
  (∀ p c0, st0.store.get? p = some c0 → ∃ c, st.store.get? p = some c ∧ c.name = c0.name ∧
    (c = c0 ∨ (c0.users.has q = true ∧ c.users = c0.users.del q))) ∧
  (∀ p c, st.store.get? p = some c → ∃ c0, st0.store.get? p = some c0) ∧
  (∀ k x, st.chanMap.get? k = some x → st0.chanMap.get? k = some x) ∧
  (∀ k x, st0.chanMap.get? k = some x → st.chanMap.get? k = none →
    ∀ c, st.store.get? x = some c → c.users.has q = false) ∧
  (∀ name y, y ∈ (notify.get? name).getD [] ↔
    ∃ p c0 c, st0.store.get? p = some c0 ∧ st.store.get? p = some c ∧ c0.name = name ∧
      c0.users.has q = true ∧ c.users.has q = false ∧ y ∈ c0.users.keys ∧
      ∃ k, st0.chanMap.get? k = some p)

/-- The reason `Quit` works with: the first argument of the message, or
`Client Quit` when there is none. -/
def quitReason (msg : Message) : String :=
  match msg.Args with
  | [] => "Client Quit"
  | r :: _ => r

/-- The case-fold `ToLower`, applied twice, gives what it gives applied once. -/
def Env.FoldsOnce (E : Env) : Prop := ∀ s, E.ToLower (E.ToLower s) = E.ToLower s

/-- Every key of `chanMap` leads to a channel of the store and is the name of
that channel or the case-fold of its name, and the case-fold of the name is a key
of that channel too. -/
def ChanReg.Keyed (E : Env) (st : ChanReg) : Prop :=
  ∀ k p, st.chanMap.get? k = some p →
    ∃ c, st.store.get? p = some c ∧ (k = c.name ∨ k = E.ToLower c.name) ∧
      st.chanMap.get? (E.ToLower c.name) = some p

/-- The registries reached from the empty one by calls of `GetChannel`, of
`Join` and `Part` on a channel that `chanMap` leads to (a handler uses a channel
right after `GetChannel` has returned it), of `PartAll` and of `ChanSplit`. -/
inductive ChanReg.Reachable (E : Env) : ChanReg → Prop where
  | init : ChanReg.Reachable E ChanReg.empty
  | getChannel (st : ChanReg) (name : String) (create : Bool) :
      ChanReg.Reachable E st → ChanReg.Reachable E (GetChannel E st name create).1
  | joinAt (st st' : ChanReg) (k : String) (p : Nat) (uids : List String) (now : Time)
      (r : Option (List String) × Option Numeric) :
      ChanReg.Reachable E st → st.chanMap.get? k = some p →
      JoinAt st p uids now = some (st', r) → ChanReg.Reachable E st'
  | partAt (st st' : ChanReg) (k : String) (p : Nat) (uid : String) (now : Time)
      (r : Option (List String) × Option Numeric) :
      ChanReg.Reachable E st → st.chanMap.get? k = some p →
      PartAt st p uid now = some (st', r) → ChanReg.Reachable E st'
  | partAll (st : ChanReg) (uid : String) (now : Time) :
      ChanReg.Reachable E st → ChanReg.Reachable E (PartAll st uid now).1
  | chanSplit (st st' : ChanReg) (sid : String) (uids : List String)
      (notify : GoMap (List String)) :
      ChanReg.Reachable E st → ChanSplit st sid uids = Outcome.ret (st', notify) →
      ChanReg.Reachable E st'

/-- The nick that `GetUserInfo(id)` returns: the nick of the record, and the
empty string when there is none. -/
def nickOf (users : UserReg) (id : String) : String :=
  match users.userMap.get? id with
  | some u => u.nick
  | none => ""

/-- The message with the nick of the recipient in the place of `Args[0]` and of
the prefix, each when asked for. -/
def ownNick (setnick setprefix : Bool) (nick : String) (msg : Message) : Message :=
  let msg1 : Message := if setnick then { msg with Args := msg.Args.set 0 nick } else msg
  if setprefix then { msg1 with Prefix := nick } else msg1

/-- The users that are known when an outbound message is rewritten: those of the
registry, without the remote recipients when the message is an `ERROR`. -/
def knownUsers (E : Env) (L : Protocol) (users : UserReg) (msg : Message)
    (remotes : List String) : UserReg :=
  if msg.Command = L.CMD_ERROR then remotes.foldl (Delete E) users else users

/-- The line for the recipient `r` of an outbound message, by the rules in their
order: for `ERROR` the prefix is cleared, otherwise an empty prefix becomes the
name of the server; a prefix that is a known UID becomes `nick!user@host`; every
argument that is a known UID becomes the nick of its owner; and where the
original `Args[0]`, respectively the original prefix, was `*`, the nick of `r`
stands in its place. -/
def clientLine (L : Protocol) (Config : Configuration) (users : UserReg) (msg : Message)
    (r : String) : Message :=
  let p1 :=
    if msg.Command = L.CMD_ERROR then ""
    else if msg.Prefix = "" then Config.Name
    else msg.Prefix
  let p2 :=
    if isuid p1 then
      match users.userMap.get? p1 with
      | some u => u.nick ++ "!" ++ u.user ++ "@host"
      | none => p1
    else p1
  let args :=
    msg.Args.map (fun a =>
      if isuid a then
        match users.userMap.get? a with
        | some u => u.nick
        | none => a
      else a)
  { Prefix := if msg.Prefix = "*" then nickOf users r else p2
    Command := msg.Command
    Args := if msg.Args.head? = some "*" then nickOf users r :: args.tail else args
    SenderID := msg.SenderID
    DestIDs := msg.DestIDs }

/-- The lines written for the recipients, in their order: one for each
recipient with a connection. -/
def linesFor (uid2conn : GoMap (Option String)) (line : String → Message)
    (ids : List String) : List (String × Message) :=
  ids.filterMap (fun r =>
    match uid2conn.get? r with
    | some (some c) => some (c, line r)
    | _ => none)

/-- What the loop of `ChanSplit` keeps true: the keys of `leaving2notify` are the
leaving UIDs, every peer marked there has `sid` as its first three characters
and is no leaving UID, and the members of the channels have at least three
characters. -/
def SplitInv (sid : String) (uids : List String) (st : ChanReg) (l2n : GoMap (GoMap Bool)) :
    Prop :=
  (∀ u, l2n.has u = true ↔ u ∈ uids) ∧
  (∀ l ps peer, l2n.get? l = some ps → ps.has peer = true →
    sidOf peer = some sid ∧ peer ∉ uids) ∧
  (∀ p c, st.store.get? p = some c → ∀ uid ∈ c.users.keys, 3 ≤ uid.length)

/-- A message for one server that is neither `S` nor behind `S`: the SID is not
reached from `S` through `downstream` edges. -/
def AwayFrom (st : Topology) (S : String) (m : Message) : Prop :=
  ∃ sid, m.DestIDs = [sid] ∧ sid ≠ S ∧ ¬ Relation.TransGen st.Edge S sid

/-! ## States for the examples -/

/-- The server `2BB` linked to this one and the server `3CC` behind it. -/
def sampleTopology : Topology :=
  { servMap := (GoMap.empty.set "2BB" (newServer "2BB")).set "3CC"
      { id := "3CC", ts := zeroTime, styp := servType.UnregisteredServer, pass := "",
        desc := "far", sver := 0, server := "far.example", link := "2BB", capab := [],
        hops := 0 }
    upstream := GoMap.empty.set "3CC" "2BB"
    downstream := (GoMap.empty.set "2BB" (GoMap.empty.set "3CC" true)).set "3CC" GoMap.empty }

/-- The user `1AAAAAAAA` with the nick `foo` and the user `1AAAAAAAB` with the
nick `bar`. -/
def sampleUsers : UserReg :=
  { userMap := (GoMap.empty.set "1AAAAAAAA"
        { ts := 1, id := "1AAAAAAAA", user := "", pass := "", nick := "foo", name := "",
          utyp := userType.UnregisteredUser }).set "1AAAAAAAB"
        { ts := 2, id := "1AAAAAAAB", user := "", pass := "", nick := "bar", name := "",
          utyp := userType.UnregisteredUser }
    userNicks := (GoMap.empty.set "foo" "1AAAAAAAA").set "bar" "1AAAAAAAB" }

/-- The channel `#chan` with the member `1AAAAAAAA`. -/
def sampleChannel : Channel :=
  { name := "#chan", ts := 1, users := GoMap.empty.set "1AAAAAAAA" "host@mask" }

/-- The state after `GetServer("1AA", true)`, `LinkServer("1AA", "2BB", ...)`,
`LinkServer("2BB", "3CC", ...)`, `Unlink("2BB")` and `GetServer("3CC", true)`:
the server `2BB` with `3CC` behind it has split, and `3CC` has come back as a
direct link. -/
def relinkedTopology : Topology :=
  (GetServer
    (unlinkStep
      (linkStep sampleEnv 3
        (linkStep sampleEnv 3 (GetServer Topology.empty "1AA" true).1
          "1AA" "2BB" "peer.example" "2" "a peer")
        "2BB" "3CC" "far.example" "3" "far")
      3 "2BB")
    "3CC" true).1

/-- The user `1AAAAAAAA` with the nick `foo`, registered. -/
def registeredUsers : UserReg :=
  { userMap := GoMap.empty.set "1AAAAAAAA"
      { ts := 1, id := "1AAAAAAAA", user := "foo", pass := "", nick := "foo", name := "Foo",
        utyp := userType.RegisteredAsUser }
    userNicks := GoMap.empty.set "foo" "1AAAAAAAA" }

/-- The channel `#x` with the member `1AAAAAAAA` of this server, the member
`2BBAAAAAA` of the linked server `2BB` and the member `3CCAAAAAA` of the server
`3CC` behind `2BB`. -/
def sampleCore : Core :=
  { servers := sampleTopology
    users := UserReg.empty
    chans :=
      { store := [{ name := "#x", ts := 1,
                    users := ((GoMap.empty.set "1AAAAAAAA" "host@mask").set
                      "2BBAAAAAA" "host@mask").set "3CCAAAAAA" "host@mask" }]
        chanMap := GoMap.empty.set "#x" 0 } }

/-- The servers `2BB` and `4DD`, both linked to this one. -/
def twoLinks : Topology :=
  { servMap := (GoMap.empty.set "2BB" (newServer "2BB")).set "4DD" (newServer "4DD")
    upstream := GoMap.empty
    downstream := (GoMap.empty.set "2BB" GoMap.empty).set "4DD" GoMap.empty }

/-- The registries of `sampleCore`, with a record for each of the three members
of `#x`. -/
def splitCore : Core :=
  { sampleCore with
    users :=
      { userMap := ((GoMap.empty.set "1AAAAAAAA"
            { ts := 1, id := "1AAAAAAAA", user := "a", pass := "", nick := "a", name := "",
              utyp := userType.RegisteredAsUser }).set "2BBAAAAAA"
            { ts := 2, id := "2BBAAAAAA", user := "b", pass := "", nick := "b", name := "",
              utyp := userType.RegisteredAsUser }).set "3CCAAAAAA"
            { ts := 3, id := "3CCAAAAAA", user := "c", pass := "", nick := "c", name := "",
              utyp := userType.RegisteredAsUser }
        userNicks := ((GoMap.empty.set "a" "1AAAAAAAA").set "b" "2BBAAAAAA").set
          "c" "3CCAAAAAA" } }

/-- The linked server `2BB` with `3CC` behind it, and the channel `#x` with the
members `1AAAAAAAA` and `1AAAAAAAB` of this server and `2BBAAAAAA` of `2BB`. -/
def quitCore : Core :=
  { servers := sampleTopology
    users := UserReg.empty
    chans :=
      { store := [{ name := "#x", ts := 1,
                    users := ((GoMap.empty.set "1AAAAAAAA" "host@mask").set
                      "1AAAAAAAB" "host@mask").set "2BBAAAAAA" "host@mask" }]
        chanMap := GoMap.empty.set "#x" 0 } }

/-- The state after `GetUser("1AAAAAAAA")`, `SetNick("k")` for that user,
`Import("2BBAAAAAA", K, ...)` with the Kelvin sign as nick, and
`Delete("2BBAAAAAA")`: `Delete` folds the Kelvin sign to `k` and takes the index
entry of `1AAAAAAAA` away. -/
def orphanedUsers : UserReg :=
  Delete kelvinEnv
    (Import kelvinEnv
      (setNickStep kelvinEnv (GetUser UserReg.empty "1AAAAAAAA").1 "1AAAAAAAA" "k" 1)
      "2BBAAAAAA" kelvin "u" "host" "ip" "1" "0" "n").1
    "2BBAAAAAA"

/-- The state after `GetUser("1AAAAAAAB")` and `SetNick("k")` for that user in
`orphanedUsers`. -/
def twoOwners : UserReg :=
  setNickStep kelvinEnv (GetUser orphanedUsers "1AAAAAAAB").1 "1AAAAAAAB" "k" 3

/-- The servers `2BB` and `4DD`, both linked to this one, and the channel `#x`
with the member `1AAAAAAAA` of this server, `2BBAAAAAA` of `2BB` and
`4DDAAAAAA` of `4DD`. -/
def crossCore : Core :=
  { servers := twoLinks
    users := UserReg.empty
    chans :=
      { store := [{ name := "#x", ts := 1,
                    users := ((GoMap.empty.set "1AAAAAAAA" "host@mask").set
                      "2BBAAAAAA" "host@mask").set "4DDAAAAAA" "host@mask" }]
        chanMap := GoMap.empty.set "#x" 0 } }

/-! ## Facts about Go maps -/

namespace GoMap

variable {V : Type}

theorem ext {a b : GoMap V} (h : a.entries = b.entries) : a = b := by
  cases a; cases b; cases h; rfl

theorem keys_nodup (m : GoMap V) : m.keys.Nodup := m.nodup

theorem get?_empty (k : String) : (GoMap.empty : GoMap V).get? k = none := rfl

theorem keys_empty : (GoMap.empty : GoMap V).keys = [] := rfl

theorem get?_set (m : GoMap V) (k : String) (v : V) (k' : String) :
    (m.set k v).get? k' = if k' = k then some v else m.get? k' :=
  rawGet_rawSet k v k' m.entries

theorem get?_del (m : GoMap V) (k k' : String) :
    (m.del k).get? k' = if k' = k then none else m.get? k' :=
  rawGet_rawDel k k' m.entries

theorem get?_eq_none (m : GoMap V) (k : String) : m.get? k = none ↔ k ∉ m.keys :=
  rawGet_eq_none k m.entries

theorem has_eq_true (m : GoMap V) (k : String) : m.has k = true ↔ k ∈ m.keys := by
  unfold has
  cases h : m.get? k with
  | none => simpa using (get?_eq_none m k).1 h
  | some v =>
    have : ¬ k ∉ m.keys := fun hn => by
      rw [(get?_eq_none m k).2 hn] at h
      cases h
    simpa using this

theorem has_eq_false (m : GoMap V) (k : String) : m.has k = false ↔ k ∉ m.keys := by
  rw [← has_eq_true]
  cases m.has k <;> simp

theorem mem_keys_iff (m : GoMap V) (k : String) : k ∈ m.keys ↔ ∃ v, m.get? k = some v := by
  rw [← has_eq_true]
  unfold has
  cases m.get? k <;> simp

theorem keys_set (m : GoMap V) (k : String) (v : V) :
    (m.set k v).keys = if k ∈ m.keys then m.keys else m.keys ++ [k] :=
  map_fst_rawSet k v m.entries

theorem keys_del (m : GoMap V) (k : String) :
    (m.del k).keys = m.keys.filter (fun a => decide (a ≠ k)) :=
  map_fst_rawDel k m.entries

theorem mem_keys_set (m : GoMap V) (k : String) (v : V) (x : String) :
    x ∈ (m.set k v).keys ↔ x = k ∨ x ∈ m.keys := by
  rw [keys_set]
  by_cases h : k ∈ m.keys
  · simp only [h, if_true]
    constructor
    · exact Or.inr
    · rintro (rfl | hx)
      · exact h
      · exact hx
  · simp only [h, if_false, List.mem_append, List.mem_singleton]
    tauto

theorem mem_keys_del (m : GoMap V) (k x : String) :
    x ∈ (m.del k).keys ↔ x ≠ k ∧ x ∈ m.keys := by
  rw [keys_del]
  simp [List.mem_filter, and_comm]

theorem has_set (m : GoMap V) (k : String) (v : V) (x : String) :
    (m.set k v).has x = (decide (x = k) || m.has x) := by
  unfold has
  rw [get?_set]
  by_cases h : x = k <;> simp [h]

theorem has_del (m : GoMap V) (k x : String) :
    (m.del k).has x = (!decide (x = k) && m.has x) := by
  unfold has
  rw [get?_del]
  by_cases h : x = k <;> simp [h]

theorem rawSet_self (k : String) (v : V) (l : List (String × V)) (h : rawGet k l = some v) :
    rawSet k v l = l := by
  induction l with
  | nil => simp [rawGet] at h
  | cons hd t ih =>
    obtain ⟨a, b⟩ := hd
    by_cases hk : a = k
    · subst hk
      simp only [rawGet, if_true, Option.some.injEq] at h
      subst h
      simp [rawSet]
    · simp only [rawGet, hk, if_false] at h
      simp [rawSet, hk, ih h]

theorem set_self (m : GoMap V) (k : String) (v : V) (h : m.get? k = some v) :
    m.set k v = m :=
  ext (rawSet_self k v m.entries h)

theorem rawDel_of_not_mem (k : String) (l : List (String × V)) (h : k ∉ l.map Prod.fst) :
    rawDel k l = l := by
  induction l with
  | nil => rfl
  | cons hd t ih =>
    obtain ⟨a, b⟩ := hd
    simp only [List.map_cons, List.mem_cons, not_or] at h
    have hk : ¬ a = k := fun e => h.1 e.symm
    simp [rawDel, hk, ih h.2]

theorem rawDel_rawSet_fresh (k : String) (v : V) (l : List (String × V))
    (h : k ∉ l.map Prod.fst) : rawDel k (rawSet k v l) = l := by
  induction l with
  | nil => simp [rawSet, rawDel]
  | cons hd t ih =>
    obtain ⟨a, b⟩ := hd
    simp only [List.map_cons, List.mem_cons, not_or] at h
    have hk : ¬ a = k := fun e => h.1 e.symm
    simp [rawSet, rawDel, hk, ih h.2]

theorem del_of_not_mem (m : GoMap V) (k : String) (h : m.get? k = none) : m.del k = m :=
  ext (rawDel_of_not_mem k m.entries ((get?_eq_none m k).1 h))

theorem del_set_fresh (m : GoMap V) (k : String) (v : V) (h : m.get? k = none) :
    (m.set k v).del k = m :=
  ext (rawDel_rawSet_fresh k v m.entries ((get?_eq_none m k).1 h))

theorem rawDel_rawSet (k : String) (v : V) (l : List (String × V)) :
    rawDel k (rawSet k v l) = rawDel k l := by
  induction l with
  | nil => simp [rawSet, rawDel]
  | cons hd t ih =>
    obtain ⟨a, b⟩ := hd
    by_cases hk : a = k
    · simp [rawSet, rawDel, hk]
    · simp [rawSet, rawDel, hk, ih]

theorem del_set_same (m : GoMap V) (k : String) (v : V) : (m.set k v).del k = m.del k :=
  ext (rawDel_rawSet k v m.entries)

theorem size_eq_zero (m : GoMap V) : m.size = 0 ↔ m.keys = [] := by
  unfold size keys
  cases m.entries <;> simp

end GoMap

/-! ## Channels: `Join` and `Part` -/

theorem joinLoop_name (now : Time) (uids : List String) (c : Channel) :
    (joinLoop now uids c).1.name = c.name := by
  induction uids generalizing c with
  | nil => rfl
  | cons uid rest ih =>
    unfold joinLoop
    by_cases h : c.users.has uid = true
    · simp [h]
    · simp only [h, Bool.false_eq_true, if_false]
      rw [ih]

theorem joinLoop_ok (now : Time) (uids : List String) (c : Channel)
    (hnd : uids.Nodup) (hfresh : ∀ u ∈ uids, c.users.has u = false) :
    (joinLoop now uids c).2 = none ∧
      ∀ x, x ∈ (joinLoop now uids c).1.users.keys ↔ x ∈ c.users.keys ∨ x ∈ uids := by
  induction uids generalizing c with
  | nil => simp [joinLoop]
  | cons uid rest ih =>
    have hu : c.users.has uid = false := hfresh uid (List.mem_cons_self _ _)
    obtain ⟨hnot, hnd'⟩ := List.nodup_cons.1 hnd
    unfold joinLoop
    simp only [hu, Bool.false_eq_true, if_false]
    have hfresh' : ∀ u ∈ rest,
        ({ c with users := c.users.set uid "host@mask", ts := now } : Channel).users.has u
          = false := by
      intro u hmem
      have hne : ¬ u = uid := fun e => hnot (e ▸ hmem)
      simp [GoMap.has_set, hne, hfresh u (List.mem_cons_of_mem _ hmem)]
    obtain ⟨h1, h2⟩ := ih _ hnd' hfresh'
    refine ⟨h1, fun x => ?_⟩
    rw [h2 x, GoMap.mem_keys_set, List.mem_cons]
    tauto

theorem joinLoop_stop (now : Time) (pre : List String) (uid : String) (post : List String)
    (c : Channel) (hnd : pre.Nodup) (hfresh : ∀ u ∈ pre, c.users.has u = false)
    (hon : c.users.has uid = true ∨ uid ∈ pre) :
    (joinLoop now (pre ++ uid :: post) c).2
        = some (NewNumeric NumericCode.ERR_USERONCHANNEL [uid, c.name]) ∧
      ∀ x, x ∈ (joinLoop now (pre ++ uid :: post) c).1.users.keys ↔
        x ∈ c.users.keys ∨ x ∈ pre := by
  induction pre generalizing c with
  | nil =>
    have h : c.users.has uid = true := by
      rcases hon with h | h
      · exact h
      · cases h
    simp [joinLoop, h]
  | cons a rest ih =>
    have ha : c.users.has a = false := hfresh a (List.mem_cons_self _ _)
    obtain ⟨hnot, hnd'⟩ := List.nodup_cons.1 hnd
    simp only [List.cons_append]
    unfold joinLoop
    simp only [ha, Bool.false_eq_true, if_false]
    have hfresh' : ∀ u ∈ rest,
        ({ c with users := c.users.set a "host@mask", ts := now } : Channel).users.has u
          = false := by
      intro u hmem
      have hne : ¬ u = a := fun e => hnot (e ▸ hmem)
      simp [GoMap.has_set, hne, hfresh u (List.mem_cons_of_mem _ hmem)]
    have hon' : ({ c with users := c.users.set a "host@mask", ts := now } : Channel).users.has uid
        = true ∨ uid ∈ rest := by
      rcases hon with h | h
      · left
        simp [GoMap.has_set, h]
      · rcases List.mem_cons.1 h with e | h'
        · left
          simp [GoMap.has_set, e]
        · exact Or.inr h'
    obtain ⟨h1, h2⟩ := ih _ hnd' hfresh' hon'
    refine ⟨h1, fun x => ?_⟩
    rw [h2 x, GoMap.mem_keys_set, List.mem_cons]
    tauto

/-- C8: `Join(uids...)` takes the UIDs in order. When no UID is a member at its
turn (the UIDs are pairwise distinct and none is on the channel), `Join` returns
no error, the members afterwards are the former members and the UIDs, the
notify list is the list of the members afterwards, each once, and the channel
is stored under its name if that key was free. When the UID after `pre` is the
first one that is a member at its turn, `Join` returns `ERR_USERONCHANNEL` for
that UID and the channel name with a nil notify list, `chanMap` is untouched,
and the members afterwards are the former members and the UIDs of `pre` only. -/
theorem Join_in_order (self : Nat) (c : Channel) (chanMap : GoMap Nat) (now : Time) :
    (∀ uids : List String, uids.Nodup → (∀ u ∈ uids, c.users.has u = false) →
      ∃ c' notify,
        Channel.Join self c chanMap uids now
          = (c', (if chanMap.has c.name = true then chanMap else chanMap.set c.name self),
              some notify, none) ∧
        (∀ u ∈ uids, c'.users.has u = true) ∧
        (∀ x, x ∈ c'.users.keys ↔ x ∈ c.users.keys ∨ x ∈ uids) ∧
        notify.Nodup ∧ (∀ x, x ∈ notify ↔ c'.users.has x = true)) ∧
    (∀ (pre : List String) (uid : String) (post : List String),
      pre.Nodup → (∀ u ∈ pre, c.users.has u = false) → (c.users.has uid = true ∨ uid ∈ pre) →
      ∃ c',
        Channel.Join self c chanMap (pre ++ uid :: post) now
          = (c', chanMap, none, some (NewNumeric NumericCode.ERR_USERONCHANNEL [uid, c.name])) ∧
        (∀ x, x ∈ c'.users.keys ↔ x ∈ c.users.keys ∨ x ∈ pre)) := by
  constructor
  · intro uids hnd hfresh
    obtain ⟨h1, h2⟩ := joinLoop_ok now uids c hnd hfresh
    have hshape : joinLoop now uids c = ((joinLoop now uids c).1, none) := by
      rw [← h1]
    have hname := joinLoop_name now uids c
    refine ⟨(joinLoop now uids c).1, (joinLoop now uids c).1.users.keys, ?_, ?_, h2,
      GoMap.keys_nodup _, fun x => (GoMap.has_eq_true _ x).symm⟩
    · unfold Channel.Join
      rw [hshape]
      simp only [hname]
      by_cases hm : chanMap.has c.name = true
      · simp [hm]
      · simp [hm]
    · intro u hu
      exact (GoMap.has_eq_true _ u).2 ((h2 u).2 (Or.inr hu))
  · intro pre uid post hnd hfresh hon
    obtain ⟨h1, h2⟩ := joinLoop_stop now pre uid post c hnd hfresh hon
    refine ⟨(joinLoop now (pre ++ uid :: post) c).1, ?_, h2⟩
    have hshape : joinLoop now (pre ++ uid :: post) c
        = ((joinLoop now (pre ++ uid :: post) c).1,
            some (NewNumeric NumericCode.ERR_USERONCHANNEL [uid, c.name])) := by
      rw [← h1]
    unfold Channel.Join
    rw [hshape]

/-- C8, at a concrete input: `1AAAAAAAB` joins the channel that holds
`1AAAAAAAA`, and `1AAAAAAAB` and `1AAAAAAAA` join it in one call. -/
theorem Join_in_order_witness :
    (∃ c' notify,
      Channel.Join 0 sampleChannel GoMap.empty ["1AAAAAAAB"] 2
        = (c', (if (GoMap.empty : GoMap Nat).has sampleChannel.name = true then GoMap.empty
                else GoMap.empty.set sampleChannel.name 0), some notify, none) ∧
      (∀ u ∈ ["1AAAAAAAB"], c'.users.has u = true) ∧
      (∀ x, x ∈ c'.users.keys ↔ x ∈ sampleChannel.users.keys ∨ x ∈ ["1AAAAAAAB"]) ∧
      notify.Nodup ∧ (∀ x, x ∈ notify ↔ c'.users.has x = true)) ∧
    (∃ c',
      Channel.Join 0 sampleChannel GoMap.empty (["1AAAAAAAB"] ++ "1AAAAAAAA" :: []) 2
        = (c', GoMap.empty, none,
            some (NewNumeric NumericCode.ERR_USERONCHANNEL ["1AAAAAAAA", sampleChannel.name])) ∧
      (∀ x, x ∈ c'.users.keys ↔ x ∈ sampleChannel.users.keys ∨ x ∈ ["1AAAAAAAB"])) :=
  ⟨(Join_in_order 0 sampleChannel GoMap.empty 2).1 ["1AAAAAAAB"] (by decide) (by decide),
    (Join_in_order 0 sampleChannel GoMap.empty 2).2 ["1AAAAAAAB"] "1AAAAAAAA" []
      (by decide) (by decide) (by decide)⟩

/-- C9: `Part(uid)` of a UID that is not a member returns `ERR_NOTONCHANNEL` with
a nil notify list and changes neither the channel nor `chanMap`; `Part` of a
member returns the members before the removal (the UID among them, each once),
the members afterwards are the former ones without the UID, and the key of the
channel name leaves `chanMap` when no member is left. -/
theorem Part_member_or_not (c : Channel) (chanMap : GoMap Nat) (uid : String) (now : Time) :
    (c.users.has uid = false →
      Channel.Part c chanMap uid now
        = (c, chanMap, none, some (NewNumeric NumericCode.ERR_NOTONCHANNEL [c.name]))) ∧
    (c.users.has uid = true →
      ∃ c',
        Channel.Part c chanMap uid now
          = (c', (if (c.users.del uid).keys = [] then chanMap.del c.name else chanMap),
              some c.users.keys, none) ∧
        uid ∈ c.users.keys ∧ c.users.keys.Nodup ∧
        (∀ x, x ∈ c.users.keys ↔ c.users.has x = true) ∧
        c'.users = c.users.del uid ∧
        (∀ x, c'.users.has x = true ↔ c.users.has x = true ∧ x ≠ uid)) := by
  constructor
  · intro h
    simp [Channel.Part, h]
  · intro h
    have hmem : ∀ x, (c.users.del uid).has x = true ↔ c.users.has x = true ∧ x ≠ uid := by
      intro x
      rw [GoMap.has_del]
      by_cases e : x = uid <;> simp [e]
    refine ⟨{ c with users := c.users.del uid, ts := now }, ?_,
      (GoMap.has_eq_true _ _).1 h, GoMap.keys_nodup _,
      fun x => (GoMap.has_eq_true _ x).symm, rfl, hmem⟩
    by_cases hz : (c.users.del uid).keys = []
    · simp [Channel.Part, h, hz, GoMap.size_eq_zero]
    · simp [Channel.Part, h, hz, GoMap.size_eq_zero]

/-- C9, at a concrete input: `1AAAAAAAB` is not on the channel that holds
`1AAAAAAAA`, and `1AAAAAAAA` leaves it. -/
theorem Part_member_or_not_witness :
    Channel.Part sampleChannel (GoMap.empty.set "#chan" 0) "1AAAAAAAB" 2
        = (sampleChannel, GoMap.empty.set "#chan" 0, none,
            some (NewNumeric NumericCode.ERR_NOTONCHANNEL [sampleChannel.name])) ∧
    (∃ c',
      Channel.Part sampleChannel (GoMap.empty.set "#chan" 0) "1AAAAAAAA" 2
        = (c', (if (sampleChannel.users.del "1AAAAAAAA").keys = []
                then (GoMap.empty.set "#chan" 0).del sampleChannel.name
                else GoMap.empty.set "#chan" 0),
            some sampleChannel.users.keys, none) ∧
      "1AAAAAAAA" ∈ sampleChannel.users.keys ∧ sampleChannel.users.keys.Nodup ∧
      (∀ x, x ∈ sampleChannel.users.keys ↔ sampleChannel.users.has x = true) ∧
      c'.users = sampleChannel.users.del "1AAAAAAAA" ∧
      (∀ x, c'.users.has x = true ↔ sampleChannel.users.has x = true ∧ x ≠ "1AAAAAAAA")) :=
  ⟨(Part_member_or_not sampleChannel (GoMap.empty.set "#chan" 0) "1AAAAAAAB" 2).1 (by decide),
    (Part_member_or_not sampleChannel (GoMap.empty.set "#chan" 0) "1AAAAAAAA" 2).2 (by decide)⟩

/-- C4: from the empty registry, `GetChannel("#Chan", true)` stores the new
channel under the folded key `#chan`, `Join` stores it again under its own name
`#Chan`, and the `Part` of the only member deletes the key `#Chan` alone: the
channel stays in `chanMap` under `#chan` without a member. -/
theorem chanMap_keeps_empty_channel :
    GetAndJoin sampleEnv ChanReg.empty "#Chan" ["1AAAAAAAA"] 1
      = some (⟨[⟨"#Chan", 1, GoMap.empty.set "1AAAAAAAA" "host@mask"⟩],
                (GoMap.empty.set "#chan" 0).set "#Chan" 0⟩, some ["1AAAAAAAA"], none) ∧
    PartAt ⟨[⟨"#Chan", 1, GoMap.empty.set "1AAAAAAAA" "host@mask"⟩],
            (GoMap.empty.set "#chan" 0).set "#Chan" 0⟩ 0 "1AAAAAAAA" 2
      = some (⟨[⟨"#Chan", 2, GoMap.empty⟩], GoMap.empty.set "#chan" 0⟩,
              some ["1AAAAAAAA"], none) ∧
    ¬ ChanReg.StoredIffMembers ⟨[⟨"#Chan", 2, GoMap.empty⟩], GoMap.empty.set "#chan" 0⟩ := by
  refine ⟨by decide, by decide, ?_⟩
  intro h
  obtain ⟨c, hc, hne⟩ := h.1 "#chan" 0 (by decide)
  have : c = ⟨"#Chan", 2, GoMap.empty⟩ := by
    have h0 : ([⟨"#Chan", 2, GoMap.empty⟩] : List Channel).get? 0
        = some ⟨"#Chan", 2, GoMap.empty⟩ := rfl
    rw [h0] at hc
    exact (Option.some.inj hc).symm
  subst this
  exact hne rfl

theorem joinLoop_single (now : Time) (u : String) (c : Channel) (h : c.users.has u = false) :
    joinLoop now [u] c = ({ c with users := c.users.set u "host@mask", ts := now }, none) := by
  simp [joinLoop, h]

theorem createJoinPart_eq (E : Env) (st : ChanReg) (name u : String) (now : Time)
    (hv : E.ValidChannel name = true)
    (hfresh : st.chanMap.get? (E.ToLower name) = none) :
    createJoinPart E st name u now =
      some ⟨List.set (List.set (st.store ++ [⟨name, zeroTime, GoMap.empty⟩]) st.store.length
              ⟨name, now, GoMap.empty.set u "host@mask"⟩) st.store.length
              ⟨name, now, GoMap.empty⟩,
            (st.chanMap.set (E.ToLower name) st.store.length).del name⟩ := by
  have hj : joinLoop now [u] (⟨name, zeroTime, GoMap.empty⟩ : Channel)
      = (⟨name, now, GoMap.empty.set u "host@mask"⟩, none) :=
    joinLoop_single now u ⟨name, zeroTime, GoMap.empty⟩ rfl
  have hdel : ((GoMap.empty : GoMap String).set u "host@mask").del u = GoMap.empty :=
    GoMap.del_set_fresh _ _ _ rfl
  have hhas : ((GoMap.empty : GoMap String).set u "host@mask").has u = true := by
    simp [GoMap.has_set]
  by_cases hn : (st.chanMap.set (E.ToLower name) st.store.length).has name = true
  · simp [createJoinPart, GetChannel, hv, hfresh, JoinAt, PartAt, Channel.Join, Channel.Part,
      hj, hn, hdel, hhas, GoMap.size_eq_zero, GoMap.keys_empty]
  · simp [createJoinPart, GetChannel, hv, hfresh, JoinAt, PartAt, Channel.Join, Channel.Part,
      hj, hn, hdel, hhas, GoMap.size_eq_zero, GoMap.keys_empty, GoMap.del_set_same]

/-- C10: for a valid name that its case-fold changes and that has no channel
yet, `GetChannel(name, true)`, `Join(u)` and `Part(u)` do not give `chanMap`
back: the key `ToLower(name)`, which was absent, now holds the channel just
created, which has no member. For a name that is its own case-fold `chanMap` is
the same as before. -/
theorem createJoinPart_keeps_folded_key (E : Env) (st : ChanReg) (name u : String) (now : Time)
    (hv : E.ValidChannel name = true)
    (hfresh : st.chanMap.get? (E.ToLower name) = none) :
    ∃ st3, createJoinPart E st name u now = some st3 ∧
      (E.ToLower name ≠ name →
        st3.chanMap.get? (E.ToLower name) = some st.store.length ∧
        st3.store.get? st.store.length = some ⟨name, now, GoMap.empty⟩ ∧
        st3.chanMap ≠ st.chanMap) ∧
      (E.ToLower name = name → st3.chanMap = st.chanMap) := by
  refine ⟨_, createJoinPart_eq E st name u now hv hfresh, ?_, ?_⟩
  · intro hl
    have hkey : ((st.chanMap.set (E.ToLower name) st.store.length).del name).get? (E.ToLower name)
        = some st.store.length := by
      rw [GoMap.get?_del, GoMap.get?_set]
      simp [hl]
    refine ⟨hkey, ?_, ?_⟩
    · simp
    · intro h
      have h2 := hkey
      simp only at h
      rw [h, hfresh] at h2
      cases h2
  · intro hl
    simp only
    rw [hl] at hfresh ⊢
    exact GoMap.del_set_fresh _ _ _ hfresh

/-- C10, at a concrete input: with the ASCII case-fold, `#Chan` has no channel in
the empty registry, and after `GetChannel`, `Join` and `Part` the key `#chan`
holds the channel, which has no member. -/
theorem createJoinPart_keeps_folded_key_witness :
    ∃ st3, createJoinPart sampleEnv ChanReg.empty "#Chan" "1AAAAAAAA" 3 = some st3 ∧
      st3.chanMap.get? "#chan" = some 0 ∧
      st3.store.get? 0 = some ⟨"#Chan", 3, GoMap.empty⟩ ∧
      st3.chanMap ≠ ChanReg.empty.chanMap := by
  obtain ⟨st3, h1, h2, _⟩ :=
    createJoinPart_keeps_folded_key sampleEnv ChanReg.empty "#Chan" "1AAAAAAAA" 3
      (by decide) (by decide)
  exact ⟨st3, h1, h2 (by decide)⟩

/-! ## Users: `SetNick` -/

/-- C3: when the index gives the case-fold of `nA` to the user `uidA`, a different
user who asks for a valid nick `n` with the same case-fold gets
`ERR_NICKNAMEINUSE` with `n` as given, and a nick of invalid shape gets
`ERR_ERRONEUSNICKNAME`; in both cases `userMap`, `userNicks` and every record
stay as they were. -/
theorem SetNick_refused (E : Env) (st : UserReg) (uidB : String) (B : User) (n : String)
    (now : Time) (hB : st.userMap.get? uidB = some B) :
    (∀ uidA nA : String, st.userNicks.get? (E.ToLower nA) = some uidA → B.id ≠ uidA →
      E.ValidNick n = true → E.ToLower n = E.ToLower nA →
      SetNick E st uidB n now
        = some (st, some (NewNumeric NumericCode.ERR_NICKNAMEINUSE [n]))) ∧
    (E.ValidNick n = false →
      SetNick E st uidB n now
        = some (st, some (NewNumeric NumericCode.ERR_ERRONEUSNICKNAME [n]))) := by
  constructor
  · intro uidA nA hA hne hv hfold
    have hne' : ¬ uidA = B.id := fun e => hne e.symm
    simp [SetNick, User.SetNick, hB, hv, hfold, hA, hne', GoMap.set_self _ _ _ hB]
  · intro hv
    simp [SetNick, User.SetNick, hB, hv, GoMap.set_self _ _ _ hB]

/-- C3, at a concrete input: `1AAAAAAAA` holds `foo`; `1AAAAAAAB` asks for `FOO`
and for `f o`. -/
theorem SetNick_refused_witness :
    SetNick sampleEnv sampleUsers "1AAAAAAAB" "FOO" 5
        = some (sampleUsers, some (NewNumeric NumericCode.ERR_NICKNAMEINUSE ["FOO"])) ∧
    SetNick sampleEnv sampleUsers "1AAAAAAAB" "f o" 5
        = some (sampleUsers, some (NewNumeric NumericCode.ERR_ERRONEUSNICKNAME ["f o"])) :=
  ⟨(SetNick_refused sampleEnv sampleUsers "1AAAAAAAB"
        { ts := 2, id := "1AAAAAAAB", user := "", pass := "", nick := "bar", name := "",
          utyp := userType.UnregisteredUser } "FOO" 5 (by decide)).1
      "1AAAAAAAA" "foo" (by decide) (by decide) (by decide) (by decide),
    (SetNick_refused sampleEnv sampleUsers "1AAAAAAAB"
        { ts := 2, id := "1AAAAAAAB", user := "", pass := "", nick := "bar", name := "",
          utyp := userType.UnregisteredUser } "f o" 5 (by decide)).2 (by decide)⟩

/-! ## Topology: what `Unlink` leaves behind -/

/-- C5: with the server `2BB` linked behind `1AA`, `Unlink("2BB")` returns
`LinkedTo("2BB") = [2BB]` and removes `2BB` from `servMap`, from the keys of
`downstream` and from `downstream[1AA]`, but the entry `upstream[2BB] = 1AA`
is still there afterwards; when `2BB` then comes back through `GetServer`, which
links it directly, `IsLocal("2BB")` is false. -/
theorem Unlink_keeps_upstream_entry :
    ∃ t2 t3 : Topology,
      LinkServer sampleEnv 2 (GetServer Topology.empty "1AA" true).1
          "1AA" "2BB" "peer.example" "2" "a peer" = Outcome.ret (t2, none) ∧
      LinkedTo t2 2 "2BB" = some ["2BB"] ∧
      Unlink t2 2 "2BB" = some (t3, ["2BB"]) ∧
      t3.servMap.has "2BB" = false ∧
      t3.downstream.has "2BB" = false ∧
      t3.downstream.get? "1AA" = some GoMap.empty ∧
      t3.upstream.get? "2BB" = some "1AA" ∧
      IsLocal (GetServer t3 "2BB" true).1 "2BB" = false :=
  ⟨⟨(GoMap.empty.set "1AA" (newServer "1AA")).set "2BB"
        { id := "2BB", ts := zeroTime, styp := servType.UnregisteredServer, pass := "",
          desc := "a peer", sver := 0, server := "peer.example", link := "1AA", capab := [],
          hops := 0 },
      GoMap.empty.set "2BB" "1AA",
      (GoMap.empty.set "1AA" (GoMap.empty.set "2BB" true)).set "2BB" GoMap.empty⟩,
    ⟨GoMap.empty.set "1AA" (newServer "1AA"),
      GoMap.empty.set "2BB" "1AA",
      GoMap.empty.set "1AA" GoMap.empty⟩,
    by decide, by decide, by decide, by decide, by decide, by decide, by decide, by decide⟩

/-- C7: the state after `GetServer("1AA", true)`, `LinkServer("1AA", "2BB", ...)`
and `Unlink("2BB")` is reachable, it has the entry `upstream[2BB] = 1AA`, and
`2BB` is not a member of `downstream[1AA]`. -/
theorem upstream_entry_without_downstream_member :
    ∃ st : Topology, Topology.Reachable sampleEnv st ∧
      st.upstream.get? "2BB" = some "1AA" ∧
      ∃ kids, st.downstream.get? "1AA" = some kids ∧ kids.has "2BB" = false := by
  have h1 : Topology.Reachable sampleEnv (GetServer Topology.empty "1AA" true).1 :=
    Topology.Reachable.getServer _ _ Topology.Reachable.init
  have h2 := Topology.Reachable.linkServer (GetServer Topology.empty "1AA" true).1
    ⟨(GoMap.empty.set "1AA" (newServer "1AA")).set "2BB"
        { id := "2BB", ts := zeroTime, styp := servType.UnregisteredServer, pass := "",
          desc := "a peer", sver := 0, server := "peer.example", link := "1AA", capab := [],
          hops := 0 },
      GoMap.empty.set "2BB" "1AA",
      (GoMap.empty.set "1AA" (GoMap.empty.set "2BB" true)).set "2BB" GoMap.empty⟩
    2 "1AA" "2BB" "peer.example" "2" "a peer" none h1 (by decide)
  have h3 := Topology.Reachable.unlink _
    ⟨GoMap.empty.set "1AA" (newServer "1AA"),
      GoMap.empty.set "2BB" "1AA",
      GoMap.empty.set "1AA" GoMap.empty⟩
    2 "2BB" ["2BB"] h2 (by decide)
  exact ⟨_, h3, by decide, GoMap.empty, by decide, by decide⟩

/-! ## Topology: `IsLocal` -/

theorem GetServer_sameKeys (st : Topology) (sid : String) (h : st.SameKeys) :
    (GetServer st sid true).1.SameKeys := by
  unfold GetServer
  cases hg : st.servMap.get? sid with
  | some s => exact h
  | none =>
    intro k
    simp [GoMap.has_set, h k]

theorem LinkServer_sameKeys (E : Env) (fuel : Nat) (st st' : Topology)
    (link sid name hops desc : String) (err : Option GoError) (h : st.SameKeys)
    (hr : LinkServer E fuel st link sid name hops desc = Outcome.ret (st', err)) :
    st'.SameKeys := by
  unfold LinkServer at hr
  by_cases hs : st.servMap.has sid = true
  · simp only [hs, if_true, Outcome.ret.injEq, Prod.mk.injEq] at hr
    rw [← hr.1]
    exact h
  · simp only [hs, Bool.false_eq_true, if_false] at hr
    cases hd : st.downstream.get? link with
    | none =>
      rw [hd] at hr
      cases hr
    | some kids =>
      rw [hd] at hr
      simp only at hr
      cases hc : hopChain (st.upstream.set sid link) fuel link 1 with
      | none =>
        rw [hc] at hr
        cases hr
      | some n =>
        rw [hc] at hr
        simp only [Outcome.ret.injEq, Prod.mk.injEq] at hr
        rw [← hr.1]
        intro k
        have hl : st.downstream.has link = true := by simp [GoMap.has, hd]
        simp only [GoMap.has_set, h k]
        by_cases e1 : k = sid
        · simp [e1]
        · by_cases e2 : k = link
          · simp [e2, hl]
          · simp [e1, e2]

theorem unlinkOne_sameKeys (st : Topology) (sid : String) (h : st.SameKeys) :
    (unlinkOne st sid).SameKeys := by
  intro k
  have hk := h k
  cases hu : st.upstream.get? sid with
  | none => simp [unlinkOne, hu, GoMap.has_del, hk]
  | some up =>
    cases hd : st.downstream.get? up with
    | none => simp [unlinkOne, hu, hd, GoMap.has_del, hk]
    | some kids =>
      have hup : st.downstream.has up = true := by simp [GoMap.has, hd]
      simp only [unlinkOne, hu, hd, GoMap.has_del, GoMap.has_set, hk]
      by_cases e1 : k = sid
      · simp [e1]
      · by_cases e2 : k = up
        · simp [e2, hup]
        · simp [e2]

theorem foldl_unlinkOne_sameKeys (sids : List String) (st : Topology) (h : st.SameKeys) :
    (sids.foldl unlinkOne st).SameKeys := by
  induction sids generalizing st with
  | nil => exact h
  | cons a rest ih => exact ih _ (unlinkOne_sameKeys st a h)

theorem Reachable_sameKeys (E : Env) (st : Topology) (h : Topology.Reachable E st) :
    st.SameKeys := by
  induction h with
  | init => intro k; rfl
  | getServer st sid _ ih => exact GetServer_sameKeys st sid ih
  | linkServer st st' fuel link sid name hops desc err _ hr ih =>
    exact LinkServer_sameKeys E fuel st st' link sid name hops desc err ih hr
  | unlink st st' fuel split sids _ hr ih =>
    unfold Unlink at hr
    cases hl : linkedTo st fuel split with
    | none =>
      rw [hl] at hr
      cases hr
    | some l =>
      rw [hl] at hr
      simp only [Option.some.injEq, Prod.mk.injEq] at hr
      rw [← hr.1]
      exact foldl_unlinkOne_sameKeys l st ih

/-- C6: in every state reached from the empty topology by `GetServer(sid, true)`,
`LinkServer` and `Unlink`, `downstream` has an entry for exactly the SIDs of
`servMap`, and `IsLocal(sid)` is true exactly when `sid` is a key of `servMap`
and not a key of `upstream`. -/
theorem IsLocal_iff_known_and_no_upstream (E : Env) (st : Topology) (sid : String)
    (h : Topology.Reachable E st) :
    (∀ k, k ∈ st.downstream.keys ↔ k ∈ st.servMap.keys) ∧
    (IsLocal st sid = true ↔ sid ∈ st.servMap.keys ∧ sid ∉ st.upstream.keys) := by
  have hk := Reachable_sameKeys E st h
  constructor
  · intro k
    rw [← GoMap.has_eq_true, ← GoMap.has_eq_true, hk k]
  · rw [← GoMap.has_eq_true, ← GoMap.has_eq_false, hk sid]
    unfold IsLocal
    cases st.upstream.has sid <;> cases st.downstream.has sid <;> simp

theorem sampleTopology_reachable : Topology.Reachable sampleEnv sampleTopology :=
  Topology.Reachable.linkServer (GetServer Topology.empty "2BB" true).1 sampleTopology
    3 "2BB" "3CC" "far.example" "2" "far" none
    (Topology.Reachable.getServer _ "2BB" Topology.Reachable.init) (by decide)

/-- C6, at a concrete input: with `2BB` linked to this server and `3CC` behind
it, `2BB` is local. -/
theorem IsLocal_iff_known_and_no_upstream_witness :
    (∀ k, k ∈ sampleTopology.downstream.keys ↔ k ∈ sampleTopology.servMap.keys) ∧
    (IsLocal sampleTopology "2BB" = true ↔
      "2BB" ∈ sampleTopology.servMap.keys ∧ "2BB" ∉ sampleTopology.upstream.keys) :=
  IsLocal_iff_known_and_no_upstream sampleEnv sampleTopology "2BB" sampleTopology_reachable

/-! ## Users: one owner for a nick -/

theorem GetUser_indexed (E : Env) (st : UserReg) (id : String) (h : st.Indexed E) :
    (GetUser st id).1.Indexed E := by
  unfold GetUser
  cases hg : st.userMap.get? id with
  | some u => exact h
  | none =>
    refine ⟨fun uid u hu => ?_, fun uid u hu hn => ?_⟩
    · simp only [GoMap.get?_set] at hu
      by_cases e : uid = id
      · simp only [e, if_true, Option.some.injEq] at hu
        rw [← hu, e]
      · simp only [e, if_false] at hu
        exact h.1 uid u hu
    · simp only [GoMap.get?_set] at hu
      by_cases e : uid = id
      · simp only [e, if_true, Option.some.injEq] at hu
        rw [← hu] at hn
        exact absurd rfl hn
      · simp only [e, if_false] at hu
        exact h.2 uid u hu hn

theorem SetNick_indexed (E : Env) (hstar : E.StarAlone) (st st' : UserReg) (uid nick : String)
    (now : Time) (err : Option Numeric) (h : st.Indexed E)
    (hr : SetNick E st uid nick now = some (st', err)) : st'.Indexed E := by
  unfold SetNick at hr
  cases hg : st.userMap.get? uid with
  | none =>
    rw [hg] at hr
    cases hr
  | some u =>
    rw [hg] at hr
    have hid : u.id = uid := h.1 uid u hg
    unfold User.SetNick at hr
    by_cases hv : E.ValidNick nick = true
    · simp only [hv, Bool.not_true, Bool.false_eq_true, if_false] at hr
      cases hn : st.userNicks.get? (E.ToLower nick) with
      | some owner =>
        rw [hn] at hr
        by_cases ho : owner = u.id
        · simp only [ho, if_true, Option.some.injEq, Prod.mk.injEq] at hr
          rw [← hr.1, GoMap.set_self _ _ _ hg]
          exact h
        · simp only [ho, if_false, Option.some.injEq, Prod.mk.injEq] at hr
          rw [← hr.1, GoMap.set_self _ _ _ hg]
          exact h
      | none =>
        rw [hn] at hr
        simp only [Option.some.injEq, Prod.mk.injEq] at hr
        rw [← hr.1]
        have hfold : ∀ m w, m ≠ "*" → st.userNicks.get? (E.ToLower m) = some w →
            (u.nick ≠ "*" → w ≠ uid) → E.ToLower m ≠ E.ToLower u.nick := by
          intro m w hm hk hw e
          by_cases hs : u.nick = "*"
          · rw [hs] at e
            exact hm (hstar m e)
          · have h2 := h.2 uid u hg hs
            rw [← e, hk] at h2
            exact hw hs (Option.some.inj h2)
        refine ⟨fun uid' v hv' => ?_, fun uid' v hv' hnot => ?_⟩
        · simp only [GoMap.get?_set] at hv'
          by_cases e : uid' = uid
          · simp only [e, if_true, Option.some.injEq] at hv'
            rw [← hv', e]
            exact hid
          · simp only [e, if_false] at hv'
            exact h.1 uid' v hv'
        · simp only [GoMap.get?_set] at hv'
          simp only [GoMap.get?_del, GoMap.get?_set]
          by_cases e : uid' = uid
          · simp only [e, if_true, Option.some.injEq] at hv'
            rw [← hv'] at hnot ⊢
            simp only at hnot ⊢
            have hne1 : E.ToLower nick ≠ E.ToLower u.nick := by
              intro e1
              by_cases hs : u.nick = "*"
              · rw [hs] at e1
                exact hnot (hstar nick e1)
              · have h2 := h.2 uid u hg hs
                rw [← e1, hn] at h2
                cases h2
            simp [hne1, hid, e]
          · simp only [e, if_false] at hv'
            have hidx := h.2 uid' v hv' hnot
            have hne1 : E.ToLower v.nick ≠ E.ToLower u.nick :=
              hfold v.nick uid' hnot hidx (fun _ => e)
            have hne2 : E.ToLower v.nick ≠ E.ToLower nick := by
              intro e2
              rw [e2, hn] at hidx
              cases hidx
            simp [hne1, hne2, hidx]
    · simp only [hv, Bool.not_false, if_true, Option.some.injEq, Prod.mk.injEq] at hr
      rw [← hr.1, GoMap.set_self _ _ _ hg]
      exact h

theorem Import_indexed (E : Env) (st : UserReg) (uid nick user host ip hops ts name : String)
    (h : st.Indexed E) : (Import E st uid nick user host ip hops ts name).1.Indexed E := by
  unfold Import
  by_cases hu : st.userMap.has uid = true
  · simp only [hu, if_true]
    exact h
  · simp only [hu, Bool.false_eq_true, if_false]
    by_cases hn : st.userNicks.has (E.ToLower nick) = true
    · simp only [hn, if_true]
      exact h
    · simp only [hn, Bool.false_eq_true, if_false]
      have hnone : st.userNicks.get? (E.ToLower nick) = none := by
        cases hg : st.userNicks.get? (E.ToLower nick) with
        | none => rfl
        | some w => exact absurd (by simp [GoMap.has, hg]) hn
      refine ⟨fun uid' v hv' => ?_, fun uid' v hv' hnot => ?_⟩
      · simp only [GoMap.get?_set] at hv'
        by_cases e : uid' = uid
        · simp only [e, if_true, Option.some.injEq] at hv'
          rw [← hv', e]
        · simp only [e, if_false] at hv'
          exact h.1 uid' v hv'
      · simp only [GoMap.get?_set] at hv'
        simp only [GoMap.get?_set]
        by_cases e : uid' = uid
        · simp only [e, if_true, Option.some.injEq] at hv'
          rw [← hv']
          simp [e]
        · simp only [e, if_false] at hv'
          have hidx := h.2 uid' v hv' hnot
          have hne : E.ToLower v.nick ≠ E.ToLower nick := by
            intro e2
            rw [e2, hnone] at hidx
            cases hidx
          simp [hne, hidx]

theorem Delete_indexed (E : Env) (hstar : E.StarAlone) (hdel : E.DeleteFoldsAlike)
    (st : UserReg) (id : String) (h : st.Indexed E) : (Delete E st id).Indexed E := by
  unfold Delete
  cases hg : st.userMap.get? id with
  | none => exact h
  | some u =>
    refine ⟨fun uid' v hv' => ?_, fun uid' v hv' hnot => ?_⟩
    · simp only [GoMap.get?_del] at hv'
      by_cases e : uid' = id
      · simp [e] at hv'
      · simp only [e, if_false] at hv'
        exact h.1 uid' v hv'
    · simp only [GoMap.get?_del] at hv'
      simp only [GoMap.get?_del]
      by_cases e : uid' = id
      · simp [e] at hv'
      · simp only [e, if_false] at hv'
        have hidx := h.2 uid' v hv' hnot
        have hne : E.ToLower v.nick ≠ E.stringsToLower u.nick := by
          intro e2
          have e3 := hdel u.nick v.nick e2
          by_cases hs : u.nick = "*"
          · rw [hs] at e3
            exact hnot (hstar v.nick e3.symm)
          · have h2 := h.2 id u hg hs
            rw [e3, hidx] at h2
            exact e (Option.some.inj h2)
        simp [hne, hidx]

theorem Reachable_indexed (E : Env) (hstar : E.StarAlone) (hdel : E.DeleteFoldsAlike)
    (st : UserReg) (h : UserReg.Reachable E st) : st.Indexed E := by
  induction h with
  | init =>
    refine ⟨fun uid u hu => ?_, fun uid u hu _ => ?_⟩ <;> cases hu
  | getUser st id _ ih => exact GetUser_indexed E st id ih
  | setNick st st' uid nick now err _ hr ih =>
    exact SetNick_indexed E hstar st st' uid nick now err ih hr
  | importUser st uid nick user host ip hops ts name _ ih =>
    exact Import_indexed E st uid nick user host ip hops ts name ih
  | delete st id _ ih => exact Delete_indexed E hstar hdel st id ih

/-- Where `strings.ToLower`, which `Delete` uses, does not cross the fold classes
of `ToLower`, and `*` is alone in its fold class: in every state reached from the
empty user registry by `GetUser`, `SetNick` on a record of `userMap`, `Import`
and `Delete`, two records stored under distinct UIDs whose nicks are not `*`
have nicks with different case-folds. -/
theorem nick_has_one_owner (E : Env) (hstar : E.StarAlone) (hdel : E.DeleteFoldsAlike)
    (st : UserReg) (h : UserReg.Reachable E st) (uid1 uid2 : String) (u1 u2 : User)
    (hne : uid1 ≠ uid2)
    (h1 : st.userMap.get? uid1 = some u1) (h2 : st.userMap.get? uid2 = some u2)
    (hn1 : u1.nick ≠ "*") (hn2 : u2.nick ≠ "*") :
    E.ToLower u1.nick ≠ E.ToLower u2.nick := by
  intro hfold
  have hI := Reachable_indexed E hstar hdel st h
  have a := hI.2 uid1 u1 h1 hn1
  have b := hI.2 uid2 u2 h2 hn2
  rw [hfold, b] at a
  exact hne (Option.some.inj a).symm

theorem Char_toLower_star (c : Char) (h : c.toLower = '*') : c = '*' := by
  unfold Char.toLower at h
  simp only at h
  by_cases hc : c.toNat ≥ 65 ∧ c.toNat ≤ 90
  · rw [if_pos hc] at h
    exfalso
    have h1 : 65 ≤ c.toNat := hc.1
    have h2 : c.toNat ≤ 90 := hc.2
    generalize c.toNat = n at h h1 h2
    interval_cases n <;> exact absurd h (by decide)
  · rw [if_neg hc] at h
    exact h

theorem sampleEnv_starAlone : sampleEnv.StarAlone := by
  intro m h
  have h1 : m.data.map Char.toLower = ['*'] := congrArg String.data h
  cases hm : m.data with
  | nil => rw [hm] at h1; cases h1
  | cons c t =>
    rw [hm] at h1
    simp only [List.map_cons, List.cons.injEq, List.map_eq_nil_iff] at h1
    have hc := Char_toLower_star c h1.1
    have : m = ⟨m.data⟩ := rfl
    rw [this, hm, hc, h1.2]

theorem sampleEnv_deleteFoldsAlike : sampleEnv.DeleteFoldsAlike :=
  fun _ _ h => h.symm

theorem sampleUsers_reachable : UserReg.Reachable sampleEnv sampleUsers := by
  have h1 : UserReg.Reachable sampleEnv (GetUser UserReg.empty "1AAAAAAAA").1 :=
    UserReg.Reachable.getUser _ _ UserReg.Reachable.init
  have h2 := UserReg.Reachable.setNick _
    ⟨GoMap.empty.set "1AAAAAAAA"
        { ts := 1, id := "1AAAAAAAA", user := "", pass := "", nick := "foo", name := "",
          utyp := userType.UnregisteredUser },
      GoMap.empty.set "foo" "1AAAAAAAA"⟩
    "1AAAAAAAA" "foo" 1 none h1 (by decide)
  have h3 := UserReg.Reachable.getUser _ "1AAAAAAAB" h2
  exact UserReg.Reachable.setNick _ sampleUsers "1AAAAAAAB" "bar" 2 none h3 (by decide)

/-- After `GetUser` and `SetNick` for `1AAAAAAAA` with `foo` and for `1AAAAAAAB`
with `bar`, the two nicks have different case-folds. -/
theorem nick_has_one_owner_witness :
    UserReg.Reachable sampleEnv sampleUsers ∧
      sampleEnv.ToLower "foo" ≠ sampleEnv.ToLower "bar" :=
  ⟨sampleUsers_reachable,
    nick_has_one_owner sampleEnv sampleEnv_starAlone sampleEnv_deleteFoldsAlike sampleUsers
      sampleUsers_reachable "1AAAAAAAA" "1AAAAAAAB"
      { ts := 1, id := "1AAAAAAAA", user := "", pass := "", nick := "foo", name := "",
        utyp := userType.UnregisteredUser }
      { ts := 2, id := "1AAAAAAAB", user := "", pass := "", nick := "bar", name := "",
        utyp := userType.UnregisteredUser }
      (by decide) (by decide) (by decide) (by decide) (by decide)⟩

/-! ## Topology: `IterFor` -/

theorem cached_empty (x : String) : ¬ Cached GoMap.empty x := by
  simp [Cached, GoMap.get?_empty]

theorem cached_set (cache : GoMap Bool) (s x : String) :
    Cached (cache.set s true) x ↔ x = s ∨ Cached cache x := by
  unfold Cached
  rw [GoMap.get?_set]
  by_cases h : x = s <;> simp [h]

theorem walkUp_le (up : GoMap String) (n : Nat) :
    ∀ (m : Nat) (s r : String), walkUp up n s = some r → n ≤ m → walkUp up m s = some r := by
  induction n with
  | zero => intro m s r h; simp [walkUp] at h
  | succ n ih =>
    intro m s r h hle
    obtain ⟨m', rfl⟩ : ∃ m', m = m' + 1 := ⟨m - 1, by omega⟩
    unfold walkUp at h ⊢
    cases hg : up.get? s with
    | none => rw [hg] at h; exact h
    | some a =>
      rw [hg] at h
      exact ih m' a r h (by omega)

theorem walkUp_root (up : GoMap String) (n : Nat) :
    ∀ (s r : String), walkUp up n s = some r → up.get? r = none := by
  induction n with
  | zero => intro s r h; simp [walkUp] at h
  | succ n ih =>
    intro s r h
    unfold walkUp at h
    cases hg : up.get? s with
    | none =>
      rw [hg] at h
      simp only [Option.some.injEq] at h
      rw [← h]
      exact hg
    | some a =>
      rw [hg] at h
      exact ih a r h

theorem EndsAt_unique (up : GoMap String) (s r r' : String)
    (h : EndsAt up s r) (h' : EndsAt up s r') : r = r' := by
  obtain ⟨n, hn⟩ := h
  obtain ⟨m, hm⟩ := h'
  have a := walkUp_le up n (max n m) s r hn (le_max_left _ _)
  have b := walkUp_le up m (max n m) s r' hm (le_max_right _ _)
  rw [a] at b
  exact Option.some.inj b

theorem EndsAt_of_none (up : GoMap String) (s : String) (h : up.get? s = none) :
    EndsAt up s s :=
  ⟨1, by simp [walkUp, h]⟩

theorem EndsAt_step (up : GoMap String) (s a r : String) (h : up.get? s = some a)
    (hr : EndsAt up a r) : EndsAt up s r := by
  obtain ⟨n, hn⟩ := hr
  exact ⟨n + 1, by simp [walkUp, h, hn]⟩

theorem walkUp_closed (up : GoMap String) (cache : GoMap Bool)
    (hcl : ∀ x a, Cached cache x → up.get? x = some a → Cached cache a) (n : Nat) :
    ∀ (s r : String), walkUp up n s = some r → Cached cache s → Cached cache r := by
  induction n with
  | zero => intro s r h; simp [walkUp] at h
  | succ n ih =>
    intro s r h hs
    unfold walkUp at h
    cases hg : up.get? s with
    | none =>
      rw [hg] at h
      simp only [Option.some.injEq] at h
      rw [← h]
      exact hs
    | some a =>
      rw [hg] at h
      exact ih a r h (hcl s a hs hg)

theorem walkCached_spec (up : GoMap String) (n : Nat) :
    ∀ (cache : GoMap Bool) (sid : String) (cache' : GoMap Bool) (res : Option String),
      (∀ x a, Cached cache x → up.get? x = some a → Cached cache a ∨ a = sid) →
      walkCached up n cache sid = some (cache', res) →
      (∀ x, Cached cache x → Cached cache' x) ∧
      Cached cache' sid ∧
      (∀ x a, Cached cache' x → up.get? x = some a → Cached cache' a) ∧
      (∀ x, Cached cache' x → up.get? x = none → Cached cache x ∨ res = some x) ∧
      (∀ r, res = some r → up.get? r = none ∧ ¬ Cached cache r ∧ EndsAt up sid r) := by
  induction n with
  | zero => intro cache sid cache' res _ h; simp [walkCached] at h
  | succ n ih =>
    intro cache sid cache' res hc h
    unfold walkCached at h
    by_cases hs : (cache.get? sid).getD false = true
    · simp only [hs, if_true, Option.some.injEq, Prod.mk.injEq] at h
      obtain ⟨h1, h2⟩ := h
      subst h1
      subst h2
      refine ⟨fun x hx => hx, hs, fun x a hx ha => ?_, fun x hx _ => Or.inl hx, ?_⟩
      · rcases hc x a hx ha with h' | h'
        · exact h'
        · rw [h']
          exact hs
      · intro r hr
        cases hr
    · simp only [hs, Bool.false_eq_true, if_false] at h
      have hc1 : ∀ x, Cached (cache.set sid true) x ↔ x = sid ∨ Cached cache x :=
        cached_set cache sid
      cases hg : up.get? sid with
      | none =>
        rw [hg] at h
        simp only [Option.some.injEq, Prod.mk.injEq] at h
        obtain ⟨h1, h2⟩ := h
        subst h1
        subst h2
        refine ⟨fun x hx => (hc1 x).2 (Or.inr hx), (hc1 sid).2 (Or.inl rfl),
          fun x a hx ha => ?_, fun x hx _ => ?_, ?_⟩
        · rcases (hc1 x).1 hx with e | hx'
          · rw [e, hg] at ha
            cases ha
          · rcases hc x a hx' ha with h' | h'
            · exact (hc1 a).2 (Or.inr h')
            · exact (hc1 a).2 (Or.inl h')
        · rcases (hc1 x).1 hx with e | hx'
          · exact Or.inr (by rw [e])
          · exact Or.inl hx'
        · intro r hr
          simp only [Option.some.injEq] at hr
          subst hr
          exact ⟨hg, hs, EndsAt_of_none up _ hg⟩
      | some a =>
        rw [hg] at h
        simp only at h
        have hc' : ∀ x b, Cached (cache.set sid true) x → up.get? x = some b →
            Cached (cache.set sid true) b ∨ b = a := by
          intro x b hx hb
          rcases (hc1 x).1 hx with e | hx'
          · rw [e, hg] at hb
            exact Or.inr (Option.some.inj hb).symm
          · rcases hc x b hx' hb with h' | h'
            · exact Or.inl ((hc1 b).2 (Or.inr h'))
            · exact Or.inl ((hc1 b).2 (Or.inl h'))
        obtain ⟨i1, _, i3, i4, i5⟩ := ih (cache.set sid true) a cache' res hc' h
        refine ⟨fun x hx => i1 x ((hc1 x).2 (Or.inr hx)), i1 sid ((hc1 sid).2 (Or.inl rfl)),
          i3, fun x hx hn => ?_, fun r hr => ?_⟩
        · rcases i4 x hx hn with h' | h'
          · rcases (hc1 x).1 h' with e | hx'
            · rw [e, hg] at hn
              cases hn
            · exact Or.inl hx'
          · exact Or.inr h'
        · obtain ⟨j1, j2, j3⟩ := i5 r hr
          exact ⟨j1, fun hcr => j2 ((hc1 r).2 (Or.inr hcr)), EndsAt_step up sid a r hg j3⟩

theorem iterLoop_inv (up : GoMap String) (fuel : Nat) (skip : String) (ids : List String) :
    ∀ (done : List String) (cache : GoMap Bool) (links out : List String),
      IterInv up skip done cache links →
      iterLoop up fuel skip ids cache links = Outcome.ret out →
      ∃ cache', IterInv up skip (done ++ ids) cache' out := by
  induction ids with
  | nil =>
    intro done cache links out hinv h
    simp only [iterLoop, Outcome.ret.injEq] at h
    subst h
    exact ⟨cache, by simpa using hinv⟩
  | cons id rest ih =>
    intro done cache links out hinv h
    obtain ⟨hA, hB, hC, hD, hE⟩ := hinv
    unfold iterLoop at h
    cases hsid : sidOf id with
    | none => rw [hsid] at h; cases h
    | some sid =>
      rw [hsid] at h
      simp only at h
      cases hw : walkCached up fuel cache sid with
      | none => rw [hw] at h; cases h
      | some pr =>
        obtain ⟨cache1, res⟩ := pr
        rw [hw] at h
        obtain ⟨s1, s2, s3, s4, s5⟩ := walkCached_spec up fuel cache sid cache1 res
          (fun x a hx ha => Or.inl (hA x a hx ha)) hw
        have hdone : done ++ id :: rest = (done ++ [id]) ++ rest := by simp
        have hE' : ∀ i ∈ done ++ [id], ∃ sd, sidOf i = some sd ∧ Cached cache1 sd := by
          intro i hi
          rcases List.mem_append.1 hi with hi | hi
          · obtain ⟨sd, e1, e2⟩ := hE i hi
            exact ⟨sd, e1, s1 sd e2⟩
          · rw [List.mem_singleton.1 hi]
            exact ⟨sid, hsid, s2⟩
        have hD' : ∀ r ∈ links, Cached cache1 r ∧ r ≠ skip ∧
            ∃ i ∈ done ++ [id], ∃ sd, sidOf i = some sd ∧ EndsAt up sd r := by
          intro r hr
          obtain ⟨d1, d2, i, hi, d3⟩ := hD r hr
          exact ⟨s1 r d1, d2, i, List.mem_append_left _ hi, d3⟩
        rw [hdone]
        cases res with
        | none =>
          simp only at h
          refine ih (done ++ [id]) cache1 links out ⟨s3, ?_, hC, hD', hE'⟩ h
          intro x hx hn
          rcases s4 x hx hn with h' | h'
          · exact hB x h' hn
          · cases h'
        | some r =>
          simp only at h
          obtain ⟨r1, r2, r3⟩ := s5 r rfl
          have hcr : Cached cache1 r := by
            obtain ⟨n, hn⟩ := r3
            exact walkUp_closed up cache1 s3 n sid r hn s2
          by_cases hskip : r = skip
          · simp only [hskip, if_true] at h
            refine ih (done ++ [id]) cache1 links out ⟨s3, ?_, hC, hD', hE'⟩ h
            intro x hx hn
            rcases s4 x hx hn with h' | h'
            · exact hB x h' hn
            · simp only [Option.some.injEq] at h'
              exact Or.inl (h'.symm.trans hskip)
          · simp only [hskip, if_false] at h
            have hnotin : r ∉ links := fun hr => r2 (hD r hr).1
            refine ih (done ++ [id]) cache1 (links ++ [r]) out ⟨s3, ?_, ?_, ?_, hE'⟩ h
            · intro x hx hn
              rcases s4 x hx hn with h' | h'
              · rcases hB x h' hn with e | e
                · exact Or.inl e
                · exact Or.inr (List.mem_append_left _ e)
              · simp only [Option.some.injEq] at h'
                exact Or.inr (List.mem_append_right _ (by simp [h']))
            · exact List.Nodup.append hC (List.nodup_singleton r) (by simpa using hnotin)
            · intro x hx
              rcases List.mem_append.1 hx with hx | hx
              · exact hD' x hx
              · rw [List.mem_singleton.1 hx]
                exact ⟨hcr, hskip, id, by simp, sid, hsid, r3⟩

theorem walkCached_total (up : GoMap String) (n : Nat) :
    ∀ (m : Nat) (cache : GoMap Bool) (s r : String), walkUp up n s = some r → n ≤ m →
      ∃ res, walkCached up m cache s = some res := by
  induction n with
  | zero => intro m cache s r h; simp [walkUp] at h
  | succ n ih =>
    intro m cache s r h hle
    obtain ⟨m', rfl⟩ : ∃ m', m = m' + 1 := ⟨m - 1, by omega⟩
    unfold walkUp at h
    unfold walkCached
    by_cases hs : (cache.get? s).getD false = true
    · exact ⟨(cache, none), by simp [hs]⟩
    · simp only [hs, Bool.false_eq_true, if_false]
      cases hg : up.get? s with
      | none => exact ⟨_, rfl⟩
      | some a =>
        rw [hg] at h
        exact ih m' (cache.set s true) a r h (by omega)

theorem walkCached_le (up : GoMap String) (n : Nat) :
    ∀ (m : Nat) (cache : GoMap Bool) (s : String) (res : GoMap Bool × Option String),
      walkCached up n cache s = some res → n ≤ m → walkCached up m cache s = some res := by
  induction n with
  | zero => intro m cache s res h; simp [walkCached] at h
  | succ n ih =>
    intro m cache s res h hle
    obtain ⟨m', rfl⟩ : ∃ m', m = m' + 1 := ⟨m - 1, by omega⟩
    unfold walkCached at h ⊢
    by_cases hs : (cache.get? s).getD false = true
    · simpa [hs] using h
    · simp only [hs, Bool.false_eq_true, if_false] at h ⊢
      cases hg : up.get? s with
      | none => rw [hg] at h; exact h
      | some a =>
        rw [hg] at h
        exact ih m' (cache.set s true) a res h (by omega)

theorem iterLoop_le (up : GoMap String) (n m : Nat) (hle : n ≤ m) (skip : String)
    (ids : List String) :
    ∀ (cache : GoMap Bool) (links out : List String),
      iterLoop up n skip ids cache links = Outcome.ret out →
      iterLoop up m skip ids cache links = Outcome.ret out := by
  induction ids with
  | nil => intro cache links out h; simpa [iterLoop] using h
  | cons id rest ih =>
    intro cache links out h
    unfold iterLoop at h ⊢
    cases hsid : sidOf id with
    | none => rw [hsid] at h; cases h
    | some sid =>
      rw [hsid] at h
      simp only at h ⊢
      cases hw : walkCached up n cache sid with
      | none => rw [hw] at h; cases h
      | some pr =>
        rw [hw] at h
        rw [walkCached_le up n m cache sid pr hw hle]
        obtain ⟨cache1, res⟩ := pr
        cases res with
        | none => exact ih cache1 links out h
        | some r =>
          simp only at h ⊢
          by_cases hskip : r = skip
          · simp only [hskip, if_true] at h ⊢
            exact ih cache1 links out h
          · simp only [hskip, if_false] at h ⊢
            exact ih cache1 (links ++ [r]) out h

theorem iterLoop_total (up : GoMap String) (fuel : Nat) (skip : String) (ids : List String) :
    ∀ (cache : GoMap Bool) (links : List String),
      (∀ id ∈ ids, ∃ sid r, sidOf id = some sid ∧ walkUp up fuel sid = some r) →
      ∃ out, iterLoop up fuel skip ids cache links = Outcome.ret out := by
  induction ids with
  | nil => intro cache links _; exact ⟨links, rfl⟩
  | cons id rest ih =>
    intro cache links hall
    obtain ⟨sid, r, hsid, hr⟩ := hall id (List.mem_cons_self _ _)
    have hrest : ∀ i ∈ rest, ∃ sd r', sidOf i = some sd ∧ walkUp up fuel sd = some r' :=
      fun i hi => hall i (List.mem_cons_of_mem _ hi)
    obtain ⟨pr, hw⟩ := walkCached_total up fuel fuel cache sid r hr (le_refl _)
    obtain ⟨cache1, res⟩ := pr
    unfold iterLoop
    rw [hsid]
    simp only
    rw [hw]
    cases res with
    | none => exact ih cache1 links hrest
    | some r' =>
      simp only
      by_cases hskip : r' = skip
      · simp only [hskip, if_true]
        exact ih cache1 links hrest
      · simp only [hskip, if_false]
        exact ih cache1 (links ++ [r']) hrest

theorem exists_fuel (up : GoMap String) (hterm : ∀ s, ∃ n r, walkUp up n s = some r)
    (l : List String) : ∃ N, ∀ s ∈ l, ∃ r, walkUp up N s = some r := by
  induction l with
  | nil => exact ⟨0, fun s hs => by cases hs⟩
  | cons a t ih =>
    obtain ⟨N, hN⟩ := ih
    obtain ⟨n, r, hr⟩ := hterm a
    refine ⟨max N n, fun s hs => ?_⟩
    rcases List.mem_cons.1 hs with e | hs'
    · rw [e]
      exact ⟨r, walkUp_le up n _ a r hr (le_max_right _ _)⟩
    · obtain ⟨r', hr'⟩ := hN s hs'
      exact ⟨r', walkUp_le up N _ s r' hr' (le_max_left _ _)⟩

theorem sidOf_of_length (id : String) (h : 3 ≤ id.length) :
    sidOf id = some ⟨id.data.take 3⟩ := by
  unfold sidOf
  simp [Nat.not_lt.2 h]

theorem eq_singleton_of_mem_iff (l : List String) (a : String) (hnd : l.Nodup)
    (h : ∀ r, r ∈ l ↔ r = a) : l = [a] := by
  cases l with
  | nil => exact absurd ((h a).2 rfl) (by simp)
  | cons b t =>
    have hb : b = a := (h b).1 (List.mem_cons_self _ _)
    cases t with
    | nil => rw [hb]
    | cons c t' =>
      have hc : c = a := (h c).1 (by simp)
      rw [hb, hc] at hnd
      simp at hnd

/-- C1: when every walk through `upstream` ends and every ID has at least three
characters, `IterFor(ids, skipLink)` returns, and the SIDs it sends are pairwise
distinct and are exactly the SIDs `r` at which the walk from the first three
characters of some ID ends and at which the walk from `skipLink` does not end.
So for one ID whose SID has no `upstream` entry and the skip link `""` (without
an `upstream` entry) it sends that SID alone, and for one ID whose walk ends
where the walk of `skipLink` ends it sends nothing. -/
theorem IterFor_sends_the_roots (st : Topology) (ids : List String) (skipLink : String)
    (hterm : ∀ s, ∃ n r, walkUp st.upstream n s = some r)
    (hlen : ∀ id ∈ ids, 3 ≤ id.length) :
    ∃ links N,
      (∀ n, N ≤ n → IterFor st n ids skipLink = Outcome.ret links) ∧
      links.Nodup ∧
      (∀ r, r ∈ links ↔
        (∃ id ∈ ids, EndsAt st.upstream ⟨id.data.take 3⟩ r) ∧
          ¬ EndsAt st.upstream skipLink r) ∧
      (∀ uid, ids = [uid] → skipLink = "" → st.upstream.get? ⟨uid.data.take 3⟩ = none →
        st.upstream.get? "" = none → links = [⟨uid.data.take 3⟩]) ∧
      (∀ uid r, ids = [uid] → EndsAt st.upstream ⟨uid.data.take 3⟩ r →
        EndsAt st.upstream skipLink r → links = []) := by
  obtain ⟨N, hN⟩ := exists_fuel st.upstream hterm
    (skipLink :: ids.map (fun id => (⟨id.data.take 3⟩ : String)))
  obtain ⟨skip, hskip⟩ := hN skipLink (List.mem_cons_self _ _)
  have hall : ∀ id ∈ ids, ∃ sid r, sidOf id = some sid ∧ walkUp st.upstream N sid = some r := by
    intro id hid
    obtain ⟨r, hr⟩ := hN ⟨id.data.take 3⟩
      (List.mem_cons_of_mem _ (List.mem_map.2 ⟨id, hid, rfl⟩))
    exact ⟨_, r, sidOf_of_length id (hlen id hid), hr⟩
  obtain ⟨links, hrun⟩ := iterLoop_total st.upstream N skip ids GoMap.empty [] hall
  have hinv0 : IterInv st.upstream skip [] GoMap.empty [] := by
    refine ⟨fun x a hx _ => absurd hx (cached_empty x),
      fun x hx _ => absurd hx (cached_empty x), List.nodup_nil, ?_, ?_⟩
    · intro r hr
      cases hr
    · intro id hid
      cases hid
  obtain ⟨cache, hA, hB, hC, hD, hE⟩ :=
    iterLoop_inv st.upstream N skip ids [] GoMap.empty [] links hinv0 hrun
  simp only [List.nil_append] at hD hE
  have hskipEnds : EndsAt st.upstream skipLink skip := ⟨N, hskip⟩
  have hmem : ∀ r, r ∈ links ↔
      (∃ id ∈ ids, EndsAt st.upstream ⟨id.data.take 3⟩ r) ∧
        ¬ EndsAt st.upstream skipLink r := by
    intro r
    constructor
    · intro hr
      obtain ⟨_, d2, id, hid, sid, hsid, hends⟩ := hD r hr
      rw [sidOf_of_length id (hlen id hid)] at hsid
      rw [← Option.some.inj hsid] at hends
      exact ⟨⟨id, hid, hends⟩, fun h' => d2 (EndsAt_unique _ _ _ _ h' hskipEnds)⟩
    · rintro ⟨⟨id, hid, hends⟩, hnot⟩
      obtain ⟨sid, hsid, hc⟩ := hE id hid
      rw [sidOf_of_length id (hlen id hid)] at hsid
      rw [← Option.some.inj hsid] at hc
      obtain ⟨n, hn⟩ := hends
      have hcr := walkUp_closed st.upstream cache hA n _ r hn hc
      rcases hB r hcr (walkUp_root st.upstream n _ r hn) with e | e
      · rw [e] at hnot
        exact absurd hskipEnds hnot
      · exact e
  refine ⟨links, N, fun n hn => ?_, hC, hmem, ?_, ?_⟩
  · unfold IterFor
    rw [walkUp_le st.upstream N n skipLink skip hskip hn]
    exact iterLoop_le st.upstream N n hn skip ids GoMap.empty [] links hrun
  · intro uid hids hsk hloc hempty
    apply eq_singleton_of_mem_iff links _ hC
    intro r
    rw [hmem r, hids, hsk]
    constructor
    · rintro ⟨⟨id, hid, hends⟩, _⟩
      rw [List.mem_singleton.1 hid] at hends
      exact EndsAt_unique _ _ _ _ hends (EndsAt_of_none _ _ hloc)
    · intro e
      rw [e]
      refine ⟨⟨uid, by simp, EndsAt_of_none _ _ hloc⟩, fun h' => ?_⟩
      have e2 := EndsAt_unique _ _ _ _ h' (EndsAt_of_none _ _ hempty)
      have hl : 3 ≤ uid.length := hlen uid (by simp [hids])
      have hl2 : (⟨uid.data.take 3⟩ : String).length = 0 := by rw [e2]; rfl
      have hl3 : (⟨uid.data.take 3⟩ : String).length = 3 := by
        show (uid.data.take 3).length = 3
        rw [List.length_take]
        exact Nat.min_eq_left hl
      omega
  · intro uid r hids h1 h2
    apply List.eq_nil_iff_forall_not_mem.2
    intro x hx
    obtain ⟨⟨id, hid, hends⟩, hnot⟩ := (hmem x).1 hx
    rw [hids, List.mem_singleton] at hid
    rw [hid] at hends
    rw [EndsAt_unique _ _ _ _ hends h1] at hnot
    exact hnot h2

theorem sampleTopology_walks_end :
    ∀ s, ∃ n r, walkUp sampleTopology.upstream n s = some r := by
  intro s
  by_cases h : "3CC" = s
  · subst h
    exact ⟨2, "2BB", by decide⟩
  · exact ⟨1, s, by
      simp [walkUp, GoMap.get?, sampleTopology, GoMap.set, GoMap.empty, rawSet, rawGet, h]⟩

/-- C1, at a concrete input: with `3CC` behind `2BB`, a message for a user of
`3CC` and a user of `2BB` that came from `1AAAAAAAA` goes to `2BB`, once. -/
theorem IterFor_sends_the_roots_witness :
    IterFor sampleTopology 3 ["3CCAAAAAA", "2BBAAAAAA"] "1AAAAAAAA" = Outcome.ret ["2BB"] ∧
    ∃ links N,
      (∀ n, N ≤ n →
        IterFor sampleTopology n ["3CCAAAAAA", "2BBAAAAAA"] "1AAAAAAAA" = Outcome.ret links) ∧
      links.Nodup ∧
      (∀ r, r ∈ links ↔
        (∃ id ∈ ["3CCAAAAAA", "2BBAAAAAA"],
            EndsAt sampleTopology.upstream ⟨id.data.take 3⟩ r) ∧
          ¬ EndsAt sampleTopology.upstream "1AAAAAAAA" r) := by
  obtain ⟨links, N, h1, h2, h3, _⟩ :=
    IterFor_sends_the_roots sampleTopology ["3CCAAAAAA", "2BBAAAAAA"] "1AAAAAAAA"
      sampleTopology_walks_end (by decide)
  exact ⟨by decide, links, N, h1, h2, h3⟩

/-! ## Channels: `PartAll` and `ChanSplit` -/

/-- C11: the channel `#Chan` with the only member `1AAAAAAAA` is stored under
`#chan` (by `GetChannel`) and under `#Chan` (by `Join`). `PartAll("1AAAAAAAA")`
returns its members under the name `#Chan` and removes the member, but it
deletes the key `#Chan` alone: the channel, now without a member, is still
stored in `chanMap` under `#chan`. -/
theorem PartAll_keeps_empty_channel :
    GetAndJoin sampleEnv ChanReg.empty "#Chan" ["1AAAAAAAA"] 1
      = some (⟨[⟨"#Chan", 1, GoMap.empty.set "1AAAAAAAA" "host@mask"⟩],
                (GoMap.empty.set "#chan" 0).set "#Chan" 0⟩, some ["1AAAAAAAA"], none) ∧
    PartAll ⟨[⟨"#Chan", 1, GoMap.empty.set "1AAAAAAAA" "host@mask"⟩],
            (GoMap.empty.set "#chan" 0).set "#Chan" 0⟩ "1AAAAAAAA" 2
      = (⟨[⟨"#Chan", 2, GoMap.empty⟩], GoMap.empty.set "#chan" 0⟩,
          GoMap.empty.set "#Chan" ["1AAAAAAAA"]) ∧
    (PartAll ⟨[⟨"#Chan", 1, GoMap.empty.set "1AAAAAAAA" "host@mask"⟩],
            (GoMap.empty.set "#chan" 0).set "#Chan" 0⟩ "1AAAAAAAA" 2).1.chanMap.get? "#chan"
      = some 0 := by
  refine ⟨by decide, by decide, by decide⟩

/-- C12: after `GetChannel("#a", true)` and `Join("1AAAAAAAA")` the channel `#a`
holds the user `1AAAAAAAA` of the server `1AA` alone, and the leaving user
`2BBAAAAAA` is on no channel. `ChanSplit("1AA", ["2BBAAAAAA"])` lists
`1AAAAAAAA` for `2BBAAAAAA` all the same: `split` takes every leaving UID as a
leaving UID of every channel. -/
theorem ChanSplit_lists_stranger :
    GetAndJoin sampleEnv ChanReg.empty "#a" ["1AAAAAAAA"] 1
      = some (⟨[⟨"#a", 1, GoMap.empty.set "1AAAAAAAA" "host@mask"⟩], GoMap.empty.set "#a" 0⟩,
              some ["1AAAAAAAA"], none) ∧
    ChanSplit ⟨[⟨"#a", 1, GoMap.empty.set "1AAAAAAAA" "host@mask"⟩], GoMap.empty.set "#a" 0⟩
        "1AA" ["2BBAAAAAA"]
      = Outcome.ret
          (⟨[⟨"#a", 1, GoMap.empty.set "1AAAAAAAA" "host@mask"⟩], GoMap.empty.set "#a" 0⟩,
            GoMap.empty.set "2BBAAAAAA" ["1AAAAAAAA"]) ∧
    (GoMap.empty.set "1AAAAAAAA" "host@mask" : GoMap String).has "2BBAAAAAA" = false := by
  refine ⟨by decide, by decide, by decide⟩

/-! ## Topology: `LinkServer` -/

theorem Reachable_linkStep (E : Env) (fuel : Nat) (st : Topology)
    (link sid name hops desc : String) (h : Topology.Reachable E st) :
    Topology.Reachable E (linkStep E fuel st link sid name hops desc) := by
  unfold linkStep
  cases hr : LinkServer E fuel st link sid name hops desc with
  | ret pr =>
    obtain ⟨st', err⟩ := pr
    exact Topology.Reachable.linkServer st st' fuel link sid name hops desc err h hr
  | crash => exact h
  | outOfFuel => exact h

theorem Reachable_unlinkStep (E : Env) (st : Topology) (fuel : Nat) (split : String)
    (h : Topology.Reachable E st) : Topology.Reachable E (unlinkStep st fuel split) := by
  unfold unlinkStep
  cases hr : Unlink st fuel split with
  | none => exact h
  | some pr =>
    obtain ⟨st', sids⟩ := pr
    exact Topology.Reachable.unlink st st' fuel split sids h hr

theorem relinkedTopology_reachable : Topology.Reachable sampleEnv relinkedTopology :=
  Topology.Reachable.getServer _ _
    (Reachable_unlinkStep _ _ _ _
      (Reachable_linkStep _ _ _ _ _ _ _ _
        (Reachable_linkStep _ _ _ _ _ _ _ _
          (Topology.Reachable.getServer _ _ Topology.Reachable.init))))

theorem hopChain_cycle (up : GoMap String) (a b : String) (ha : a.length > 0)
    (hb : b.length > 0) (hab : up.get? a = some b) (hba : up.get? b = some a) (n : Nat) :
    ∀ chain, hopChain up n a chain = none ∧ hopChain up n b chain = none := by
  induction n with
  | zero => intro chain; exact ⟨rfl, rfl⟩
  | succ n ih =>
    intro chain
    unfold hopChain
    simp only [ha, hb, if_true, hab, hba, Option.getD_some]
    exact ⟨(ih (chain + 1)).2, (ih (chain + 1)).1⟩

/-- What `LinkServer` does when it returns: an error and the same maps when the
child is a key of `servMap`; otherwise, when the parent has a `downstream` map
and the loop that counts the hops ends, no error and the three maps with the
new entries. -/
theorem LinkServer_effect (E : Env) (fuel : Nat) (st : Topology)
    (parent child name hops desc : String) :
    (st.servMap.has child = true →
      LinkServer E fuel st parent child name hops desc
        = Outcome.ret (st, some (GoError.text ("Server already linked: " ++ child)))) ∧
    (∀ kids n, st.servMap.has child = false → st.downstream.get? parent = some kids →
      hopChain (st.upstream.set child parent) fuel parent 1 = some n →
      ∃ st', LinkServer E fuel st parent child name hops desc = Outcome.ret (st', none) ∧
        st'.servMap.has child = true ∧
        st'.upstream.get? child = some parent ∧
        (parent ≠ child →
          ∃ kids', st'.downstream.get? parent = some kids' ∧ kids'.has child = true) ∧
        st'.downstream.get? child = some GoMap.empty ∧
        (∀ k, k ≠ child → st'.servMap.get? k = st.servMap.get? k) ∧
        (∀ k, k ≠ child → st'.upstream.get? k = st.upstream.get? k) ∧
        (∀ k, k ≠ child → k ≠ parent → st'.downstream.get? k = st.downstream.get? k) ∧
        (parent ≠ child → st'.downstream.get? parent = some (kids.set child true))) := by
  constructor
  · intro h
    simp [LinkServer, h]
  · intro kids n hc hp hn
    refine ⟨⟨st.servMap.set child
          { id := child, ts := zeroTime, styp := servType.UnregisteredServer, pass := "",
            desc := desc, sver := 0, server := name, link := parent, capab := [],
            hops := E.Atoi hops },
        st.upstream.set child parent,
        (st.downstream.set parent (kids.set child true)).set child GoMap.empty⟩,
      by simp [LinkServer, hc, hp, hn], ?_, ?_, ?_, ?_, ?_, ?_, ?_, ?_⟩
    · simp [GoMap.has_set]
    · simp [GoMap.get?_set]
    · intro e
      exact ⟨kids.set child true, by simp [GoMap.get?_set, e], by simp [GoMap.has_set]⟩
    · simp [GoMap.get?_set]
    · intro k hk
      simp [GoMap.get?_set, hk]
    · intro k hk
      simp [GoMap.get?_set, hk]
    · intro k hk hk'
      simp [GoMap.get?_set, hk, hk']
    · intro e
      simp [GoMap.get?_set, e]

/-- C14: in the state reached by `GetServer("1AA", true)`, `LinkServer("1AA",
"2BB", ...)`, `LinkServer("2BB", "3CC", ...)`, `Unlink("2BB")` and
`GetServer("3CC", true)`, the child `2BB` is not in `servMap` and the parent
`3CC` has a `downstream` map, but `LinkServer("3CC", "2BB", ...)` does not
return, whatever the number of steps: the entry `upstream[3CC] = 2BB` that
`Unlink` left and the new entry `upstream[2BB] = 3CC` make the loop that counts
the hops run in a circle. -/
theorem LinkServer_never_returns :
    Topology.Reachable sampleEnv relinkedTopology ∧
    relinkedTopology.servMap.has "2BB" = false ∧
    relinkedTopology.downstream.get? "3CC" = some GoMap.empty ∧
    relinkedTopology.upstream.get? "3CC" = some "2BB" ∧
    ∀ fuel, LinkServer sampleEnv fuel relinkedTopology "3CC" "2BB" "peer.example" "2" "a peer"
      = Outcome.outOfFuel := by
  refine ⟨relinkedTopology_reachable, by decide, by decide, by decide, fun fuel => ?_⟩
  have h1 : relinkedTopology.servMap.has "2BB" = false := by decide
  have h2 : relinkedTopology.downstream.get? "3CC" = some GoMap.empty := by decide
  have h3 := (hopChain_cycle (relinkedTopology.upstream.set "2BB" "3CC") "3CC" "2BB"
    (by decide) (by decide) (by decide) (by decide) fuel 1).1
  simp [LinkServer, h1, h2, h3]

/-! ## Users: the index of the nicks -/

theorem Delete_indexed_agree (E : Env) (hstar : E.StarAlone) (st : UserReg) (id : String)
    (hag : ∀ u, st.userMap.get? id = some u → E.stringsToLower u.nick = E.ToLower u.nick)
    (h : st.Indexed E) : (Delete E st id).Indexed E := by
  unfold Delete
  cases hg : st.userMap.get? id with
  | none => exact h
  | some u =>
    have hfold := hag u hg
    refine ⟨fun uid' v hv' => ?_, fun uid' v hv' hnot => ?_⟩
    · simp only [GoMap.get?_del] at hv'
      by_cases e : uid' = id
      · simp [e] at hv'
      · simp only [e, if_false] at hv'
        exact h.1 uid' v hv'
    · simp only [GoMap.get?_del] at hv'
      simp only [GoMap.get?_del]
      by_cases e : uid' = id
      · simp [e] at hv'
      · simp only [e, if_false] at hv'
        have hidx := h.2 uid' v hv' hnot
        have hne : E.ToLower v.nick ≠ E.stringsToLower u.nick := by
          intro e2
          rw [hfold] at e2
          by_cases hs : u.nick = "*"
          · rw [hs] at e2
            exact hnot (hstar v.nick e2)
          · have h2 := h.2 id u hg hs
            rw [← e2, hidx] at h2
            exact e (Option.some.inj h2)
        simp [hne, hidx]

theorem ReachableTame_indexed (E : Env) (hstar : E.StarAlone) (st : UserReg)
    (h : UserReg.ReachableTame E st) : st.Indexed E := by
  induction h with
  | init =>
    refine ⟨fun uid u hu => ?_, fun uid u hu _ => ?_⟩ <;> cases hu
  | getUser st id _ ih => exact GetUser_indexed E st id ih
  | setNick st st' uid nick now err _ hr ih =>
    exact SetNick_indexed E hstar st st' uid nick now err ih hr
  | importUser st uid nick user host ip hops ts name _ _ ih =>
    exact Import_indexed E st uid nick user host ip hops ts name ih
  | delete st id _ hag ih => exact Delete_indexed_agree E hstar st id hag ih

theorem GetUser_owned (E : Env) (st : UserReg) (id : String) (h : st.IndexOwned E) :
    (GetUser st id).1.IndexOwned E := by
  unfold GetUser
  cases hg : st.userMap.get? id with
  | some u => exact h
  | none =>
    intro k i hk
    obtain ⟨u, hu, hn, hf⟩ := h k i hk
    have hne : i ≠ id := fun e => by
      rw [e, hg] at hu
      cases hu
    exact ⟨u, by simp [GoMap.get?_set, hne, hu], hn, hf⟩

theorem SetNick_owned (E : Env) (hv : E.ValidNick "*" = false) (st st' : UserReg)
    (uid nick : String) (now : Time) (err : Option Numeric)
    (hkey : ∀ uid u, st.userMap.get? uid = some u → u.id = uid) (h : st.IndexOwned E)
    (hr : SetNick E st uid nick now = some (st', err)) : st'.IndexOwned E := by
  unfold SetNick at hr
  cases hg : st.userMap.get? uid with
  | none =>
    rw [hg] at hr
    cases hr
  | some u =>
    rw [hg] at hr
    have hid : u.id = uid := hkey uid u hg
    unfold User.SetNick at hr
    by_cases hval : E.ValidNick nick = true
    · simp only [hval, Bool.not_true, Bool.false_eq_true, if_false] at hr
      cases hn : st.userNicks.get? (E.ToLower nick) with
      | some owner =>
        rw [hn] at hr
        by_cases ho : owner = u.id
        · simp only [ho, if_true, Option.some.injEq, Prod.mk.injEq] at hr
          rw [← hr.1, GoMap.set_self _ _ _ hg]
          exact h
        · simp only [ho, if_false, Option.some.injEq, Prod.mk.injEq] at hr
          rw [← hr.1, GoMap.set_self _ _ _ hg]
          exact h
      | none =>
        rw [hn] at hr
        simp only [Option.some.injEq, Prod.mk.injEq] at hr
        rw [← hr.1]
        intro k i hk
        simp only [GoMap.get?_del, GoMap.get?_set] at hk
        by_cases e1 : k = E.ToLower u.nick
        · simp [e1] at hk
        · simp only [e1, if_false] at hk
          by_cases e2 : k = E.ToLower nick
          · simp only [e2, if_true, Option.some.injEq] at hk
            have hnick : nick ≠ "*" := fun e => by
              rw [e, hv] at hval
              cases hval
            refine ⟨{ u with nick := nick, ts := now }, ?_, hnick, e2.symm⟩
            rw [← hk, hid]
            simp [GoMap.get?_set]
          · simp only [e2, if_false] at hk
            obtain ⟨v, hv1, hv2, hv3⟩ := h k i hk
            have hne : i ≠ uid := fun e => by
              rw [e, hg] at hv1
              rw [← Option.some.inj hv1] at hv3
              exact e1 hv3.symm
            exact ⟨v, by simp [GoMap.get?_set, hne, hv1], hv2, hv3⟩
    · simp only [hval, Bool.not_false, if_true, Option.some.injEq, Prod.mk.injEq] at hr
      rw [← hr.1, GoMap.set_self _ _ _ hg]
      exact h

theorem Import_owned (E : Env) (st : UserReg) (uid nick user host ip hops ts name : String)
    (hnick : nick ≠ "*") (h : st.IndexOwned E) :
    (Import E st uid nick user host ip hops ts name).1.IndexOwned E := by
  unfold Import
  by_cases hu : st.userMap.has uid = true
  · simp only [hu, if_true]
    exact h
  · simp only [hu, Bool.false_eq_true, if_false]
    by_cases hn : st.userNicks.has (E.ToLower nick) = true
    · simp only [hn, if_true]
      exact h
    · simp only [hn, Bool.false_eq_true, if_false]
      have hnone : st.userMap.get? uid = none := by
        cases hg : st.userMap.get? uid with
        | none => rfl
        | some w => exact absurd (by simp [GoMap.has, hg]) hu
      intro k i hk
      simp only [GoMap.get?_set] at hk
      by_cases e : k = E.ToLower nick
      · simp only [e, if_true, Option.some.injEq] at hk
        rw [← hk]
        exact ⟨{ ts := E.ParseInt ts, id := uid, user := user, pass := "", nick := nick,
                 name := name, utyp := userType.RegisteredAsUser },
          by simp [GoMap.get?_set], hnick, e.symm⟩
      · simp only [e, if_false] at hk
        obtain ⟨v, hv1, hv2, hv3⟩ := h k i hk
        have hne : i ≠ uid := fun e' => by
          rw [e', hnone] at hv1
          cases hv1
        exact ⟨v, by simp [GoMap.get?_set, hne, hv1], hv2, hv3⟩

theorem Delete_owned (E : Env) (st : UserReg) (id : String)
    (hag : ∀ u, st.userMap.get? id = some u → E.stringsToLower u.nick = E.ToLower u.nick)
    (h : st.IndexOwned E) : (Delete E st id).IndexOwned E := by
  unfold Delete
  cases hg : st.userMap.get? id with
  | none => exact h
  | some u =>
    have hfold := hag u hg
    intro k i hk
    simp only [GoMap.get?_del] at hk
    by_cases e : k = E.stringsToLower u.nick
    · simp [e] at hk
    · simp only [e, if_false] at hk
      obtain ⟨v, hv1, hv2, hv3⟩ := h k i hk
      have hne : i ≠ id := fun e' => by
        rw [e', hg] at hv1
        rw [← Option.some.inj hv1, ← hfold] at hv3
        exact e hv3.symm
      exact ⟨v, by simp [GoMap.get?_del, hne, hv1], hv2, hv3⟩

theorem ReachableTame_owned (E : Env) (hstar : E.StarAlone) (hv : E.ValidNick "*" = false)
    (st : UserReg) (h : UserReg.ReachableTame E st) : st.IndexOwned E := by
  induction h with
  | init =>
    intro k i hk
    cases hk
  | getUser st id _ ih => exact GetUser_owned E st id ih
  | setNick st st' uid nick now err hreach hr ih =>
    exact SetNick_owned E hv st st' uid nick now err
      (ReachableTame_indexed E hstar st hreach).1 ih hr
  | importUser st uid nick user host ip hops ts name _ hn ih =>
    exact Import_owned E st uid nick user host ip hops ts name hn ih
  | delete st id _ hag ih => exact Delete_owned E st id hag ih

/-- C15, as the code has it: in every state reached from the empty user
registry by `GetUser`, `SetNick` on a record of `userMap`, `Import` with a nick
other than `*`, and `Delete` of a user whose nick both folds map to the same
key, `userNicks[k] = i` holds exactly when `i` is a key of `userMap` whose record
has a nick other than `*` with case-fold `k`. The case-fold and the validator
are not among the sources: `*` is taken alone in its fold class and not valid. -/
theorem nick_index_iff (E : Env) (hstar : E.StarAlone) (hv : E.ValidNick "*" = false)
    (st : UserReg) (h : UserReg.ReachableTame E st) (k i : String) :
    st.userNicks.get? k = some i ↔
      ∃ u, st.userMap.get? i = some u ∧ u.nick ≠ "*" ∧ E.ToLower u.nick = k := by
  constructor
  · exact ReachableTame_owned E hstar hv st h k i
  · rintro ⟨u, hu, hn, hf⟩
    rw [← hf]
    exact (ReachableTame_indexed E hstar st h).2 i u hu hn

/-- C15 as stated fails: after `Import("2BBAAAAAA", "*", ...)` into the empty
registry, `userNicks["*"]` is `2BBAAAAAA`, whose record has the nick `*`. -/
theorem Import_star_is_indexed :
    UserReg.Reachable sampleEnv
        (Import sampleEnv UserReg.empty "2BBAAAAAA" "*" "u" "host" "ip" "1" "0" "n").1 ∧
    ¬ ((Import sampleEnv UserReg.empty "2BBAAAAAA" "*" "u" "host" "ip" "1" "0" "n").1.userNicks.get?
          "*" = some "2BBAAAAAA" ↔
        ∃ u, (Import sampleEnv UserReg.empty "2BBAAAAAA" "*" "u" "host" "ip" "1" "0"
            "n").1.userMap.get? "2BBAAAAAA" = some u ∧
          u.nick ≠ "*" ∧ sampleEnv.ToLower u.nick = "*") := by
  refine ⟨UserReg.Reachable.importUser _ _ _ _ _ _ _ _ _ UserReg.Reachable.init, ?_⟩
  intro h
  obtain ⟨u, hu, hn, _⟩ := h.1 (by decide)
  have hrec : (Import sampleEnv UserReg.empty "2BBAAAAAA" "*" "u" "host" "ip" "1" "0"
      "n").1.userMap.get? "2BBAAAAAA"
      = some { ts := 0, id := "2BBAAAAAA", user := "u", pass := "", nick := "*", name := "n",
               utyp := userType.RegisteredAsUser } := by decide
  rw [hrec] at hu
  rw [← Option.some.inj hu] at hn
  exact hn rfl

theorem sampleUsers_reachableTame : UserReg.ReachableTame sampleEnv sampleUsers := by
  have h1 : UserReg.ReachableTame sampleEnv (GetUser UserReg.empty "1AAAAAAAA").1 :=
    UserReg.ReachableTame.getUser _ _ UserReg.ReachableTame.init
  have h2 := UserReg.ReachableTame.setNick _
    ⟨GoMap.empty.set "1AAAAAAAA"
        { ts := 1, id := "1AAAAAAAA", user := "", pass := "", nick := "foo", name := "",
          utyp := userType.UnregisteredUser },
      GoMap.empty.set "foo" "1AAAAAAAA"⟩
    "1AAAAAAAA" "foo" 1 none h1 (by decide)
  have h3 := UserReg.ReachableTame.getUser _ "1AAAAAAAB" h2
  exact UserReg.ReachableTame.setNick _ sampleUsers "1AAAAAAAB" "bar" 2 none h3 (by decide)

/-- C15, at a concrete input: with `1AAAAAAAA` holding `foo` and `1AAAAAAAB`
holding `bar`, the index has `foo` for `1AAAAAAAA`. -/
theorem nick_index_iff_witness :
    UserReg.ReachableTame sampleEnv sampleUsers ∧
    (sampleUsers.userNicks.get? "foo" = some "1AAAAAAAA" ↔
      ∃ u, sampleUsers.userMap.get? "1AAAAAAAA" = some u ∧ u.nick ≠ "*" ∧
        sampleEnv.ToLower u.nick = "foo") :=
  ⟨sampleUsers_reachableTame,
    nick_index_iff sampleEnv sampleEnv_starAlone (by decide) sampleUsers
      sampleUsers_reachableTame "foo" "1AAAAAAAA"⟩

/-! ## Users: `SetNick` twice, `GetID`, `Import`, `Delete` -/

theorem SetNick_success_cases (E : Env) (hstar : E.StarAlone) (hv : E.ValidNick "*" = false)
    (st st1 : UserReg) (hI : st.Indexed E) (uid n : String) (now : Time)
    (h1 : SetNick E st uid n now = some (st1, none)) :
    ∃ u, st.userMap.get? uid = some u ∧ u.id = uid ∧ E.ValidNick n = true ∧
      ((st.userNicks.get? (E.ToLower n) = some uid ∧ st1 = st) ∨
        (st.userNicks.get? (E.ToLower n) = none ∧ E.ToLower n ≠ E.ToLower u.nick ∧
          st1 = ⟨st.userMap.set uid { u with nick := n, ts := now },
                  (st.userNicks.set (E.ToLower n) uid).del (E.ToLower u.nick)⟩)) := by
  unfold SetNick at h1
  cases hg : st.userMap.get? uid with
  | none =>
    rw [hg] at h1
    cases h1
  | some u =>
    rw [hg] at h1
    have hid : u.id = uid := hI.1 uid u hg
    unfold User.SetNick at h1
    by_cases hval : E.ValidNick n = true
    · refine ⟨u, rfl, hid, hval, ?_⟩
      simp only [hval, Bool.not_true, Bool.false_eq_true, if_false] at h1
      cases hn : st.userNicks.get? (E.ToLower n) with
      | some owner =>
        rw [hn] at h1
        by_cases ho : owner = u.id
        · simp only [ho, if_true, Option.some.injEq, Prod.mk.injEq] at h1
          left
          refine ⟨by rw [ho, hid], ?_⟩
          rw [← h1.1, GoMap.set_self _ _ _ hg]
        · simp [ho] at h1
      | none =>
        rw [hn] at h1
        simp only [Option.some.injEq, Prod.mk.injEq] at h1
        right
        have hne : E.ToLower n ≠ E.ToLower u.nick := by
          intro e
          by_cases hs : u.nick = "*"
          · rw [hs] at e
            have := hstar n e
            rw [this, hv] at hval
            cases hval
          · have h2 := hI.2 uid u hg hs
            rw [← e, hn] at h2
            cases h2
        refine ⟨rfl, hne, ?_⟩
        rw [← h1.1, hid]
    · simp [hval] at h1

/-- In a registry state where every record is stored under its own UID and the
index gives the case-fold of every nick other than `*` to its holder, when
`u.SetNick(n)` returns no error, the same call made again returns no error and
leaves `userMap` and `userNicks`, with the nick and the time of `u`, as the
first call left them. The case-fold and the validator are not among the
sources: `*` is taken alone in its fold class and not valid. -/
theorem SetNick_twice (E : Env) (hstar : E.StarAlone) (hv : E.ValidNick "*" = false)
    (st st1 : UserReg) (hI : st.Indexed E) (uid n : String) (now1 now2 : Time)
    (h1 : SetNick E st uid n now1 = some (st1, none)) :
    SetNick E st1 uid n now2 = some (st1, none) := by
  obtain ⟨u, hg, hid, hval, hcase⟩ := SetNick_success_cases E hstar hv st st1 hI uid n now1 h1
  rcases hcase with ⟨hown, hst⟩ | ⟨hnone, hne, hst⟩
  · rw [hst]
    simp [SetNick, User.SetNick, hg, hval, hown, hid, GoMap.set_self _ _ _ hg]
  · subst hid
    have hg1 : st1.userMap.get? u.id = some { u with nick := n, ts := now1 } := by
      rw [hst]
      simp [GoMap.get?_set]
    have hidx : st1.userNicks.get? (E.ToLower n) = some u.id := by
      rw [hst]
      simp [GoMap.get?_del, GoMap.get?_set, hne]
    have hself := GoMap.set_self _ _ _ hg1
    simp only [SetNick, User.SetNick, hg1, hval, hidx, Bool.not_true, Bool.false_eq_true,
      if_false, if_true, hself]

/-- The user `1AAAAAAAB`, who holds `bar`, takes `baz` twice. -/
theorem SetNick_twice_witness :
    ∃ st1, SetNick sampleEnv sampleUsers "1AAAAAAAB" "baz" 7 = some (st1, none) ∧
      SetNick sampleEnv st1 "1AAAAAAAB" "baz" 9 = some (st1, none) :=
  ⟨⟨(GoMap.empty.set "1AAAAAAAA"
        { ts := 1, id := "1AAAAAAAA", user := "", pass := "", nick := "foo", name := "",
          utyp := userType.UnregisteredUser }).set "1AAAAAAAB"
        { ts := 7, id := "1AAAAAAAB", user := "", pass := "", nick := "baz", name := "",
          utyp := userType.UnregisteredUser },
      (GoMap.empty.set "foo" "1AAAAAAAA").set "baz" "1AAAAAAAB"⟩,
    by decide,
    SetNick_twice sampleEnv sampleEnv_starAlone (by decide) sampleUsers _
      (ReachableTame_indexed sampleEnv sampleEnv_starAlone sampleUsers sampleUsers_reachableTame)
      "1AAAAAAAB" "baz" 7 9 (by decide)⟩

/-- C17, as the code has it: `GetID(x)` returns `x` when `x` is a key of
`userMap`, otherwise the UID that `userNicks` holds under the case-fold of `x`,
otherwise the error `ERR_NOSUCHNICK` with `x`. In a state where every record is
stored under its own UID and the index gives every nick other than `*` to its
holder, after `u.SetNick(n)` without error `GetID(n')` is the UID of `u` for
every `n'` with the case-fold of `n` that is not a key of `userMap`; the same
holds after an `Import` without error. When the index moreover holds no other
entries, `GetID` of the previous nick fails with `ERR_NOSUCHNICK` provided its
case-fold differs from the case-fold of `n` and it is not a key of `userMap`.
The case-fold and the validator are not among the sources: `*` is taken alone
in its fold class and not valid. -/
theorem GetID_finds_the_owner (E : Env) (st : UserReg) :
    (∀ x, st.userMap.has x = true → GetID E st x = (x, none)) ∧
    (∀ x i, st.userMap.has x = false → st.userNicks.get? (E.ToLower x) = some i →
      GetID E st x = (i, none)) ∧
    (∀ x, st.userMap.has x = false → st.userNicks.get? (E.ToLower x) = none →
      GetID E st x = ("", some (NewNumeric NumericCode.ERR_NOSUCHNICK [x]))) ∧
    (∀ uid n now st1, E.StarAlone → E.ValidNick "*" = false → st.Indexed E →
      SetNick E st uid n now = some (st1, none) →
      ∀ n', E.ToLower n' = E.ToLower n → st1.userMap.has n' = false →
        GetID E st1 n' = (uid, none)) ∧
    (∀ uid nick user host ip hops ts name,
      (Import E st uid nick user host ip hops ts name).2 = none →
      ∀ n', E.ToLower n' = E.ToLower nick →
        (Import E st uid nick user host ip hops ts name).1.userMap.has n' = false →
        GetID E (Import E st uid nick user host ip hops ts name).1 n' = (uid, none)) ∧
    (∀ uid n now st1 u, E.StarAlone → E.ValidNick "*" = false → st.Indexed E →
      st.IndexOwned E → SetNick E st uid n now = some (st1, none) →
      st.userMap.get? uid = some u → E.ToLower u.nick ≠ E.ToLower n →
      st1.userMap.has u.nick = false →
      GetID E st1 u.nick = ("", some (NewNumeric NumericCode.ERR_NOSUCHNICK [u.nick]))) := by
  refine ⟨?_, ?_, ?_, ?_, ?_, ?_⟩
  · intro x hx
    simp [GetID, hx]
  · intro x i hx hi
    simp [GetID, hx, hi]
  · intro x hx hi
    simp [GetID, hx, hi]
  · intro uid n now st1 hstar hv hI h1 n' hfold hnot
    obtain ⟨u, hg, hid, hval, hcase⟩ := SetNick_success_cases E hstar hv st st1 hI uid n now h1
    have hidx : st1.userNicks.get? (E.ToLower n') = some uid := by
      rw [hfold]
      rcases hcase with ⟨hown, hst⟩ | ⟨hnone, hne, hst⟩
      · rw [hst]
        exact hown
      · rw [hst]
        simp [GoMap.get?_del, GoMap.get?_set, hne]
    simp [GetID, hnot, hidx]
  · intro uid nick user host ip hops ts name hok n' hfold hnot
    have hidx : (Import E st uid nick user host ip hops ts name).1.userNicks.get? (E.ToLower n')
        = some uid := by
      rw [hfold]
      unfold Import at hok ⊢
      by_cases hu : st.userMap.has uid = true
      · simp [hu] at hok
      · by_cases hn : st.userNicks.has (E.ToLower nick) = true
        · simp [hu, hn] at hok
        · simp [hu, hn, GoMap.get?_set]
    simp [GetID, hnot, hidx]
  · intro uid n now st1 u hstar hv hI hO h1 hu hfold hnot
    obtain ⟨u', hg, hid, hval, hcase⟩ := SetNick_success_cases E hstar hv st st1 hI uid n now h1
    rw [hu] at hg
    have hu' : u' = u := (Option.some.inj hg).symm
    subst hu'
    have hidx : st1.userNicks.get? (E.ToLower u'.nick) = none := by
      rcases hcase with ⟨hown, hst⟩ | ⟨hnone, hne, hst⟩
      · obtain ⟨v, hv1, _, hv3⟩ := hO _ _ hown
        rw [hu] at hv1
        rw [← Option.some.inj hv1] at hv3
        exact absurd hv3 hfold
      · rw [hst]
        simp [GoMap.get?_del]
    simp [GetID, hnot, hidx]

/-- C17, at a concrete input: in the registry where `1AAAAAAAB` holds `bar`,
after `SetNick("baz")` the name `BAZ` finds `1AAAAAAAB`. -/
theorem GetID_finds_the_owner_witness :
    ∃ st1, SetNick sampleEnv sampleUsers "1AAAAAAAB" "baz" 7 = some (st1, none) ∧
      GetID sampleEnv st1 "BAZ" = ("1AAAAAAAB", none) ∧
      GetID sampleEnv st1 "bar" = ("", some (NewNumeric NumericCode.ERR_NOSUCHNICK ["bar"])) :=
  ⟨⟨(GoMap.empty.set "1AAAAAAAA"
        { ts := 1, id := "1AAAAAAAA", user := "", pass := "", nick := "foo", name := "",
          utyp := userType.UnregisteredUser }).set "1AAAAAAAB"
        { ts := 7, id := "1AAAAAAAB", user := "", pass := "", nick := "baz", name := "",
          utyp := userType.UnregisteredUser },
      (GoMap.empty.set "foo" "1AAAAAAAA").set "baz" "1AAAAAAAB"⟩,
    by decide,
    (GetID_finds_the_owner sampleEnv sampleUsers).2.2.2.1 "1AAAAAAAB" "baz" 7 _
      sampleEnv_starAlone (by decide)
      (ReachableTame_indexed sampleEnv sampleEnv_starAlone sampleUsers sampleUsers_reachableTame)
      (by decide) "BAZ" (by decide) (by decide),
    (GetID_finds_the_owner sampleEnv sampleUsers).2.2.2.2.2 "1AAAAAAAB" "baz" 7 _
      { ts := 2, id := "1AAAAAAAB", user := "", pass := "", nick := "bar", name := "",
        utyp := userType.UnregisteredUser }
      sampleEnv_starAlone (by decide)
      (ReachableTame_indexed sampleEnv sampleEnv_starAlone sampleUsers sampleUsers_reachableTame)
      (ReachableTame_owned sampleEnv sampleEnv_starAlone (by decide) sampleUsers
        sampleUsers_reachableTame)
      (by decide) (by decide) (by decide) (by decide)⟩

/-- C17 as stated fails: `1AAAAAAAA` holds `foo`; `SetNick("FOO")` returns no
error, and `GetID` of the previous nick `foo` still returns `1AAAAAAAA`. -/
theorem GetID_previous_nick_still_found :
    SetNick sampleEnv sampleUsers "1AAAAAAAA" "FOO" 5 = some (sampleUsers, none) ∧
    sampleUsers.userMap.has "foo" = false ∧
    GetID sampleEnv sampleUsers "foo" = ("1AAAAAAAA", none) ∧
    GetID sampleEnv sampleUsers "foo"
      ≠ ("", some (NewNumeric NumericCode.ERR_NOSUCHNICK ["foo"])) := by
  refine ⟨by decide, by decide, by decide, by decide⟩

/-- C18: `Import` returns an error and changes nothing when the UID is a key of
`userMap` or the case-fold of the nick is a key of `userNicks`; otherwise it
returns no error, stores under the UID a record with the nick, user and name
given and the stage `RegisteredAsUser`, gives the case-fold of the nick to the
UID, and leaves every other entry of the two maps as it was. -/
theorem Import_effect (E : Env) (st : UserReg) (uid nick user host ip hops ts name : String) :
    ((st.userMap.has uid = true ∨ st.userNicks.has (E.ToLower nick) = true) →
      ∃ e, Import E st uid nick user host ip hops ts name = (st, some e)) ∧
    (st.userMap.has uid = false → st.userNicks.has (E.ToLower nick) = false →
      ∃ st', Import E st uid nick user host ip hops ts name = (st', none) ∧
        st'.userMap.get? uid
          = some { ts := E.ParseInt ts, id := uid, user := user, pass := "", nick := nick,
                   name := name, utyp := userType.RegisteredAsUser } ∧
        st'.userNicks.get? (E.ToLower nick) = some uid ∧
        (∀ k, k ≠ uid → st'.userMap.get? k = st.userMap.get? k) ∧
        (∀ k, k ≠ E.ToLower nick → st'.userNicks.get? k = st.userNicks.get? k)) := by
  constructor
  · intro h
    by_cases hu : st.userMap.has uid = true
    · exact ⟨GoError.text "UID collision", by simp [Import, hu]⟩
    · rcases h with h | h
      · exact absurd h hu
      · exact ⟨GoError.text "NICK collision", by simp [Import, hu, h]⟩
  · intro hu hn
    refine ⟨⟨st.userMap.set uid
          { ts := E.ParseInt ts, id := uid, user := user, pass := "", nick := nick,
            name := name, utyp := userType.RegisteredAsUser },
        st.userNicks.set (E.ToLower nick) uid⟩, by simp [Import, hu, hn], ?_, ?_, ?_, ?_⟩
    · simp [GoMap.get?_set]
    · simp [GoMap.get?_set]
    · intro k hk
      simp [GoMap.get?_set, hk]
    · intro k hk
      simp [GoMap.get?_set, hk]

/-- C18, at a concrete input: the import of `1AAAAAAAA` into the registry that
has it, and the import of `2BBAAAAAA` with the free nick `baz`. -/
theorem Import_effect_witness :
    (∃ e, Import sampleEnv sampleUsers "1AAAAAAAA" "baz" "u" "host" "ip" "1" "0" "n"
      = (sampleUsers, some e)) ∧
    (∃ st', Import sampleEnv sampleUsers "2BBAAAAAA" "baz" "u" "host" "ip" "1" "0" "n"
        = (st', none) ∧
      st'.userMap.get? "2BBAAAAAA"
        = some { ts := sampleEnv.ParseInt "0", id := "2BBAAAAAA", user := "u", pass := "",
                 nick := "baz", name := "n", utyp := userType.RegisteredAsUser } ∧
      st'.userNicks.get? (sampleEnv.ToLower "baz") = some "2BBAAAAAA" ∧
      (∀ k, k ≠ "2BBAAAAAA" → st'.userMap.get? k = sampleUsers.userMap.get? k) ∧
      (∀ k, k ≠ sampleEnv.ToLower "baz" →
        st'.userNicks.get? k = sampleUsers.userNicks.get? k)) :=
  ⟨(Import_effect sampleEnv sampleUsers "1AAAAAAAA" "baz" "u" "host" "ip" "1" "0" "n").1
      (Or.inl (by decide)),
    (Import_effect sampleEnv sampleUsers "2BBAAAAAA" "baz" "u" "host" "ip" "1" "0" "n").2
      (by decide) (by decide)⟩

/-- C19: `Delete` of an unknown UID changes nothing. `Delete` of a known UID
removes the UID from `userMap`, keeps every other record, and deletes from
`userNicks` the key `strings.ToLower(nick)` and no other. So when the two folds
give the same key for the nick and the index holds the UID under that key only,
no entry with the UID is left; but when `strings.ToLower(nick)` differs from
`ToLower(nick)`, the entry of the index under `ToLower(nick)` is still there
with the deleted UID. -/
theorem Delete_keeps_misfolded_entry (E : Env) (st : UserReg) (uid : String) :
    (st.userMap.get? uid = none → Delete E st uid = st) ∧
    (∀ u, st.userMap.get? uid = some u →
      (Delete E st uid).userMap.has uid = false ∧
      (∀ k, k ≠ uid → (Delete E st uid).userMap.get? k = st.userMap.get? k) ∧
      (∀ k, k ≠ E.stringsToLower u.nick →
        (Delete E st uid).userNicks.get? k = st.userNicks.get? k) ∧
      (Delete E st uid).userNicks.get? (E.stringsToLower u.nick) = none ∧
      (E.stringsToLower u.nick = E.ToLower u.nick → st.IndexOwned E →
        ∀ k, (Delete E st uid).userNicks.get? k ≠ some uid) ∧
      (E.stringsToLower u.nick ≠ E.ToLower u.nick →
        st.userNicks.get? (E.ToLower u.nick) = some uid →
        (Delete E st uid).userNicks.get? (E.ToLower u.nick) = some uid)) := by
  constructor
  · intro h
    simp [Delete, h]
  · intro u hu
    have hd : Delete E st uid
        = ⟨st.userMap.del uid, st.userNicks.del (E.stringsToLower u.nick)⟩ := by
      simp [Delete, hu]
    rw [hd]
    refine ⟨by simp [GoMap.has_del], ?_, ?_, by simp [GoMap.get?_del], ?_, ?_⟩
    · intro k hk
      simp [GoMap.get?_del, hk]
    · intro k hk
      simp [GoMap.get?_del, hk]
    · intro hag hO k hk
      simp only [GoMap.get?_del] at hk
      by_cases e : k = E.stringsToLower u.nick
      · simp [e] at hk
      · simp only [e, if_false] at hk
        obtain ⟨v, hv1, _, hv3⟩ := hO k uid hk
        rw [hu] at hv1
        rw [← Option.some.inj hv1, ← hag] at hv3
        exact e hv3.symm
    · intro hne hidx
      simp [GoMap.get?_del, Ne.symm hne, hidx]

/-- C19, at a concrete input: with a case-fold that folds `[` to `{`, the user
`2BBAAAAAA` is imported with the nick `[x]` and deleted; the index still has
`{x}` for `2BBAAAAAA`. -/
theorem Delete_keeps_misfolded_entry_witness :
    (Import bracketEnv UserReg.empty "2BBAAAAAA" "[x]" "u" "host" "ip" "1" "0" "n").1.userNicks.get?
        "{x}" = some "2BBAAAAAA" ∧
    (Delete bracketEnv
        (Import bracketEnv UserReg.empty "2BBAAAAAA" "[x]" "u" "host" "ip" "1" "0" "n").1
        "2BBAAAAAA").userMap.has "2BBAAAAAA" = false ∧
    (Delete bracketEnv
        (Import bracketEnv UserReg.empty "2BBAAAAAA" "[x]" "u" "host" "ip" "1" "0" "n").1
        "2BBAAAAAA").userNicks.get? "{x}" = some "2BBAAAAAA" :=
  ⟨by decide, by decide,
    ((Delete_keeps_misfolded_entry bracketEnv
        (Import bracketEnv UserReg.empty "2BBAAAAAA" "[x]" "u" "host" "ip" "1" "0" "n").1
        "2BBAAAAAA").2
      { ts := 0, id := "2BBAAAAAA", user := "u", pass := "", nick := "[x]", name := "n",
        utyp := userType.RegisteredAsUser } (by decide)).2.2.2.2.2 (by decide) (by decide)⟩

/-! ## Channels: `GetChannel` -/

/-- C20: `GetChannel(name, create)` returns `ERR_NOSUCHCHANNEL` with the name
and leaves the registry as it was when the name is not valid, and when no
channel is stored under the case-fold of the name and `create` is false. When a
channel is stored under the case-fold it returns that channel and leaves the
registry as it was. When none is stored and `create` is true it appends a new
channel with the name as given and no members and stores it under the
case-fold; a later call with a valid name of the same case-fold returns that
channel, whose name is still the first spelling. -/
theorem GetChannel_cases (E : Env) (st : ChanReg) (name : String) (create : Bool) :
    (E.ValidChannel name = false →
      GetChannel E st name create
        = (st, none, some (NewNumeric NumericCode.ERR_NOSUCHCHANNEL [name]))) ∧
    (E.ValidChannel name = true → st.chanMap.get? (E.ToLower name) = none →
      GetChannel E st name false
        = (st, none, some (NewNumeric NumericCode.ERR_NOSUCHCHANNEL [name]))) ∧
    (∀ p, E.ValidChannel name = true → st.chanMap.get? (E.ToLower name) = some p →
      GetChannel E st name create = (st, some p, none)) ∧
    (E.ValidChannel name = true → st.chanMap.get? (E.ToLower name) = none →
      GetChannel E st name true
        = (⟨st.store ++ [⟨name, zeroTime, GoMap.empty⟩],
            st.chanMap.set (E.ToLower name) st.store.length⟩, some st.store.length, none) ∧
      (GetChannel E st name true).1.store.get? st.store.length
        = some ⟨name, zeroTime, GoMap.empty⟩ ∧
      (GetChannel E st name true).1.chanMap.get? (E.ToLower name) = some st.store.length ∧
      (∀ k, k ≠ E.ToLower name →
        (GetChannel E st name true).1.chanMap.get? k = st.chanMap.get? k) ∧
      ∀ other, E.ValidChannel other = true → E.ToLower other = E.ToLower name →
        GetChannel E (GetChannel E st name true).1 other create
          = ((GetChannel E st name true).1, some st.store.length, none)) := by
  refine ⟨?_, ?_, ?_, ?_⟩
  · intro hv
    simp [GetChannel, hv]
  · intro hv hn
    simp [GetChannel, hv, hn]
  · intro p hv hp
    simp [GetChannel, hv, hp]
  · intro hv hn
    have hg : GetChannel E st name true
        = (⟨st.store ++ [⟨name, zeroTime, GoMap.empty⟩],
            st.chanMap.set (E.ToLower name) st.store.length⟩, some st.store.length, none) := by
      simp [GetChannel, hv, hn]
    rw [hg]
    refine ⟨rfl, by simp, by simp [GoMap.get?_set], ?_, ?_⟩
    · intro k hk
      simp [GoMap.get?_set, hk]
    · intro other hvo hfold
      simp [GetChannel, hvo, hfold, GoMap.get?_set]

/-- C20, at a concrete input: `#Chan` is created in the empty registry, and
`#CHAN` then finds the same channel, named `#Chan`; `chan` is not a channel
name. -/
theorem GetChannel_cases_witness :
    GetChannel sampleEnv ChanReg.empty "chan" true
        = (ChanReg.empty, none, some (NewNumeric NumericCode.ERR_NOSUCHCHANNEL ["chan"])) ∧
    (GetChannel sampleEnv ChanReg.empty "#Chan" true).1.store.get? 0
        = some ⟨"#Chan", zeroTime, GoMap.empty⟩ ∧
    GetChannel sampleEnv (GetChannel sampleEnv ChanReg.empty "#Chan" true).1 "#CHAN" false
        = ((GetChannel sampleEnv ChanReg.empty "#Chan" true).1, some 0, none) :=
  ⟨(GetChannel_cases sampleEnv ChanReg.empty "chan" true).1 (by decide),
    ((GetChannel_cases sampleEnv ChanReg.empty "#Chan" false).2.2.2 (by decide) (by decide)).2.1,
    ((GetChannel_cases sampleEnv ChanReg.empty "#Chan" false).2.2.2 (by decide)
      (by decide)).2.2.2.2 "#CHAN" (by decide) (by decide)⟩

/-! ## Topology: `LinkedTo` -/

theorem GetServer_edge (st : Topology) (sid p c : String)
    (h : (GetServer st sid true).1.Edge p c) : st.Edge p c := by
  unfold GetServer at h
  cases hg : st.servMap.get? sid with
  | some s =>
    rw [hg] at h
    exact h
  | none =>
    rw [hg] at h
    obtain ⟨kids, hk, hc⟩ := h
    simp only [Bool.not_true, Bool.false_eq_true, if_false, GoMap.get?_set] at hk
    by_cases e : p = sid
    · simp only [e, if_true, Option.some.injEq] at hk
      rw [← hk] at hc
      cases hc
    · simp only [e, if_false] at hk
      exact ⟨kids, hk, hc⟩

theorem GetServer_has (st : Topology) (sid x : String) (h : st.servMap.has x = true) :
    (GetServer st sid true).1.servMap.has x = true := by
  unfold GetServer
  cases hg : st.servMap.get? sid with
  | some s => exact h
  | none => simp [GoMap.has_set, h]

theorem GetServer_has_iff (st : Topology) (sid x : String) :
    (GetServer st sid true).1.servMap.has x = true ↔ x = sid ∨ st.servMap.has x = true := by
  unfold GetServer
  cases hg : st.servMap.get? sid with
  | some s =>
    constructor
    · exact Or.inr
    · rintro (e | h)
      · rw [e]
        simp [GoMap.has, hg]
      · exact h
  | none => simp [GoMap.has_set]

theorem GetServer_upstream (st : Topology) (sid : String) :
    (GetServer st sid true).1.upstream = st.upstream := by
  unfold GetServer
  cases hg : st.servMap.get? sid with
  | some s => rfl
  | none => rfl

theorem GetServer_kidsKnown (st : Topology) (sid : String) (h : st.KidsKnown) :
    (GetServer st sid true).1.KidsKnown := by
  intro p c he
  obtain ⟨h1, h2⟩ := h p c (GetServer_edge st sid p c he)
  rw [GetServer_upstream]
  exact ⟨h1, GetServer_has st sid c h2⟩

theorem GetServer_ranked (st : Topology) (sid : String) (h : st.Ranked) :
    (GetServer st sid true).1.Ranked := by
  obtain ⟨rank, N, h1, h2⟩ := h
  refine ⟨rank, max N (rank sid), fun p c he => h1 p c (GetServer_edge st sid p c he),
    fun x hx => ?_⟩
  rcases (GetServer_has_iff st sid x).1 hx with e | hx'
  · rw [e]
    exact le_max_right _ _
  · exact le_trans (h2 x hx') (le_max_left _ _)

theorem LinkServer_ret (E : Env) (fuel : Nat) (st st' : Topology)
    (link sid name hops desc : String) (err : Option GoError)
    (hr : LinkServer E fuel st link sid name hops desc = Outcome.ret (st', err)) :
    st' = st ∨
      (st.servMap.has sid = false ∧ ∃ kids, st.downstream.get? link = some kids ∧
        st'.upstream = st.upstream.set sid link ∧
        st'.downstream = (st.downstream.set link (kids.set sid true)).set sid GoMap.empty ∧
        ∀ x, st'.servMap.has x = true ↔ x = sid ∨ st.servMap.has x = true) := by
  unfold LinkServer at hr
  by_cases hs : st.servMap.has sid = true
  · simp only [hs, if_true, Outcome.ret.injEq, Prod.mk.injEq] at hr
    exact Or.inl hr.1.symm
  · simp only [hs, Bool.false_eq_true, if_false] at hr
    cases hd : st.downstream.get? link with
    | none =>
      rw [hd] at hr
      cases hr
    | some kids =>
      rw [hd] at hr
      simp only at hr
      cases hc : hopChain (st.upstream.set sid link) fuel link 1 with
      | none =>
        rw [hc] at hr
        cases hr
      | some n =>
        rw [hc] at hr
        simp only [Outcome.ret.injEq, Prod.mk.injEq] at hr
        right
        refine ⟨by simpa using hs, kids, rfl, ?_, ?_, ?_⟩
        · rw [← hr.1]
        · rw [← hr.1]
        · intro x
          rw [← hr.1]
          simp [GoMap.has_set]

theorem LinkServer_edge (st st' : Topology) (link sid : String) (kids : GoMap Bool)
    (hkids : st.downstream.get? link = some kids)
    (hd : st'.downstream = (st.downstream.set link (kids.set sid true)).set sid GoMap.empty)
    (p c : String) (h : st'.Edge p c) :
    (p = link ∧ c = sid ∧ link ≠ sid) ∨ (st.Edge p c ∧ p ≠ sid) := by
  obtain ⟨k', hk, hc⟩ := h
  rw [hd] at hk
  simp only [GoMap.get?_set] at hk
  by_cases e1 : p = sid
  · simp only [e1, if_true, Option.some.injEq] at hk
    rw [← hk] at hc
    cases hc
  · simp only [e1, if_false] at hk
    by_cases e2 : p = link
    · simp only [e2, if_true, Option.some.injEq] at hk
      rw [← hk, GoMap.mem_keys_set] at hc
      rcases hc with e | hc
      · exact Or.inl ⟨e2, e, fun e3 => e1 (e2.trans e3)⟩
      · exact Or.inr ⟨⟨kids, by rw [e2]; exact hkids, hc⟩, e1⟩
    · simp only [e2, if_false] at hk
      exact Or.inr ⟨⟨k', hk, hc⟩, e1⟩

theorem LinkServer_kidsKnown (E : Env) (fuel : Nat) (st st' : Topology)
    (link sid name hops desc : String) (err : Option GoError) (h : st.KidsKnown)
    (hr : LinkServer E fuel st link sid name hops desc = Outcome.ret (st', err)) :
    st'.KidsKnown := by
  rcases LinkServer_ret E fuel st st' link sid name hops desc err hr with e | ⟨hs, kids, hk, hu, hd, hm⟩
  · rw [e]
    exact h
  · intro p c he
    rcases LinkServer_edge st st' link sid kids hk hd p c he with ⟨e1, e2, _⟩ | ⟨he', _⟩
    · rw [hu, e1, e2]
      exact ⟨by simp [GoMap.get?_set], (hm sid).2 (Or.inl rfl)⟩
    · obtain ⟨h1, h2⟩ := h p c he'
      have hne : c ≠ sid := fun e => by
        rw [e, hs] at h2
        cases h2
      rw [hu]
      exact ⟨by simp [GoMap.get?_set, hne, h1], (hm c).2 (Or.inr h2)⟩

theorem LinkServer_ranked (E : Env) (fuel : Nat) (st st' : Topology)
    (link sid name hops desc : String) (err : Option GoError) (hK : st.KidsKnown)
    (h : st.Ranked)
    (hr : LinkServer E fuel st link sid name hops desc = Outcome.ret (st', err)) :
    st'.Ranked := by
  rcases LinkServer_ret E fuel st st' link sid name hops desc err hr with e | ⟨hs, kids, hk, hu, hd, hm⟩
  · rw [e]
    exact h
  · obtain ⟨rank, N, h1, h2⟩ := h
    refine ⟨fun x => if x = sid then rank link + 1 else rank x, max N (rank link + 1),
      fun p c he => ?_, fun x hx => ?_⟩
    · rcases LinkServer_edge st st' link sid kids hk hd p c he with ⟨e1, e2, e3⟩ | ⟨he', hp⟩
      · simp [e1, e2, e3]
      · have hc : c ≠ sid := fun e => by
          have := (hK p c he').2
          rw [e, hs] at this
          cases this
        simp only [hp, hc, if_false]
        exact h1 p c he'
    · by_cases e : x = sid
      · simp only [e, if_true]
        exact le_max_right _ _
      · simp only [e, if_false]
        rcases (hm x).1 hx with e' | hx'
        · exact absurd e' e
        · exact le_trans (h2 x hx') (le_max_left _ _)

theorem unlinkOne_edge (st : Topology) (sid : String) (hK : st.KidsKnown) (p c : String)
    (h : (unlinkOne st sid).Edge p c) : st.Edge p c ∧ c ≠ sid := by
  obtain ⟨k', hk, hc⟩ := h
  cases hu : st.upstream.get? sid with
  | none =>
    simp only [unlinkOne, hu, GoMap.get?_del] at hk
    by_cases e1 : p = sid
    · simp [e1] at hk
    · simp only [e1, if_false] at hk
      refine ⟨⟨k', hk, hc⟩, fun e => ?_⟩
      have := (hK p c ⟨k', hk, hc⟩).1
      rw [e, hu] at this
      cases this
  | some up =>
    cases hd : st.downstream.get? up with
    | none =>
      simp only [unlinkOne, hu, hd, GoMap.get?_del] at hk
      by_cases e1 : p = sid
      · simp [e1] at hk
      · simp only [e1, if_false] at hk
        refine ⟨⟨k', hk, hc⟩, fun e => ?_⟩
        have := (hK p c ⟨k', hk, hc⟩).1
        rw [e, hu] at this
        rw [← Option.some.inj this, hd] at hk
        cases hk
    | some kids =>
      simp only [unlinkOne, hu, hd, GoMap.get?_del, GoMap.get?_set] at hk
      by_cases e1 : p = sid
      · simp [e1] at hk
      · simp only [e1, if_false] at hk
        by_cases e2 : p = up
        · simp only [e2, if_true, Option.some.injEq] at hk
          rw [← hk, GoMap.mem_keys_del] at hc
          exact ⟨⟨kids, by rw [e2]; exact hd, hc.2⟩, hc.1⟩
        · simp only [e2, if_false] at hk
          refine ⟨⟨k', hk, hc⟩, fun e => ?_⟩
          have := (hK p c ⟨k', hk, hc⟩).1
          rw [e, hu] at this
          exact e2 (Option.some.inj this).symm

theorem unlinkOne_has (st : Topology) (sid x : String) :
    (unlinkOne st sid).servMap.has x = true ↔ x ≠ sid ∧ st.servMap.has x = true := by
  simp [unlinkOne, GoMap.has_del]

theorem unlinkOne_kidsKnown (st : Topology) (sid : String) (hK : st.KidsKnown) :
    (unlinkOne st sid).KidsKnown := by
  intro p c he
  obtain ⟨he', hne⟩ := unlinkOne_edge st sid hK p c he
  obtain ⟨h1, h2⟩ := hK p c he'
  exact ⟨h1, (unlinkOne_has st sid c).2 ⟨hne, h2⟩⟩

theorem unlinkOne_ranked (st : Topology) (sid : String) (hK : st.KidsKnown) (h : st.Ranked) :
    (unlinkOne st sid).Ranked := by
  obtain ⟨rank, N, h1, h2⟩ := h
  exact ⟨rank, N, fun p c he => h1 p c (unlinkOne_edge st sid hK p c he).1,
    fun x hx => h2 x ((unlinkOne_has st sid x).1 hx).2⟩

theorem foldl_unlinkOne_forest (sids : List String) (st : Topology)
    (h : st.KidsKnown ∧ st.Ranked) :
    (sids.foldl unlinkOne st).KidsKnown ∧ (sids.foldl unlinkOne st).Ranked := by
  induction sids generalizing st with
  | nil => exact h
  | cons a rest ih =>
    exact ih _ ⟨unlinkOne_kidsKnown st a h.1, unlinkOne_ranked st a h.1 h.2⟩

theorem Reachable_forest (E : Env) (st : Topology) (h : Topology.Reachable E st) :
    st.KidsKnown ∧ st.Ranked := by
  induction h with
  | init =>
    constructor
    · intro p c he
      obtain ⟨kids, hk, _⟩ := he
      cases hk
    · refine ⟨fun _ => 0, 0, fun p c he => ?_, fun x _ => le_refl _⟩
      obtain ⟨kids, hk, _⟩ := he
      cases hk
  | getServer st sid _ ih =>
    exact ⟨GetServer_kidsKnown st sid ih.1, GetServer_ranked st sid ih.2⟩
  | linkServer st st' fuel link sid name hops desc err _ hr ih =>
    exact ⟨LinkServer_kidsKnown E fuel st st' link sid name hops desc err ih.1 hr,
      LinkServer_ranked E fuel st st' link sid name hops desc err ih.1 ih.2 hr⟩
  | unlink st st' fuel split sids _ hr ih =>
    unfold Unlink at hr
    cases hl : linkedTo st fuel split with
    | none =>
      rw [hl] at hr
      cases hr
    | some l =>
      rw [hl] at hr
      simp only [Option.some.injEq, Prod.mk.injEq] at hr
      rw [← hr.1]
      exact foldl_unlinkOne_forest l st ih

theorem linkedTo_succ (st : Topology) (n : Nat) (link : String) :
    linkedTo st (n + 1) link =
      if st.servMap.has link = true then (kidsOf st link).foldl (linkedStep st n) (some [link])
      else some [] := by
  show (if (!st.servMap.has link) = true then some []
      else (kidsOf st link).foldl (linkedStep st n) (some [link])) = _
  by_cases h : st.servMap.has link = true <;> simp [h]

theorem foldl_linkedStep_none (st : Topology) (n : Nat) (ds : List String) :
    ds.foldl (linkedStep st n) none = none := by
  induction ds with
  | nil => rfl
  | cons d rest ih => exact ih

theorem foldl_linkedStep_le (st : Topology) (n k : Nat)
    (hle : ∀ d l, linkedTo st n d = some l → linkedTo st k d = some l) (ds : List String) :
    ∀ (acc : Option (List String)) (r : List String),
      ds.foldl (linkedStep st n) acc = some r → ds.foldl (linkedStep st k) acc = some r := by
  induction ds with
  | nil => intro acc r h; exact h
  | cons d rest ih =>
    intro acc r h
    cases acc with
    | none =>
      simp only [List.foldl_cons] at h
      have : linkedStep st n none d = none := rfl
      rw [this, foldl_linkedStep_none] at h
      cases h
    | some a =>
      simp only [List.foldl_cons] at h ⊢
      cases hd : linkedTo st n d with
      | none =>
        have : linkedStep st n (some a) d = none := by simp [linkedStep, hd]
        rw [this, foldl_linkedStep_none] at h
        cases h
      | some more =>
        have h1 : linkedStep st n (some a) d = some (a ++ more) := by simp [linkedStep, hd]
        have h2 : linkedStep st k (some a) d = some (a ++ more) := by
          simp [linkedStep, hle d more hd]
        rw [h1] at h
        rw [h2]
        exact ih _ r h

theorem linkedTo_le (st : Topology) (n : Nat) :
    ∀ (k : Nat) (x : String) (l : List String),
      linkedTo st n x = some l → n ≤ k → linkedTo st k x = some l := by
  induction n with
  | zero => intro k x l h; simp [linkedTo] at h
  | succ n ih =>
    intro k x l h hle
    obtain ⟨k', rfl⟩ : ∃ k', k = k' + 1 := ⟨k - 1, by omega⟩
    rw [linkedTo_succ] at h ⊢
    by_cases hs : st.servMap.has x = true
    · simp only [hs, if_true] at h ⊢
      exact foldl_linkedStep_le st n k' (fun d l' hd => ih k' d l' hd (by omega)) _ _ _ h
    · simp only [hs, if_false] at h ⊢
      exact h

theorem Below_rank (st : Topology) (rank : String → Nat)
    (hr : ∀ p c, st.Edge p c → rank p < rank c) (a b : String) (h : st.Below a b) :
    rank a ≤ rank b := by
  induction h with
  | refl => exact le_refl _
  | tail _ he ih => exact le_trans ih (le_of_lt (hr _ _ he))

theorem Edge_parent_unique (st : Topology) (hK : st.KidsKnown) (p p' c : String)
    (h : st.Edge p c) (h' : st.Edge p' c) : p = p' := by
  have a := (hK p c h).1
  have b := (hK p' c h').1
  rw [a] at b
  exact Option.some.inj b

theorem Below_comparable (st : Topology) (hK : st.KidsKnown) (a b : String) :
    ∀ y, st.Below a y → st.Below b y → st.Below a b ∨ st.Below b a := by
  intro y h1
  induction h1 with
  | refl => intro h2; exact Or.inr h2
  | tail hab hbc ih =>
    intro h2
    rcases Relation.ReflTransGen.cases_tail h2 with e | ⟨z, hbz, hz⟩
    · left
      rw [← e]
      exact Relation.ReflTransGen.tail hab hbc
    · have := Edge_parent_unique st hK _ _ _ hbc hz
      rw [← this] at hbz
      exact ih hbz

theorem siblings_apart (st : Topology) (hK : st.KidsKnown) (rank : String → Nat)
    (hr : ∀ p c, st.Edge p c → rank p < rank c) (x d d' y : String)
    (hd : st.Edge x d) (hd' : st.Edge x d') (hne : d ≠ d')
    (h : st.Below d y) (h' : st.Below d' y) : False := by
  have key : ∀ a b, st.Edge x a → st.Edge x b → a ≠ b → st.Below a b → False := by
    intro a b ha hb hab hbel
    rcases Relation.ReflTransGen.cases_tail hbel with e | ⟨z, haz, hz⟩
    · exact hab e.symm
    · have hzx : z = x := Edge_parent_unique st hK _ _ _ hz hb
      rw [hzx] at haz
      have h1 := Below_rank st rank hr a x haz
      have h2 := hr x a ha
      omega
  rcases Below_comparable st hK d d' y h h' with hc | hc
  · exact key d d' hd hd' hne hc
  · exact key d' d hd' hd (Ne.symm hne) hc

theorem Below_head (st : Topology) (x y : String) (h : st.Below x y) :
    y = x ∨ ∃ d, st.Edge x d ∧ st.Below d y := by
  rcases Relation.ReflTransGen.cases_head h with e | ⟨d, hd, hdy⟩
  · exact Or.inl e.symm
  · exact Or.inr ⟨d, hd, hdy⟩

theorem foldl_linkedStep_spec (st : Topology) (hK : st.KidsKnown) (rank : String → Nat)
    (hr : ∀ p c, st.Edge p c → rank p < rank c) (x : String) (n : Nat) :
    ∀ (ds acc : List String), ds.Nodup → (∀ d ∈ ds, st.Edge x d) →
      (∀ d ∈ ds, ∃ l, linkedTo st n d = some l ∧ l.Nodup ∧ ∀ y, y ∈ l ↔ st.Below d y) →
      acc.Nodup → (∀ y ∈ acc, ∀ d ∈ ds, ¬ st.Below d y) →
      ∃ l, ds.foldl (linkedStep st n) (some acc) = some l ∧ l.Nodup ∧
        (∀ y, y ∈ l ↔ y ∈ acc ∨ ∃ d ∈ ds, st.Below d y) ∧ ∃ rest, l = acc ++ rest := by
  intro ds
  induction ds with
  | nil =>
    intro acc _ _ _ hacc _
    exact ⟨acc, rfl, hacc, fun y => by simp, [], by simp⟩
  | cons d rest ih =>
    intro acc hnd hedge hspec hacc hdis
    obtain ⟨hdnot, hnd'⟩ := List.nodup_cons.1 hnd
    obtain ⟨ld, hld, hldnd, hldmem⟩ := hspec d (List.mem_cons_self _ _)
    have hstep : linkedStep st n (some acc) d = some (acc ++ ld) := by
      simp [linkedStep, hld]
    have hacc' : (acc ++ ld).Nodup := by
      refine List.Nodup.append hacc hldnd ?_
      intro y hy1 hy2
      exact hdis y hy1 d (List.mem_cons_self _ _) ((hldmem y).1 hy2)
    have hdis' : ∀ y ∈ acc ++ ld, ∀ d' ∈ rest, ¬ st.Below d' y := by
      intro y hy d' hd' hbel
      rcases List.mem_append.1 hy with hy | hy
      · exact hdis y hy d' (List.mem_cons_of_mem _ hd') hbel
      · have hne : d ≠ d' := fun e => hdnot (e ▸ hd')
        exact siblings_apart st hK rank hr x d d' y (hedge d (List.mem_cons_self _ _))
          (hedge d' (List.mem_cons_of_mem _ hd')) hne ((hldmem y).1 hy) hbel
    obtain ⟨l, hl, hlnd, hlmem, r, hlr⟩ := ih (acc ++ ld) hnd'
      (fun d' hd' => hedge d' (List.mem_cons_of_mem _ hd'))
      (fun d' hd' => hspec d' (List.mem_cons_of_mem _ hd')) hacc' hdis'
    refine ⟨l, ?_, hlnd, fun y => ?_, ld ++ r, by rw [hlr, List.append_assoc]⟩
    · simp only [List.foldl_cons, hstep]
      exact hl
    · rw [hlmem y, List.mem_append]
      constructor
      · rintro ((hy | hy) | ⟨d', hd', hb⟩)
        · exact Or.inl hy
        · exact Or.inr ⟨d, List.mem_cons_self _ _, (hldmem y).1 hy⟩
        · exact Or.inr ⟨d', List.mem_cons_of_mem _ hd', hb⟩
      · rintro (hy | ⟨d', hd', hb⟩)
        · exact Or.inl (Or.inl hy)
        · rcases List.mem_cons.1 hd' with e | hd''
          · rw [e] at hb
            exact Or.inl (Or.inr ((hldmem y).2 hb))
          · exact Or.inr ⟨d', hd'', hb⟩

theorem mem_kidsOf (st : Topology) (x d : String) : d ∈ kidsOf st x ↔ st.Edge x d := by
  unfold kidsOf Topology.Edge
  cases h : st.downstream.get? x with
  | none => simp
  | some kids => simp

theorem kidsOf_nodup (st : Topology) (x : String) : (kidsOf st x).Nodup := by
  unfold kidsOf
  cases h : st.downstream.get? x with
  | none => exact List.nodup_nil
  | some kids => exact GoMap.keys_nodup kids

theorem linkedTo_spec (st : Topology) (hK : st.KidsKnown) (rank : String → Nat) (N : Nat)
    (hr : ∀ p c, st.Edge p c → rank p < rank c)
    (hb : ∀ x, st.servMap.has x = true → rank x ≤ N) (m : Nat) :
    ∀ (x : String) (fuel : Nat), st.servMap.has x = true → N - rank x < m → m ≤ fuel →
      ∃ l, linkedTo st fuel x = some l ∧ l.head? = some x ∧ l.Nodup ∧
        ∀ y, y ∈ l ↔ st.Below x y := by
  induction m with
  | zero => intro x fuel _ h; omega
  | succ m ih =>
    intro x fuel hx hm hfuel
    obtain ⟨fuel', rfl⟩ : ∃ f, fuel = f + 1 := ⟨fuel - 1, by omega⟩
    have hkids : ∀ d ∈ kidsOf st x,
        ∃ l, linkedTo st fuel' d = some l ∧ l.Nodup ∧ ∀ y, y ∈ l ↔ st.Below d y := by
      intro d hd
      have he := (mem_kidsOf st x d).1 hd
      have h1 := hr x d he
      have h2 := hb d (hK x d he).2
      obtain ⟨l, a, _, b, c⟩ := ih d fuel' (hK x d he).2 (by omega) (by omega)
      exact ⟨l, a, b, c⟩
    obtain ⟨l, hl, hnd, hmem, rest, hrest⟩ :=
      foldl_linkedStep_spec st hK rank hr x fuel' (kidsOf st x) [x] (kidsOf_nodup st x)
        (fun d hd => (mem_kidsOf st x d).1 hd) hkids (List.nodup_singleton x)
        (by
          intro y hy d hd hbel
          rw [List.mem_singleton.1 hy] at hbel
          have h1 := hr x d ((mem_kidsOf st x d).1 hd)
          have h2 := Below_rank st rank hr d x hbel
          omega)
    refine ⟨l, ?_, by rw [hrest]; rfl, hnd, fun y => ?_⟩
    · rw [linkedTo_succ]
      simp only [hx, if_true]
      exact hl
    · rw [hmem y]
      constructor
      · rintro (hy | ⟨d, hd, hbel⟩)
        · rw [List.mem_singleton.1 hy]
          exact Relation.ReflTransGen.refl
        · exact Relation.ReflTransGen.head ((mem_kidsOf st x d).1 hd) hbel
      · intro hbel
        rcases Below_head st x y hbel with e | ⟨d, hd, hdy⟩
        · exact Or.inl (by simp [e])
        · exact Or.inr ⟨d, (mem_kidsOf st x d).2 hd, hdy⟩

/-- C13: in every state reached from the empty topology by `GetServer(sid,
true)`, `LinkServer` and `Unlink`, `LinkedTo(sid)` returns once the recursion
may go deep enough, always with the same list: the empty list when `sid` is not
a key of `servMap`, and otherwise a list that starts with `sid`, has no SID
twice, and holds exactly `sid` and the SIDs reached from it through
`downstream` edges. -/
theorem LinkedTo_lists_the_subtree (E : Env) (st : Topology) (sid : String)
    (h : Topology.Reachable E st) :
    ∃ l N, (∀ fuel, N ≤ fuel → LinkedTo st fuel sid = some l) ∧
      (st.servMap.has sid = false → l = []) ∧
      (st.servMap.has sid = true →
        l.head? = some sid ∧ l.Nodup ∧ ∀ y, y ∈ l ↔ st.Below sid y) := by
  obtain ⟨hK, rank, N, hr, hb⟩ := Reachable_forest E st h
  by_cases hs : st.servMap.has sid = true
  · obtain ⟨l, hl, hhead, hnd, hmem⟩ :=
      linkedTo_spec st hK rank N hr hb (N - rank sid + 1) sid (N - rank sid + 1) hs
        (by omega) (le_refl _)
    refine ⟨l, N - rank sid + 1, fun fuel hf => ?_, fun hn => ?_, fun _ => ⟨hhead, hnd, hmem⟩⟩
    · exact linkedTo_le st _ fuel sid l hl hf
    · rw [hs] at hn
      cases hn
  · refine ⟨[], 1, fun fuel hf => ?_, fun _ => rfl, fun hn => absurd hn hs⟩
    obtain ⟨fuel', rfl⟩ : ∃ f, fuel = f + 1 := ⟨fuel - 1, by omega⟩
    show linkedTo st (fuel' + 1) sid = some []
    rw [linkedTo_succ]
    simp [hs]

/-- C13, at a concrete input: for `3CC` behind `2BB`, `LinkedTo("2BB")` is
`[2BB, 3CC]`. -/
theorem LinkedTo_lists_the_subtree_witness :
    LinkedTo sampleTopology 3 "2BB" = some ["2BB", "3CC"] ∧
    ∃ l N, (∀ fuel, N ≤ fuel → LinkedTo sampleTopology fuel "2BB" = some l) ∧
      (sampleTopology.servMap.has "2BB" = false → l = []) ∧
      (sampleTopology.servMap.has "2BB" = true →
        l.head? = some "2BB" ∧ l.Nodup ∧ ∀ y, y ∈ l ↔ sampleTopology.Below "2BB" y) :=
  ⟨by decide,
    LinkedTo_lists_the_subtree sampleEnv sampleTopology "2BB" sampleTopology_reachable⟩

/-! ## Users: the generator of the identifiers -/

theorem digit36_cases : ∀ d, d < 36 →
    (d = 35 → digit36 d = '9') ∧ (d = 25 → digit36 d = 'Z') ∧
    (d ≠ 35 → digit36 d ≠ '9') ∧ (d ≠ 25 → digit36 d ≠ 'Z') ∧
    (d ≠ 35 → d ≠ 25 → incByte (digit36 d) = digit36 (d + 1)) := by
  decide

theorem digit36_inj : ∀ a, a < 36 → ∀ b, b < 36 → digit36 a = digit36 b → a = b := by
  decide

theorem carry_numeralRev (len : Nat) : ∀ n, n < 36 ^ len →
    carry (numeralRev len n) = numeralRev len ((n + 1) % 36 ^ len) := by
  induction len with
  | zero => intro n _; rfl
  | succ len ih =>
    intro n hn
    have hd : n % 36 < 36 := Nat.mod_lt _ (by norm_num)
    obtain ⟨h35, h25, hn35, hn25, hinc⟩ := digit36_cases (n % 36) hd
    have hq : n / 36 < 36 ^ len := by
      rw [Nat.div_lt_iff_lt_mul (by norm_num)]
      rw [pow_succ] at hn
      exact hn
    by_cases c35 : n % 36 = 35
    · have e1 : (n + 1) % 36 ^ (len + 1) % 36 = 0 := by
        rw [pow_succ, Nat.mod_mul_left_mod]
        omega
      have e2 : (n + 1) % 36 ^ (len + 1) / 36 = (n / 36 + 1) % 36 ^ len := by
        have : n + 1 = 36 * (n / 36 + 1) := by omega
        rw [this, pow_succ, mul_comm (36 ^ len) 36, Nat.mul_mod_mul_left,
          Nat.mul_div_cancel_left _ (by norm_num : 0 < 36)]
      simp only [numeralRev, carry, h35 c35, if_true, ih _ hq, e1, e2]
      rfl
    · have hlt : n + 1 < 36 ^ (len + 1) := by
        rw [pow_succ] at hn ⊢
        omega
      have e1 : (n + 1) % 36 = n % 36 + 1 := by omega
      have e2 : (n + 1) / 36 = n / 36 := by omega
      rw [Nat.mod_eq_of_lt hlt]
      by_cases c25 : n % 36 = 25
      · simp only [numeralRev, carry, hn35 c35, if_false, h25 c25, if_true, e1, e2, c25]
        rfl
      · simp only [numeralRev, carry, hn35 c35, hn25 c25, if_false, hinc c35 c25, e1, e2]

theorem genUserIDs_eq (k : Nat) : genUserIDs k = numeral36 6 (k % 36 ^ 6) := by
  induction k with
  | zero => decide
  | succ k ih =>
    have hk : k % 36 ^ 6 < 36 ^ 6 := Nat.mod_lt _ (by norm_num)
    simp only [genUserIDs, advance, ih, numeral36, List.reverse_reverse,
      carry_numeralRev 6 _ hk, Nat.add_mod_mod, Nat.mod_add_mod]

theorem numeralRev_inj (len : Nat) : ∀ a b, a < 36 ^ len → b < 36 ^ len →
    numeralRev len a = numeralRev len b → a = b := by
  induction len with
  | zero => intro a b ha hb _; simp at ha hb; omega
  | succ len ih =>
    intro a b ha hb h
    simp only [numeralRev, List.cons.injEq] at h
    have h1 := digit36_inj _ (Nat.mod_lt a (by norm_num)) _ (Nat.mod_lt b (by norm_num)) h.1
    have h2 := ih (a / 36) (b / 36)
      (by rw [Nat.div_lt_iff_lt_mul (by norm_num)]; rw [pow_succ] at ha; exact ha)
      (by rw [Nat.div_lt_iff_lt_mul (by norm_num)]; rw [pow_succ] at hb; exact hb) h.2
    omega

theorem NextUserID_inj (pre : String) (j k : Nat) (hj : j < 36 ^ 6) (hk : k < 36 ^ 6)
    (h : NextUserID pre j = NextUserID pre k) : j = k := by
  have h1 := congrArg String.data h
  simp only [NextUserID, String.data_append] at h1
  have h2 := List.append_cancel_left h1
  rw [genUserIDs_eq, genUserIDs_eq, Nat.mod_eq_of_lt hj, Nat.mod_eq_of_lt hk] at h2
  exact numeralRev_inj 6 j k hj hk (List.reverse_injective h2)

/-- C21: the suffix sent at turn `k` is the six-digit base-36 numeral of
`k mod 36^6`, most significant digit first, over the digits A..Z, 0..9; the first
is AAAAAA, the second AAAAAB, AAAAA9 (turn 35) is followed by AAAABA, 999999
(turn 36^6 - 1) by AAAAAA, and the first 36^6 results of `NextUserID` for one
`UserIDPrefix` differ from each other. -/
theorem genUserIDs_counts_in_base36 :
    (∀ k, genUserIDs k = numeral36 6 (k % 36 ^ 6)) ∧
    genUserIDs 0 = "AAAAAA".data ∧ genUserIDs 1 = "AAAAAB".data ∧
    genUserIDs 35 = "AAAAA9".data ∧ genUserIDs 36 = "AAAABA".data ∧
    genUserIDs (36 ^ 6 - 1) = "999999".data ∧ genUserIDs (36 ^ 6) = "AAAAAA".data ∧
    (∀ (pre : String) (j k : Nat), j < 36 ^ 6 → k < 36 ^ 6 →
      NextUserID pre j = NextUserID pre k → j = k) := by
  refine ⟨genUserIDs_eq, by decide, by decide, ?_, ?_, ?_, ?_, NextUserID_inj⟩
  · rw [genUserIDs_eq]; decide
  · rw [genUserIDs_eq]; decide
  · rw [genUserIDs_eq]; decide
  · rw [genUserIDs_eq]; decide

/-- Two calls of `NextUserID` among the first 36^6, numbers 35 and 36, give
different identifiers. -/
theorem genUserIDs_counts_in_base36_witness :
    NextUserID "1AA" 35 ≠ NextUserID "1AA" 36 :=
  fun h => absurd
    (genUserIDs_counts_in_base36.2.2.2.2.2.2.2 "1AA" 35 36 (by norm_num) (by norm_num) h)
    (by decide)

theorem genUserIDs_succ (k : Nat) : genUserIDs (k + 1) = advance (genUserIDs k) := rfl

theorem genUserIDs_at_ZZZZZZ : genUserIDs 1554844525 = "ZZZZZZ".data := by
  rw [genUserIDs_eq]; decide

/-- C22, as the claim has it, fails: the suffix sent right after ZZZZZZ is not
always 000000. -/
theorem genUserIDs_after_ZZZZZZ_not_zeros :
    ¬ (∀ k, genUserIDs k = "ZZZZZZ".data → genUserIDs (k + 1) = "000000".data) := by
  intro h
  have h1 := h 1554844525 genUserIDs_at_ZZZZZZ
  rw [genUserIDs_succ, genUserIDs_at_ZZZZZZ] at h1
  exact absurd h1 (by decide)

/-- C22, amended: the suffix sent right after ZZZZZZ is ZZZZZ0; only the last
byte moves, from Z to 0, and nothing is carried. -/
theorem genUserIDs_after_ZZZZZZ (k : Nat) (h : genUserIDs k = "ZZZZZZ".data) :
    genUserIDs (k + 1) = "ZZZZZ0".data := by
  rw [genUserIDs_succ, h]
  decide

/-- The suffix ZZZZZZ is sent at turn 1554844525, and ZZZZZ0 at the next. -/
theorem genUserIDs_after_ZZZZZZ_witness :
    genUserIDs 1554844525 = "ZZZZZZ".data ∧ genUserIDs 1554844526 = "ZZZZZ0".data :=
  ⟨genUserIDs_at_ZZZZZZ, genUserIDs_after_ZZZZZZ 1554844525 genUserIDs_at_ZZZZZZ⟩

/-! ## Configuration: `GetPortList` -/

theorem splitOn_of_not_mem (sep : Char) (p : List Char) (h : sep ∉ p) :
    splitOn sep p = [p] := by
  induction p with
  | nil => rfl
  | cons c p ih =>
    have hc : c ≠ sep := fun e => h (by simp [e])
    have hp : sep ∉ p := fun e => h (List.mem_cons_of_mem _ e)
    simp only [splitOn, if_neg hc, ih hp]

theorem splitOn_append (sep : Char) (p l : List Char) (h : sep ∉ p) :
    splitOn sep (p ++ sep :: l) = p :: splitOn sep l := by
  induction p with
  | nil => simp [splitOn]
  | cons c p ih =>
    have hc : c ≠ sep := fun e => h (by simp [e])
    have hp : sep ∉ p := fun e => h (List.mem_cons_of_mem _ e)
    show splitOn sep (c :: (p ++ sep :: l)) = _
    rw [splitOn, if_neg hc, ih hp]

theorem splitOn_commaJoin (pieces : List (List Char)) (hne : pieces ≠ [])
    (h : ∀ p ∈ pieces, ',' ∉ p) : splitOn ',' (commaJoin pieces) = pieces := by
  induction pieces with
  | nil => exact absurd rfl hne
  | cons p rest ih =>
    cases rest with
    | nil => exact splitOn_of_not_mem _ _ (h p (by simp))
    | cons q r =>
      simp only [commaJoin]
      rw [splitOn_append _ _ _ (h p (by simp)),
        ih (by simp) (fun x hx => h x (List.mem_cons_of_mem _ hx))]

theorem dropWhile_lead (p : Char → Bool) (pre l : List Char)
    (hpre : ∀ c ∈ pre, p c = true) (hl : ∀ c, l.head? = some c → p c = false) :
    (pre ++ l).dropWhile p = l := by
  induction pre with
  | nil =>
    cases l with
    | nil => rfl
    | cons c t => simp [List.dropWhile, hl c rfl]
  | cons c pre ih =>
    simp only [List.cons_append, List.dropWhile, hpre c (by simp)]
    exact ih (fun x hx => hpre x (List.mem_cons_of_mem _ hx))

theorem TrimSpace_item (pre core post : List Char)
    (hpre : ∀ c ∈ pre, isSpace c = true) (hpost : ∀ c ∈ post, isSpace c = true)
    (hne : core ≠ [])
    (hfirst : ∀ c, core.head? = some c → isSpace c = false)
    (hlast : ∀ c, core.reverse.head? = some c → isSpace c = false) :
    TrimSpace (pre ++ core ++ post) = core := by
  unfold TrimSpace
  rw [List.append_assoc, dropWhile_lead isSpace pre (core ++ post) hpre
    (by intro c hc; rw [List.head?_append_of_ne_nil _ hne] at hc; exact hfirst c hc)]
  rw [List.reverse_append, dropWhile_lead isSpace post.reverse core.reverse
    (by intro c hc; exact hpost c (List.mem_reverse.mp hc)) hlast, List.reverse_reverse]

theorem isDigit_not_space (c : Char) (h : isDigit c = true) : isSpace c = false := by
  simp only [isDigit, decide_eq_true_eq] at h
  simp only [isSpace, decide_eq_false_iff_not]
  omega

theorem isDigit_ne (c : Char) (h : isDigit c = true) : c ≠ '-' ∧ c ≠ '+' ∧ c ≠ ',' := by
  refine ⟨?_, ?_, ?_⟩ <;> intro e <;> subst e <;> exact absurd h (by decide)

theorem isNumber_iff (ds : List Char) :
    isNumber ds = true ↔ ds ≠ [] ∧ ∀ c ∈ ds, isDigit c = true := by
  cases ds <;> simp [isNumber]

theorem strconvAtoi_number (ds : List Char) (h : isNumber ds = true)
    (hv : decVal ds < 2 ^ 63) : strconvAtoi ds = Except.ok (decVal ds : Int) := by
  obtain ⟨hne, hd⟩ := (isNumber_iff ds).mp h
  cases ds with
  | nil => exact absurd rfl hne
  | cons c r =>
    obtain ⟨h1, h2, _⟩ := isDigit_ne c (hd c (by simp))
    have hall : (c :: r).all isDigit = true := List.all_eq_true.mpr hd
    have hv' : ((decVal (c :: r) : Nat) : Int) < 2 ^ 63 := by exact_mod_cast hv
    have hv0 : (0 : Int) ≤ ((decVal (c :: r) : Nat) : Int) := Int.natCast_nonneg _
    simp only [strconvAtoi, List.head?_cons, Option.some.injEq, h1, h2, or_self, if_false,
      hall, reduceCtorEq, Bool.true_eq_false]
    rw [if_neg (by omega)]

theorem wrap64_id (x : Int) (h1 : - 2 ^ 63 ≤ x) (h2 : x < 2 ^ 63) : wrap64 x = x := by
  unfold wrap64
  norm_num at h1 h2 ⊢
  omega

theorem portLoop_run : ∀ (n fuel : Nat) (port high : Int) (acc : List Int),
    high + 1 - port = (n : Int) → n < fuel → - 2 ^ 63 ≤ port → high < 2 ^ 63 - 1 →
    portLoop fuel port high acc
      = Outcome.ret (acc ++ (List.range n).map (fun (k : Nat) => port + (k : Int))) := by
  intro n
  induction n with
  | zero =>
    intro fuel port high acc hn hf _ _
    cases fuel with
    | zero => omega
    | succ f =>
      have : ¬ port ≤ high := by omega
      simp [portLoop, this]
  | succ n ih =>
    intro fuel port high acc hn hf hlo hhi
    cases fuel with
    | zero => omega
    | succ f =>
      have hle : port ≤ high := by omega
      have hw : wrap64 (port + 1) = port + 1 :=
        wrap64_id _ (by omega) (by omega)
      simp only [portLoop, if_pos hle, hw]
      rw [ih f (port + 1) high (acc ++ [port]) (by omega) (by omega) (by omega) hhi]
      congr 1
      rw [List.range_succ_eq_map, List.map_cons, List.map_map, List.append_assoc]
      congr 1
      simp only [List.singleton_append, Nat.cast_zero, add_zero, List.cons.injEq, true_and]
      apply List.map_congr_left
      intro k _
      simp only [Function.comp, Nat.cast_succ]
      ring

theorem head?_mem (l : List Char) (c : Char) (h : l.head? = some c) : c ∈ l := by
  cases l with
  | nil => simp at h
  | cons a t =>
    simp only [List.head?_cons, Option.some.injEq] at h
    simp [h]

theorem isSpace_ne (c : Char) (h : isSpace c = true) : c ≠ ',' := by
  intro e
  subst e
  exact absurd h (by decide)

theorem PortItem.split_core (i : PortItem) (h : i.ok = true) :
    TrimSpace i.text = i.core ∧ ',' ∉ i.text ∧
    splitOn '-' i.core = (match i.hi with
      | none => [i.lo]
      | some hh => [i.lo, hh]) := by
  obtain ⟨lead, lo, hi, trail⟩ := i
  cases hi with
  | none =>
    simp only [PortItem.ok, Bool.and_eq_true, List.all_eq_true, decide_eq_true_eq,
      isNumber_iff, and_true] at h
    obtain ⟨⟨⟨hl, ht⟩, hne, hd⟩, _⟩ := h
    refine ⟨?_, ?_, ?_⟩
    · exact TrimSpace_item lead lo trail hl ht hne
        (fun c hc => isDigit_not_space c (hd c (head?_mem _ _ hc)))
        (fun c hc => isDigit_not_space c (hd c (List.mem_reverse.mp (head?_mem _ _ hc))))
    · simp only [PortItem.text, PortItem.core, List.mem_append, not_or]
      exact ⟨⟨fun m => isSpace_ne _ (hl _ m) rfl, fun m => (isDigit_ne _ (hd _ m)).2.2 rfl⟩,
        fun m => isSpace_ne _ (ht _ m) rfl⟩
    · exact splitOn_of_not_mem _ _ (fun m => (isDigit_ne _ (hd _ m)).1 rfl)
  | some hh =>
    simp only [PortItem.ok, Bool.and_eq_true, List.all_eq_true, decide_eq_true_eq,
      isNumber_iff] at h
    obtain ⟨⟨⟨⟨hl, ht⟩, hne, hd⟩, _⟩, ⟨⟨hne2, hd2⟩, _⟩, _⟩ := h
    refine ⟨?_, ?_, ?_⟩
    · refine TrimSpace_item lead (lo ++ '-' :: hh) trail hl ht (by simp) ?_ ?_
      · intro c hc
        rw [List.head?_append_of_ne_nil _ hne] at hc
        exact isDigit_not_space c (hd c (head?_mem _ _ hc))
      · intro c hc
        rw [List.reverse_append, List.reverse_cons,
          List.head?_append_of_ne_nil _ (by simp [hne2])] at hc
        rw [List.head?_append_of_ne_nil _ (by simpa using hne2)] at hc
        exact isDigit_not_space c (hd2 c (List.mem_reverse.mp (head?_mem _ _ hc)))
    · simp only [PortItem.text, PortItem.core, List.mem_append, List.mem_cons, not_or]
      exact ⟨⟨fun m => isSpace_ne _ (hl _ m) rfl, fun m => (isDigit_ne _ (hd _ m)).2.2 rfl,
        by decide, fun m => (isDigit_ne _ (hd2 _ m)).2.2 rfl⟩,
        fun m => isSpace_ne _ (ht _ m) rfl⟩
    · show splitOn '-' (lo ++ '-' :: hh) = [lo, hh]
      rw [splitOn_append _ _ _ (fun m => (isDigit_ne _ (hd _ m)).1 rfl),
        splitOn_of_not_mem _ _ (fun m => (isDigit_ne _ (hd2 _ m)).1 rfl)]

theorem rangeLoop_items (fuel : Nat) : ∀ (items : List PortItem) (acc : List Int),
    (∀ i ∈ items, i.ok = true) → (∀ i ∈ items, i.span < fuel) →
    rangeLoop fuel (items.map PortItem.text) acc
      = Outcome.ret (acc ++ (items.map PortItem.ports).flatten, none) := by
  intro items
  induction items with
  | nil => intro acc _ _; simp [rangeLoop]
  | cons i rest ih =>
    intro acc hok hfuel
    have hi := hok i (by simp)
    have hf := hfuel i (by simp)
    have ih' := fun a => ih a (fun x hx => hok x (List.mem_cons_of_mem _ hx))
      (fun x hx => hfuel x (List.mem_cons_of_mem _ hx))
    obtain ⟨htrim, _, hsplit⟩ := PortItem.split_core i hi
    obtain ⟨lead, lo, hi', trail⟩ := i
    cases hi' with
    | none =>
      simp only [PortItem.ok, Bool.and_eq_true, decide_eq_true_eq, and_true] at hi
      obtain ⟨⟨_, hnum⟩, hv⟩ := hi
      simp only [PortItem.core] at hsplit htrim
      simp only [List.map_cons, rangeLoop, htrim, hsplit, List.length_singleton,
        strconvAtoi_number lo hnum hv, ih', PortItem.ports, List.flatten_cons,
        List.append_assoc]
      simp
    | some hh =>
      simp only [PortItem.ok, Bool.and_eq_true, decide_eq_true_eq] at hi
      obtain ⟨⟨⟨_, hnum⟩, hv⟩, ⟨hnum2, hle⟩, hv2⟩ := hi
      simp only [PortItem.core] at hsplit htrim
      simp only [PortItem.span] at hf
      have hv2' : decVal hh < 2 ^ 63 := by omega
      have hrun := portLoop_run (decVal hh + 1 - decVal lo) fuel (decVal lo : Int)
        (decVal hh : Int) acc (by omega) hf (by
          have : (0 : Int) ≤ (decVal lo : Int) := Int.natCast_nonneg _
          norm_num; omega) (by
          have : ((decVal hh : Nat) : Int) < ((2 ^ 63 - 1 : Nat) : Int) := by exact_mod_cast hv2
          norm_num at this ⊢; omega)
      have hnot : ¬ ((decVal lo : Int) > (decVal hh : Int)) := by omega
      simp only [List.map_cons, rangeLoop, htrim, hsplit, List.length_cons, List.length_nil,
        strconvAtoi_number lo hnum hv, strconvAtoi_number hh hnum2 hv2', hnot, hrun, ih',
        PortItem.ports, PortItem.span, List.flatten_cons, List.append_assoc]
      simp

theorem GetPortList_items (items : List PortItem) (fuel : Nat) (hne : items ≠ [])
    (hok : ∀ i ∈ items, i.ok = true) (hfuel : ∀ i ∈ items, i.span < fuel) :
    GetPortList fuel (String.mk (commaJoin (items.map PortItem.text)))
      = Outcome.ret ((items.map PortItem.ports).flatten, none) := by
  unfold GetPortList
  rw [splitOn_commaJoin _ (by simpa using hne) (by
    intro p hp
    obtain ⟨i, hi, rfl⟩ := List.mem_map.mp hp
    exact (PortItem.split_core i (hok i hi)).2.1)]
  simpa using rangeLoop_items fuel items [] hok hfuel


/-- C30, amended: for a port string made of one or more items with commas
between, each of them, white space around apart, a number `N` or `lo-hi` with
`lo ≤ hi`, the numbers being strings of decimal digits whose values fit an `int`
of 64 bits (`hi` below the last value), `GetPortList` returns no error and the
ports of the items in their order, `[N]` for a number and `lo, lo+1, …, hi` for a
range; so it does for the three strings of the test. -/
theorem GetPortList_lists_the_ports :
    (∀ (items : List PortItem) (fuel : Nat), items ≠ [] →
      (∀ i ∈ items, i.ok = true) → (∀ i ∈ items, i.span < fuel) →
      GetPortList fuel (String.mk (commaJoin (items.map PortItem.text)))
        = Outcome.ret ((items.map PortItem.ports).flatten, none)) ∧
    GetPortList 5 "6667" = Outcome.ret ([6667], none) ∧
    GetPortList 5 "6666-6669" = Outcome.ret ([6666, 6667, 6668, 6669], none) ∧
    GetPortList 5 "6666-6669,6697" = Outcome.ret ([6666, 6667, 6668, 6669, 6697], none) :=
  ⟨GetPortList_items, by decide, by decide, by decide⟩

/-- The port string `6666-6669 , 6697`, with white space around the comma. -/
theorem GetPortList_lists_the_ports_witness :
    GetPortList 5 "6666-6669 , 6697"
      = Outcome.ret ([6666, 6667, 6668, 6669, 6697], none) :=
  GetPortList_lists_the_ports.1
    [PortItem.mk [] "6666".data (some "6669".data) [' '],
     PortItem.mk [' '] "6697".data none []] 5
    (List.cons_ne_nil _ _) (by decide) (by decide)

/-- C30, as the claim has it, fails: `9223372036854775808` is a decimal integer,
and `GetPortList` returns the error of `strconv.Atoi` for it, with no port. -/
theorem GetPortList_refuses_a_large_number :
    isNumber "9223372036854775808".data = true ∧
    ∀ fuel, GetPortList fuel "9223372036854775808"
      = Outcome.ret ([], some (PortsError.num (NumError.ErrRange "9223372036854775808"))) :=
  ⟨by decide, fun _ => rfl⟩

/-! ## Hooks: the dispatchers -/

theorem land_two_pow (n i : Nat) : n &&& 2 ^ i = 2 ^ i ↔ n.testBit i = true := by
  constructor
  · intro h
    have h1 := congrArg (fun x => x.testBit i) h
    simpa [Nat.testBit_and, Nat.testBit_two_pow_self] using h1
  · intro h
    apply Nat.eq_of_testBit_eq
    intro j
    rw [Nat.testBit_and, Nat.testBit_two_pow]
    by_cases e : i = j
    · subst e; simp [h]
    · simp [e]

theorem dispatchLoop_eq (role : Role) (hookName : String) (message : Message)
    (hs : List Hook) :
    dispatchLoop (2 ^ role.index) hookName message hs
      = (hooksAfter role hs,
          (hs.filter (fun h => h.When.testBit role.index)).map
            (fun h => ⟨h.Func, hookName, message⟩)) := by
  induction hs with
  | nil => rfl
  | cons h rest ih =>
    simp only [dispatchLoop, ih, land_two_pow, hooksAfter, List.map_cons, List.filter_cons]
    by_cases c : h.When.testBit role.index = true
    · simp [c]
    · simp [c]

theorem dispatchHooks_spec (role : Role) (hooks : GoMap (List Hook)) (message : Message) :
    (dispatchHooks (2 ^ role.index) hooks message).2
        = callsFor role message ((hooks.get? message.Command).getD []) ∧
    (dispatchHooks (2 ^ role.index) hooks message).1.get? message.Command
        = (hooks.get? message.Command).map (hooksAfter role) ∧
    ∀ cmd, cmd ≠ message.Command →
      (dispatchHooks (2 ^ role.index) hooks message).1.get? cmd = hooks.get? cmd := by
  unfold dispatchHooks
  cases h : hooks.get? message.Command with
  | none => simp [callsFor, h]
  | some hs =>
    simp only [dispatchLoop_eq, Option.getD_some, callsFor, GoMap.get?_set, if_true,
      Option.map_some', true_and]
    intro cmd hc
    rw [if_neg hc]

/-- C23: for a sender that the registry knows, `DispatchClient` and
`DispatchServer` call exactly the hooks registered under the command of the
message whose mask `When` contains the bit of the role of the sender
(Registration for an unregistered sender, User for a registered user, Server for
a registered server), in the order of the registrations; the counter `Calls` of
each hook called grows by one, the other hooks of the command stay as they are,
and so do the hooks of every other command. A mask `EMASK_ANY` contains the bit
of every role; `EMASK_USER|EMASK_SERVER` contains those of User and Server and
not that of Registration. -/
theorem Dispatch_calls_the_hooks_of_the_role :
    (∀ (users : UserReg) (hooks : GoMap (List Hook)) (message : Message) (u : User),
      users.userMap.get? message.SenderID = some u →
      ∃ hooks', DispatchClient users hooks message
          = Outcome.ret (hooks', callsFor (Role.ofUser u.utyp) message
              ((hooks.get? message.Command).getD [])) ∧
        hooks'.get? message.Command
          = (hooks.get? message.Command).map (hooksAfter (Role.ofUser u.utyp)) ∧
        ∀ cmd, cmd ≠ message.Command → hooks'.get? cmd = hooks.get? cmd) ∧
    (∀ (servers : Topology) (hooks : GoMap (List Hook)) (message : Message) (s : Server),
      servers.servMap.get? message.SenderID = some s →
      ∃ hooks', DispatchServer servers hooks message
          = Outcome.ret (hooks', callsFor (Role.ofServer s.styp) message
              ((hooks.get? message.Command).getD [])) ∧
        hooks'.get? message.Command
          = (hooks.get? message.Command).map (hooksAfter (Role.ofServer s.styp)) ∧
        ∀ cmd, cmd ≠ message.Command → hooks'.get? cmd = hooks.get? cmd) ∧
    (∀ role : Role, EMASK_ANY.testBit role.index = true) ∧
    (EMASK_USER ||| EMASK_SERVER).testBit Role.User.index = true ∧
    (EMASK_USER ||| EMASK_SERVER).testBit Role.Server.index = true ∧
    (EMASK_USER ||| EMASK_SERVER).testBit Role.Registration.index = false := by
  refine ⟨?_, ?_, ?_, by decide, by decide, by decide⟩
  · intro users hooks message u hu
    have hm : DispatchClient users hooks message
        = Outcome.ret (dispatchHooks (2 ^ (Role.ofUser u.utyp).index) hooks message) := by
      simp only [DispatchClient, hu]
      cases u.utyp <;> rfl
    obtain ⟨h1, h2, h3⟩ := dispatchHooks_spec (Role.ofUser u.utyp) hooks message
    exact ⟨_, by rw [hm, ← h1], h2, h3⟩
  · intro servers hooks message s hs
    have hm : DispatchServer servers hooks message
        = Outcome.ret (dispatchHooks (2 ^ (Role.ofServer s.styp).index) hooks message) := by
      simp only [DispatchServer, hs]
      cases s.styp <;> rfl
    obtain ⟨h1, h2, h3⟩ := dispatchHooks_spec (Role.ofServer s.styp) hooks message
    exact ⟨_, by rw [hm, ← h1], h2, h3⟩
  · intro role
    cases role <;> decide

/-- A registered user sends `PING x`: of the two hooks of `PING`, the one of
`Ping` is called and the one of `SPing`, for servers, is not. -/
theorem Dispatch_calls_the_hooks_of_the_role_witness :
    ∃ hooks', DispatchClient registeredUsers (pinghooks ircProtocol)
        ⟨"", "PING", ["x"], "1AAAAAAAA", []⟩
      = Outcome.ret (hooks', [⟨HookFunc.Ping, "PING", ⟨"", "PING", ["x"], "1AAAAAAAA", []⟩⟩]) := by
  obtain ⟨hooks', h, _⟩ := Dispatch_calls_the_hooks_of_the_role.1 registeredUsers
    (pinghooks ircProtocol) ⟨"", "PING", ["x"], "1AAAAAAAA", []⟩
    { ts := 1, id := "1AAAAAAAA", user := "foo", pass := "", nick := "foo", name := "Foo",
      utyp := userType.RegisteredAsUser } (by decide)
  exact ⟨hooks', h⟩

/-- C24: the dispatcher calls a hook of the command and the role whatever the
number of arguments of the message: a hook with the bit of User is called for a
registered user also when the message has fewer arguments than `MinArgs`, no
numeric is answered, and `Ping` called on a message without arguments stops with
a runtime panic at `msg.Args[0]`. -/
theorem DispatchClient_ignores_the_constraints :
    (∀ (users : UserReg) (hooks : GoMap (List Hook)) (message : Message) (u : User)
      (hs : List Hook) (h : Hook),
      users.userMap.get? message.SenderID = some u → u.utyp = userType.RegisteredAsUser →
      hooks.get? message.Command = some hs → h ∈ hs → h.When &&& EMASK_USER = EMASK_USER →
      (message.Args.length : Int) < h.Constraints.MinArgs →
      ∃ hooks' calls, DispatchClient users hooks message = Outcome.ret (hooks', calls) ∧
        ⟨h.Func, message.Command, message⟩ ∈ calls) ∧
    (∀ (L : Protocol) (Config : Configuration) (msg : Message), msg.Args = [] →
      Ping L Config msg = Outcome.crash) := by
  constructor
  · intro users hooks message u hs h hu ht hh hmem hw _
    have hm : DispatchClient users hooks message
        = Outcome.ret (dispatchHooks (2 ^ Role.User.index) hooks message) := by
      simp only [DispatchClient, hu, ht]
      rfl
    obtain ⟨h1, _, _⟩ := dispatchHooks_spec Role.User hooks message
    refine ⟨(dispatchHooks (2 ^ Role.User.index) hooks message).1,
      (dispatchHooks (2 ^ Role.User.index) hooks message).2, hm, ?_⟩
    rw [h1, hh]
    simp only [Option.getD_some, callsFor, List.mem_map, List.mem_filter]
    exact ⟨h, ⟨hmem, (land_two_pow h.When 1).mp hw⟩, rfl⟩
  · intro L Config msg h
    simp [Ping, h]

/-- A registered user sends `PING` without arguments: `Ping`, registered with
`NArgs(1)`, is called, and stops with a runtime panic. -/
theorem DispatchClient_ignores_the_constraints_witness :
    (∃ hooks' calls, DispatchClient registeredUsers (pinghooks ircProtocol)
        ⟨"", "PING", [], "1AAAAAAAA", []⟩ = Outcome.ret (hooks', calls) ∧
      ⟨HookFunc.Ping, "PING", ⟨"", "PING", [], "1AAAAAAAA", []⟩⟩ ∈ calls) ∧
    Ping ircProtocol sampleConfig ⟨"", "PING", [], "1AAAAAAAA", []⟩ = Outcome.crash :=
  ⟨DispatchClient_ignores_the_constraints.1 registeredUsers (pinghooks ircProtocol)
      ⟨"", "PING", [], "1AAAAAAAA", []⟩
      { ts := 1, id := "1AAAAAAAA", user := "foo", pass := "", nick := "foo", name := "Foo",
        utyp := userType.RegisteredAsUser }
      [{ When := EMASK_USER, Constraints := NArgs 1, Calls := 0, Func := HookFunc.Ping },
       { When := EMASK_SERVER, Constraints := OptArgs 1 1, Calls := 0, Func := HookFunc.SPing }]
      { When := EMASK_USER, Constraints := NArgs 1, Calls := 0, Func := HookFunc.Ping }
      (by decide) rfl (by decide) (by simp) (by decide) (by decide),
    DispatchClient_ignores_the_constraints.2 ircProtocol sampleConfig
      ⟨"", "PING", [], "1AAAAAAAA", []⟩ rfl⟩

/-! ## The handshake of a new connection -/

theorem receive_spec (L : Protocol) (hL : L.HandshakeTokens) (h : Handshake) (m : Message) :
    (h.receive L m).nick = (h.nick || decide (m.Command = L.CMD_NICK)) ∧
    (h.receive L m).user = (h.user || decide (m.Command = L.CMD_USER)) ∧
    (h.receive L m).pass
      = (h.pass || (decide (m.Command = L.CMD_PASS) && decide (m.Args.length = 4))) ∧
    (h.receive L m).server = (h.server || decide (m.Command = L.CMD_SERVER)) ∧
    (h.receive L m).capab = (h.capab || decide (m.Command = L.CMD_CAPAB)) ∧
    (h.receive L m).sid
      = (if m.Command = L.CMD_PASS ∧ m.Args.length = 4 then m.Args.getD 3 "" else h.sid) ∧
    (h.receive L m).queued = h.queued ++ [m] := by
  simp only [Protocol.HandshakeTokens, List.nodup_cons, List.mem_cons, List.mem_singleton,
    not_or, List.not_mem_nil, not_false_eq_true, List.nodup_nil, and_true] at hL
  obtain ⟨⟨h1, h2, h3, h4⟩, ⟨h5, h6, h7⟩, ⟨h8, h9⟩, h10⟩ := hL
  have s1 := Ne.symm h1
  have s2 := Ne.symm h2
  have s3 := Ne.symm h3
  have s4 := Ne.symm h4
  have s5 := Ne.symm h5
  have s6 := Ne.symm h6
  have s7 := Ne.symm h7
  have s8 := Ne.symm h8
  have s9 := Ne.symm h9
  have s10 := Ne.symm h10
  unfold Handshake.receive
  by_cases c1 : m.Command = L.CMD_PASS
  · by_cases c0 : m.Args.length = 4
    · simp [c1, c0, h1, h2, h3, h4]
    · simp [c1, c0, h1, h2, h3, h4]
  · by_cases c2 : m.Command = L.CMD_USER
    · simp [c2, h5, h6, h7, s1]
    · by_cases c3 : m.Command = L.CMD_NICK
      · simp [c3, h8, h9, s2, s5]
      · by_cases c4 : m.Command = L.CMD_CAPAB
        · simp [c4, h10, s3, s6, s8]
        · by_cases c5 : m.Command = L.CMD_SERVER
          · simp [c5, s4, s7, s9, s10]
          · simp [c1, c2, c3, c4, c5]

theorem foldl_receive_spec (L : Protocol) (hL : L.HandshakeTokens) :
    ∀ (msgs : List Message) (h : Handshake),
    (msgs.foldl (Handshake.receive L) h).nick = (h.nick || hasCommand L.CMD_NICK msgs) ∧
    (msgs.foldl (Handshake.receive L) h).user = (h.user || hasCommand L.CMD_USER msgs) ∧
    (msgs.foldl (Handshake.receive L) h).pass = (h.pass || hasPass L msgs) ∧
    (msgs.foldl (Handshake.receive L) h).server = (h.server || hasCommand L.CMD_SERVER msgs) ∧
    (msgs.foldl (Handshake.receive L) h).capab = (h.capab || hasCommand L.CMD_CAPAB msgs) ∧
    (msgs.foldl (Handshake.receive L) h).sid
      = msgs.foldl (fun sid m =>
          if m.Command = L.CMD_PASS ∧ m.Args.length = 4 then m.Args.getD 3 "" else sid) h.sid ∧
    (msgs.foldl (Handshake.receive L) h).queued = h.queued ++ msgs := by
  intro msgs
  induction msgs with
  | nil => intro h; simp [hasCommand, hasPass]
  | cons m rest ih =>
    intro h
    obtain ⟨r1, r2, r3, r4, r5, r6, r7⟩ := receive_spec L hL h m
    obtain ⟨i1, i2, i3, i4, i5, i6, i7⟩ := ih (h.receive L m)
    simp only [List.foldl_cons, i1, i2, i3, i4, i5, i6, i7, r1, r2, r3, r4, r5, r6, r7,
      hasCommand, hasPass, List.any_cons, Bool.or_assoc, List.append_assoc,
      List.singleton_append, and_self]

theorem hasCommand_stamp (id c : String) (msgs : List Message) :
    hasCommand c (msgs.map (stamp id)) = hasCommand c msgs := by
  induction msgs with
  | nil => rfl
  | cons m rest ih =>
    simp only [hasCommand, List.map_cons, List.any_cons] at ih ⊢
    rw [ih]
    rfl

theorem hasPass_stamp (L : Protocol) (id : String) (msgs : List Message) :
    hasPass L (msgs.map (stamp id)) = hasPass L msgs := by
  induction msgs with
  | nil => rfl
  | cons m rest ih =>
    simp only [hasPass, List.map_cons, List.any_cons] at ih ⊢
    rw [ih]
    rfl

theorem passSID_stamp (L : Protocol) (id : String) (msgs : List Message) :
    passSID L (msgs.map (stamp id)) = passSID L msgs := by
  unfold passSID
  rw [List.foldl_map]
  rfl

theorem after_spec (L : Protocol) (hL : L.HandshakeTokens) (id : String)
    (msgs : List Message) :
    ((msgs.map (stamp id)).foldl (Handshake.receive L) Handshake.start).nick
      = hasCommand L.CMD_NICK msgs ∧
    ((msgs.map (stamp id)).foldl (Handshake.receive L) Handshake.start).user
      = hasCommand L.CMD_USER msgs ∧
    ((msgs.map (stamp id)).foldl (Handshake.receive L) Handshake.start).pass
      = hasPass L msgs ∧
    ((msgs.map (stamp id)).foldl (Handshake.receive L) Handshake.start).server
      = hasCommand L.CMD_SERVER msgs ∧
    ((msgs.map (stamp id)).foldl (Handshake.receive L) Handshake.start).capab
      = hasCommand L.CMD_CAPAB msgs ∧
    ((msgs.map (stamp id)).foldl (Handshake.receive L) Handshake.start).sid
      = passSID L msgs ∧
    ((msgs.map (stamp id)).foldl (Handshake.receive L) Handshake.start).queued
      = msgs.map (stamp id) := by
  obtain ⟨i1, i2, i3, i4, i5, i6, i7⟩ :=
    foldl_receive_spec L hL (msgs.map (stamp id)) Handshake.start
  refine ⟨?_, ?_, ?_, ?_, ?_, ?_, ?_⟩
  · rw [i1, hasCommand_stamp]; rfl
  · rw [i2, hasCommand_stamp]; rfl
  · rw [i3, hasPass_stamp]; rfl
  · rw [i4, hasCommand_stamp]; rfl
  · rw [i5, hasCommand_stamp]; rfl
  · rw [i6]; exact passSID_stamp L id msgs
  · rw [i7]; rfl

theorem manage_loop (L : Protocol) (hL : L.HandshakeTokens) (id : String) :
    ∀ (pre : List Message) (h : Handshake) (rest : List ConnEvent),
    (((pre.map (stamp id)).foldl (Handshake.receive L) h).nick &&
      ((pre.map (stamp id)).foldl (Handshake.receive L) h).user) = false →
    (((pre.map (stamp id)).foldl (Handshake.receive L) h).pass &&
      ((pre.map (stamp id)).foldl (Handshake.receive L) h).server &&
      ((pre.map (stamp id)).foldl (Handshake.receive L) h).capab) = false →
    manage L id h (pre.map ConnEvent.message ++ rest)
      = manage L id ((pre.map (stamp id)).foldl (Handshake.receive L) h) rest := by
  intro pre
  induction pre with
  | nil => intro h rest _ _; rfl
  | cons m pre ih =>
    intro h rest hc hs
    simp only [List.map_cons, List.foldl_cons] at hc hs ⊢
    obtain ⟨i1, i2, i3, i4, i5, _, _⟩ :=
      foldl_receive_spec L hL (pre.map (stamp id)) (h.receive L (stamp id m))
    rw [i1, i2] at hc
    rw [i3, i4, i5] at hs
    have hc1 : ((h.receive L (stamp id m)).nick && (h.receive L (stamp id m)).user) = false := by
      cases hn : (h.receive L (stamp id m)).nick <;>
        cases hu : (h.receive L (stamp id m)).user <;> simp_all
    have hs1 : ((h.receive L (stamp id m)).pass && (h.receive L (stamp id m)).server &&
        (h.receive L (stamp id m)).capab) = false := by
      cases hp : (h.receive L (stamp id m)).pass <;>
        cases hv : (h.receive L (stamp id m)).server <;>
          cases hb : (h.receive L (stamp id m)).capab <;> simp_all
    simp only [List.cons_append, manage, hc1, hs1, Bool.false_eq_true, if_false]
    exact ih _ rest (by rw [i1, i2]; exact hc) (by rw [i3, i4, i5]; exact hs)

/-- C25: on a fresh connection whose messages so far contain neither `NICK` and
`USER` together nor `PASS` with exactly four arguments, `SERVER` and `CAPAB`
together, the next message decides. When it completes `NICK` and `USER`, the
connection goes to the client manager and all the messages received, this one
included, are replayed on `fromClient` in their order with the identity of the
connection as `SenderID`; this test comes first. Otherwise, when it completes
`PASS` with four arguments, `SERVER` and `CAPAB`, the identity of the connection
(of nine characters) becomes the fourth argument of the last such `PASS`, the
connection goes to the server manager, and the messages are replayed on
`fromServer` in their order with that SID as `SenderID`. What the connection
delivers afterwards does not matter. -/
theorem manage_hands_over (L : Protocol) (hL : L.HandshakeTokens) (connID : String)
    (pre : List Message) (m : Message) (rest : List ConnEvent)
    (h0 : clientReady L pre = false) (h1 : serverReady L pre = false) :
    (clientReady L (pre ++ [m]) = true →
      manage L connID Handshake.start ((pre ++ [m]).map ConnEvent.message ++ rest)
        = Outcome.ret (Handover.client connID ((pre ++ [m]).map (stamp connID)))) ∧
    (clientReady L (pre ++ [m]) = false → serverReady L (pre ++ [m]) = true →
      connID.length = 9 →
      manage L connID Handshake.start ((pre ++ [m]).map ConnEvent.message ++ rest)
        = Outcome.ret (Handover.server (passSID L (pre ++ [m]))
            ((pre ++ [m]).map (stamp (passSID L (pre ++ [m])))))) := by
  obtain ⟨a1, a2, a3, a4, a5, _, _⟩ := after_spec L hL connID pre
  obtain ⟨b1, b2, b3, b4, b5, b6, b7⟩ := after_spec L hL connID (pre ++ [m])
  have hloop := manage_loop L hL connID pre Handshake.start (ConnEvent.message m :: rest)
    (by rw [a1, a2]; exact h0) (by rw [a3, a4, a5]; exact h1)
  have hev : (pre ++ [m]).map ConnEvent.message ++ rest
      = pre.map ConnEvent.message ++ (ConnEvent.message m :: rest) := by simp
  have hst : ((pre.map (stamp connID)).foldl (Handshake.receive L) Handshake.start).receive L
      (stamp connID m)
      = ((pre ++ [m]).map (stamp connID)).foldl (Handshake.receive L) Handshake.start := by
    simp [List.foldl_append]
  rw [hev, hloop]
  constructor
  · intro hc
    simp only [manage, hst, b1, b2, b7]
    rw [if_pos (by simpa [clientReady] using hc)]
  · intro hc hs hlen
    simp only [manage, hst, b1, b2, b3, b4, b5, b6, b7]
    rw [if_neg (by simpa [clientReady] using hc), if_pos (by simpa [serverReady] using hs),
      if_neg (by simp [hlen])]
    simp [List.map_map, stamp, Function.comp]

theorem ircProtocol_handshakeTokens : ircProtocol.HandshakeTokens := by
  unfold Protocol.HandshakeTokens
  decide

/-- The connection `1AAAAAAAA` receives `NICK bob` and `USER bob 0 * Bob`, and
goes to the client manager with both messages; it receives `PASS pw TS 6 2BB`,
`CAPAB QS` and `SERVER peer.example 1 peer`, and goes to the server manager as
`2BB` with the three messages sent by `2BB`. -/
theorem manage_hands_over_witness :
    manage ircProtocol "1AAAAAAAA" Handshake.start
      [ConnEvent.message ⟨"", "NICK", ["bob"], "", []⟩,
       ConnEvent.message ⟨"", "USER", ["bob", "0", "*", "Bob"], "", []⟩]
      = Outcome.ret (Handover.client "1AAAAAAAA"
          [⟨"", "NICK", ["bob"], "1AAAAAAAA", []⟩,
           ⟨"", "USER", ["bob", "0", "*", "Bob"], "1AAAAAAAA", []⟩]) ∧
    manage ircProtocol "1AAAAAAAA" Handshake.start
      [ConnEvent.message ⟨"", "PASS", ["pw", "TS", "6", "2BB"], "", []⟩,
       ConnEvent.message ⟨"", "CAPAB", ["QS"], "", []⟩,
       ConnEvent.message ⟨"", "SERVER", ["peer.example", "1", "peer"], "", []⟩]
      = Outcome.ret (Handover.server "2BB"
          [⟨"", "PASS", ["pw", "TS", "6", "2BB"], "2BB", []⟩,
           ⟨"", "CAPAB", ["QS"], "2BB", []⟩,
           ⟨"", "SERVER", ["peer.example", "1", "peer"], "2BB", []⟩]) :=
  ⟨(manage_hands_over ircProtocol ircProtocol_handshakeTokens "1AAAAAAAA"
      [⟨"", "NICK", ["bob"], "", []⟩] ⟨"", "USER", ["bob", "0", "*", "Bob"], "", []⟩ []
      (by decide) (by decide)).1 (by decide),
   (manage_hands_over ircProtocol ircProtocol_handshakeTokens "1AAAAAAAA"
      [⟨"", "PASS", ["pw", "TS", "6", "2BB"], "", []⟩, ⟨"", "CAPAB", ["QS"], "", []⟩]
      ⟨"", "SERVER", ["peer.example", "1", "peer"], "", []⟩ []
      (by decide) (by decide)).2 (by decide) (by decide) (by decide)⟩

/-! ## Messaging: `Privmsg` to a channel -/

theorem chanSides_eq (Config : Configuration) (sender : String) :
    ∀ (l locals remotes : List String),
    (∀ uid ∈ l, uid ≠ sender → 3 ≤ uid.length) →
    chanSides Config sender l locals remotes
      = some (locals ++ l.filter
                (fun uid => decide (uid ≠ sender) && decide (sidOf uid = some Config.SID)),
              remotes ++ l.filter
                (fun uid => decide (uid ≠ sender) && !decide (sidOf uid = some Config.SID))) := by
  intro l
  induction l with
  | nil => intro locals remotes _; simp [chanSides]
  | cons uid rest ih =>
    intro locals remotes h
    have hrest : ∀ u ∈ rest, u ≠ sender → 3 ≤ u.length :=
      fun u hu => h u (List.mem_cons_of_mem _ hu)
    by_cases hs : uid = sender
    · simp only [chanSides, hs, ne_eq, not_true_eq_false, if_false, List.filter_cons,
        decide_False, Bool.false_and, Bool.false_eq_true]
      exact ih locals remotes hrest
    · have hsid := sidOf_of_length uid (h uid (List.mem_cons_self _ _) hs)
      by_cases hc : (⟨uid.data.take 3⟩ : String) = Config.SID
      · simp only [chanSides, ne_eq, hs, not_false_eq_true, if_true, hsid, hc,
          List.filter_cons, decide_True, Bool.true_and, Bool.not_true, Bool.false_eq_true,
          if_false]
        rw [ih _ _ hrest]
        simp
      · have hc' : ¬ (some (⟨uid.data.take 3⟩ : String) = some Config.SID) := by
          intro e; exact hc (Option.some.inj e)
        simp only [chanSides, ne_eq, hs, not_false_eq_true, if_true, hsid, hc, if_false,
          List.filter_cons, decide_True, Bool.true_and, hc', decide_False, Bool.not_false,
          Bool.false_eq_true]
        rw [ih _ _ hrest]
        simp

theorem iterInv_start (up : GoMap String) (skip : String) :
    IterInv up skip [] GoMap.empty [] := by
  refine ⟨fun x a hx _ => absurd hx (cached_empty x),
    fun x hx _ => absurd hx (cached_empty x), List.nodup_nil, ?_, ?_⟩
  · intro r hr
    cases hr
  · intro id hid
    cases hid

theorem IterFor_not_skipLink (st : Topology) (fuel : Nat) (ids : List String)
    (skipLink : String) (sids : List String)
    (h : IterFor st fuel ids skipLink = Outcome.ret sids) : skipLink ∉ sids := by
  unfold IterFor at h
  cases hw : walkUp st.upstream fuel skipLink with
  | none => rw [hw] at h; cases h
  | some skip =>
    rw [hw] at h
    obtain ⟨cache, _, _, _, hD, _⟩ :=
      iterLoop_inv st.upstream fuel skip ids [] GoMap.empty [] sids
        (iterInv_start st.upstream skip) h
    intro hmem
    obtain ⟨_, hne, _, _, sid, _, ⟨n, hn⟩⟩ := hD skipLink hmem
    have hroot := walkUp_root st.upstream n sid skipLink hn
    have hself : walkUp st.upstream fuel skipLink = some skipLink := by
      cases fuel with
      | zero => simp [walkUp] at hw
      | succ f => simp [walkUp, hroot]
    rw [hself] at hw
    exact hne (Option.some.inj hw)

theorem privmsgLoop_channel (E : Env) (L : Protocol) (Config : Configuration) (fuel : Nat)
    (core : Core) (hook : String) (msg : Message) (sender name text : String) (quiet : Bool)
    (p : Nat) (channel : Channel) (sids : List String)
    (hvalid : E.ValidChannel name = true)
    (hkey : core.chans.chanMap.get? (E.ToLower name) = some p)
    (hstore : core.chans.store.get? p = some channel)
    (hlen : ∀ uid ∈ channel.users.keys, uid ≠ sender → 3 ≤ uid.length)
    (hiter : remoteMembers Config sender channel ≠ [] →
      IterFor core.servers fuel (remoteMembers Config sender channel) msg.SenderID
        = Outcome.ret sids)
    (hnone : remoteMembers Config sender channel = [] → sids = []) :
    privmsgLoop E L Config fuel core hook msg sender text quiet [name] [] [] []
      = Outcome.ret ([], [],
          sids.map (fun sid => Sent.ToServer
              { Prefix := sender, Command := hook, Args := [channel.name, text],
                SenderID := "", DestIDs := [sid] }) ++
            (if localMembers Config sender channel = [] then []
             else [Sent.ToClient
              { Prefix := sender, Command := hook, Args := [channel.name, text],
                SenderID := "", DestIDs := localMembers Config sender channel }])) := by
  have hget : GetChannel E core.chans name false = (core.chans, some p, none) := by
    simp [GetChannel, hvalid, hkey]
  have hsides := chanSides_eq Config sender channel.users.keys [] [] hlen
  simp only [List.nil_append] at hsides
  have hsides' : chanSides Config sender channel.users.keys [] []
      = some (localMembers Config sender channel, remoteMembers Config sender channel) := hsides
  simp only [privmsgLoop, hvalid, if_true, hget, hstore, hsides', List.nil_append]
  by_cases hr : remoteMembers Config sender channel = []
  · have hs := hnone hr
    subst hs
    by_cases hl : localMembers Config sender channel = []
    · simp only [hr, hl, List.length_nil, gt_iff_lt, Nat.lt_irrefl, if_false, List.map_nil,
        List.append_nil, if_true]
    · have hpos : 0 < (localMembers Config sender channel).length := List.length_pos.mpr hl
      simp only [hr, hl, hpos, List.length_nil, gt_iff_lt, Nat.lt_irrefl, if_false, List.map_nil,
        List.nil_append, if_true]
  · have hi := hiter hr
    have hposr : 0 < (remoteMembers Config sender channel).length := List.length_pos.mpr hr
    by_cases hl : localMembers Config sender channel = []
    · simp only [hposr, hi, hl, gt_iff_lt, if_true, List.length_nil, Nat.lt_irrefl, if_false,
        List.append_nil]
    · have hpos : 0 < (localMembers Config sender channel).length := List.length_pos.mpr hl
      simp only [hposr, hi, hl, hpos, gt_iff_lt, if_true, if_false]

/-- C26: `Privmsg`, for `PRIVMSG` or `NOTICE`, on a message whose one recipient
is the name of a channel that exists (the members have at least three
characters). It sends one message on `ToServer` for each SID that
`IterFor(remote, msg.SenderID)` yields, in that order and with that SID as the
single destination, where `remote` are the members other than the sender without
the SID of this server (no call and no message when there is none); then at most
one message on `ToClient`, whose `DestIDs` are the members other than the sender
with the SID of this server (no message when there is none). The sender is not
among the `DestIDs` of the client message, and the peer the message came from is
not among the SIDs. -/
theorem Privmsg_to_a_channel (E : Env) (L : Protocol) (Config : Configuration) (fuel : Nat)
    (core : Core) (hook : String) (msg : Message) (name text : String) (rest : List String)
    (p : Nat) (channel : Channel) (sids : List String)
    (hargs : msg.Args = name :: text :: rest) (hcomma : ',' ∉ name.data)
    (hvalid : E.ValidChannel name = true)
    (hkey : core.chans.chanMap.get? (E.ToLower name) = some p)
    (hstore : core.chans.store.get? p = some channel)
    (hlen : ∀ uid ∈ channel.users.keys, uid ≠ senderOf msg → 3 ≤ uid.length)
    (hiter : remoteMembers Config (senderOf msg) channel ≠ [] →
      IterFor core.servers fuel (remoteMembers Config (senderOf msg) channel) msg.SenderID
        = Outcome.ret sids)
    (hnone : remoteMembers Config (senderOf msg) channel = [] → sids = []) :
    Privmsg E L Config fuel core hook msg
      = Outcome.ret
          (sids.map (fun sid => Sent.ToServer
              { Prefix := senderOf msg, Command := hook, Args := [channel.name, text],
                SenderID := "", DestIDs := [sid] }) ++
            (if localMembers Config (senderOf msg) channel = [] then []
             else [Sent.ToClient
              { Prefix := senderOf msg, Command := hook, Args := [channel.name, text],
                SenderID := "", DestIDs := localMembers Config (senderOf msg) channel }])) ∧
    senderOf msg ∉ localMembers Config (senderOf msg) channel ∧
    msg.SenderID ∉ sids := by
  refine ⟨?_, ?_, ?_⟩
  · have hsplit : (splitOn ',' name.data).map String.mk = [name] := by
      rw [splitOn_of_not_mem _ _ hcomma]
      rfl
    have hloop := privmsgLoop_channel E L Config fuel core hook msg (senderOf msg) name text
      (decide (hook = L.CMD_NOTICE)) p channel sids hvalid hkey hstore hlen hiter hnone
    have hsender : (if msg.Prefix.length = 9 then msg.Prefix else msg.SenderID)
        = senderOf msg := rfl
    simp only [Privmsg, hargs, hsplit, hsender, hloop, privmsgForward, List.length_nil,
      gt_iff_lt, Nat.lt_irrefl, if_false]
  · simp [localMembers, List.mem_filter]
  · by_cases hr : remoteMembers Config (senderOf msg) channel = []
    · rw [hnone hr]
      simp
    · exact IterFor_not_skipLink _ _ _ _ _ (hiter hr)

/-- The channel `#x` holds the local `1AAAAAAAA`, `2BBAAAAAA` on the linked
server `2BB` and `3CCAAAAAA` on the server `3CC` behind `2BB`: the `PRIVMSG` of
`1AAAAAAAA` gives one server message, to `2BB`, and no client message. -/
theorem Privmsg_to_a_channel_witness :
    Privmsg sampleEnv ircProtocol sampleConfig 3 sampleCore "PRIVMSG"
        ⟨"", "PRIVMSG", ["#x", "hi"], "1AAAAAAAA", []⟩
      = Outcome.ret [Sent.ToServer ⟨"1AAAAAAAA", "PRIVMSG", ["#x", "hi"], "", ["2BB"]⟩] :=
  (Privmsg_to_a_channel sampleEnv ircProtocol sampleConfig 3 sampleCore "PRIVMSG"
    ⟨"", "PRIVMSG", ["#x", "hi"], "1AAAAAAAA", []⟩ "#x" "hi" [] 0
    { name := "#x", ts := 1,
      users := ((GoMap.empty.set "1AAAAAAAA" "host@mask").set
        "2BBAAAAAA" "host@mask").set "3CCAAAAAA" "host@mask" }
    ["2BB"] rfl (by decide) (by decide) (by decide) (by decide) (by decide)
    (fun _ => by decide) (fun h => absurd h (by decide))).1

/-! ## Registration: `Uid` and `Sid` -/

theorem toServers_append (a b : List Sent) :
    Sent.toServers (a ++ b) = Sent.toServers a ++ Sent.toServers b := by
  induction a with
  | nil => rfl
  | cons x rest ih =>
    cases x with
    | ToClient m => simpa [Sent.toServers] using ih
    | ToServer m => simpa [Sent.toServers] using ih

theorem toClients_append (a b : List Sent) :
    Sent.toClients (a ++ b) = Sent.toClients a ++ Sent.toClients b := by
  induction a with
  | nil => rfl
  | cons x rest ih =>
    cases x with
    | ToClient m => simpa [Sent.toClients] using ih
    | ToServer m => simpa [Sent.toClients] using ih

theorem toClients_map_ToServer {α : Type} (f : α → Message) (l : List α) :
    Sent.toClients (l.map (fun a => Sent.ToServer (f a))) = [] := by
  induction l with
  | nil => rfl
  | cons x rest ih => simpa [Sent.toClients] using ih

theorem toClients_map_ToClient {α : Type} (f : α → Message) (l : List α) :
    Sent.toClients (l.map (fun a => Sent.ToClient (f a))) = l.map f := by
  induction l with
  | nil => rfl
  | cons x rest ih => simpa [Sent.toClients] using ih

theorem toServers_map_ToServer {α : Type} (f : α → Message) (l : List α) :
    Sent.toServers (l.map (fun a => Sent.ToServer (f a))) = l.map f := by
  induction l with
  | nil => rfl
  | cons x rest ih => simpa [Sent.toServers] using ih

theorem toServers_map_ToClient {α : Type} (f : α → Message) (l : List α) :
    Sent.toServers (l.map (fun a => Sent.ToClient (f a))) = [] := by
  induction l with
  | nil => rfl
  | cons x rest ih => simpa [Sent.toServers] using ih

/-- C29: `Uid` and `Sid` send no copy of the message to any peer. `Uid`, on a
message with nine arguments or more, returns, and the only message it can have
sent on `ToServer` is the `SQUIT` about a failed `Import`, addressed to the
sender; when `Sid` returns, the only message it can have sent is the `SQUIT`
about a failed `LinkServer`, addressed to the sender. The copies for the other
links are built and dropped. -/
theorem Uid_and_Sid_forward_nothing :
    (∀ (E : Env) (L : Protocol) (Config : Configuration) (core : Core) (msg : Message)
      (nickname hopcount nickTS umode username hostname ip uid name : String)
      (rest : List String),
      msg.Args = nickname :: hopcount :: nickTS :: umode :: username :: hostname :: ip ::
        uid :: name :: rest →
      ∃ core' sent, Uid E L Config core msg = Outcome.ret (core', sent) ∧
        ∀ m ∈ Sent.toServers sent, m.Command = L.CMD_SQUIT ∧ m.DestIDs = [msg.SenderID]) ∧
    (∀ (E : Env) (L : Protocol) (Config : Configuration) (fuel : Nat) (core : Core)
      (msg : Message) (core' : Core) (sent : List Sent),
      Sid E L Config fuel core msg = Outcome.ret (core', sent) →
      ∀ m ∈ Sent.toServers sent, m.Command = L.CMD_SQUIT ∧ m.DestIDs = [msg.SenderID]) := by
  constructor
  · intro E L Config core msg nickname hopcount nickTS umode username hostname ip uid name
      rest hargs
    simp only [Uid, hargs]
    refine ⟨_, _, rfl, ?_⟩
    intro m hm
    cases he : (Import E core.users uid nickname username hostname ip hopcount nickTS name).2 with
    | none =>
      rw [he] at hm
      simp [Sent.toServers] at hm
    | some err =>
      rw [he] at hm
      simp only [Sent.toServers, List.mem_singleton] at hm
      subst hm
      exact ⟨rfl, rfl⟩
  · intro E L Config fuel core msg core' sent h m hm
    unfold Sid at h
    split at h
    · rename_i servname hopcount sid desc rest hargs
      split at h
      · cases h
      · cases h
      · rename_i servers err hlink
        simp only [Outcome.ret.injEq, Prod.mk.injEq] at h
        obtain ⟨_, hs⟩ := h
        subst hs
        cases err with
        | none => simp [Sent.toServers] at hm
        | some e =>
          simp only [Sent.toServers, List.mem_singleton] at hm
          subst hm
          exact ⟨rfl, rfl⟩
    · cases h

/-- The server `2BB` sends a `UID` message while `4DD` is linked as well: a copy
for `4DD` is built, `Uid` returns, and nothing is sent. -/
theorem Uid_and_Sid_forward_nothing_witness :
    forwardCopies twoLinks
        ⟨"", "UID", ["bob", "1", "100", "+i", "bob", "host", "1.2.3.4", "2BBAAAAAA", "Bob"],
          "2BB", []⟩
      = [⟨"", "UID", ["bob", "1", "100", "+i", "bob", "host", "1.2.3.4", "2BBAAAAAA", "Bob"],
          "2BB", ["4DD"]⟩] ∧
    sentOf (Uid sampleEnv ircProtocol sampleConfig ⟨twoLinks, UserReg.empty, ChanReg.empty⟩
        ⟨"", "UID", ["bob", "1", "100", "+i", "bob", "host", "1.2.3.4", "2BBAAAAAA", "Bob"],
          "2BB", []⟩) = some [] ∧
    ∃ core' sent, Uid sampleEnv ircProtocol sampleConfig
        ⟨twoLinks, UserReg.empty, ChanReg.empty⟩
        ⟨"", "UID", ["bob", "1", "100", "+i", "bob", "host", "1.2.3.4", "2BBAAAAAA", "Bob"],
          "2BB", []⟩ = Outcome.ret (core', sent) ∧
      ∀ m ∈ Sent.toServers sent, m.Command = ircProtocol.CMD_SQUIT ∧ m.DestIDs = ["2BB"] :=
  ⟨by decide, by decide,
    Uid_and_Sid_forward_nothing.1 sampleEnv ircProtocol sampleConfig
      ⟨twoLinks, UserReg.empty, ChanReg.empty⟩
      ⟨"", "UID", ["bob", "1", "100", "+i", "bob", "host", "1.2.3.4", "2BBAAAAAA", "Bob"],
        "2BB", []⟩ "bob" "1" "100" "+i" "bob" "host" "1.2.3.4" "2BBAAAAAA" "Bob" [] rfl⟩

/-! ## Registration: `SQuit` and the removal of the users -/

theorem Delete_get? (E : Env) (st : UserReg) (id x : String) :
    (Delete E st id).userMap.get? x = if x = id then none else st.userMap.get? x := by
  unfold Delete
  cases h : st.userMap.get? id with
  | none =>
    by_cases e : x = id
    · simp [e, h]
    · simp [e]
  | some u => simp [GoMap.get?_del]

theorem foldl_Delete_get? (E : Env) (ids : List String) :
    ∀ (st : UserReg) (x : String),
    (ids.foldl (Delete E) st).userMap.get? x
      = if x ∈ ids then none else st.userMap.get? x := by
  induction ids with
  | nil => intro st x; simp
  | cons id rest ih =>
    intro st x
    rw [List.foldl_cons, ih, Delete_get?]
    by_cases e : x = id
    · simp [e]
    · by_cases m : x ∈ rest
      · simp [m]
      · simp [e, m]

/-- C27: `SQuit` on a message with the arguments (target, reason), where the
SID of the sender stands for a target that is the SID of this server. When
`Unlink` of the target returns `sids`, `UserSplit(sids)` returns `peers` and
`ChanSplit(Config.SID, peers)` returns `notify`, the handler returns, and on
`ToClient` it has sent: for each leaver of `notify` with at least one peer, one
`QUIT` with the single argument `*.net *.split`, the UID of the leaver as prefix
and those peers as `DestIDs`; then, when `peers` is not empty, one `INT_DELUSER`
with `peers` as `DestIDs`, and none otherwise. On that `INT_DELUSER` the client
manager calls `WriteMessage` for no connection, and afterwards none of the
listed UIDs has a record in `userMap`, while the other records are as before. -/
theorem SQuit_notifies_then_deletes (E : Env) (L : Protocol) (Config : Configuration)
    (fuel : Nat) (core : Core) (msg : Message) (target reason : String) (rest : List String)
    (servers : Topology) (sids peers : List String) (chans : ChanReg)
    (notify : GoMap (List String))
    (hargs : msg.Args = target :: reason :: rest)
    (hunlink : Unlink core.servers fuel (if target = Config.SID then msg.SenderID else target)
      = some (servers, sids))
    (husers : UserSplit core.users sids = some peers)
    (hchans : ChanSplit core.chans Config.SID peers = Outcome.ret (chans, notify)) :
    ∃ sent, SQuit L Config fuel core msg
        = Outcome.ret ({ servers := servers, users := core.users, chans := chans }, sent) ∧
      Sent.toClients sent
        = (notify.entries.filter (fun e => decide (e.2 ≠ []))).map
            (fun e => ({ Prefix := e.1, Command := L.CMD_QUIT, Args := ["*.net *.split"],
                         SenderID := "", DestIDs := e.2 } : Message)) ++
          (if peers = [] then []
           else [({ Prefix := "", Command := L.INT_DELUSER, Args := [], SenderID := "",
                    DestIDs := peers } : Message)]) ∧
      ∀ st : ClientManager,
        ∃ st', handleToClient E L Config st
            { Prefix := "", Command := L.INT_DELUSER, Args := [], SenderID := "",
              DestIDs := peers } = Outcome.ret (st', []) ∧
          st'.uid2conn = st.uid2conn ∧
          ∀ x, st'.users.userMap.get? x
            = if x ∈ peers then none else st.users.userMap.get? x := by
  simp only [SQuit, hargs, hunlink, husers, hchans]
  refine ⟨_, rfl, ?_, ?_⟩
  · simp only [toClients_append, toClients_map_ToServer, List.nil_append]
    have hf : (fun e : String × List String => decide (e.2.length > 0))
        = (fun e => decide (e.2 ≠ [])) := by
      funext e
      cases e.2 <;> simp
    rw [hf, toClients_map_ToClient]
    congr 1
    · by_cases hloc : IsLocal core.servers
          (if target = Config.SID then msg.SenderID else target) = true
      · rw [if_pos hloc]
        rfl
      · rw [if_neg hloc]
        rfl
    · cases peers with
      | nil => rfl
      | cons a t => simp [Sent.toClients]
  · intro st
    refine ⟨{ st with users := peers.foldl (Delete E) st.users }, ?_, rfl, ?_⟩
    · simp [handleToClient]
    · intro x
      exact foldl_Delete_get? E peers st.users x

/-- The server `2BB`, with `3CC` behind it, goes: `SQUIT 1AA gone` from `2BB`.
The local member `1AAAAAAAA` of `#x` gets a `QUIT` for `2BBAAAAAA` and one for
`3CCAAAAAA`, and then `INT_DELUSER` lists the two users. -/
theorem SQuit_notifies_then_deletes_witness :
    ∃ sent, sentOf (SQuit ircProtocol sampleConfig 5 splitCore
        ⟨"", "SQUIT", ["1AA", "gone"], "2BB", []⟩) = some sent ∧
      Sent.toClients sent
        = [⟨"2BBAAAAAA", "QUIT", ["*.net *.split"], "", ["1AAAAAAAA"]⟩,
           ⟨"3CCAAAAAA", "QUIT", ["*.net *.split"], "", ["1AAAAAAAA"]⟩,
           ⟨"", "INT_DELUSER", [], "", ["2BBAAAAAA", "3CCAAAAAA"]⟩] := by
  obtain ⟨sent, h1, h2, _⟩ := SQuit_notifies_then_deletes sampleEnv ircProtocol sampleConfig 5
    splitCore ⟨"", "SQUIT", ["1AA", "gone"], "2BB", []⟩ "1AA" "gone" []
    (unlinkStep splitCore.servers 5 "2BB") ["2BB", "3CC"] ["2BBAAAAAA", "3CCAAAAAA"]
    { store := [{ name := "#x", ts := 1, users := GoMap.empty.set "1AAAAAAAA" "host@mask" }]
      chanMap := GoMap.empty.set "#x" 0 }
    ((GoMap.empty.set "2BBAAAAAA" ["1AAAAAAAA"]).set "3CCAAAAAA" ["1AAAAAAAA"])
    rfl (by decide) (by decide) (by decide)
  refine ⟨sent, ?_, ?_⟩
  · rw [h1]
    rfl
  · rw [h2]
    decide

/-! ## Registration: `Quit` -/

theorem rawGet_of_mem {V : Type} (k : String) (v : V) :
    ∀ (l : List (String × V)), (l.map Prod.fst).Nodup → (k, v) ∈ l → rawGet k l = some v := by
  intro l
  induction l with
  | nil => intro _ h; cases h
  | cons hd t ih =>
    intro hnd h
    obtain ⟨k', v'⟩ := hd
    simp only [List.map_cons, List.nodup_cons] at hnd
    simp only [List.mem_cons, Prod.mk.injEq] at h
    by_cases e : k' = k
    · rcases h with ⟨_, hv⟩ | hm
      · simp [rawGet, e, hv]
      · exact absurd (List.mem_map.2 ⟨(k, v), hm, rfl⟩) (e ▸ hnd.1)
    · rcases h with ⟨hk, _⟩ | hm
      · exact absurd hk.symm e
      · simp only [rawGet, if_neg e]
        exact ih hnd.2 hm

theorem mem_of_rawGet {V : Type} (k : String) (v : V) :
    ∀ (l : List (String × V)), rawGet k l = some v → (k, v) ∈ l := by
  intro l
  induction l with
  | nil => intro h; cases h
  | cons hd t ih =>
    intro h
    obtain ⟨k', v'⟩ := hd
    by_cases e : k' = k
    · simp only [rawGet, if_pos e, Option.some.injEq] at h
      simp [e, h]
    · simp only [rawGet, if_neg e] at h
      exact List.mem_cons_of_mem _ (ih h)

theorem GoMap.mem_entries_iff {V : Type} (m : GoMap V) (k : String) (v : V) :
    (k, v) ∈ m.entries ↔ m.get? k = some v :=
  ⟨rawGet_of_mem k v m.entries m.nodup, mem_of_rawGet k v m.entries⟩

theorem get?_set_list {α : Type} (a : α) :
    ∀ (l : List α) (p p' : Nat),
    (l.set p a).get? p' = if p' = p ∧ p < l.length then some a else l.get? p' := by
  intro l
  induction l with
  | nil => intro p p'; simp
  | cons hd t ih =>
    intro p p'
    cases p with
    | zero =>
      cases p' with
      | zero => simp
      | succ n => simp
    | succ m =>
      cases p' with
      | zero => simp
      | succ n =>
        simp only [List.set_cons_succ, List.get?_cons_succ, ih, List.length_cons,
          Nat.succ_lt_succ_iff, Nat.succ.injEq]

theorem get?_lt {α : Type} (l : List α) (p : Nat) (a : α) (h : l.get? p = some a) :
    p < l.length := by
  by_contra hn
  rw [List.get?_eq_none.2 (Nat.le_of_not_lt hn)] at h
  cases h

theorem appendAt_fold (name : String) (ids : List String) :
    ∀ (n : GoMap (List String)) (name' : String),
    ((ids.foldl (fun n id => appendAt n name id) n).get? name').getD []
      = (n.get? name').getD [] ++ (if name' = name then ids else []) := by
  induction ids with
  | nil => intro n name'; by_cases e : name' = name <;> simp [e]
  | cons id rest ih =>
    intro n name'
    rw [List.foldl_cons, ih]
    unfold appendAt
    rw [GoMap.get?_set]
    by_cases e : name' = name
    · subst e
      simp
    · simp [e]

theorem partOne_miss (q : String) (now : Time) (st : ChanReg) (n : GoMap (List String))
    (p : Nat) (h : ∀ c, st.store.get? p = some c → c.users.has q = false) :
    partOne q now st n p = (st, n) := by
  unfold partOne
  cases hc : st.store.get? p with
  | none => rfl
  | some c => simp [h c hc]

theorem partOne_hit (q : String) (now : Time) (st : ChanReg) (n : GoMap (List String))
    (p : Nat) (c : Channel) (hc : st.store.get? p = some c) (hq : c.users.has q = true) :
    (partOne q now st n p).1.store
      = st.store.set p { c with users := c.users.del q, ts := now } ∧
    ((partOne q now st n p).1.chanMap = st.chanMap ∨
      (partOne q now st n p).1.chanMap = st.chanMap.del c.name) ∧
    (partOne q now st n p).2 = c.users.keys.foldl (fun n id => appendAt n c.name id) n := by
  unfold partOne
  simp only [hc, hq, Bool.not_true, Bool.false_eq_true, if_false]
  by_cases hz : (c.users.del q).size = 0
  · simp [hz]
  · simp [hz]

theorem partOne_keeps (q : String) (now : Time) (st : ChanReg) (n : GoMap (List String))
    (p p' : Nat) (c : Channel) (hc : st.store.get? p' = some c)
    (hq : c.users.has q = false) :
    (partOne q now st n p).1.store.get? p' = some c := by
  by_cases hm : ∀ d, st.store.get? p = some d → d.users.has q = false
  · rw [partOne_miss q now st n p hm]
    exact hc
  · push_neg at hm
    obtain ⟨d, hd, hdq⟩ := hm
    have hdq' : d.users.has q = true := by
      cases h : d.users.has q
      · exact absurd h hdq
      · rfl
    rw [(partOne_hit q now st n p d hd hdq').1, get?_set_list]
    by_cases e : p' = p
    · subst e
      rw [hc] at hd
      cases hd
      rw [hq] at hdq'
      cases hdq'
    · rw [if_neg (fun h => e h.1)]
      exact hc

theorem partAll_keeps (q : String) (now : Time) (es : List (String × Nat)) :
    ∀ (st : ChanReg) (n : GoMap (List String)) (p : Nat) (c : Channel),
    st.store.get? p = some c → c.users.has q = false →
    (es.foldl (fun acc kp =>
        if acc.1.chanMap.has kp.1 then partOne q now acc.1 acc.2 kp.2 else acc) (st, n)).1.store.get? p
      = some c := by
  induction es with
  | nil => intro st n p c h _; exact h
  | cons e rest ih =>
    intro st n p c h hq
    rw [List.foldl_cons]
    by_cases hk : st.chanMap.has e.1 = true
    · simp only [hk, if_true]
      have h1 := partOne_keeps q now st n e.2 p c h hq
      exact ih (partOne q now st n e.2).1 (partOne q now st n e.2).2 p c h1 hq
    · simp only [hk, Bool.false_eq_true, if_false]
      exact ih st n p c h hq

theorem partInv_start (st0 : ChanReg) (q : String) : PartInv st0 q st0 GoMap.empty := by
  refine ⟨fun p c0 h => ⟨c0, h, rfl, Or.inl rfl⟩, fun p c h => ⟨c, h⟩, fun k x h => h, ?_, ?_⟩
  · intro k x h0 hn
    rw [h0] at hn
    cases hn
  · intro name y
    constructor
    · intro h
      simp [GoMap.get?_empty] at h
    · rintro ⟨p, c0, c, h1, h2, _, h4, h5, _⟩
      rw [h1] at h2
      cases h2
      rw [h4] at h5
      cases h5

theorem partInv_step (st0 : ChanReg) (q : String) (now : Time) (hown : st0.OwnName)
    (st : ChanReg) (n : GoMap (List String)) (hinv : PartInv st0 q st n)
    (k : String) (x : Nat) (hk : st0.chanMap.get? k = some x) :
    PartInv st0 q (partOne q now st n x).1 (partOne q now st n x).2 ∧
    ∀ d, (partOne q now st n x).1.store.get? x = some d → d.users.has q = false := by
  obtain ⟨R1, R1b, R3, R4, R5⟩ := hinv
  by_cases hm : ∀ d, st.store.get? x = some d → d.users.has q = false
  · rw [partOne_miss q now st n x hm]
    exact ⟨⟨R1, R1b, R3, R4, R5⟩, hm⟩
  · push_neg at hm
    obtain ⟨c, hc, hcq⟩ := hm
    have hcq' : c.users.has q = true := by
      cases h : c.users.has q
      · exact absurd h hcq
      · rfl
    obtain ⟨c0, hc0⟩ := R1b x c hc
    obtain ⟨c1, hc1, _, hrel⟩ := R1 x c0 hc0
    have e1 : c1 = c := by
      rw [hc] at hc1
      exact (Option.some.inj hc1).symm
    subst e1
    have hcc0 : c1 = c0 := by
      rcases hrel with h | ⟨_, h⟩
      · exact h
      · exfalso
        have : c1.users.has q = false := by
          rw [h, GoMap.has_del]
          simp
        rw [this] at hcq'
        cases hcq'
    subst hcc0
    obtain ⟨hS, hM, hN⟩ := partOne_hit q now st n x c1 hc hcq'
    have hlt := get?_lt _ _ _ hc
    have hstore : ∀ p', (partOne q now st n x).1.store.get? p'
        = if p' = x then some { c1 with users := c1.users.del q, ts := now }
          else st.store.get? p' := by
      intro p'
      rw [hS, get?_set_list]
      by_cases e : p' = x
      · rw [if_pos ⟨e, hlt⟩, if_pos e]
      · rw [if_neg (fun h => e h.1), if_neg e]
    have hc'q : (c1.users.del q).has q = false := by
      rw [GoMap.has_del]
      simp
    have hmapsub : ∀ k' x', (partOne q now st n x).1.chanMap.get? k' = some x' →
        st.chanMap.get? k' = some x' := by
      intro k' x' hk'
      rcases hM with h | h
      · rw [h] at hk'
        exact hk'
      · rw [h, GoMap.get?_del] at hk'
        by_cases e : k' = c1.name
        · rw [if_pos e] at hk'
          cases hk'
        · rw [if_neg e] at hk'
          exact hk'
    have hmapdel : ∀ k', st.chanMap.get? k' ≠ none →
        (partOne q now st n x).1.chanMap.get? k' = none → k' = c1.name := by
      intro k' h1 h2
      rcases hM with h | h
      · rw [h] at h2
        exact absurd h2 h1
      · rw [h, GoMap.get?_del] at h2
        by_cases e : k' = c1.name
        · exact e
        · rw [if_neg e] at h2
          exact absurd h2 h1
    refine ⟨⟨?_, ?_, ?_, ?_, ?_⟩, ?_⟩
    · intro p c0' hp
      rw [hstore]
      by_cases e : p = x
      · rw [e] at hp
        rw [hc0] at hp
        cases hp
        rw [if_pos e]
        exact ⟨_, rfl, rfl, Or.inr ⟨hcq', rfl⟩⟩
      · rw [if_neg e]
        exact R1 p c0' hp
    · intro p d hp
      rw [hstore] at hp
      by_cases e : p = x
      · rw [e]
        exact ⟨c1, hc0⟩
      · rw [if_neg e] at hp
        exact R1b p d hp
    · intro k' x' h
      exact R3 k' x' (hmapsub k' x' h)
    · intro k' x' h0 hnone d hd
      rw [hstore] at hd
      by_cases hold : st.chanMap.get? k' = none
      · by_cases e : x' = x
        · rw [if_pos e] at hd
          cases hd
          exact hc'q
        · rw [if_neg e] at hd
          exact R4 k' x' h0 hold d hd
      · have hk' := hmapdel k' hold hnone
        have hx : x' = x := hown k x c1 x' hk hc0 (by rw [← hk']; exact h0)
        rw [if_pos hx] at hd
        cases hd
        exact hc'q
    · intro name y
      rw [hN, appendAt_fold, List.mem_append, R5 name y]
      constructor
      · rintro (⟨p, d0, d, h1, h2, h3, h4, h5, h6, h7⟩ | hy)
        · have hpx : p ≠ x := by
            intro e
            rw [e, hc] at h2
            cases h2
            rw [hcq'] at h5
            cases h5
          exact ⟨p, d0, d, h1, by rw [hstore, if_neg hpx]; exact h2, h3, h4, h5, h6, h7⟩
        · by_cases e : name = c1.name
          · rw [if_pos e] at hy
            exact ⟨x, c1, _, hc0, by rw [hstore, if_pos rfl], e.symm, hcq', hc'q, hy, k, hk⟩
          · rw [if_neg e] at hy
            cases hy
      · rintro ⟨p, d0, d, h1, h2, h3, h4, h5, h6, h7⟩
        by_cases e : p = x
        · rw [e, hc0] at h1
          cases h1
          right
          rw [if_pos h3.symm]
          exact h6
        · left
          rw [hstore, if_neg e] at h2
          exact ⟨p, d0, d, h1, h2, h3, h4, h5, h6, h7⟩
    · intro d hd
      rw [hstore, if_pos rfl] at hd
      cases hd
      exact hc'q

theorem partAll_fold (st0 : ChanReg) (q : String) (now : Time) (hown : st0.OwnName) :
    ∀ (es : List (String × Nat)) (st : ChanReg) (n : GoMap (List String)),
    PartInv st0 q st n → (∀ e ∈ es, st0.chanMap.get? e.1 = some e.2) →
    PartInv st0 q
      (es.foldl (fun acc kp =>
        if acc.1.chanMap.has kp.1 then partOne q now acc.1 acc.2 kp.2 else acc) (st, n)).1
      (es.foldl (fun acc kp =>
        if acc.1.chanMap.has kp.1 then partOne q now acc.1 acc.2 kp.2 else acc) (st, n)).2 ∧
    ∀ e ∈ es, ∀ d,
      (es.foldl (fun acc kp =>
        if acc.1.chanMap.has kp.1 then partOne q now acc.1 acc.2 kp.2 else acc)
        (st, n)).1.store.get? e.2 = some d → d.users.has q = false := by
  intro es
  induction es with
  | nil =>
    intro st n hinv _
    exact ⟨hinv, fun e he => by cases he⟩
  | cons e rest ih =>
    intro st n hinv hes
    have he := hes e (List.mem_cons_self _ _)
    have hrest : ∀ e' ∈ rest, st0.chanMap.get? e'.1 = some e'.2 :=
      fun e' h => hes e' (List.mem_cons_of_mem _ h)
    rw [List.foldl_cons]
    have key : ∃ st1 n1,
        (if st.chanMap.has e.1 = true then partOne q now st n e.2 else (st, n)) = (st1, n1) ∧
        PartInv st0 q st1 n1 ∧ ∀ d, st1.store.get? e.2 = some d → d.users.has q = false := by
      by_cases hh : st.chanMap.has e.1 = true
      · rw [if_pos hh]
        obtain ⟨h1, h2⟩ := partInv_step st0 q now hown st n hinv e.1 e.2 he
        exact ⟨_, _, rfl, h1, h2⟩
      · rw [if_neg hh]
        refine ⟨st, n, rfl, hinv, ?_⟩
        have hnone : st.chanMap.get? e.1 = none := by
          unfold GoMap.has at hh
          cases hg : st.chanMap.get? e.1 with
          | none => rfl
          | some v => rw [hg] at hh; simp at hh
        exact hinv.2.2.2.1 e.1 e.2 he hnone
    obtain ⟨st1, n1, heq, hinv1, hdone1⟩ := key
    rw [heq]
    obtain ⟨hI, hD⟩ := ih st1 n1 hinv1 hrest
    refine ⟨hI, ?_⟩
    intro e' he' d hd
    rcases List.mem_cons.1 he' with h | h
    · rw [h] at hd
      obtain ⟨c0, hc0⟩ := hI.2.1 e.2 d hd
      obtain ⟨d1, hd1, _, _⟩ := hinv1.1 e.2 c0 hc0
      have hq1 := hdone1 d1 hd1
      have := partAll_keeps q now rest st1 n1 e.2 d1 hd1 hq1
      rw [this] at hd
      cases hd
      exact hq1
    · exact hD e' h d hd

theorem mem_flatten_values (n : GoMap (List String)) (y : String) :
    y ∈ (n.entries.map Prod.snd).flatten ↔ ∃ name, y ∈ (n.get? name).getD [] := by
  simp only [List.mem_flatten, List.mem_map]
  constructor
  · rintro ⟨l, ⟨⟨k, v⟩, hkv, rfl⟩, hy⟩
    exact ⟨k, by rw [(GoMap.mem_entries_iff n k v).1 hkv]; exact hy⟩
  · rintro ⟨name, hy⟩
    cases hg : n.get? name with
    | none => rw [hg] at hy; cases hy
    | some l =>
      rw [hg] at hy
      exact ⟨l, ⟨(name, l), (GoMap.mem_entries_iff n name l).2 hg, rfl⟩, hy⟩

theorem PartAll_spec (st0 : ChanReg) (q : String) (now : Time) (hown : st0.OwnName) :
    (∀ k p c, st0.chanMap.get? k = some p → (PartAll st0 q now).1.store.get? p = some c →
      c.users.has q = false) ∧
    (∀ k p c, (PartAll st0 q now).1.chanMap.get? k = some p →
      (PartAll st0 q now).1.store.get? p = some c → c.users.has q = false) ∧
    (∀ y, y ∈ ((PartAll st0 q now).2.entries.map Prod.snd).flatten ↔
      ∃ k p c0, st0.chanMap.get? k = some p ∧ st0.store.get? p = some c0 ∧
        c0.users.has q = true ∧ y ∈ c0.users.keys) := by
  obtain ⟨hI, hD⟩ := partAll_fold st0 q now hown st0.chanMap.entries st0 GoMap.empty
    (partInv_start st0 q) (fun e he => (GoMap.mem_entries_iff _ e.1 e.2).1 he)
  have ha : ∀ k p c, st0.chanMap.get? k = some p →
      (PartAll st0 q now).1.store.get? p = some c → c.users.has q = false := by
    intro k p c hk hc
    exact hD (k, p) ((GoMap.mem_entries_iff _ k p).2 hk) c hc
  refine ⟨ha, ?_, ?_⟩
  · intro k p c hk hc
    exact ha k p c (hI.2.2.1 k p hk) hc
  · intro y
    rw [mem_flatten_values]
    constructor
    · rintro ⟨name, hy⟩
      obtain ⟨p, c0, c, h1, _, _, h4, _, h6, k, hk⟩ := (hI.2.2.2.2 name y).1 hy
      exact ⟨k, p, c0, hk, h1, h4, h6⟩
    · rintro ⟨k, p, c0, hk, h1, h4, h6⟩
      obtain ⟨c, hc, _, _⟩ := hI.1 p c0 h1
      exact ⟨c0.name, (hI.2.2.2.2 c0.name y).2
        ⟨p, c0, c, h1, hc, rfl, h4, ha k p c hk hc, h6, k, hk⟩⟩

theorem quitPeers_spec (Config : Configuration) (q : String) :
    ∀ (l : List String) (peers : GoMap Bool), (∀ uid ∈ l, 3 ≤ uid.length) →
    ∃ peers', quitPeers Config q l peers = some peers' ∧
      ∀ y, y ∈ peers'.keys ↔
        y ∈ peers.keys ∨ (y ∈ l ∧ sidOf y = some Config.SID ∧ y ≠ q) := by
  intro l
  induction l with
  | nil =>
    intro peers _
    exact ⟨peers, rfl, fun y => by simp⟩
  | cons uid rest ih =>
    intro peers hlen
    have hsid := sidOf_of_length uid (hlen uid (List.mem_cons_self _ _))
    have hrest : ∀ u ∈ rest, 3 ≤ u.length := fun u hu => hlen u (List.mem_cons_of_mem _ hu)
    by_cases hc : (⟨uid.data.take 3⟩ : String) = Config.SID ∧ uid ≠ q
    · obtain ⟨peers', h1, h2⟩ := ih (peers.set uid true) hrest
      refine ⟨peers', by simp only [quitPeers, hsid, if_pos hc, h1], ?_⟩
      intro y
      rw [h2, GoMap.mem_keys_set]
      constructor
      · rintro ((h | h) | ⟨h, h', h''⟩)
        · right
          refine ⟨by rw [h]; exact List.mem_cons_self _ _, ?_, by rw [h]; exact hc.2⟩
          rw [h, hsid, hc.1]
        · exact Or.inl h
        · exact Or.inr ⟨List.mem_cons_of_mem _ h, h', h''⟩
      · rintro (h | ⟨h, h', h''⟩)
        · exact Or.inl (Or.inr h)
        · rcases List.mem_cons.1 h with e | e
          · exact Or.inl (Or.inl e)
          · exact Or.inr ⟨e, h', h''⟩
    · obtain ⟨peers', h1, h2⟩ := ih peers hrest
      refine ⟨peers', by simp only [quitPeers, hsid, if_neg hc, h1], ?_⟩
      intro y
      rw [h2]
      constructor
      · rintro (h | ⟨h, h', h''⟩)
        · exact Or.inl h
        · exact Or.inr ⟨List.mem_cons_of_mem _ h, h', h''⟩
      · rintro (h | ⟨h, h', h''⟩)
        · exact Or.inl h
        · rcases List.mem_cons.1 h with e | e
          · exfalso
            apply hc
            rw [e, hsid] at h'
            exact ⟨Option.some.inj h', by rw [← e]; exact h''⟩
          · exact Or.inr ⟨e, h', h''⟩

/-! ## Channels: the keys of `chanMap` in the reachable registries -/

theorem Keyed_set_store (E : Env) (st : ChanReg) (p : Nat) (c c' : Channel)
    (h : st.Keyed E) (hc : st.store.get? p = some c) (hn : c'.name = c.name) :
    ChanReg.Keyed E ⟨st.store.set p c', st.chanMap⟩ := by
  intro k x hk
  obtain ⟨d, hd, hkey, hfold⟩ := h k x hk
  have hlt := get?_lt _ _ _ hc
  by_cases e : x = p
  · rw [e, hc] at hd
    cases hd
    refine ⟨c', ?_, by rw [hn]; exact hkey, by rw [hn, ← e]; exact hfold⟩
    show (st.store.set p c').get? x = some c'
    rw [get?_set_list, if_pos ⟨e, hlt⟩]
  · refine ⟨d, ?_, hkey, hfold⟩
    show (st.store.set p c').get? x = some d
    rw [get?_set_list, if_neg (fun h' => e h'.1)]
    exact hd

theorem Keyed_del (E : Env) (hE : E.FoldsOnce) (st : ChanReg) (p0 : Nat) (c : Channel)
    (k0 : String) (h : st.Keyed E) (hk0 : st.chanMap.get? k0 = some p0)
    (hc : st.store.get? p0 = some c) :
    ChanReg.Keyed E ⟨st.store, st.chanMap.del c.name⟩ := by
  intro k x hk
  have hk' : (st.chanMap.del c.name).get? k = some x := hk
  rw [GoMap.get?_del] at hk'
  by_cases e : k = c.name
  · rw [if_pos e] at hk'
    cases hk'
  · rw [if_neg e] at hk'
    obtain ⟨d, hd, hkey, hfold⟩ := h k x hk'
    refine ⟨d, hd, hkey, ?_⟩
    show (st.chanMap.del c.name).get? (E.ToLower d.name) = some x
    rw [GoMap.get?_del]
    by_cases e2 : E.ToLower d.name = c.name
    · exfalso
      obtain ⟨c1, hc1, _, hf0⟩ := h k0 p0 hk0
      rw [hc] at hc1
      cases hc1
      have hfc : E.ToLower c.name = c.name := by
        rw [← e2, hE]
      rw [hfc] at hf0
      rw [e2, hf0] at hfold
      have hx : p0 = x := Option.some.inj hfold
      rw [← hx, hc] at hd
      cases hd
      rcases hkey with h1 | h1
      · exact e h1
      · exact e (h1.trans hfc)
    · rw [if_neg e2]
      exact hfold

theorem Keyed_repair (E : Env) (st : ChanReg) (p : Nat) (c : Channel) (k0 : String)
    (h : st.Keyed E) (hk0 : st.chanMap.get? k0 = some p) (hc : st.store.get? p = some c)
    (hfree : st.chanMap.get? c.name = none) :
    ChanReg.Keyed E ⟨st.store, st.chanMap.set c.name p⟩ := by
  intro k x hk
  have hk' : (st.chanMap.set c.name p).get? k = some x := hk
  rw [GoMap.get?_set] at hk'
  by_cases e : k = c.name
  · rw [if_pos e] at hk'
    cases hk'
    refine ⟨c, hc, Or.inl e, ?_⟩
    show (st.chanMap.set c.name p).get? (E.ToLower c.name) = some p
    rw [GoMap.get?_set]
    by_cases e2 : E.ToLower c.name = c.name
    · rw [if_pos e2]
    · rw [if_neg e2]
      obtain ⟨c1, hc1, _, hf⟩ := h k0 p hk0
      rw [hc] at hc1
      cases hc1
      exact hf
  · rw [if_neg e] at hk'
    obtain ⟨d, hd, hkey, hfold⟩ := h k x hk'
    refine ⟨d, hd, hkey, ?_⟩
    show (st.chanMap.set c.name p).get? (E.ToLower d.name) = some x
    rw [GoMap.get?_set]
    by_cases e2 : E.ToLower d.name = c.name
    · rw [e2, hfree] at hfold
      cases hfold
    · rw [if_neg e2]
      exact hfold

theorem get?_append_one {α : Type} (l : List α) (a : α) :
    (∀ p b, l.get? p = some b → (l ++ [a]).get? p = some b) ∧
    (l ++ [a]).get? l.length = some a := by
  constructor
  · intro p b h
    have hlt := get?_lt l p b h
    rw [List.get?_eq_getElem?, List.getElem?_append_left hlt, ← List.get?_eq_getElem?]
    exact h
  · simp

theorem Keyed_create (E : Env) (st : ChanReg) (name : String) (h : st.Keyed E)
    (hfree : st.chanMap.get? (E.ToLower name) = none) :
    ChanReg.Keyed E ⟨st.store ++ [⟨name, zeroTime, GoMap.empty⟩],
      st.chanMap.set (E.ToLower name) st.store.length⟩ := by
  obtain ⟨hold, hnew⟩ := get?_append_one st.store (⟨name, zeroTime, GoMap.empty⟩ : Channel)
  intro k x hk
  have hk' : (st.chanMap.set (E.ToLower name) st.store.length).get? k = some x := hk
  rw [GoMap.get?_set] at hk'
  by_cases e : k = E.ToLower name
  · rw [if_pos e] at hk'
    cases hk'
    refine ⟨⟨name, zeroTime, GoMap.empty⟩, hnew, Or.inr e, ?_⟩
    show (st.chanMap.set (E.ToLower name) st.store.length).get? (E.ToLower name) = _
    rw [GoMap.get?_set, if_pos rfl]
  · rw [if_neg e] at hk'
    obtain ⟨d, hd, hkey, hfold⟩ := h k x hk'
    refine ⟨d, hold x d hd, hkey, ?_⟩
    show (st.chanMap.set (E.ToLower name) st.store.length).get? (E.ToLower d.name) = some x
    rw [GoMap.get?_set]
    by_cases e2 : E.ToLower d.name = E.ToLower name
    · rw [e2, hfree] at hfold
      cases hfold
    · rw [if_neg e2]
      exact hfold

theorem Keyed_ownName (E : Env) (hE : E.FoldsOnce) (st : ChanReg) (h : st.Keyed E) :
    st.OwnName := by
  intro k p c p' h1 h2 h3
  obtain ⟨d, hd, _, hf⟩ := h k p h1
  rw [h2] at hd
  cases hd
  obtain ⟨d', _, hkey', hf'⟩ := h c.name p' h3
  have hfe : E.ToLower c.name = E.ToLower d'.name := by
    rcases hkey' with e | e
    · rw [e]
    · rw [e, hE]
  rw [hfe, hf'] at hf
  exact Option.some.inj hf

theorem GetChannel_keyed (E : Env) (st : ChanReg) (name : String) (create : Bool)
    (h : st.Keyed E) : (GetChannel E st name create).1.Keyed E := by
  unfold GetChannel
  by_cases hv : E.ValidChannel name = true
  · simp only [hv, Bool.not_true, Bool.false_eq_true, if_false]
    cases hg : st.chanMap.get? (E.ToLower name) with
    | some c => exact h
    | none =>
      cases create with
      | false => exact h
      | true => exact Keyed_create E st name h hg
  · simp only [hv, Bool.not_false, if_true]
    exact h

theorem JoinAt_keyed (E : Env) (st st' : ChanReg) (k : String) (p : Nat) (uids : List String)
    (now : Time) (r : Option (List String) × Option Numeric) (h : st.Keyed E)
    (hk : st.chanMap.get? k = some p) (hj : JoinAt st p uids now = some (st', r)) :
    st'.Keyed E := by
  cases hc : st.store.get? p with
  | none => simp only [JoinAt, hc] at hj; cases hj
  | some c =>
    simp only [JoinAt, hc, Channel.Join] at hj
    have hname := joinLoop_name now uids c
    have hlt := get?_lt _ _ _ hc
    generalize joinLoop now uids c = jl at hj hname
    obtain ⟨c', e⟩ := jl
    simp only at hname
    have hS := Keyed_set_store E st p c c' h hc hname
    have hc' : (st.store.set p c').get? p = some c' := by
      rw [get?_set_list, if_pos ⟨rfl, hlt⟩]
    cases e with
    | some err =>
      simp only [Option.some.injEq, Prod.mk.injEq] at hj
      rw [← hj.1]
      exact hS
    | none =>
      by_cases hh : st.chanMap.has c'.name = true
      · simp only [hh, Bool.not_true, Bool.false_eq_true, if_false, Option.some.injEq,
          Prod.mk.injEq] at hj
        rw [← hj.1]
        exact hS
      · simp only [hh, Bool.not_false, if_true, Option.some.injEq, Prod.mk.injEq] at hj
        rw [← hj.1]
        have hfree : st.chanMap.get? c'.name = none := by
          unfold GoMap.has at hh
          cases hg : st.chanMap.get? c'.name with
          | none => rfl
          | some v => rw [hg] at hh; simp at hh
        exact Keyed_repair E ⟨st.store.set p c', st.chanMap⟩ p c' k hS hk hc' hfree

theorem PartAt_keyed (E : Env) (hE : E.FoldsOnce) (st st' : ChanReg) (k : String) (p : Nat)
    (uid : String) (now : Time) (r : Option (List String) × Option Numeric) (h : st.Keyed E)
    (hk : st.chanMap.get? k = some p) (hj : PartAt st p uid now = some (st', r)) :
    st'.Keyed E := by
  cases hc : st.store.get? p with
  | none => simp only [PartAt, hc] at hj; cases hj
  | some c =>
    simp only [PartAt, hc, Channel.Part] at hj
    have hlt := get?_lt _ _ _ hc
    by_cases hu : c.users.has uid = true
    · simp only [hu, Bool.not_true, Bool.false_eq_true, if_false] at hj
      have hS := Keyed_set_store E st p c { c with users := c.users.del uid, ts := now } h hc rfl
      have hc' : (st.store.set p { c with users := c.users.del uid, ts := now }).get? p
          = some { c with users := c.users.del uid, ts := now } := by
        rw [get?_set_list, if_pos ⟨rfl, hlt⟩]
      by_cases hz : (c.users.del uid).size = 0
      · simp only [hz, if_true, Option.some.injEq, Prod.mk.injEq] at hj
        rw [← hj.1]
        exact Keyed_del E hE ⟨st.store.set p { c with users := c.users.del uid, ts := now },
          st.chanMap⟩ p { c with users := c.users.del uid, ts := now } k hS hk hc'
      · simp only [hz, if_false, Option.some.injEq, Prod.mk.injEq] at hj
        rw [← hj.1]
        exact hS
    · simp only [hu, Bool.not_false, if_true, Option.some.injEq, Prod.mk.injEq] at hj
      rw [← hj.1]
      exact Keyed_set_store E st p c c h hc rfl

theorem ChanReg.eq_mk (a : ChanReg) (store : List Channel) (chanMap : GoMap Nat)
    (h1 : a.store = store) (h2 : a.chanMap = chanMap) : a = ⟨store, chanMap⟩ := by
  cases a
  simp only at h1 h2
  rw [h1, h2]

theorem partOne_keyed (E : Env) (hE : E.FoldsOnce) (q : String) (now : Time) (st : ChanReg)
    (n : GoMap (List String)) (k : String) (p : Nat) (h : st.Keyed E)
    (hk : st.chanMap.get? k = some p) :
    (partOne q now st n p).1.Keyed E ∧
    ∀ k' x, (partOne q now st n p).1.chanMap.get? k' = some x →
      st.chanMap.get? k' = some x := by
  by_cases hm : ∀ d, st.store.get? p = some d → d.users.has q = false
  · rw [partOne_miss q now st n p hm]
    exact ⟨h, fun _ _ h' => h'⟩
  · push_neg at hm
    obtain ⟨c, hc, hcq⟩ := hm
    have hcq' : c.users.has q = true := by
      cases h' : c.users.has q
      · exact absurd h' hcq
      · rfl
    obtain ⟨hS, hM, _⟩ := partOne_hit q now st n p c hc hcq'
    have hlt := get?_lt _ _ _ hc
    have hK := Keyed_set_store E st p c { c with users := c.users.del q, ts := now } h hc rfl
    have hc' : (st.store.set p { c with users := c.users.del q, ts := now }).get? p
        = some { c with users := c.users.del q, ts := now } := by
      rw [get?_set_list, if_pos ⟨rfl, hlt⟩]
    rcases hM with hM | hM
    · rw [ChanReg.eq_mk _ _ _ hS hM]
      exact ⟨hK, fun _ _ h' => h'⟩
    · rw [ChanReg.eq_mk _ _ _ hS hM]
      refine ⟨Keyed_del E hE ⟨st.store.set p { c with users := c.users.del q, ts := now },
        st.chanMap⟩ p { c with users := c.users.del q, ts := now } k hK hk hc', ?_⟩
      intro k' x hx
      have hx' : (st.chanMap.del c.name).get? k' = some x := hx
      rw [GoMap.get?_del] at hx'
      by_cases e : k' = c.name
      · rw [if_pos e] at hx'
        cases hx'
      · rw [if_neg e] at hx'
        exact hx'

theorem has_get? {V : Type} (m : GoMap V) (k : String) (h : m.has k = true) :
    ∃ v, m.get? k = some v := by
  unfold GoMap.has at h
  cases hg : m.get? k with
  | none => rw [hg] at h; simp at h
  | some v => exact ⟨v, rfl⟩

theorem PartAll_fold_keyed (E : Env) (hE : E.FoldsOnce) (q : String) (now : Time) :
    ∀ (es : List (String × Nat)) (st : ChanReg) (n : GoMap (List String)),
    st.Keyed E → (∀ e ∈ es, ∀ x, st.chanMap.get? e.1 = some x → x = e.2) →
    (es.foldl (fun acc kp =>
      if acc.1.chanMap.has kp.1 then partOne q now acc.1 acc.2 kp.2 else acc) (st, n)).1.Keyed E := by
  intro es
  induction es with
  | nil => intro st n h _; exact h
  | cons e rest ih =>
    intro st n h hes
    rw [List.foldl_cons]
    by_cases hh : st.chanMap.has e.1 = true
    · rw [if_pos hh]
      obtain ⟨x, hx⟩ := has_get? _ _ hh
      have hxe := hes e (List.mem_cons_self _ _) x hx
      rw [hxe] at hx
      obtain ⟨h1, h2⟩ := partOne_keyed E hE q now st n e.1 e.2 h hx
      exact ih _ _ h1 (fun e' he' x' hx' =>
        hes e' (List.mem_cons_of_mem _ he') x' (h2 _ _ hx'))
    · rw [if_neg hh]
      exact ih st n h (fun e' he' x' hx' => hes e' (List.mem_cons_of_mem _ he') x' hx')

theorem entries_agree (st : ChanReg) :
    ∀ e ∈ st.chanMap.entries, ∀ x, st.chanMap.get? e.1 = some x → x = e.2 := by
  intro e he x hx
  rw [(GoMap.mem_entries_iff _ e.1 e.2).1 he] at hx
  exact (Option.some.inj hx).symm

theorem PartAll_keyed (E : Env) (hE : E.FoldsOnce) (st : ChanReg) (q : String) (now : Time)
    (h : st.Keyed E) : (PartAll st q now).1.Keyed E :=
  PartAll_fold_keyed E hE q now st.chanMap.entries st GoMap.empty h (entries_agree st)

theorem splitOne_keyed (E : Env) (hE : E.FoldsOnce) (sid : String) (st st' : ChanReg)
    (l2n l2n' : GoMap (GoMap Bool)) (k : String) (p : Nat) (h : st.Keyed E)
    (hk : st.chanMap.get? k = some p)
    (hs : splitOne sid st l2n p = Outcome.ret (st', l2n')) :
    st'.Keyed E ∧ ∀ k' x, st'.chanMap.get? k' = some x → st.chanMap.get? k' = some x := by
  cases hc : st.store.get? p with
  | none =>
    simp only [splitOne, hc, Outcome.ret.injEq, Prod.mk.injEq] at hs
    rw [← hs.1]
    exact ⟨h, fun _ _ h' => h'⟩
  | some c =>
    simp only [splitOne, hc] at hs
    have hlt := get?_lt _ _ _ hc
    have hK := Keyed_set_store E st p c
      { c with users := l2n.keys.foldl (fun u leavingUID => u.del leavingUID) c.users } h hc rfl
    have hc' : (st.store.set p
        { c with users := l2n.keys.foldl (fun u leavingUID => u.del leavingUID) c.users }).get? p
        = some { c with users := l2n.keys.foldl (fun u leavingUID => u.del leavingUID) c.users } := by
      rw [get?_set_list, if_pos ⟨rfl, hlt⟩]
    by_cases hz : l2n.keys.length = 0
    · simp only [hz, if_true, Outcome.ret.injEq, Prod.mk.injEq] at hs
      rw [← hs.1]
      exact ⟨hK, fun _ _ h' => h'⟩
    · simp only [hz, if_false] at hs
      cases hm : markPeers sid l2n.keys
          (l2n.keys.foldl (fun u leavingUID => u.del leavingUID) c.users).keys l2n with
      | crash => rw [hm] at hs; cases hs
      | outOfFuel => rw [hm] at hs; cases hs
      | ret l2n2 =>
        rw [hm] at hs
        by_cases hu : (l2n.keys.foldl (fun u leavingUID => u.del leavingUID) c.users).size = 0
        · simp only [hu, if_true, Outcome.ret.injEq, Prod.mk.injEq] at hs
          rw [← hs.1]
          refine ⟨Keyed_del E hE
            ⟨st.store.set p
              { c with users := l2n.keys.foldl (fun u leavingUID => u.del leavingUID) c.users },
              st.chanMap⟩ p
            { c with users := l2n.keys.foldl (fun u leavingUID => u.del leavingUID) c.users }
            k hK hk hc', ?_⟩
          intro k' x hx
          have hx' : (st.chanMap.del c.name).get? k' = some x := hx
          rw [GoMap.get?_del] at hx'
          by_cases e : k' = c.name
          · rw [if_pos e] at hx'
            cases hx'
          · rw [if_neg e] at hx'
            exact hx'
        · simp only [hu, if_false, Outcome.ret.injEq, Prod.mk.injEq] at hs
          rw [← hs.1]
          exact ⟨hK, fun _ _ h' => h'⟩

theorem splitLoop_keyed (E : Env) (hE : E.FoldsOnce) (sid : String) :
    ∀ (es : List (String × Nat)) (st st' : ChanReg) (l2n l2n' : GoMap (GoMap Bool)),
    st.Keyed E → (∀ e ∈ es, ∀ x, st.chanMap.get? e.1 = some x → x = e.2) →
    splitLoop sid es st l2n = Outcome.ret (st', l2n') → st'.Keyed E := by
  intro es
  induction es with
  | nil =>
    intro st st' l2n l2n' h _ hs
    simp only [splitLoop, Outcome.ret.injEq, Prod.mk.injEq] at hs
    rw [← hs.1]
    exact h
  | cons e rest ih =>
    intro st st' l2n l2n' h hes hs
    unfold splitLoop at hs
    by_cases hh : st.chanMap.has e.1 = true
    · rw [if_pos hh] at hs
      obtain ⟨x, hx⟩ := has_get? _ _ hh
      have hxe := hes e (List.mem_cons_self _ _) x hx
      rw [hxe] at hx
      cases h1 : splitOne sid st l2n e.2 with
      | crash => rw [h1] at hs; cases hs
      | outOfFuel => rw [h1] at hs; cases hs
      | ret r =>
        rw [h1] at hs
        obtain ⟨st1, l1⟩ := r
        obtain ⟨hK, hsub⟩ := splitOne_keyed E hE sid st st1 l2n l1 e.1 e.2 h hx h1
        exact ih st1 st' l1 l2n' hK (fun e' he' x' hx' =>
          hes e' (List.mem_cons_of_mem _ he') x' (hsub _ _ hx')) hs
    · rw [if_neg hh] at hs
      exact ih st st' l2n l2n' h
        (fun e' he' x' hx' => hes e' (List.mem_cons_of_mem _ he') x' hx') hs

theorem ChanSplit_keyed (E : Env) (hE : E.FoldsOnce) (st st' : ChanReg) (sid : String)
    (uids : List String) (notify : GoMap (List String)) (h : st.Keyed E)
    (hs : ChanSplit st sid uids = Outcome.ret (st', notify)) : st'.Keyed E := by
  unfold ChanSplit at hs
  simp only at hs
  cases h1 : splitLoop sid st.chanMap.entries st
      (uids.foldl (fun m uid => m.set uid GoMap.empty) GoMap.empty) with
  | crash => rw [h1] at hs; cases hs
  | outOfFuel => rw [h1] at hs; cases hs
  | ret r =>
    rw [h1] at hs
    obtain ⟨st1, l1⟩ := r
    simp only [Outcome.ret.injEq, Prod.mk.injEq] at hs
    rw [← hs.1]
    exact splitLoop_keyed E hE sid st.chanMap.entries st st1 _ l1 h (entries_agree st) h1

theorem Reachable_keyed (E : Env) (hE : E.FoldsOnce) (st : ChanReg)
    (h : ChanReg.Reachable E st) : st.Keyed E := by
  induction h with
  | init =>
    intro k p hk
    rw [show ChanReg.empty.chanMap.get? k = none from rfl] at hk
    cases hk
  | getChannel st name create _ ih => exact GetChannel_keyed E st name create ih
  | joinAt st st' k p uids now r _ hk hj ih => exact JoinAt_keyed E st st' k p uids now r ih hk hj
  | partAt st st' k p uid now r _ hk hj ih =>
    exact PartAt_keyed E hE st st' k p uid now r ih hk hj
  | partAll st uid now _ ih => exact PartAll_keyed E hE st uid now ih
  | chanSplit st st' sid uids notify _ hs ih => exact ChanSplit_keyed E hE st st' sid uids notify ih hs

theorem Char_toLower_twice (c : Char) : c.toLower.toLower = c.toLower := by
  by_cases hc : c.toNat ≥ 65 ∧ c.toNat ≤ 90
  · have h1 : c.toLower = Char.ofNat (c.toNat + 32) := by
      unfold Char.toLower
      simp only
      rw [if_pos hc]
    rw [h1]
    obtain ⟨ha, hb⟩ := hc
    generalize c.toNat = n at ha hb
    interval_cases n <;> decide
  · have h1 : c.toLower = c := by
      unfold Char.toLower
      simp only
      rw [if_neg hc]
    rw [h1, h1]

theorem sampleEnv_foldsOnce : sampleEnv.FoldsOnce := by
  intro s
  show asciiLower (asciiLower s) = asciiLower s
  unfold asciiLower
  simp only [List.map_map]
  congr 1
  apply List.map_congr_left
  intro c _
  exact Char_toLower_twice c

/-! ## Registration: `Quit` of a local client -/

/-- C28: `Quit` on a message of a local client `q` (its identity has not three
characters), in a channel registry that the registry functions have produced
(with a case-fold that gives the same applied once or twice), and where the
members of the channels of `q` have at least three characters. The handler
returns. On `ToServer` it has sent one `QUIT` with the
prefix `q` and the reason for each link of `ServerIter()` other than the sender
(for all of them when `q` is no key of `servMap`); on `ToClient` it has sent one
`QUIT` with the prefix `q` to `peers` when `peers` is not empty, and none
otherwise, and then one `ERROR` with `Closing Link (reason)` to `q`. The list
`peers` has no UID twice and holds exactly the UIDs other than `q` with the SID
of this server that were on a channel of `chanMap` together with `q`.
Afterwards `q` is on no channel that `chanMap` leads or led to. -/
theorem Quit_of_a_local_client (E : Env) (hE : E.FoldsOnce) (L : Protocol)
    (Config : Configuration) (core : Core) (msg : Message) (now : Time)
    (hq : msg.SenderID.length ≠ 3) (hreach : ChanReg.Reachable E core.chans)
    (hlen : ∀ k p c, core.chans.chanMap.get? k = some p → core.chans.store.get? p = some c →
      c.users.has msg.SenderID = true → ∀ uid ∈ c.users.keys, 3 ≤ uid.length) :
    ∃ chans peers,
      Quit L Config core msg now
        = Outcome.ret ({ core with chans := chans },
            ((ServerIter core.servers).filter (fun sid => decide (sid ≠ msg.SenderID))).map
              (fun sid => Sent.ToServer
                { Prefix := msg.SenderID, Command := L.CMD_QUIT, Args := [quitReason msg],
                  SenderID := "", DestIDs := [sid] }) ++
            (if peers = [] then []
             else [Sent.ToClient
              { Prefix := msg.SenderID, Command := L.CMD_QUIT,
                Args := ["Quit: " ++ quitReason msg], SenderID := "", DestIDs := peers }]) ++
            [Sent.ToClient
              { Prefix := "", Command := L.CMD_ERROR,
                Args := ["Closing Link (" ++ quitReason msg ++ ")"], SenderID := "",
                DestIDs := [msg.SenderID] }]) ∧
      peers.Nodup ∧
      (∀ y, y ∈ peers ↔
        y ≠ msg.SenderID ∧ sidOf y = some Config.SID ∧
          ∃ k p c, core.chans.chanMap.get? k = some p ∧ core.chans.store.get? p = some c ∧
            c.users.has msg.SenderID = true ∧ c.users.has y = true) ∧
      (∀ k p c, chans.chanMap.get? k = some p → chans.store.get? p = some c →
        c.users.has msg.SenderID = false) ∧
      (∀ k p c, core.chans.chanMap.get? k = some p → chans.store.get? p = some c →
        c.users.has msg.SenderID = false) ∧
      (core.servers.servMap.has msg.SenderID = false →
        (ServerIter core.servers).filter (fun sid => decide (sid ≠ msg.SenderID))
          = ServerIter core.servers) := by
  have hown := Keyed_ownName E hE _ (Reachable_keyed E hE _ hreach)
  obtain ⟨ha, hb, hc⟩ := PartAll_spec core.chans msg.SenderID now hown
  have hflat : ∀ uid ∈ ((PartAll core.chans msg.SenderID now).2.entries.map Prod.snd).flatten,
      3 ≤ uid.length := by
    intro uid hu
    obtain ⟨k, p, c0, h1, h2, h3, h4⟩ := (hc uid).1 hu
    exact hlen k p c0 h1 h2 h3 uid h4
  obtain ⟨peers', hp, hmem⟩ := quitPeers_spec Config msg.SenderID _ GoMap.empty hflat
  refine ⟨(PartAll core.chans msg.SenderID now).1, peers'.keys, ?_, GoMap.keys_nodup _, ?_,
    hb, ha, ?_⟩
  · have hreason : (match msg.Args with
        | [] => "Client Quit"
        | r :: _ => r) = quitReason msg := rfl
    simp only [Quit, if_neg hq, hp, hreason]
    by_cases hz : peers'.keys = []
    · have hs : ¬ peers'.size > 0 := by
        rw [(GoMap.size_eq_zero peers').2 hz]
        exact Nat.lt_irrefl 0
      rw [if_neg hs, if_pos hz]
    · have hs : peers'.size > 0 := by
        rcases Nat.eq_zero_or_pos peers'.size with h | h
        · exact absurd ((GoMap.size_eq_zero peers').1 h) hz
        · exact h
      rw [if_pos hs, if_neg hz]
  · intro y
    rw [hmem, hc y]
    simp only [GoMap.keys_empty, List.not_mem_nil, false_or]
    constructor
    · rintro ⟨⟨k, p, c0, h1, h2, h3, h4⟩, h5, h6⟩
      exact ⟨h6, h5, k, p, c0, h1, h2, h3, (GoMap.has_eq_true _ _).2 h4⟩
    · rintro ⟨h6, h5, k, p, c0, h1, h2, h3, h4⟩
      exact ⟨⟨k, p, c0, h1, h2, h3, (GoMap.has_eq_true _ _).1 h4⟩, h5, h6⟩
  · intro hno
    apply List.filter_eq_self.2
    intro sid hsid
    simp only [ServerIter, List.mem_filter] at hsid
    have hk : sid ∈ core.servers.servMap.keys := hsid.1
    simp only [decide_eq_true_eq]
    intro e
    rw [e, ← GoMap.has_eq_true, hno] at hk
    cases hk

theorem quitCore_reachable : ChanReg.Reachable sampleEnv quitCore.chans :=
  ChanReg.Reachable.joinAt (GetChannel sampleEnv ChanReg.empty "#x" true).1 quitCore.chans
    "#x" 0 ["1AAAAAAAA", "1AAAAAAAB", "2BBAAAAAA"] 1
    (some ["1AAAAAAAA", "1AAAAAAAB", "2BBAAAAAA"], none)
    (ChanReg.Reachable.getChannel ChanReg.empty "#x" true ChanReg.Reachable.init)
    (by decide) (by decide)

/-- The local client `1AAAAAAAA` quits with the reason `bye`: one `QUIT` goes to
the linked server `2BB`, one to the local member `1AAAAAAAB` of its channel `#x`
(and not to the remote member `2BBAAAAAA`), and the `ERROR` to `1AAAAAAAA`. -/
theorem Quit_of_a_local_client_witness :
    sentOf (Quit ircProtocol sampleConfig quitCore ⟨"", "QUIT", ["bye"], "1AAAAAAAA", []⟩ 2)
      = some [Sent.ToServer ⟨"1AAAAAAAA", "QUIT", ["bye"], "", ["2BB"]⟩,
              Sent.ToClient ⟨"1AAAAAAAA", "QUIT", ["Quit: bye"], "", ["1AAAAAAAB"]⟩,
              Sent.ToClient ⟨"", "ERROR", ["Closing Link (bye)"], "", ["1AAAAAAAA"]⟩] ∧
    ∃ (chans : ChanReg) (peers : List String),
      (∀ y, y ∈ peers ↔
        y ≠ "1AAAAAAAA" ∧ sidOf y = some "1AA" ∧
          ∃ k p c, quitCore.chans.chanMap.get? k = some p ∧
            quitCore.chans.store.get? p = some c ∧
            c.users.has "1AAAAAAAA" = true ∧ c.users.has y = true) ∧
      (∀ k p c, chans.chanMap.get? k = some p → chans.store.get? p = some c →
        c.users.has "1AAAAAAAA" = false) := by
  refine ⟨by decide, ?_⟩
  obtain ⟨chans, peers, _, _, h3, h4, _⟩ :=
    Quit_of_a_local_client sampleEnv sampleEnv_foldsOnce ircProtocol sampleConfig quitCore
      ⟨"", "QUIT", ["bye"], "1AAAAAAAA", []⟩ 2 (by decide) quitCore_reachable (by
        intro k p c h1 h2 _
        have hp : p = 0 := by
          by_cases e : "#x" = k
          · simp [quitCore, GoMap.get?, GoMap.set, GoMap.empty, rawSet, rawGet, e] at h1
            exact h1.symm
          · simp [quitCore, GoMap.get?, GoMap.set, GoMap.empty, rawSet, rawGet, e] at h1
        subst hp
        have hc : c = ⟨"#x", 1, ((GoMap.empty.set "1AAAAAAAA" "host@mask").set
            "1AAAAAAAB" "host@mask").set "2BBAAAAAA" "host@mask"⟩ := by
          have hget : quitCore.chans.store.get? 0 = some ⟨"#x", 1,
              ((GoMap.empty.set "1AAAAAAAA" "host@mask").set
                "1AAAAAAAB" "host@mask").set "2BBAAAAAA" "host@mask"⟩ := rfl
          rw [hget] at h2
          exact (Option.some.inj h2).symm
        subst hc
        decide)
  exact ⟨chans, peers, h3, h4⟩

/-! ## Topology: the forest of the `downstream` sets -/

theorem Edge_no_circle (st : Topology) (rank : String → Nat)
    (hr : ∀ p c, st.Edge p c → rank p < rank c) (a b : String)
    (h : Relation.TransGen st.Edge a b) : rank a < rank b := by
  induction h with
  | single he => exact hr _ _ he
  | tail _ he ih => exact lt_trans ih (hr _ _ he)

/-- C37: in every state reached from the empty topology by `GetServer(sid,
true)`, `LinkServer` and `Unlink`, every member `c` of a set `downstream[p]` has
`upstream[c] = p`; so an SID is a member of the `downstream` set of one SID at
most, and no SID is reached from itself through `downstream` sets: the sets make
a forest. -/
theorem downstream_members_point_up (E : Env) (st : Topology)
    (h : Topology.Reachable E st) :
    (∀ p kids c, st.downstream.get? p = some kids → kids.has c = true →
      st.upstream.get? c = some p) ∧
    (∀ p p' c, st.Edge p c → st.Edge p' c → p = p') ∧
    (∀ a, ¬ Relation.TransGen st.Edge a a) := by
  obtain ⟨hK, rank, N, hr, _⟩ := Reachable_forest E st h
  refine ⟨?_, fun p p' c => Edge_parent_unique st hK p p' c, ?_⟩
  · intro p kids c hk hc
    exact (hK p c ⟨kids, hk, (GoMap.has_eq_true kids c).1 hc⟩).1
  · intro a ha
    exact lt_irrefl _ (Edge_no_circle st rank hr a a ha)

/-- The state with `3CC` linked behind `2BB`: the one member `3CC` of
`downstream[2BB]` has `upstream[3CC] = 2BB`. -/
theorem downstream_members_point_up_witness :
    sampleTopology.downstream.get? "2BB" = some (GoMap.empty.set "3CC" true) ∧
    sampleTopology.upstream.get? "3CC" = some "2BB" :=
  ⟨by decide,
    (downstream_members_point_up sampleEnv sampleTopology sampleTopology_reachable).1
      "2BB" (GoMap.empty.set "3CC" true) "3CC" (by decide) (by decide)⟩

/-! ## Topology: the walks through `upstream` -/

theorem walkUp_circle (up : GoMap String) (a b : String) (hab : up.get? a = some b)
    (hba : up.get? b = some a) (n : Nat) :
    walkUp up n a = none ∧ walkUp up n b = none := by
  induction n with
  | zero => exact ⟨rfl, rfl⟩
  | succ n ih =>
    unfold walkUp
    simp only [hab, hba]
    exact ⟨ih.2, ih.1⟩

/-- C32: the state after `GetServer("1AA", true)`, `LinkServer("1AA", "2BB",
...)`, `LinkServer("2BB", "3CC", ...)`, `Unlink("2BB")` and `GetServer("3CC",
true)` is reached, and `2BB` is not in `servMap`. `LinkServer("3CC", "2BB", ...)`
writes `upstream[2BB] = 3CC` before it counts the hops; with the entry
`upstream[3CC] = 2BB` that `Unlink` left, `upstream` then has a circle: the walk
from `2BB` reaches no SID without an entry, whatever the number of steps, and
neither does the count of the hops from `3CC`. -/
theorem upstream_circle_on_relink :
    Topology.Reachable sampleEnv relinkedTopology ∧
    relinkedTopology.servMap.has "2BB" = false ∧
    (relinkedTopology.upstream.set "2BB" "3CC").get? "2BB" = some "3CC" ∧
    (relinkedTopology.upstream.set "2BB" "3CC").get? "3CC" = some "2BB" ∧
    (∀ n, walkUp (relinkedTopology.upstream.set "2BB" "3CC") n "2BB" = none) ∧
    (∀ n chain, hopChain (relinkedTopology.upstream.set "2BB" "3CC") n "3CC" chain = none) :=
  ⟨relinkedTopology_reachable, by decide, by decide, by decide,
    fun n => (walkUp_circle (relinkedTopology.upstream.set "2BB" "3CC") "2BB" "3CC"
      (by decide) (by decide) n).1,
    fun n chain => (hopChain_cycle (relinkedTopology.upstream.set "2BB" "3CC") "3CC" "2BB"
      (by decide) (by decide) (by decide) (by decide) n chain).1⟩

/-! ## Topology: `LinkServer` behind an unknown SID -/

/-- C35: when the child is not in `servMap` and the parent has no `downstream`
map, `LinkServer` stops with a runtime panic, at the assignment
`downstream[link][sid] = true`; it returns no error. -/
theorem LinkServer_panics_without_parent (E : Env) (fuel : Nat) (st : Topology)
    (parent child name hops desc : String) (hc : st.servMap.has child = false)
    (hp : st.downstream.get? parent = none) :
    LinkServer E fuel st parent child name hops desc = Outcome.crash := by
  simp [LinkServer, hc, hp]

/-- In the empty topology, `LinkServer("", "2BB", ...)`, as `Sid` calls it for a
message without a prefix, stops with a runtime panic. -/
theorem LinkServer_panics_without_parent_witness :
    LinkServer sampleEnv 3 Topology.empty "" "2BB" "peer.example" "1" "a peer"
      = Outcome.crash :=
  LinkServer_panics_without_parent sampleEnv 3 Topology.empty "" "2BB" "peer.example" "1"
    "a peer" (by decide) (by decide)

/-! ## Users and channels: `TS` -/

theorem Second_lt (zone : Int) (t : Time) : ∃ n : Nat, n < 60 ∧ Second zone t = (n : Int) := by
  have h0 : 0 ≤ (t / 1000000000 + zone) % 60 := Int.emod_nonneg _ (by norm_num)
  have h1 : (t / 1000000000 + zone) % 60 < 60 := Int.emod_lt_of_pos _ (by norm_num)
  refine ⟨((t / 1000000000 + zone) % 60).toNat, ?_, ?_⟩
  · omega
  · simp only [Second]; omega

theorem FormatInt_small : ∀ n : Nat, n < 60 → FormatInt (n : Int) ≠ "1300000000" := by
  decide

/-- C40: `User.TS()` and `Channel.TS()` return the text of the second within
the minute of the stored time, a number below 60, and not the seconds since the
epoch; `Import` stores the timestamp text as a count of nanoseconds, and the
user imported with the timestamp `1300000000` has the TS `1` in the zone UTC and
in no zone the TS `1300000000`. -/
theorem TS_is_the_second_within_the_minute :
    (∀ (zone : Int) (u : User), ∃ n : Nat, n < 60 ∧ User.TS zone u = FormatInt (n : Int)) ∧
    (∀ (zone : Int) (c : Channel), ∃ n : Nat, n < 60 ∧ Channel.TS zone c = FormatInt (n : Int)) ∧
    (Import clockEnv UserReg.empty "2BBAAAAAA" "nick" "user" "host" "ip" "1" "1300000000"
        "name").2 = none ∧
    ((Import clockEnv UserReg.empty "2BBAAAAAA" "nick" "user" "host" "ip" "1" "1300000000"
        "name").1.userMap.get? "2BBAAAAAA").map (fun u => u.ts) = some 1300000000 ∧
    ((Import clockEnv UserReg.empty "2BBAAAAAA" "nick" "user" "host" "ip" "1" "1300000000"
        "name").1.userMap.get? "2BBAAAAAA").map (User.TS 0) = some "1" ∧
    (∀ zone : Int,
      ((Import clockEnv UserReg.empty "2BBAAAAAA" "nick" "user" "host" "ip" "1" "1300000000"
        "name").1.userMap.get? "2BBAAAAAA").map (User.TS zone) ≠ some "1300000000") := by
  have himp : (Import clockEnv UserReg.empty "2BBAAAAAA" "nick" "user" "host" "ip" "1"
      "1300000000" "name").1.userMap.get? "2BBAAAAAA"
      = some { ts := 1300000000, id := "2BBAAAAAA", user := "user", pass := "", nick := "nick",
               name := "name", utyp := userType.RegisteredAsUser } := by decide
  refine ⟨fun zone u => ?_, fun zone c => ?_, by decide, ?_, ?_, fun zone => ?_⟩
  · obtain ⟨n, hn, h⟩ := Second_lt zone u.ts
    exact ⟨n, hn, by simp only [User.TS, h]⟩
  · obtain ⟨n, hn, h⟩ := Second_lt zone c.ts
    exact ⟨n, hn, by simp only [Channel.TS, h]⟩
  · rw [himp]; rfl
  · rw [himp]; decide
  · rw [himp]
    obtain ⟨n, hn, h⟩ := Second_lt zone 1300000000
    simp only [Option.map_some', User.TS, h, ne_eq, Option.some.injEq]
    exact FormatInt_small n hn

/-! ## Messaging: `Privmsg` to a user -/

/-- C33 as stated fails for a user recipient, for which `Privmsg` asks
`IterFor([]string{remoteid}, "")`, with the empty string for the link to skip.
The server `2BB` is linked to this one and `3CC` is behind
it; the `PRIVMSG` that `2BB` delivers from its user `2BBAAAAAA` for the nick `c`
of `3CCAAAAAA` is put on `ToServer` with the destination `2BB`, the peer it came
from, while the same message for the channel `#x`, where `3CCAAAAAA` is the only
other member behind a link, is sent to no server. -/
theorem Privmsg_to_a_user_returns_to_the_peer :
    Topology.Reachable sampleEnv splitCore.servers ∧
    IsLocal splitCore.servers "2BB" = true ∧
    GetID sampleEnv splitCore.users "c" = ("3CCAAAAAA", none) ∧
    IterFor splitCore.servers 3 ["3CCAAAAAA"] "" = Outcome.ret ["2BB"] ∧
    Privmsg sampleEnv ircProtocol sampleConfig 3 splitCore "PRIVMSG"
        ⟨"2BBAAAAAA", "PRIVMSG", ["c", "hi"], "2BB", []⟩
      = Outcome.ret
          [Sent.ToServer ⟨"2BBAAAAAA", "PRIVMSG", ["3CCAAAAAA", "hi"], "", ["2BB"]⟩] ∧
    Privmsg sampleEnv ircProtocol sampleConfig 3 splitCore "NOTICE"
        ⟨"2BBAAAAAA", "NOTICE", ["c", "hi"], "2BB", []⟩
      = Outcome.ret
          [Sent.ToServer ⟨"2BBAAAAAA", "NOTICE", ["3CCAAAAAA", "hi"], "", ["2BB"]⟩] ∧
    Privmsg sampleEnv ircProtocol sampleConfig 3 splitCore "PRIVMSG"
        ⟨"2BBAAAAAA", "PRIVMSG", ["#x", "hi"], "2BB", []⟩
      = Outcome.ret
          [Sent.ToClient ⟨"2BBAAAAAA", "PRIVMSG", ["#x", "hi"], "", ["1AAAAAAAA"]⟩] :=
  ⟨sampleTopology_reachable, by decide, by decide, by decide, by decide, by decide, by decide⟩

/-! ## The managers: the closed connections in `uid2conn` and `sid2conn` -/

theorem sendLoop_nil (E : Env) (setnick setprefix closeafter : Bool) (id : String)
    (rest : List String) (msg : Message) (st : ClientManager) (written : List (String × Message))
    (h : st.uid2conn.get? id = some none) :
    sendLoop E setnick setprefix closeafter (id :: rest) msg st written = Outcome.crash := by
  simp only [sendLoop, h]

/-- C34: the managers write `nil` into `uid2conn` and `sid2conn` and never
delete a key. After the closing event of a client the UID is still found, with
the connection `nil`, and the next outbound message with that UID of this server
as its one destination calls `WriteMessage` on `nil`, a runtime panic; likewise
after the closing event of a server. After an inbound `ERROR` of either, and
after the send of an `ERROR` to a client, the key is found with `nil` too. -/
theorem closed_connection_stays_in_the_map (E : Env) (L : Protocol) (Config : Configuration)
    (st : ClientManager) (sv : ServerManager) (closeid : String) (msg inbound : Message)
    (hcmd : msg.Command ≠ L.INT_DELUSER) (hdest : msg.DestIDs = [closeid])
    (hsid : sidOf closeid = some Config.SID)
    (herr : inbound.Command = L.CMD_ERROR) (hfrom : inbound.SenderID = closeid)
    (hrec : (GetUser st.users closeid).2.id = closeid) :
    (handleClientClosing E st closeid).uid2conn.get? closeid = some none ∧
    handleToClient E L Config (handleClientClosing E st closeid) msg = Outcome.crash ∧
    (handleServerClosing L sv closeid).1.sid2conn.get? closeid = some none ∧
    handleToServer (handleServerClosing L sv closeid).1 msg = Outcome.crash ∧
    (st.uid2conn.get? closeid ≠ none →
      (handleFromClient E L st inbound).1.uid2conn.get? closeid = some none) ∧
    (sv.sid2conn.get? closeid ≠ none →
      (handleFromServer L sv inbound).1.sid2conn.get? closeid = some none) ∧
    (∀ (c : String) (setnick setprefix : Bool) (m : Message) (written : List (String × Message)),
      st.uid2conn.get? closeid = some (some c) →
      ∃ st' out, sendLoop E setnick setprefix true [closeid] m st written
          = Outcome.ret (st', out) ∧
        st'.uid2conn.get? closeid = some none) := by
  have hc : (handleClientClosing E st closeid).uid2conn.get? closeid = some none := by
    simp only [handleClientClosing, GoMap.get?_set, if_true]
  have hs : (handleServerClosing L sv closeid).1.sid2conn.get? closeid = some none := by
    simp only [handleServerClosing, GoMap.get?_set, if_true]
  refine ⟨hc, ?_, hs, ?_, ?_, ?_, ?_⟩
  · have hsides : destSides Config [closeid] [] [] = some ([closeid], []) := by
      simp [destSides, hsid]
    simp only [handleToClient, if_neg hcmd, hdest, hsides]
    simp only [List.length_nil, gt_iff_lt, Nat.lt_irrefl, false_and, if_false]
    exact sendLoop_nil E _ _ _ closeid [] _ _ [] hc
  · simp only [handleToServer, hdest, writeLoop, hs]
  · intro hlive
    simp only [handleFromClient, herr, hfrom, hrec, if_true]
    cases hg : st.uid2conn.get? closeid with
    | none => exact absurd hg hlive
    | some conn =>
      cases conn with
      | none => exact hg
      | some c => simp only [GoMap.get?_set, if_true]
  · intro hlive
    simp only [handleFromServer, herr, hfrom, if_true]
    cases hg : sv.sid2conn.get? closeid with
    | none => exact absurd hg hlive
    | some conn =>
      cases conn with
      | none => exact hg
      | some c => simp only [GoMap.get?_set, if_true]
  · intro c setnick setprefix m written hlive
    simp only [sendLoop, hlive, if_true]
    exact ⟨_, _, rfl, by simp only [GoMap.get?_set, if_true]⟩

/-- The client `1AAAAAAAB` of this server connects and closes; the `PRIVMSG` of
the channel `#x`, of which it was a member, is then written to `nil`. -/
theorem closed_connection_stays_in_the_map_witness :
    handleToClient sampleEnv ircProtocol sampleConfig
        (handleClientClosing sampleEnv (handleNewClient ⟨UserReg.empty, GoMap.empty⟩ "1AAAAAAAB")
          "1AAAAAAAB")
        ⟨"1AAAAAAAA", "PRIVMSG", ["#x", "hi"], "", ["1AAAAAAAB"]⟩ = Outcome.crash :=
  (closed_connection_stays_in_the_map sampleEnv ircProtocol sampleConfig
    (handleNewClient ⟨UserReg.empty, GoMap.empty⟩ "1AAAAAAAB")
    (handleNewServer ⟨Topology.empty, GoMap.empty⟩ "2BB") "1AAAAAAAB"
    ⟨"1AAAAAAAA", "PRIVMSG", ["#x", "hi"], "", ["1AAAAAAAB"]⟩
    ⟨"", "ERROR", ["bye"], "1AAAAAAAB", []⟩
    (by decide) rfl (by decide) rfl rfl (by decide)).2.1

/-! ## Users: `SetNick` without error -/

/-- C36 as stated fails: `1AAAAAAAA` holds `foo`; `SetNick("Foo")` returns no
error and changes nothing, so the nick is still `foo` and not `Foo`. -/
theorem SetNick_case_change_keeps_the_nick :
    SetNick sampleEnv sampleUsers "1AAAAAAAA" "Foo" 5 = some (sampleUsers, none) ∧
    (sampleUsers.userMap.get? "1AAAAAAAA").map (fun u => u.nick) = some "foo" ∧
    (sampleUsers.userMap.get? "1AAAAAAAA").map (fun u => u.nick) ≠ some "Foo" := by
  refine ⟨by decide, by decide, by decide⟩

/-- C36, as the code has it: in a state where every record is stored under its
own UID and the index holds the case-fold of every nick other than `*` for its
holder and nothing else, a call `u.SetNick(n)` that returns no error leaves the
index with the case-fold of `n` for the UID of `u`, and changes no record and no
index entry of another user. When the case-fold of `n` differs from the
case-fold of the previous nick, the nick of `u` is `n`, its time is the time of
the call, and the index has no entry for the case-fold of the previous nick.
When the two case-folds are equal, which includes an `n` that differs from the
nick in letter case only, nothing changes: the nick of `u` is the previous one.
The case-fold and the validator are not among the sources: `*` is taken alone in
its fold class and not valid. -/
theorem SetNick_without_error (E : Env) (hstar : E.StarAlone) (hv : E.ValidNick "*" = false)
    (st st1 : UserReg) (hI : st.Indexed E) (hO : st.IndexOwned E) (uid n : String) (now : Time)
    (h1 : SetNick E st uid n now = some (st1, none)) :
    ∃ u u1, st.userMap.get? uid = some u ∧ st1.userMap.get? uid = some u1 ∧
      st1.userNicks.get? (E.ToLower n) = some uid ∧
      (E.ToLower n ≠ E.ToLower u.nick →
        u1 = { u with nick := n, ts := now } ∧
        st1.userNicks.get? (E.ToLower u.nick) = none) ∧
      (E.ToLower n = E.ToLower u.nick → u1 = u ∧ st1 = st) ∧
      (∀ uid', uid' ≠ uid → st1.userMap.get? uid' = st.userMap.get? uid') ∧
      (∀ k i, i ≠ uid → (st1.userNicks.get? k = some i ↔ st.userNicks.get? k = some i)) := by
  obtain ⟨u, hg, hid, hval, hcase⟩ := SetNick_success_cases E hstar hv st st1 hI uid n now h1
  rcases hcase with ⟨hown, hst⟩ | ⟨hnone, hne, hst⟩
  · obtain ⟨u', hg', _, hfold⟩ := hO _ _ hown
    rw [hg] at hg'
    have hu : u' = u := (Option.some.inj hg').symm
    subst hu
    subst hst
    refine ⟨u', u', hg, hg, hown, fun hne => absurd hfold.symm hne, fun _ => ⟨rfl, rfl⟩,
      fun _ _ => rfl, fun _ _ _ => Iff.rfl⟩
  · subst hst
    have hstale : ∀ k i, i ≠ uid → st.userNicks.get? k = some i → k ≠ E.ToLower u.nick := by
      intro k i hi hk e
      by_cases hs : u.nick = "*"
      · obtain ⟨w, _, hw2, hw3⟩ := hO _ _ hk
        rw [e, hs] at hw3
        exact hw2 (hstar _ hw3)
      · have h2 := hI.2 uid u hg hs
        rw [← e, hk] at h2
        exact hi (Option.some.inj h2)
    refine ⟨u, { u with nick := n, ts := now }, hg, ?_, ?_, fun _ => ⟨rfl, ?_⟩,
      fun e => absurd e hne, fun uid' hne' => ?_, fun k i hi => ⟨fun h => ?_, fun h => ?_⟩⟩
    · simp only [GoMap.get?_set, if_true]
    · simp only [GoMap.get?_del, GoMap.get?_set, if_neg hne, if_true]
    · simp only [GoMap.get?_del, if_true]
    · simp only [GoMap.get?_set, if_neg hne']
    · simp only [GoMap.get?_del, GoMap.get?_set] at h
      by_cases e1 : k = E.ToLower u.nick
      · rw [if_pos e1] at h
        cases h
      · rw [if_neg e1] at h
        by_cases e2 : k = E.ToLower n
        · rw [if_pos e2] at h
          exact absurd (Option.some.inj h).symm hi
        · rw [if_neg e2] at h
          exact h
    · have e1 : k ≠ E.ToLower u.nick := hstale k i hi h
      have e2 : k ≠ E.ToLower n := by
        intro e
        rw [e, hnone] at h
        cases h
      simp only [GoMap.get?_del, GoMap.get?_set, if_neg e1, if_neg e2]
      exact h

/-- C36, at a concrete input: in the registry where `1AAAAAAAA` holds `foo` and
`1AAAAAAAB` holds `bar`, the user `1AAAAAAAB` takes `Baz`. -/
theorem SetNick_without_error_witness :
    ∃ st1 u u1, SetNick sampleEnv sampleUsers "1AAAAAAAB" "Baz" 7 = some (st1, none) ∧
      sampleUsers.userMap.get? "1AAAAAAAB" = some u ∧
      st1.userMap.get? "1AAAAAAAB" = some u1 ∧
      st1.userNicks.get? "baz" = some "1AAAAAAAB" ∧
      u1 = { u with nick := "Baz", ts := 7 } ∧
      st1.userNicks.get? (sampleEnv.ToLower u.nick) = none :=
  have h := SetNick_without_error sampleEnv sampleEnv_starAlone (by decide) sampleUsers
    ⟨(GoMap.empty.set "1AAAAAAAA"
        { ts := 1, id := "1AAAAAAAA", user := "", pass := "", nick := "foo", name := "",
          utyp := userType.UnregisteredUser }).set "1AAAAAAAB"
        { ts := 7, id := "1AAAAAAAB", user := "", pass := "", nick := "Baz", name := "",
          utyp := userType.UnregisteredUser },
      (GoMap.empty.set "foo" "1AAAAAAAA").set "baz" "1AAAAAAAB"⟩
    (ReachableTame_indexed sampleEnv sampleEnv_starAlone sampleUsers sampleUsers_reachableTame)
    (ReachableTame_owned sampleEnv sampleEnv_starAlone (by decide) sampleUsers
      sampleUsers_reachableTame)
    "1AAAAAAAB" "Baz" 7 (by decide)
  Exists.elim h (fun u hu => Exists.elim hu (fun u1 h2 =>
    ⟨_, u, u1, by decide, h2.1, h2.2.1, h2.2.2.1,
      (h2.2.2.2.1 (by
        have e := h2.1
        have e' : sampleUsers.userMap.get? "1AAAAAAAB" = some
            { ts := 2, id := "1AAAAAAAB", user := "", pass := "", nick := "bar", name := "",
              utyp := userType.UnregisteredUser } := by decide
        rw [e'] at e
        rw [← Option.some.inj e]
        decide)).1,
      (h2.2.2.2.1 (by
        have e := h2.1
        have e' : sampleUsers.userMap.get? "1AAAAAAAB" = some
            { ts := 2, id := "1AAAAAAAB", user := "", pass := "", nick := "bar", name := "",
              utyp := userType.UnregisteredUser } := by decide
        rw [e'] at e
        rw [← Option.some.inj e]
        decide)).2⟩))

/-! ## Configuration: the errors of `GetPortList` -/

theorem splitOn_ne_nil (sep : Char) : ∀ l : List Char, splitOn sep l ≠ []
  | [] => by simp [splitOn]
  | c :: cs => by
    unfold splitOn
    by_cases h : c = sep
    · simp [h]
    · rw [if_neg h]
      cases splitOn sep cs <;> simp

theorem strconvAtoi_ge (e : List Char) (v : Int) (h : strconvAtoi e = Except.ok v) :
    - 2 ^ 63 ≤ v := by
  unfold strconvAtoi at h
  simp only at h
  split_ifs at h <;> cases h <;> omega

theorem rangeLoop_bad (fuel : Nat) (rng : List Char) (rest : List (List Char)) (acc : List Int)
    (hbad : badItem rng = true) :
    ∃ err, rangeLoop fuel (rng :: rest) acc = Outcome.ret ([], some err) := by
  unfold badItem rangeOf endpoints at hbad
  unfold rangeLoop
  simp only
  cases hs : splitOn '-' (TrimSpace rng) with
  | nil => exact absurd hs (splitOn_ne_nil _ _)
  | cons e0 more =>
    rw [hs] at hbad
    cases more with
    | nil =>
      cases h0 : strconvAtoi e0 with
      | error e => exact ⟨PortsError.num e, by simp [h0]⟩
      | ok low => simp [noInteger, h0] at hbad
    | cons e1 more2 =>
      cases more2 with
      | cons e2 more3 =>
        exact ⟨PortsError.text ("Invalid port range: " ++ String.mk rng), by simp⟩
      | nil =>
        cases h0 : strconvAtoi e0 with
        | error e => exact ⟨PortsError.num e, by simp [h0]⟩
        | ok low =>
          cases h1 : strconvAtoi e1 with
          | error e => exact ⟨PortsError.num e, by simp [h0, h1]⟩
          | ok high =>
            simp [noInteger, h0, h1] at hbad
            exact ⟨PortsError.text ("Inverted range: " ++ String.mk rng),
              by simp [h0, h1, hbad]⟩

theorem rangeLoop_good (fuel : Nat) (rng : List Char) (rest : List (List Char)) (acc : List Int)
    (hgood : badItem rng = false) (htame : tameItem fuel rng = true) :
    ∃ ps, rangeLoop fuel (rng :: rest) acc = rangeLoop fuel rest (acc ++ ps) := by
  unfold badItem rangeOf endpoints at hgood
  unfold tameItem rangeOf endpoints at htame
  rw [rangeLoop]
  cases hs : splitOn '-' (TrimSpace rng) with
  | nil => exact absurd hs (splitOn_ne_nil _ _)
  | cons e0 more =>
    rw [hs] at hgood htame
    cases more with
    | nil =>
      cases h0 : strconvAtoi e0 with
      | error e => simp [noInteger, h0] at hgood
      | ok low => exact ⟨[low], by simp [h0]⟩
    | cons e1 more2 =>
      cases more2 with
      | cons e2 more3 => simp at hgood
      | nil =>
        cases h0 : strconvAtoi e0 with
        | error e => simp [noInteger, h0] at hgood
        | ok low =>
          cases h1 : strconvAtoi e1 with
          | error e => simp [noInteger, h0, h1] at hgood
          | ok high =>
            simp [noInteger, h0, h1] at hgood
            simp only [h0, h1, Bool.and_eq_true, decide_eq_true_eq] at htame
            have hlow := strconvAtoi_ge e0 low h0
            obtain ⟨n, hn⟩ := Int.eq_ofNat_of_zero_le (show (0 : Int) ≤ high + 1 - low by omega)
            have hrun := portLoop_run n fuel low high acc hn (by omega) hlow htame.1
            refine ⟨(List.range n).map (fun (k : Nat) => low + (k : Int)), ?_⟩
            simp [h0, h1, not_lt.mpr hgood, hrun]

theorem rangeLoop_sound (fuel : Nat) : ∀ (items : List (List Char)) (acc : List Int),
    (∀ rng ∈ items, tameItem fuel rng = true) →
    ((∃ rng ∈ items, badItem rng = true) →
      ∃ err, rangeLoop fuel items acc = Outcome.ret ([], some err)) ∧
    ((∀ rng ∈ items, badItem rng = false) →
      ∃ ports, rangeLoop fuel items acc = Outcome.ret (ports, none))
  | [], acc, _ => ⟨fun ⟨_, h, _⟩ => absurd h (List.not_mem_nil _), fun _ => ⟨acc, rfl⟩⟩
  | rng :: rest, acc, htame => by
    cases hb : badItem rng with
    | true =>
      refine ⟨fun _ => rangeLoop_bad fuel rng rest acc hb, fun h => ?_⟩
      have := h rng (List.mem_cons_self _ _)
      rw [hb] at this
      cases this
    | false =>
      obtain ⟨ps, hps⟩ := rangeLoop_good fuel rng rest acc hb
        (htame rng (List.mem_cons_self _ _))
      have ih := rangeLoop_sound fuel rest (acc ++ ps)
        (fun r hr => htame r (List.mem_cons_of_mem _ hr))
      rw [hps]
      refine ⟨fun ⟨r, hr, hrb⟩ => ih.1 ?_, fun h => ih.2 (fun r hr => h r (List.mem_cons_of_mem _ hr))⟩
      rcases List.mem_cons.mp hr with e | hmem
      · rw [e, hb] at hrb
        cases hrb
      · exact ⟨r, hmem, hrb⟩

/-- C31 as stated fails: the items of `6667,9223372036854775808` are two decimal
integers, each with one endpoint, and `GetPortList` returns an error, the range
error of `strconv.Atoi`. -/
theorem GetPortList_error_for_two_integers :
    splitOn ',' "6667,9223372036854775808".data
      = ["6667".data, "9223372036854775808".data] ∧
    endpoints "6667".data = ["6667".data] ∧
    endpoints "9223372036854775808".data = ["9223372036854775808".data] ∧
    isNumber "6667".data = true ∧
    isNumber "9223372036854775808".data = true ∧
    ∀ fuel, GetPortList fuel "6667,9223372036854775808"
      = Outcome.ret ([], some (PortsError.num (NumError.ErrRange "9223372036854775808"))) :=
  ⟨by decide, by decide, by decide, by decide, by decide, fun _ => rfl⟩

/-- C31, as the code has it: the items of a port string are its pieces between
the commas, and the endpoints of an item are the pieces between the `-` of the
item without the white space around it. When every range among the items ends
below the last `int` of 64 bits and is shorter than the steps given to the loop,
`GetPortList` returns an error and no port if some item has more than two
endpoints, or an endpoint that `strconv.Atoi` does not read as an `int` (the empty
text, a text with another character than a sign in front and decimal digits, a
value outside of 64 bits), or `lo > hi`; and it returns no error if there is no
such item. So it is for the strings of the test, for the empty string and for an
empty item, also after an item with ports. -/
theorem GetPortList_errors (fuel : Nat) (s : String)
    (htame : ∀ rng ∈ splitOn ',' s.data, tameItem fuel rng = true) :
    ((∃ rng ∈ splitOn ',' s.data, badItem rng = true) →
      ∃ err, GetPortList fuel s = Outcome.ret ([], some err)) ∧
    ((∀ rng ∈ splitOn ',' s.data, badItem rng = false) →
      ∃ ports, GetPortList fuel s = Outcome.ret (ports, none)) ∧
    GetPortList fuel "6666-6667-6668"
      = Outcome.ret ([], some (PortsError.text "Invalid port range: 6666-6667-6668")) ∧
    GetPortList fuel "6669-6666"
      = Outcome.ret ([], some (PortsError.text "Inverted range: 6669-6666")) ∧
    GetPortList fuel "" = Outcome.ret ([], some (PortsError.num (NumError.ErrSyntax ""))) ∧
    GetPortList fuel "6667,,6668"
      = Outcome.ret ([], some (PortsError.num (NumError.ErrSyntax ""))) ∧
    GetPortList fuel "6667,66x8"
      = Outcome.ret ([], some (PortsError.num (NumError.ErrSyntax "66x8"))) ∧
    GetPortList fuel "6667,6668-"
      = Outcome.ret ([], some (PortsError.num (NumError.ErrSyntax ""))) :=
  ⟨(rangeLoop_sound fuel _ [] htame).1, (rangeLoop_sound fuel _ [] htame).2,
    rfl, rfl, rfl, rfl, rfl, rfl⟩

/-- C31, at a concrete input: the ports `6666` to `6668`, then an inverted range. -/
theorem GetPortList_errors_witness :
    ∃ err, GetPortList 5 "6666-6668,6669-6666" = Outcome.ret ([], some err) :=
  (GetPortList_errors 5 "6666-6668,6669-6666" (by decide)).1
    ⟨"6669-6666".data, by decide, by decide⟩

/-! ## The client manager: the lines written -/

theorem ownNick_twice (setnick setprefix : Bool) (a b : String) (m : Message) :
    ownNick setnick setprefix b (ownNick setnick setprefix a m)
      = ownNick setnick setprefix b m := by
  cases setnick <;> cases setprefix <;> simp [ownNick, List.set_set]

theorem sendLoop_writes (E : Env) (setnick setprefix closeafter : Bool) (base : Message)
    (users0 : UserReg) (conn0 : GoMap (Option String)) :
    ∀ (ids : List String) (msg : Message) (st : ClientManager)
      (written : List (String × Message)),
    (∀ nick, ownNick setnick setprefix nick msg = ownNick setnick setprefix nick base) →
    (∀ id ∈ ids, st.users.userMap.get? id = users0.userMap.get? id) →
    (∀ id ∈ ids, st.uid2conn.get? id = conn0.get? id) →
    (closeafter = true → ids.Nodup) →
    (∀ id ∈ ids, conn0.get? id ≠ some none) →
    ∃ st', sendLoop E setnick setprefix closeafter ids msg st written
      = Outcome.ret (st', written ++
          linesFor conn0 (fun r => ownNick setnick setprefix (nickOf users0 r) base) ids) := by
  intro ids
  induction ids with
  | nil =>
    intro msg st written _ _ _ _ _
    exact ⟨st, by simp [sendLoop, linesFor]⟩
  | cons id rest ih =>
    intro msg st written hmsg husers hconn hdup hlive
    have hc := hconn id (List.mem_cons_self _ _)
    have hu := husers id (List.mem_cons_self _ _)
    have hrestu : ∀ r ∈ rest, st.users.userMap.get? r = users0.userMap.get? r :=
      fun r hr => husers r (List.mem_cons_of_mem _ hr)
    have hrestc : ∀ r ∈ rest, st.uid2conn.get? r = conn0.get? r :=
      fun r hr => hconn r (List.mem_cons_of_mem _ hr)
    have hrestl : ∀ r ∈ rest, conn0.get? r ≠ some none :=
      fun r hr => hlive r (List.mem_cons_of_mem _ hr)
    have hrestd : closeafter = true → rest.Nodup := fun h => (List.nodup_cons.mp (hdup h)).2
    cases hg : conn0.get? id with
    | none =>
      rw [hg] at hc
      obtain ⟨st', h⟩ := ih msg st written hmsg hrestu hrestc hrestd hrestl
      refine ⟨st', ?_⟩
      rw [sendLoop]
      simp only [hc]
      rw [h]
      simp [linesFor, hg]
    | some conn =>
      cases conn with
      | none => exact absurd hg (hlive id (List.mem_cons_self _ _))
      | some c =>
        rw [hg] at hc
        have hnick : (match st.users.userMap.get? id with
            | some u => u.nick
            | none => "") = nickOf users0 id := by
          rw [hu]
          rfl
        have hstep : ∀ nick,
            ownNick setnick setprefix nick (ownNick setnick setprefix (nickOf users0 id) msg)
              = ownNick setnick setprefix nick base := by
          intro nick
          rw [ownNick_twice, hmsg]
        have hline : written ++ [(c, ownNick setnick setprefix (nickOf users0 id) msg)] ++
              linesFor conn0 (fun r => ownNick setnick setprefix (nickOf users0 r) base) rest
            = written ++
              linesFor conn0 (fun r => ownNick setnick setprefix (nickOf users0 r) base)
                (id :: rest) := by
          simp [linesFor, hg, hmsg]
        cases hclose : closeafter with
        | false =>
          obtain ⟨st', h⟩ := ih (ownNick setnick setprefix (nickOf users0 id) msg) st
            (written ++ [(c, ownNick setnick setprefix (nickOf users0 id) msg)])
            hstep hrestu hrestc hrestd hrestl
          refine ⟨st', ?_⟩
          rw [hclose] at h
          rw [sendLoop]
          simp only [hc, hnick, Bool.false_eq_true, if_false]
          rw [← hline]
          exact h
        | true =>
          have hnd := List.nodup_cons.mp (hdup hclose)
          have hne : ∀ r ∈ rest, r ≠ id := fun r hr e => hnd.1 (e ▸ hr)
          obtain ⟨st', h⟩ := ih (ownNick setnick setprefix (nickOf users0 id) msg)
            { users := Delete E st.users id, uid2conn := st.uid2conn.set id none }
            (written ++ [(c, ownNick setnick setprefix (nickOf users0 id) msg)])
            hstep
            (fun r hr => by rw [Delete_get?, if_neg (hne r hr)]; exact hrestu r hr)
            (fun r hr => by
              show (st.uid2conn.set id none).get? r = _
              rw [GoMap.get?_set, if_neg (hne r hr)]
              exact hrestc r hr)
            hrestd hrestl
          refine ⟨st', ?_⟩
          rw [hclose] at h
          rw [sendLoop]
          simp only [hc, hnick, if_true]
          rw [← hline]
          exact h

theorem length_eq_zero_iff (s : String) : s.length = 0 ↔ s = "" := by
  constructor
  · intro h
    cases s with
    | mk d =>
      have hd : d = [] := List.length_eq_zero.mp h
      rw [hd]
  · intro h
    subst h
    rfl

theorem ownNick_rewritten (users : UserReg) (p1 pre cmd : String) (args : List String)
    (sender : String) (dests : List String) (r : String) :
    ownNick (decide (args.length > 0) && decide (args.head? = some "*"))
      (decide (pre = "*")) (nickOf users r)
      (let msg1 : Message := ⟨p1, cmd, args, sender, dests⟩
       let msg2 : Message :=
        if isuid msg1.Prefix then
          match users.userMap.get? msg1.Prefix with
          | none => msg1
          | some u => { msg1 with Prefix := u.nick ++ "!" ++ u.user ++ "@host" }
        else msg1
       { msg2 with Args := msg2.Args.map (fun a =>
          if isuid a then
            match users.userMap.get? a with
            | none => a
            | some u => u.nick
          else a) })
      = { Prefix :=
            if pre = "*" then nickOf users r
            else if isuid p1 then
              match users.userMap.get? p1 with
              | some u => u.nick ++ "!" ++ u.user ++ "@host"
              | none => p1
            else p1
          Command := cmd
          Args :=
            if args.head? = some "*" then
              nickOf users r :: (args.map (fun a =>
                if isuid a then
                  match users.userMap.get? a with
                  | some u => u.nick
                  | none => a
                else a)).tail
            else
              args.map (fun a =>
                if isuid a then
                  match users.userMap.get? a with
                  | some u => u.nick
                  | none => a
                else a)
          SenderID := sender
          DestIDs := dests } := by
  have hf : (fun a => if isuid a then
        match users.userMap.get? a with
        | none => a
        | some u => u.nick
      else a)
      = (fun a => if isuid a then
        match users.userMap.get? a with
        | some u => u.nick
        | none => a
      else a) := by
    funext a
    cases users.userMap.get? a <;> rfl
  simp only [hf]
  generalize (fun a => if isuid a then
        match users.userMap.get? a with
        | some u => u.nick
        | none => a
      else a) = f
  cases hi : isuid p1 <;> cases hg : users.userMap.get? p1 <;> by_cases hs : pre = "*" <;>
    cases args with
    | nil => simp [ownNick, hi, hg, hs]
    | cons a t => by_cases ha : a = "*" <;> simp [ownNick, hi, hg, hs, ha]

theorem ownNick_line (L : Protocol) (Config : Configuration) (users : UserReg) (msg : Message)
    (r : String) :
    ownNick (decide (msg.Args.length > 0) && decide (msg.Args.head? = some "*"))
      (decide (msg.Prefix = "*")) (nickOf users r)
      (let msg1 : Message :=
        if decide (msg.Command = L.CMD_ERROR) = true then { msg with Prefix := "" }
        else if msg.Prefix.length = 0 then { msg with Prefix := Config.Name }
        else msg
       let msg2 : Message :=
        if isuid msg1.Prefix then
          match users.userMap.get? msg1.Prefix with
          | none => msg1
          | some u => { msg1 with Prefix := u.nick ++ "!" ++ u.user ++ "@host" }
        else msg1
       { msg2 with Args := msg2.Args.map (fun a =>
          if isuid a then
            match users.userMap.get? a with
            | none => a
            | some u => u.nick
          else a) })
      = clientLine L Config users msg r := by
  obtain ⟨pre, cmd, args, sender, dests⟩ := msg
  by_cases he : cmd = L.CMD_ERROR
  · have h := ownNick_rewritten users "" pre cmd args sender dests r
    simp only [clientLine, he, if_true, decide_True] at h ⊢
    exact h
  · by_cases hp : pre = ""
    · have h := ownNick_rewritten users Config.Name pre cmd args sender dests r
      simp only [clientLine, he, hp, if_true, if_false, decide_False, length_eq_zero_iff,
        Bool.false_eq_true] at h ⊢
      exact h
    · have h := ownNick_rewritten users pre pre cmd args sender dests r
      simp only [clientLine, he, hp, if_true, if_false, decide_False, length_eq_zero_iff,
        Bool.false_eq_true] at h ⊢
      exact h

/-- C39: the case `ToClient` of the client manager for a message other than
`INT_DELUSER` whose recipients have at least three characters, are not remote
ones only, are distinct when the message is an `ERROR`, and have no `nil`
connection in `uid2conn`. The manager calls `WriteMessage` once for each
recipient found in `uid2conn`, in the order of `DestIDs`, with the message
rewritten by the rules in their order: for `ERROR` the prefix is cleared,
otherwise an empty prefix becomes the name of the server; a prefix that is a
known UID becomes `nick!user@host`; every argument that is a known UID becomes
the nick of its owner and any other argument stays; and where the original
`Args[0]`, respectively the prefix, was `*`, the nick of the recipient itself
stands in its place, whoever was served before. -/
theorem handleToClient_writes (E : Env) (L : Protocol) (Config : Configuration)
    (st : ClientManager) (msg : Message) (locals remotes : List String)
    (hcmd : msg.Command ≠ L.INT_DELUSER)
    (hsides : destSides Config msg.DestIDs [] [] = some (locals, remotes))
    (hsome : remotes = [] ∨ locals ≠ [])
    (hdup : msg.Command = L.CMD_ERROR → msg.DestIDs.Nodup)
    (hlive : ∀ id ∈ msg.DestIDs, st.uid2conn.get? id ≠ some none) :
    ∃ st', handleToClient E L Config st msg
      = Outcome.ret (st',
          linesFor st.uid2conn (clientLine L Config (knownUsers E L st.users msg remotes) msg)
            msg.DestIDs) := by
  have husers : (if remotes.length > 0 ∧ decide (msg.Command = L.CMD_ERROR) = true then
        remotes.foldl (Delete E) st.users else st.users)
      = knownUsers E L st.users msg remotes := by
    unfold knownUsers
    by_cases he : msg.Command = L.CMD_ERROR
    · cases remotes with
      | nil => simp [he]
      | cons a t => simp [he]
    · simp [he]
  have hshort : ¬ (remotes.length > 0 ∧ locals.length = 0) := by
    rintro ⟨h1, h2⟩
    rcases hsome with h | h
    · rw [h] at h1
      exact absurd h1 (by simp)
    · exact h (List.length_eq_zero.mp h2)
  simp only [handleToClient, if_neg hcmd, hsides, husers, if_neg hshort]
  obtain ⟨st', h⟩ := sendLoop_writes E
    (decide (msg.Args.length > 0) && decide (msg.Args.head? = some "*"))
    (decide (msg.Prefix = "*")) (decide (msg.Command = L.CMD_ERROR)) _
    (knownUsers E L st.users msg remotes) st.uid2conn msg.DestIDs _
    ⟨knownUsers E L st.users msg remotes, st.uid2conn⟩ []
    (fun _ => rfl) (fun _ _ => rfl) (fun _ _ => rfl) (by simpa using hdup) hlive
  refine ⟨st', ?_⟩
  rw [h, List.nil_append]
  congr 3
  funext r
  exact ownNick_line L Config _ msg r

/-- C39, at a concrete input: the users `1AAAAAAAA` with the nick `foo` and
`1AAAAAAAB` with the nick `bar` are both connected; the `NOTICE` with the
arguments `*` and `hi` and no prefix is written to the first with `foo` and to
the second with `bar`, each with the name of the server as prefix. -/
theorem handleToClient_writes_witness :
    ∃ st', handleToClient sampleEnv ircProtocol sampleConfig
        ⟨sampleUsers,
          (GoMap.empty.set "1AAAAAAAA" (some "1AAAAAAAA")).set "1AAAAAAAB" (some "1AAAAAAAB")⟩
        ⟨"", "NOTICE", ["*", "hi"], "", ["1AAAAAAAA", "1AAAAAAAB"]⟩
      = Outcome.ret (st',
          [("1AAAAAAAA",
              ⟨"irc.example", "NOTICE", ["foo", "hi"], "", ["1AAAAAAAA", "1AAAAAAAB"]⟩),
           ("1AAAAAAAB",
              ⟨"irc.example", "NOTICE", ["bar", "hi"], "", ["1AAAAAAAA", "1AAAAAAAB"]⟩)]) :=
  Exists.imp
    (fun st' h => h.trans (congrArg (fun w => Outcome.ret (st', w)) (by decide)))
    (handleToClient_writes sampleEnv ircProtocol sampleConfig
      ⟨sampleUsers,
        (GoMap.empty.set "1AAAAAAAA" (some "1AAAAAAAA")).set "1AAAAAAAB" (some "1AAAAAAAB")⟩
      ⟨"", "NOTICE", ["*", "hi"], "", ["1AAAAAAAA", "1AAAAAAAB"]⟩
      ["1AAAAAAAA", "1AAAAAAAB"] [] (by decide) (by decide) (Or.inl rfl)
      (fun _ => by decide) (by decide))

/-! ## Channels: the peers that `ChanSplit` returns -/

theorem foldl_del_get? {V : Type} (ls : List String) :
    ∀ (m : GoMap V) (x : String),
    (ls.foldl (fun u l => u.del l) m).get? x = if x ∈ ls then none else m.get? x := by
  induction ls with
  | nil => intro m x; simp
  | cons l rest ih =>
    intro m x
    rw [List.foldl_cons, ih, GoMap.get?_del]
    by_cases e : x = l
    · simp [e]
    · by_cases hm : x ∈ rest
      · simp [hm]
      · simp [e, hm]

theorem foldl_make_get? (uids : List String) :
    ∀ (m : GoMap (GoMap Bool)) (x : String),
    (uids.foldl (fun m uid => m.set uid GoMap.empty) m).get? x
      = if x ∈ uids then some GoMap.empty else m.get? x := by
  induction uids with
  | nil => intro m x; simp
  | cons u rest ih =>
    intro m x
    rw [List.foldl_cons, ih, GoMap.get?_set]
    by_cases hm : x ∈ rest
    · simp [hm]
    · by_cases e : x = u
      · simp [e]
      · simp [e, hm]

theorem has_of_get? {V : Type} (m : GoMap V) (k : String) (v : V) (h : m.get? k = some v) :
    m.has k = true := by
  unfold GoMap.has
  rw [h]
  rfl

theorem setPeer_total (peer : String) :
    ∀ (ls : List String) (l2n : GoMap (GoMap Bool)),
    (∀ l ∈ ls, l2n.has l = true) →
    ∃ l2n', setPeer peer ls l2n = Outcome.ret l2n' ∧
      (∀ u, l2n'.has u = l2n.has u) ∧
      (∀ l ps' x, l2n'.get? l = some ps' → ps'.has x = true →
        x = peer ∨ ∃ ps, l2n.get? l = some ps ∧ ps.has x = true) := by
  intro ls
  induction ls with
  | nil =>
    intro l2n _
    exact ⟨l2n, rfl, fun _ => rfl, fun l ps' x h hx => Or.inr ⟨ps', h, hx⟩⟩
  | cons l rest ih =>
    intro l2n hall
    obtain ⟨ps, hps⟩ := has_get? l2n l (hall l (List.mem_cons_self _ _))
    have hhas : ∀ u, (l2n.set l (ps.set peer true)).has u = l2n.has u := by
      intro u
      rw [GoMap.has_set]
      by_cases e : u = l
      · subst e
        simp [hall u (List.mem_cons_self _ _)]
      · simp [e]
    obtain ⟨l2n', h1, h2, h3⟩ := ih (l2n.set l (ps.set peer true))
      (fun x hx => by rw [hhas]; exact hall x (List.mem_cons_of_mem _ hx))
    refine ⟨l2n', ?_, fun u => by rw [h2, hhas], ?_⟩
    · simp only [setPeer, hps]
      exact h1
    · intro l' ps' x hg hx
      rcases h3 l' ps' x hg hx with e | ⟨ps1, hg1, hx1⟩
      · exact Or.inl e
      · rw [GoMap.get?_set] at hg1
        by_cases e : l' = l
        · rw [if_pos e] at hg1
          have hps1 : ps1 = ps.set peer true := (Option.some.inj hg1).symm
          subst hps1
          rw [GoMap.has_set] at hx1
          by_cases ex : x = peer
          · exact Or.inl ex
          · simp only [ex, decide_False, Bool.false_or] at hx1
            exact Or.inr ⟨ps, by rw [e]; exact hps, hx1⟩
        · rw [if_neg e] at hg1
          exact Or.inr ⟨ps1, hg1, hx1⟩

theorem markPeers_total (sid : String) (leaving : List String) :
    ∀ (members : List String) (l2n : GoMap (GoMap Bool)),
    (∀ m ∈ members, 3 ≤ m.length) → (∀ l ∈ leaving, l2n.has l = true) →
    ∃ l2n', markPeers sid leaving members l2n = Outcome.ret l2n' ∧
      (∀ u, l2n'.has u = l2n.has u) ∧
      (∀ l ps' x, l2n'.get? l = some ps' → ps'.has x = true →
        (x ∈ members ∧ sidOf x = some sid) ∨ ∃ ps, l2n.get? l = some ps ∧ ps.has x = true) := by
  intro members
  induction members with
  | nil =>
    intro l2n _ _
    exact ⟨l2n, rfl, fun _ => rfl, fun l ps' x h hx => Or.inr ⟨ps', h, hx⟩⟩
  | cons m rest ih =>
    intro l2n hlen hall
    have hm : sidOf m = some ⟨m.data.take 3⟩ := by
      unfold sidOf
      rw [if_neg (by have := hlen m (List.mem_cons_self _ _); omega)]
    have hrest : ∀ x ∈ rest, 3 ≤ x.length := fun x hx => hlen x (List.mem_cons_of_mem _ hx)
    by_cases hs : sid = ⟨m.data.take 3⟩
    · obtain ⟨l2n1, s1, s2, s3⟩ := setPeer_total m leaving l2n hall
      obtain ⟨l2n', h1, h2, h3⟩ := ih l2n1 hrest (fun l hl => by rw [s2]; exact hall l hl)
      refine ⟨l2n', ?_, fun u => by rw [h2, s2], ?_⟩
      · simp only [markPeers, hm, hs, ne_eq, not_true_eq_false, if_false, s1]
        rw [← hs]
        exact h1
      · intro l ps' x hg hx
        rcases h3 l ps' x hg hx with ⟨hmem, hsid⟩ | ⟨ps1, hg1, hx1⟩
        · exact Or.inl ⟨List.mem_cons_of_mem _ hmem, hsid⟩
        · rcases s3 l ps1 x hg1 hx1 with e | hold
          · exact Or.inl ⟨by rw [e]; exact List.mem_cons_self _ _, by rw [e, hm, hs]⟩
          · exact Or.inr hold
    · obtain ⟨l2n', h1, h2, h3⟩ := ih l2n hrest hall
      refine ⟨l2n', ?_, h2, ?_⟩
      · simp only [markPeers, hm, ne_eq, hs, not_false_eq_true, if_true]
        exact h1
      · intro l ps' x hg hx
        rcases h3 l ps' x hg hx with ⟨hmem, hsid⟩ | hold
        · exact Or.inl ⟨List.mem_cons_of_mem _ hmem, hsid⟩
        · exact Or.inr hold

theorem splitOne_total (sid : String) (uids : List String) (st : ChanReg)
    (l2n : GoMap (GoMap Bool)) (p : Nat) (h : SplitInv sid uids st l2n) :
    ∃ st' l2n', splitOne sid st l2n p = Outcome.ret (st', l2n') ∧ SplitInv sid uids st' l2n' ∧
      (∀ k q, st'.chanMap.get? k = some q → st.chanMap.get? k = some q) ∧
      (∀ q c', st'.store.get? q = some c' → ∃ c, st.store.get? q = some c ∧
        (∀ x, c'.users.has x = true → c.users.has x = true) ∧
        (q = p → ∀ u ∈ uids, c'.users.has u = false)) := by
  obtain ⟨hkeys, hpeers, hlong⟩ := h
  unfold splitOne
  cases hc : st.store.get? p with
  | none =>
    refine ⟨st, l2n, rfl, ⟨hkeys, hpeers, hlong⟩, fun _ _ hk => hk, fun q c' hq => ?_⟩
    refine ⟨c', hq, fun _ hx => hx, fun e => ?_⟩
    rw [e, hc] at hq
    cases hq
  | some c =>
    have hp : p < st.store.length := get?_lt _ _ _ hc
    have husers : ∀ x, (l2n.keys.foldl (fun u leavingUID => u.del leavingUID) c.users).get? x
        = if x ∈ l2n.keys then none else c.users.get? x := foldl_del_get? l2n.keys c.users
    generalize hU : l2n.keys.foldl (fun u leavingUID => u.del leavingUID) c.users = users
      at husers
    have hsub : ∀ x, users.has x = true → c.users.has x = true := by
      intro x hx
      unfold GoMap.has at hx ⊢
      rw [husers] at hx
      by_cases hm : x ∈ l2n.keys
      · rw [if_pos hm] at hx
        cases hx
      · rw [if_neg hm] at hx
        exact hx
    have hgone : ∀ u ∈ uids, users.has u = false := by
      intro u hu
      unfold GoMap.has
      rw [husers, if_pos ((GoMap.has_eq_true l2n u).1 ((hkeys u).2 hu))]
      rfl
    have hstay : ∀ x ∈ users.keys, x ∉ uids := by
      intro x hx hu
      have h1 := hgone x hu
      rw [(GoMap.has_eq_true users x).2 hx] at h1
      cases h1
    have hstore : ∀ (cm : GoMap Nat),
        (∀ q c', (st.store.set p { c with users := users }).get? q = some c' →
          ∃ c0, st.store.get? q = some c0 ∧
            (∀ x, c'.users.has x = true → c0.users.has x = true) ∧
            (q = p → ∀ u ∈ uids, c'.users.has u = false)) := by
      intro _ q c' hq
      rw [get?_set_list] at hq
      by_cases e : q = p
      · rw [if_pos ⟨e, hp⟩] at hq
        have hc' : c' = { c with users := users } := (Option.some.inj hq).symm
        subst hc'
        exact ⟨c, by rw [e]; exact hc, hsub, fun _ => hgone⟩
      · rw [if_neg (fun h => e h.1)] at hq
        exact ⟨c', hq, fun _ hx => hx, fun e' => absurd e' e⟩
    have hlong' : ∀ (cm : GoMap Nat) (q : Nat) (c' : Channel),
        (st.store.set p { c with users := users }).get? q = some c' →
        ∀ uid ∈ c'.users.keys, 3 ≤ uid.length := by
      intro cm q c' hq uid hu
      obtain ⟨c0, h0, h1, _⟩ := hstore cm q c' hq
      exact hlong q c0 h0 uid
        ((GoMap.has_eq_true _ _).1 (h1 uid ((GoMap.has_eq_true _ _).2 hu)))
    by_cases hzero : l2n.keys.length = 0
    · refine ⟨⟨st.store.set p { c with users := users }, st.chanMap⟩, l2n, ?_,
        ⟨hkeys, hpeers, hlong' st.chanMap⟩, fun _ _ hk => hk, hstore st.chanMap⟩
      simp only [hzero, if_true, hU]
    · obtain ⟨l2n', m1, m2, m3⟩ := markPeers_total sid l2n.keys users.keys l2n
        (fun m hm => hlong p c hc m ((GoMap.has_eq_true _ _).1
          (hsub m ((GoMap.has_eq_true _ _).2 hm))))
        (fun l hl => (GoMap.has_eq_true _ _).2 hl)
      have hinv : ∀ (cm : GoMap Nat),
          SplitInv sid uids ⟨st.store.set p { c with users := users }, cm⟩ l2n' := by
        intro cm
        refine ⟨fun u => by rw [m2]; exact hkeys u, ?_, hlong' cm⟩
        intro l ps' x hg hx
        rcases m3 l ps' x hg hx with ⟨hmem, hsid⟩ | ⟨ps, hg0, hx0⟩
        · exact ⟨hsid, hstay x hmem⟩
        · exact hpeers l ps x hg0 hx0
      by_cases hsize : users.size = 0
      · refine ⟨⟨st.store.set p { c with users := users }, st.chanMap.del c.name⟩, l2n', ?_,
          hinv _, ?_, hstore st.chanMap⟩
        · simp only [hzero, if_false, hU, m1, hsize, if_true]
        · intro k q hk
          rw [GoMap.get?_del] at hk
          by_cases e : k = c.name
          · rw [if_pos e] at hk
            cases hk
          · rw [if_neg e] at hk
            exact hk
      · refine ⟨⟨st.store.set p { c with users := users }, st.chanMap⟩, l2n', ?_,
          hinv _, fun _ _ hk => hk, hstore st.chanMap⟩
        simp only [hzero, if_false, hU, m1, hsize]

theorem splitLoop_total (sid : String) (uids : List String) :
    ∀ (es : List (String × Nat)) (st : ChanReg) (l2n : GoMap (GoMap Bool)),
    SplitInv sid uids st l2n →
    ∃ st' l2n', splitLoop sid es st l2n = Outcome.ret (st', l2n') ∧
      SplitInv sid uids st' l2n' ∧
      (∀ k q, st'.chanMap.get? k = some q → st.chanMap.get? k = some q) ∧
      (∀ q c', st'.store.get? q = some c' → ∃ c, st.store.get? q = some c ∧
        (∀ x, c'.users.has x = true → c.users.has x = true)) ∧
      (∀ kp ∈ es, st'.chanMap.get? kp.1 = some kp.2 →
        ∀ c', st'.store.get? kp.2 = some c' → ∀ u ∈ uids, c'.users.has u = false) := by
  intro es
  induction es with
  | nil =>
    intro st l2n h
    exact ⟨st, l2n, rfl, h, fun _ _ hk => hk, fun q c' hq => ⟨c', hq, fun _ hx => hx⟩,
      fun kp hkp => absurd hkp (List.not_mem_nil _)⟩
  | cons kp rest ih =>
    intro st l2n h
    by_cases hhas : st.chanMap.has kp.1 = true
    · obtain ⟨st1, l2n1, s1, s2, s3, s4⟩ := splitOne_total sid uids st l2n kp.2 h
      obtain ⟨st', l2n', r1, r2, r3, r4, r5⟩ := ih st1 l2n1 s2
      refine ⟨st', l2n', ?_, r2, fun k q hk => s3 k q (r3 k q hk), ?_, ?_⟩
      · simp only [splitLoop, hhas, if_true, s1]
        exact r1
      · intro q c' hq
        obtain ⟨c1, hq1, hx1⟩ := r4 q c' hq
        obtain ⟨c0, hq0, hx0, _⟩ := s4 q c1 hq1
        exact ⟨c0, hq0, fun x hx => hx0 x (hx1 x hx)⟩
      · intro e he hk c' hq u hu
        rcases List.mem_cons.mp he with e1 | hmem
        · subst e1
          obtain ⟨c1, hq1, hx1⟩ := r4 e.2 c' hq
          obtain ⟨_, _, _, hclean⟩ := s4 e.2 c1 hq1
          have hf := hclean rfl u hu
          cases hx : c'.users.has u with
          | false => rfl
          | true =>
            rw [hx1 u hx] at hf
            cases hf
        · exact r5 e hmem hk c' hq u hu
    · obtain ⟨st', l2n', r1, r2, r3, r4, r5⟩ := ih st l2n h
      refine ⟨st', l2n', ?_, r2, r3, r4, ?_⟩
      · simp only [splitLoop, hhas, if_false]
        exact r1
      · intro e he hk c' hq u hu
        rcases List.mem_cons.mp he with e1 | hmem
        · subst e1
          exact absurd (has_of_get? _ _ _ (r3 _ _ hk)) hhas
        · exact r5 e hmem hk c' hq u hu

theorem notify_fold :
    ∀ (es : List (String × GoMap Bool)) (n : GoMap (List String)) (l : String),
    (es.map Prod.fst).Nodup →
    ((es.foldl (fun n gp => gp.2.keys.foldl (fun n' peer => appendAt n' gp.1 peer) n) n).get?
        l).getD []
      = (n.get? l).getD [] ++ ((rawGet l es).map GoMap.keys).getD [] := by
  intro es
  induction es with
  | nil => intro n l _; simp [rawGet]
  | cons gp rest ih =>
    intro n l hnd
    obtain ⟨g, ps⟩ := gp
    simp only [List.map_cons, List.nodup_cons] at hnd
    rw [List.foldl_cons, ih _ l hnd.2, appendAt_fold]
    by_cases e : l = g
    · subst e
      have hnone : rawGet l rest = none := (rawGet_eq_none l rest).2 hnd.1
      simp [rawGet, hnone]
    · simp [rawGet, e, Ne.symm e]

/-- C38: for every channel registry whose member UIDs have at least three
characters, every `sid` and every list of leaving UIDs, `ChanSplit(sid, uids)`
returns; in the map it returns no peer appears twice in the list of a leaver,
every listed peer has `sid` as its first three characters, and no leaving UID is
listed as a peer; and afterwards no leaving UID is a member of a channel of
`chanMap`. -/
theorem ChanSplit_peers (st : ChanReg) (sid : String) (uids : List String)
    (hlen : ∀ c ∈ st.store, ∀ uid ∈ c.users.keys, 3 ≤ uid.length) :
    ∃ st' notify, ChanSplit st sid uids = Outcome.ret (st', notify) ∧
      (∀ leaver peers, notify.get? leaver = some peers →
        peers.Nodup ∧ ∀ peer ∈ peers, sidOf peer = some sid ∧ peer ∉ uids) ∧
      (∀ k p c, st'.chanMap.get? k = some p → st'.store.get? p = some c →
        ∀ uid ∈ uids, c.users.has uid = false) := by
  have hinit : SplitInv sid uids st
      (uids.foldl (fun m uid => m.set uid GoMap.empty) GoMap.empty) := by
    refine ⟨fun u => ?_, fun l ps peer hg hx => ?_, fun p c hc => hlen c (List.get?_mem hc)⟩
    · unfold GoMap.has
      rw [foldl_make_get?]
      by_cases hm : u ∈ uids
      · simp [hm]
      · simp [hm, GoMap.get?_empty]
    · rw [foldl_make_get?] at hg
      by_cases hm : l ∈ uids
      · rw [if_pos hm] at hg
        rw [← Option.some.inj hg] at hx
        cases hx
      · rw [if_neg hm, GoMap.get?_empty] at hg
        cases hg
  obtain ⟨st', l2n, h1, ⟨_, hpeers, _⟩, h3, _, h5⟩ :=
    splitLoop_total sid uids st.chanMap.entries st _ hinit
  refine ⟨st',
    l2n.entries.foldl
      (fun n gp => gp.2.keys.foldl (fun n' peer => appendAt n' gp.1 peer) n) GoMap.empty,
    by simp only [ChanSplit, h1], ?_, ?_⟩
  · intro leaver peers hg
    have hfold := notify_fold l2n.entries GoMap.empty leaver l2n.nodup
    rw [hg] at hfold
    simp only [Option.getD_some, GoMap.get?_empty, Option.getD_none, List.nil_append] at hfold
    cases hl : rawGet leaver l2n.entries with
    | none =>
      rw [hl] at hfold
      rw [hfold]
      exact ⟨List.nodup_nil, fun _ hp => absurd hp (List.not_mem_nil _)⟩
    | some ps =>
      rw [hl] at hfold
      rw [hfold]
      refine ⟨GoMap.keys_nodup ps, fun peer hp => ?_⟩
      exact hpeers leaver ps peer hl ((GoMap.has_eq_true ps peer).2 hp)
  · intro k p c hk hq uid hu
    exact h5 (k, p) ((GoMap.mem_entries_iff _ k p).2 (h3 k p hk)) hk c hq uid hu

/-- C38, at a concrete input: the channel `#x` holds `1AAAAAAAA` of this server,
`2BBAAAAAA` and `3CCAAAAAA`; the two last leave, and each has the one peer
`1AAAAAAAA`. -/
theorem ChanSplit_peers_witness :
    ∃ st' notify,
      ChanSplit sampleCore.chans "1AA" ["2BBAAAAAA", "3CCAAAAAA"] = Outcome.ret (st', notify) ∧
      (∀ leaver peers, notify.get? leaver = some peers →
        peers.Nodup ∧
          ∀ peer ∈ peers, sidOf peer = some "1AA" ∧ peer ∉ ["2BBAAAAAA", "3CCAAAAAA"]) ∧
      (∀ k p c, st'.chanMap.get? k = some p → st'.store.get? p = some c →
        ∀ uid ∈ ["2BBAAAAAA", "3CCAAAAAA"], c.users.has uid = false) :=
  ChanSplit_peers sampleCore.chans "1AA" ["2BBAAAAAA", "3CCAAAAAA"] (by decide)

/-! ## Users: the index after a `Delete` with another fold -/

theorem Reachable_setNickStep (E : Env) (st : UserReg) (uid nick : String) (now : Time)
    (h : UserReg.Reachable E st) : UserReg.Reachable E (setNickStep E st uid nick now) := by
  unfold setNickStep
  cases hs : SetNick E st uid nick now with
  | none => exact h
  | some r =>
    obtain ⟨st', err⟩ := r
    exact UserReg.Reachable.setNick st st' uid nick now err h hs

theorem orphanedUsers_reachable : UserReg.Reachable kelvinEnv orphanedUsers :=
  UserReg.Reachable.delete _ _
    (UserReg.Reachable.importUser _ _ _ _ _ _ _ _ _
      (Reachable_setNickStep _ _ _ _ _
        (UserReg.Reachable.getUser _ _ UserReg.Reachable.init)))

/-- C2: where `strings.ToLower`, with which `Delete` folds, takes a nick to the
`ToLower` key of another fold class, a nick gets two owners. `ToLower` lowers the
ASCII letters and `strings.ToLower` lowers the Kelvin sign to `k` as well: after
`GetUser("1AAAAAAAA")`, `SetNick("k")`, `Import("2BBAAAAAA", K, ...)` with the
Kelvin sign, `Delete("2BBAAAAAA")`, `GetUser("1AAAAAAAB")` and `SetNick("k")` for
`1AAAAAAAB`, which returns no error, the records of `1AAAAAAAA` and of
`1AAAAAAAB` both have the nick `k`. -/
theorem nick_with_two_owners :
    UserReg.Reachable kelvinEnv twoOwners ∧
    kelvinEnv.stringsToLower kelvin = kelvinEnv.ToLower "k" ∧
    kelvinEnv.ToLower kelvin ≠ kelvinEnv.ToLower "k" ∧
    orphanedUsers.userNicks.get? "k" = none ∧
    (orphanedUsers.userMap.get? "1AAAAAAAA").map (fun u => u.nick) = some "k" ∧
    SetNick kelvinEnv (GetUser orphanedUsers "1AAAAAAAB").1 "1AAAAAAAB" "k" 3
      = some (twoOwners, none) ∧
    (twoOwners.userMap.get? "1AAAAAAAA").map (fun u => u.nick) = some "k" ∧
    (twoOwners.userMap.get? "1AAAAAAAB").map (fun u => u.nick) = some "k" :=
  ⟨Reachable_setNickStep _ _ _ _ _ (UserReg.Reachable.getUser _ _ orphanedUsers_reachable),
    by decide, by decide, by decide, by decide, by decide, by decide, by decide⟩

/-- C16: in the reachable state where `Delete` has taken the index entry of
`1AAAAAAAA`, who holds the nick `k`, away (it folded the Kelvin sign of another
user to `k`), `SetNick("k")` of `1AAAAAAAA` returns no error, stores the index
entry and deletes it again under the fold of the old nick; the same call made
again returns no error too and moves the time of the record from 5 to 9, so the
registry is not as the first call left it. -/
theorem SetNick_twice_moves_the_time :
    UserReg.Reachable kelvinEnv orphanedUsers ∧
    SetNick kelvinEnv orphanedUsers "1AAAAAAAA" "k" 5
      = some (setNickStep kelvinEnv orphanedUsers "1AAAAAAAA" "k" 5, none) ∧
    SetNick kelvinEnv (setNickStep kelvinEnv orphanedUsers "1AAAAAAAA" "k" 5) "1AAAAAAAA" "k" 9
      = some (setNickStep kelvinEnv
          (setNickStep kelvinEnv orphanedUsers "1AAAAAAAA" "k" 5) "1AAAAAAAA" "k" 9, none) ∧
    ((setNickStep kelvinEnv orphanedUsers "1AAAAAAAA" "k" 5).userMap.get? "1AAAAAAAA").map
        (fun u => (u.nick, u.ts)) = some ("k", 5) ∧
    ((setNickStep kelvinEnv (setNickStep kelvinEnv orphanedUsers "1AAAAAAAA" "k" 5)
        "1AAAAAAAA" "k" 9).userMap.get? "1AAAAAAAA").map
        (fun u => (u.nick, u.ts)) = some ("k", 9) ∧
    (setNickStep kelvinEnv orphanedUsers "1AAAAAAAA" "k" 5).userNicks.get? "k" = none ∧
    setNickStep kelvinEnv (setNickStep kelvinEnv orphanedUsers "1AAAAAAAA" "k" 5)
        "1AAAAAAAA" "k" 9
      ≠ setNickStep kelvinEnv orphanedUsers "1AAAAAAAA" "k" 5 :=
  ⟨orphanedUsers_reachable, by decide, by decide, by decide, by decide, by decide, by decide⟩

/-! ## Messaging: `Privmsg` from a peer to channels -/

theorem IterFor_roots (st : Topology) (fuel : Nat) (ids : List String) (skipLink : String)
    (sids : List String) (h : IterFor st fuel ids skipLink = Outcome.ret sids) :
    ∀ r ∈ sids, st.upstream.get? r = none := by
  unfold IterFor at h
  cases hw : walkUp st.upstream fuel skipLink with
  | none => rw [hw] at h; cases h
  | some skip =>
    rw [hw] at h
    obtain ⟨cache, _, _, _, hD, _⟩ :=
      iterLoop_inv st.upstream fuel skip ids [] GoMap.empty [] sids
        (iterInv_start st.upstream skip) h
    intro r hr
    obtain ⟨_, _, _, _, sid, _, ⟨n, hn⟩⟩ := hD r hr
    exact walkUp_root st.upstream n sid r hn

theorem root_not_behind (st : Topology) (hk : st.KidsKnown) (S r : String)
    (hr : st.upstream.get? r = none) : ¬ Relation.TransGen st.Edge S r := by
  intro h
  obtain ⟨p, _, hp⟩ := Relation.TransGen.tail'_iff.mp h
  rw [(hk p r hp).1] at hr
  cases hr

theorem IterFor_away (st : Topology) (hk : st.KidsKnown) (fuel : Nat) (ids : List String)
    (S : String) (sids : List String) (h : IterFor st fuel ids S = Outcome.ret sids)
    (f : String → Message) (hf : ∀ sid, (f sid).DestIDs = [sid]) :
    ∀ m ∈ sids.map f, AwayFrom st S m := by
  intro m hm
  obtain ⟨sid, hsid, rfl⟩ := List.mem_map.mp hm
  refine ⟨sid, hf sid, ?_, root_not_behind st hk S sid (IterFor_roots st fuel ids S sids h sid hsid)⟩
  intro e
  exact IterFor_not_skipLink st fuel ids S sids h (e ▸ hsid)

theorem toServers_note (sent : List Sent) (quiet : Bool) (m : Message) :
    Sent.toServers (if (!quiet) = true then sent ++ [Sent.ToClient m] else sent)
      = Sent.toServers sent := by
  cases quiet <;> simp [toServers_append, Sent.toServers]

theorem privmsgLoop_away (E : Env) (L : Protocol) (Config : Configuration) (fuel : Nat)
    (core : Core) (hook : String) (msg : Message) (sender text : String) (quiet : Bool)
    (hk : core.servers.KidsKnown) :
    ∀ (names locals remotes : List String) (sent : List Sent) (locals' remotes' : List String)
      (sent' : List Sent),
    (∀ m ∈ Sent.toServers sent, AwayFrom core.servers msg.SenderID m) →
    privmsgLoop E L Config fuel core hook msg sender text quiet names locals remotes sent
      = Outcome.ret (locals', remotes', sent') →
    (∀ m ∈ Sent.toServers sent', AwayFrom core.servers msg.SenderID m) ∧
    ((∀ name ∈ names, E.ValidChannel name = true) → remotes' = remotes) := by
  intro names
  induction names with
  | nil =>
    intro locals remotes sent locals' remotes' sent' hs h
    simp only [privmsgLoop, Outcome.ret.injEq, Prod.mk.injEq] at h
    obtain ⟨_, h2, h3⟩ := h
    subst h2 h3
    exact ⟨hs, fun _ => rfl⟩
  | cons name rest ih =>
    intro locals remotes sent locals' remotes' sent' hs h
    have hrest : (∀ n ∈ name :: rest, E.ValidChannel n = true) →
        ∀ n ∈ rest, E.ValidChannel n = true :=
      fun hall n hn => hall n (List.mem_cons_of_mem _ hn)
    rw [privmsgLoop] at h
    by_cases hv : E.ValidChannel name = true
    · simp only [hv, if_true] at h
      split at h
      · obtain ⟨r1, r2⟩ := ih locals remotes _ locals' remotes' sent'
          (by rw [toServers_note]; exact hs) h
        exact ⟨r1, fun hall => r2 (hrest hall)⟩
      · cases h
      · split at h
        · cases h
        · split at h
          · cases h
          · split at h
            · cases h
            · cases h
            · rename_i gc c hc sides clocals cremotes hsides it sids hiter
              have hsids : ∀ m ∈ sids.map
                  (fun sid => (⟨sender, hook, [c.name, text], "", [sid]⟩ : Message)),
                  AwayFrom core.servers msg.SenderID m := by
                split at hiter
                · exact IterFor_away core.servers hk fuel _ msg.SenderID sids hiter _
                    (fun _ => rfl)
                · simp only [Outcome.ret.injEq] at hiter
                  subst hiter
                  intro m hm
                  cases hm
              have hmap := toServers_map_ToServer
                (fun sid => (⟨sender, hook, [c.name, text], "", [sid]⟩ : Message)) sids
              split at h
              · obtain ⟨r1, r2⟩ := ih locals remotes _ locals' remotes' sent' (by
                  intro m hm
                  rw [toServers_append, toServers_append, hmap] at hm
                  simp only [Sent.toServers, List.append_nil, List.mem_append] at hm
                  rcases hm with hm | hm
                  · exact hs m hm
                  · exact hsids m hm) h
                exact ⟨r1, fun hall => r2 (hrest hall)⟩
              · obtain ⟨r1, r2⟩ := ih locals remotes _ locals' remotes' sent' (by
                  intro m hm
                  rw [toServers_append, hmap] at hm
                  simp only [List.mem_append] at hm
                  rcases hm with hm | hm
                  · exact hs m hm
                  · exact hsids m hm) h
                exact ⟨r1, fun hall => r2 (hrest hall)⟩
    · have hno : ¬ ∀ n ∈ name :: rest, E.ValidChannel n = true :=
        fun hall => hv (hall name (List.mem_cons_self _ _))
      simp only [hv, Bool.false_eq_true, if_false] at h
      split at h
      · obtain ⟨r1, _⟩ := ih locals remotes _ locals' remotes' sent'
          (by rw [toServers_note]; exact hs) h
        exact ⟨r1, fun hall => absurd hall hno⟩
      · split at h
        · cases h
        · split at h
          · obtain ⟨r1, _⟩ := ih _ remotes sent locals' remotes' sent' hs h
            exact ⟨r1, fun hall => absurd hall hno⟩
          · obtain ⟨r1, _⟩ := ih locals _ sent locals' remotes' sent' hs h
            exact ⟨r1, fun hall => absurd hall hno⟩

theorem twoLinks_reachable : Topology.Reachable sampleEnv twoLinks :=
  (by decide : (GetServer (GetServer Topology.empty "2BB" true).1 "4DD" true).1 = twoLinks) ▸
    Topology.Reachable.getServer _ "4DD"
      (Topology.Reachable.getServer _ "2BB" Topology.Reachable.init)

/-- C33, as the code has it: `Privmsg`, for `PRIVMSG` or `NOTICE`, in a reachable
topology. Every message that the loop over the recipients puts on `ToServer`,
which it does for the channel recipients only, has one destination, and that
SID is not `msg.SenderID`, the peer the message came from, and is not reached
from it through `downstream` edges. So when every recipient is the name of a
channel, this holds of every message the handler puts on `ToServer`. The
messages for the user recipients are routed after the loop, with
`IterFor([]string{remoteid}, "")`. -/
theorem Privmsg_to_channels_skips_the_peer (E : Env) (L : Protocol) (Config : Configuration)
    (fuel : Nat) (core : Core) (hook : String) (msg : Message) (a0 text : String)
    (rest : List String) (out : List Sent)
    (hreach : Topology.Reachable E core.servers)
    (hargs : msg.Args = a0 :: text :: rest)
    (h : Privmsg E L Config fuel core hook msg = Outcome.ret out) :
    ((∀ name ∈ (splitOn ',' a0.data).map String.mk, E.ValidChannel name = true) →
      ∀ m ∈ Sent.toServers out, AwayFrom core.servers msg.SenderID m) ∧
    ∃ locals remotes sent,
      privmsgLoop E L Config fuel core hook msg (senderOf msg) text
          (decide (hook = L.CMD_NOTICE)) ((splitOn ',' a0.data).map String.mk) [] [] []
        = Outcome.ret (locals, remotes, sent) ∧
      ∀ m ∈ Sent.toServers sent, AwayFrom core.servers msg.SenderID m := by
  have hk := (Reachable_forest E core.servers hreach).1
  have hsender : (if msg.Prefix.length = 9 then msg.Prefix else msg.SenderID)
      = senderOf msg := rfl
  simp only [Privmsg, hargs, hsender] at h
  split at h
  · cases h
  · cases h
  · rename_i r locals remotes sent hl
    obtain ⟨r1, r2⟩ := privmsgLoop_away E L Config fuel core hook msg (senderOf msg) text
      (decide (hook = L.CMD_NOTICE)) hk _ [] [] [] locals remotes sent
      (fun m hm => by cases hm) hl
    refine ⟨fun hall => ?_, locals, remotes, sent, hl, r1⟩
    have hrem := r2 hall
    subst hrem
    simp only [privmsgForward] at h
    split at h
    · simp only [Outcome.ret.injEq] at h
      rw [← h, toServers_append]
      simpa [Sent.toServers] using r1
    · simp only [Outcome.ret.injEq] at h
      rw [← h]
      exact r1

/-- C33, at a concrete input: the servers `2BB` and `4DD` are both linked to this
one, and the channel `#x` has a member of each; the `PRIVMSG` for `#x` that `2BB`
delivers goes to `4DD` and to the local member, not back to `2BB`. -/
theorem Privmsg_to_channels_skips_the_peer_witness :
    Privmsg sampleEnv ircProtocol sampleConfig 3 crossCore "PRIVMSG"
        ⟨"2BBAAAAAA", "PRIVMSG", ["#x", "hi"], "2BB", []⟩
      = Outcome.ret
          [Sent.ToServer ⟨"2BBAAAAAA", "PRIVMSG", ["#x", "hi"], "", ["4DD"]⟩,
           Sent.ToClient ⟨"2BBAAAAAA", "PRIVMSG", ["#x", "hi"], "", ["1AAAAAAAA"]⟩] ∧
    ∀ m ∈ Sent.toServers
        [Sent.ToServer ⟨"2BBAAAAAA", "PRIVMSG", ["#x", "hi"], "", ["4DD"]⟩,
         Sent.ToClient ⟨"2BBAAAAAA", "PRIVMSG", ["#x", "hi"], "", ["1AAAAAAAA"]⟩],
      AwayFrom crossCore.servers "2BB" m :=
  ⟨by decide,
    (Privmsg_to_channels_skips_the_peer sampleEnv ircProtocol sampleConfig 3 crossCore
      "PRIVMSG" ⟨"2BBAAAAAA", "PRIVMSG", ["#x", "hi"], "2BB", []⟩ "#x" "hi" []
      [Sent.ToServer ⟨"2BBAAAAAA", "PRIVMSG", ["#x", "hi"], "", ["4DD"]⟩,
       Sent.ToClient ⟨"2BBAAAAAA", "PRIVMSG", ["#x", "hi"], "", ["1AAAAAAAA"]⟩]
      twoLinks_reachable rfl (by decide)).1 (by decide)⟩

end Ircd
